import Mathlib

/-!
# SwiftKV: a shallow embedding of the RESP server and its command executor

The Go sources (`utils.go`, `commands.go`, `redis.go`) are embedded as pure
Lean functions.

* A Go `string` is a sequence of bytes.  It is embedded as `List Char`, the byte
  `b` being the character with code `b`; `len` is `List.length`.  Every
  statement over all `List Char` covers all byte strings.
* Go's `int` is 64 bits wide: it is embedded as `Int`, with `wrap64` applied
  where the source does arithmetic that can overflow.
* A run-time panic (index or slice out of range, failed type assertion,
  `make` with a capacity out of range) is an explicit outcome: `Result.panic`
  for the codec, `none` for the executor and the session.
* The locks that a call can go on holding (`channelsMu` and the lock `mu` of a
  channel, which SUBSCRIBE copies together with the record) are part of the
  state.  A call of the executor that blocks forever on a lock does not
  return: its outcome is `none` as well, and `executeBlocked` gives the state
  that it leaves behind for the other sessions.
* The state shared through `*RedisState` is a field of the session record and
  is passed explicitly; the bytes written to sockets are appended to the log
  `RedisState.net`.
* What the program reads from outside (the clock, the RDB file) is the record
  `Env`; the library functions that are taken as given are the record `Lib`.
-/

set_option autoImplicit false

namespace SwiftKV

/-! ## Strings, integers and the `strings` / `strconv` helpers -/

/-- A Go `string` (a byte sequence); one character stands for one byte. -/
abbrev Str := List Char

/-- Largest value of Go's 64-bit `int`. -/
def MaxInt64 : Int := 9223372036854775807

/-- Smallest value of Go's 64-bit `int`. -/
def MinInt64 : Int := -9223372036854775808

/-- Largest value of `uint64`. -/
def MaxUint64 : Nat := 18446744073709551615

/-- Two's-complement wrap-around of 64-bit signed arithmetic. -/
def wrap64 (x : Int) : Int := (x + 9223372036854775808) % 18446744073709551616 - 9223372036854775808

/-- Outcome of a Go function of type `(T, error)` that may also panic.  The text
of the error is dropped: no caller in the program inspects it. -/
inductive Result (α : Type) where
  | ok (a : α)
  | err
  | panic
  deriving DecidableEq, Repr

/-- The slice expression `s[lo:hi]`; `none` is the run-time panic
"slice bounds out of range". -/
def slice {α : Type} (s : List α) (lo hi : Int) : Option (List α) :=
  if 0 ≤ lo ∧ lo ≤ hi ∧ hi ≤ (s.length : Int) then
    some ((s.drop lo.toNat).take (hi.toNat - lo.toNat))
  else none

/-- The slice expression `s[lo:]`. -/
def sliceFrom {α : Type} (s : List α) (lo : Int) : Option (List α) :=
  slice s lo s.length

/-- The index expression `s[i]`; `none` is the panic "index out of range". -/
def index {α : Type} (s : List α) (i : Int) : Option α :=
  if 0 ≤ i then s.get? i.toNat else none

/-- Go's `strings.HasPrefix`. -/
def HasPrefix (s p : Str) : Bool := p.isPrefixOf s

/-- Go's `strings.HasSuffix`. -/
def HasSuffix (s p : Str) : Bool := p.isSuffixOf s

/-- Position of the first occurrence of `sep` in `s`, if any. -/
def indexOf (sep : Str) : Str → Option Nat
  | [] => if sep = [] then some 0 else none
  | c :: cs =>
    if sep.isPrefixOf (c :: cs) then some 0
    else (indexOf sep cs).map (· + 1)

/-- Go's `strings.Index`: the first position of `sep` in `s`, or `-1`. -/
def Index (s sep : Str) : Int :=
  match indexOf sep s with
  | some n => (n : Int)
  | none => -1

/-- The ASCII text `"\r\n"`. -/
def CRLF : Str := ['\r', '\n']

/-- Upper-case one byte (ASCII letters only). -/
def upperByte (c : Char) : Char :=
  if 'a' ≤ c ∧ c ≤ 'z' then Char.ofNat (c.toNat - 32) else c

/-- Lower-case one byte (ASCII letters only). -/
def lowerByte (c : Char) : Char :=
  if 'A' ≤ c ∧ c ≤ 'Z' then Char.ofNat (c.toNat + 32) else c

/-- The functions of Go's standard library that are not modelled but taken as
given: `strings.Map(unicode.ToUpper, s)` and `strings.Map(unicode.ToLower, s)`,
which `strings.ToUpper` and `strings.ToLower` apply to a string with a byte
outside ASCII, and `strconv.ParseFloat(s, 64)` followed by the conversion
`sortedset.SCORE(score)` to `int64` (`none` when parsing fails). -/
structure Lib where
  MapToUpper : Str → Str
  MapToLower : Str → Str
  ParseScore : Str → Option Int

/-- Whether every byte of a string is below `utf8.RuneSelf`. -/
def isASCII (s : Str) : Bool := s.all (fun c => decide (c.toNat < 128))

/-- Go's `strings.ToUpper`: ASCII text is mapped byte by byte, any other text
by the Unicode tables. -/
def ToUpper (lib : Lib) (s : Str) : Str :=
  if isASCII s then s.map upperByte else lib.MapToUpper s

/-- Go's `strings.ToLower`: ASCII text is mapped byte by byte, any other text
by the Unicode tables. -/
def ToLower (lib : Lib) (s : Str) : Str :=
  if isASCII s then s.map lowerByte else lib.MapToLower s

/-- The decimal digit `d` as a byte. -/
def digitChar (d : Nat) : Char := Char.ofNat (48 + d)

/-- Decimal text of a natural number, most significant digit first; the first
argument bounds the number of digits. -/
def decimalFuel : Nat → Nat → Str
  | 0, _ => []
  | fuel + 1, n =>
    if n < 10 then [digitChar n]
    else decimalFuel fuel (n / 10) ++ [digitChar (n % 10)]

/-- Decimal text of a natural number. -/
def decimal (n : Nat) : Str := decimalFuel (n + 1) n

/-- Go's `strconv.Itoa` (also `%d` of `fmt.Sprintf`). -/
def Itoa (n : Int) : Str :=
  if n < 0 then '-' :: decimal n.natAbs else decimal n.toNat

/-- The two kinds of `*strconv.NumError`. -/
inductive NumError where
  | ErrSyntax
  | ErrRange
  deriving DecidableEq, Repr

/-- Whether a byte is an ASCII decimal digit. -/
def isDigit (c : Char) : Bool := decide ('0' ≤ c) && decide (c ≤ '9')

/-- The digit loop of `strconv.ParseUint(s, 10, 64)` with accumulator `n`:
a byte that is no digit is a syntax error (value 0), an overflow of `uint64` a
range error (value `MaxUint64`). -/
def ParseUintLoop : Str → Nat → Nat × Option NumError
  | [], n => (n, none)
  | c :: cs, n =>
    if !isDigit c then (0, some NumError.ErrSyntax)
    else if n ≥ MaxUint64 / 10 + 1 then (MaxUint64, some NumError.ErrRange)
    else
      let n1 := n * 10 + (c.toNat - 48)
      if n1 > MaxUint64 then (MaxUint64, some NumError.ErrRange)
      else ParseUintLoop cs n1

/-- Go's `strconv.ParseUint(s, 10, 64)`. -/
def ParseUint (s : Str) : Nat × Option NumError :=
  match s with
  | [] => (0, some NumError.ErrSyntax)
  | _ :: _ => ParseUintLoop s 0

/-- Go's `strconv.ParseInt(s, 10, 0)` on a 64-bit platform: the value and the
error.  On a syntax error the value is 0, on a range error the nearest bound. -/
def ParseInt (s : Str) : Int × Option NumError :=
  match s with
  | [] => (0, some NumError.ErrSyntax)
  | c :: cs =>
    let neg : Bool := decide (c = '-')
    let body : Str := if c = '+' ∨ c = '-' then cs else c :: cs
    match ParseUint body with
    | (_, some NumError.ErrSyntax) => (0, some NumError.ErrSyntax)
    | (un, _) =>
      if !neg && decide (un ≥ 9223372036854775808) then
        (MaxInt64, some NumError.ErrRange)
      else if neg && decide (un > 9223372036854775808) then
        (MinInt64, some NumError.ErrRange)
      else (if neg then -(un : Int) else (un : Int), none)

/-- Go's `strconv.Atoi`: its fast path for short inputs computes the same pair
as `ParseInt(s, 10, 0)`. -/
def Atoi (s : Str) : Int × Option NumError := ParseInt s

/-! ## The RESP codec (`utils.go`) -/

/-- The function `encodeBulkArray` of `utils.go`. -/
def encodeBulkArray (output : List Str) : Str :=
  output.foldl
    (fun result o => result ++ (['$'] ++ Itoa o.length ++ CRLF ++ o ++ CRLF))
    (['*'] ++ Itoa output.length ++ CRLF)

/-- The element loop of `RESPToArray`: `n` iterations remain, `rest` is the
unread input and `elements` the bulk strings read so far. -/
def RESPToArrayLoop : Nat → Str → List Str → Result (List Str)
  | 0, _, elements => Result.ok elements
  | n + 1, rest, elements =>
    if !HasPrefix rest ['$'] then Result.err
    else
      let j := Index rest CRLF
      if j < 0 then Result.err
      else
        match slice rest 1 j with
        | none => Result.panic
        | some lengthStr =>
          match Atoi lengthStr with
          | (_, some _) => Result.err
          | (length, none) =>
            let dataStart := j + 2
            let dataEnd := wrap64 (dataStart + length)
            if (rest.length : Int) < wrap64 (dataEnd + 2) then Result.err
            else
              match slice rest dataStart dataEnd with
              | none => Result.panic
              | some elem =>
                match slice rest dataEnd (wrap64 (dataEnd + 2)) with
                | none => Result.panic
                | some term =>
                  if term ≠ CRLF then Result.err
                  else
                    match sliceFrom rest (wrap64 (dataEnd + 2)) with
                    | none => Result.panic
                    | some rest1 => RESPToArrayLoop n rest1 (elements ++ [elem])

/-- The largest capacity `cap` for which `make([]string, 0, cap)` does not
panic: `runtime.makeslice` panics with `cap out of range` when `cap` is
negative or when the `16 * cap` bytes of the strings are more than `maxAlloc`,
which is `2^48` on the platforms on which Go's `int` has 64 bits and the heap
48 address bits (amd64, arm64).  An allocation that passes this test and that
the machine cannot serve ends the process; this is not modelled. -/
def maxSliceCap : Int := 17592186044416

/-- The function `RESPToArray` of `utils.go`.  `make([]string, 0, count)`
panics for a negative `count` and for a `count` above `maxSliceCap`, before
any element is read. -/
def RESPToArray (resp : Str) : Result (List Str) :=
  if !HasPrefix resp ['*'] then Result.err
  else
    let i := Index resp CRLF
    if i < 0 then Result.err
    else
      match slice resp 1 i with
      | none => Result.panic
      | some countStr =>
        match Atoi countStr with
        | (_, some _) => Result.err
        | (count, none) =>
          if count < 0 ∨ count > maxSliceCap then Result.panic
          else
            match sliceFrom resp (i + 2) with
            | none => Result.panic
            | some rest => RESPToArrayLoop count.toNat rest []

/-- The function `convertIndexes` of `utils.go`; `length` is `zset.GetCount()`. -/
def convertIndexes (length startIdx stopIdx : Int) : Int × Int :=
  let startIdx := if startIdx < 0 then length + startIdx else startIdx
  let stopIdx := if stopIdx < 0 then length + stopIdx else stopIdx
  let startIdx := if startIdx < 0 then 0 else startIdx
  let stopIdx := if stopIdx < 0 then 0 else stopIdx
  let startIdx := if startIdx ≥ length then length else startIdx
  let stopIdx := if stopIdx ≥ length then length - 1 else stopIdx
  (startIdx + 1, stopIdx + 1)

/-- The function `readString` of `utils.go`: the string read and the advanced
index, `Result.err` for a returned error, `Result.panic` when `data[*index]`
is out of range. -/
def readString (data : Str) (idx : Int) : Result (Str × Int) :=
  match index data idx with
  | none => Result.panic
  | some firstByte =>
    let idx := idx + 1
    let pfx := firstByte.toNat &&& 0xC0
    let header : Result (Int × Int) :=
      if pfx = 0x00 then Result.ok (((firstByte.toNat &&& 0x3F : Nat) : Int), idx)
      else if pfx = 0x40 then
        if idx ≥ (data.length : Int) then Result.err
        else
          match index data idx with
          | none => Result.panic
          | some secondByte =>
            Result.ok (((((firstByte.toNat &&& 0x3F) <<< 8) ||| secondByte.toNat : Nat) : Int), idx + 1)
      else if pfx = 0x80 then
        if idx + 4 > (data.length : Int) then Result.err
        else
          match slice data idx (idx + 4) with
          | some [b0, b1, b2, b3] =>
            Result.ok ((((b0.toNat <<< 24) ||| (b1.toNat <<< 16) ||| (b2.toNat <<< 8) ||| b3.toNat : Nat) : Int),
              idx + 4)
          | _ => Result.panic
      else Result.err
    match header with
    | Result.panic => Result.panic
    | Result.err => Result.err
    | Result.ok (length, idx) =>
      if idx + length > (data.length : Int) then Result.err
      else
        match slice data idx (idx + length) with
        | none => Result.panic
        | some str => Result.ok (str, idx + length)

/-- The scan `for index < len(data) && data[index] != 0xFB { index++ }` of
`readRDB`, started at `idx` with `rest = data[idx:]`. -/
def scanFB : Str → Int → Int
  | [], idx => idx
  | c :: cs, idx => if c.toNat = 0xFB then idx else scanFB cs (idx + 1)

/-- The function `readRDB` of `utils.go`, on the result of `os.ReadFile`
(`none` when reading fails).  The returned map has at most one entry and is
a list of pairs; the returned error is always nil; `none` is a panic (the
statement that prints `data[index]` after the scan indexes the data). -/
def readRDB (file : Option Str) : Option (List (Str × Str)) :=
  match file with
  | none => some []
  | some data =>
    if data.length < 9 then some []
    else if data.take 9 ≠ "REDIS0011".toList then some []
    else
      let idx := scanFB (data.drop 9) 9
      match index data idx with
      | none => none
      | some _ =>
        let idx := idx + 4
        match readString data idx with
        | Result.panic => none
        | Result.err => some []
        | Result.ok (key, idx) =>
          match readString data idx with
          | Result.panic => none
          | Result.err => some []
          | Result.ok (value, _) => some [(key, value)]

/-! ## The data model (`redis.go`) -/

/-- A sorted set of the library `github.com/wangjia184/sortedset`: the nodes
(member, score) in rank order, that is by score and then by member.  The
library's `SCORE` is `int64`. -/
abbrev SortedSet := List (Str × Int)

/-- The dynamically typed payload `storageVal.val`: a `string`, a `[]string`
or a `*sortedset.SortedSet`. -/
inductive Value where
  | str (s : Str)
  | list (l : List Str)
  | zset (z : SortedSet)
  deriving DecidableEq, Repr

/-- The record `storageVal`: payload, `px` in milliseconds (`-1`: no expiry)
and the time `t` of the write, in nanoseconds of the clock. -/
structure storageVal where
  val : Value
  px : Int
  t : Int
  deriving DecidableEq, Repr

/-- A network connection (`net.Conn`), by identity. -/
abbrev Conn := Nat

/-- The state of a `sync.RWMutex`: free, held by readers, or held by a
writer.  `Lock` goes on only from `unlocked`, `RLock` from every state but
`locked`; a call that cannot go on blocks until the lock is released.  A
`RWMutex` is a value: the copy of a struct that holds one has a lock of its
own, in the state in which it was copied, and unlocking the original does not
release the copy. -/
inductive RWMutex where
  | unlocked
  | readLocked
  | locked
  deriving DecidableEq, Repr

/-- The record `Channel`.  The registry maps a name to a `Channel` value, so
that each read of the map yields a copy of the record, with a copy of the
lock `mu`. -/
structure Channel where
  name : Str
  connections : List Conn
  mu : RWMutex
  deriving DecidableEq, Repr

/-- The record `Config`. -/
structure Config where
  Directory : Str
  dbFileName : Str
  deriving DecidableEq, Repr

/-- The record `RedisState` shared by all sessions.
`storage` is the Go map as a partial function; `channels` is the Go map as
a list of distinct keys with their values, iterated in list order; `net` is
the log of all `Write` calls on connections, oldest first.  `channelsMu` is
the state of that lock between two calls of the executor: a call that blocks
forever goes on holding it.  The locks `storageMu` and `replicaMu` are left
out: they are never copied, and every path of the executor that takes one of
them releases it before it returns, so that between two calls both are free. -/
structure RedisState where
  storage : Str → Option storageVal
  config : Config
  serverIsMaster : Bool
  replicaConns : List Conn
  channels : List (Str × Channel)
  channelsMu : RWMutex
  net : List (Conn × Str)

/-- The record `RedisServer`: one session, with the state it points to. -/
structure RedisServer where
  state : RedisState
  conn : Conn
  ReplOffset : Int
  MultiOn : Bool
  multiQueue : List (List Str)
  SubscribedMode : Bool

/-- The record `CommandResponse`. -/
structure CommandResponse where
  Response : Str
  Error : Str
  deriving DecidableEq, Repr

/-- The outcome of a piece of code that takes locks: it goes on with a value,
or it blocks forever on a lock and leaves the session, with the shared state
that it points to, as they are at that point. -/
inductive Locking (α : Type) where
  | done (a : α)
  | blocked (s : RedisServer)

/-- What one call of the executor reads from outside the program: the clock
(`time.Now()`, in nanoseconds) and the result of `os.ReadFile` on the
configured RDB path (`none` when it fails). -/
structure Env where
  now : Int
  rdbFile : Option Str

/-! ## The command executor (`commands.go`) -/

/-- The call `c.Write(b)`: the bytes are appended to the log of writes. -/
def RedisState.write (st : RedisState) (c : Conn) (b : Str) : RedisState :=
  { st with net := st.net ++ [(c, b)] }

/-- The call `s.conn.Write(b)`. -/
def RedisServer.send (s : RedisServer) (b : Str) : RedisServer :=
  { s with state := s.state.write s.conn b }

/-- The assignment `s.state.storage[key] = val`. -/
def RedisServer.store (s : RedisServer) (key : Str) (val : storageVal) : RedisServer :=
  { s with state := { s.state with storage := Function.update s.state.storage key (some val) } }

/-- The statement `delete(s.state.storage, key)`. -/
def RedisServer.delete (s : RedisServer) (key : Str) : RedisServer :=
  { s with state := { s.state with storage := Function.update s.state.storage key none } }

/-- The fan-out loop
`for _, replica := range s.state.replicaConns { replica.Write(encodeBulkArray(tempArr)) }`. -/
def RedisServer.propagate (s : RedisServer) (tempArr : List Str) : RedisServer :=
  { s with state :=
      s.state.replicaConns.foldl (fun st replica => st.write replica (encodeBulkArray tempArr)) s.state }

/-- The statement `return CommandResponse{Response: r}`. -/
def respond (s : RedisServer) (r : Str) : Option (RedisServer × CommandResponse) :=
  some (s, { Response := r, Error := [] })

/-- The statement `return CommandResponse{Error: m}`. -/
def fail (s : RedisServer) (m : Str) : Option (RedisServer × CommandResponse) :=
  some (s, { Response := [], Error := m })

/-- The message `-ERR wrong number of arguments for '<name>' command`. -/
def arityError (name : String) : Str :=
  "-ERR wrong number of arguments for '".toList ++ name.toList ++ "' command".toList

/-- The message `-ERR wrong type of value for '<name>' command`. -/
def typeError (name : String) : Str :=
  "-ERR wrong type of value for '".toList ++ name.toList ++ "' command".toList

/-- The message `-ERR value is not an integer or out of range`. -/
def notIntegerError : Str := "-ERR value is not an integer or out of range".toList

/-- One bulk string `$<len>\r\n<elem>\r\n`. -/
def bulk (elem : Str) : Str := ['$'] ++ Itoa elem.length ++ CRLF ++ elem ++ CRLF

/-- The array reply built by the loops of LRANGE and LPOP:
`*<len>\r\n` followed by one bulk string per element. -/
def bulkArray (result : List Str) : Str :=
  result.foldl (fun resp elem => resp ++ bulk elem) (['*'] ++ Itoa result.length ++ CRLF)

/-- The expiry test of GET:
`value.px != -1 && time.Now().After(value.t.Add(time.Millisecond*time.Duration(value.px)))`.
The product of two `int64` durations wraps around. -/
def expired (e : Env) (value : storageVal) : Bool :=
  decide (value.px ≠ -1) && decide (e.now > value.t + wrap64 (1000000 * value.px))

/-- The case `PING`. -/
def cmdPING (s : RedisServer) : Option (RedisServer × CommandResponse) :=
  if s.SubscribedMode then respond s "*2\r\n$4\r\npong\r\n$0\r\n\r\n".toList
  else respond s "+PONG\r\n".toList

/-- The case `ECHO`. -/
def cmdECHO (s : RedisServer) (tempArr : List Str) : Option (RedisServer × CommandResponse) :=
  if tempArr.length < 2 then fail s (arityError "echo")
  else do
    let first ← index tempArr 1
    let tempStr := (tempArr.drop 2).foldl (fun acc a => acc ++ [' '] ++ a) first
    respond s (['$'] ++ Itoa tempStr.length ++ CRLF ++ tempStr)

/-- The case `SET`. -/
def cmdSET (lib : Lib) (e : Env) (s : RedisServer) (tempArr : List Str) : Option (RedisServer × CommandResponse) :=
  if tempArr.length < 3 then fail s (arityError "SET")
  else do
    let withPX ←
      if tempArr.length > 3 then (index tempArr 3).map (fun a => decide (ToUpper lib a = "PX".toList))
      else some false
    let val ←
      if withPX then do
        let a ← index tempArr 4
        let v ← index tempArr 2
        pure ({ val := Value.str v, px := (Atoi a).1, t := e.now } : storageVal)
      else do
        let v ← index tempArr 2
        pure ({ val := Value.str v, px := -1, t := e.now } : storageVal)
    let key ← index tempArr 1
    respond ((s.store key val).propagate tempArr) "+OK".toList

/-- The case `GET`.  The type assertion `value.val.(string)` panics on a list
or a sorted set. -/
def cmdGET (e : Env) (s : RedisServer) (tempArr : List Str) : Option (RedisServer × CommandResponse) :=
  if tempArr.length < 2 then fail s (arityError "GET")
  else do
    let key ← index tempArr 1
    match s.state.storage key with
    | some value =>
      if expired e value then respond (s.delete key) "$-1".toList
      else
        match value.val with
        | Value.str v => respond s (['$'] ++ Itoa v.length ++ CRLF ++ v)
        | _ => none
    | none => respond s "$-1".toList

/-- The case `CONFIG`. -/
def cmdCONFIG (lib : Lib) (s : RedisServer) (tempArr : List Str) : Option (RedisServer × CommandResponse) :=
  if tempArr.length < 3 then fail s (arityError "CONFIG")
  else do
    let a1 ← index tempArr 1
    let a2 ← index tempArr 2
    if ToUpper lib a1 = "GET".toList ∧ ToUpper lib a2 = "DIR".toList then
      respond s ("*2\r\n$3\r\ndir\r\n$".toList ++ Itoa s.state.config.Directory.length ++ CRLF
        ++ s.state.config.Directory)
    else if ToUpper lib a1 = "GET".toList ∧ ToUpper lib a2 = "DBFILENAME".toList then
      let dbFileName := if s.state.config.dbFileName = [] then "dump.rdb".toList
        else s.state.config.dbFileName
      respond s ("*2\r\n$10\r\ndbfilename\r\n$".toList ++ Itoa dbFileName.length ++ CRLF ++ dbFileName)
    else fail s "-ERR unsupported CONFIG subcommand".toList

/-- The case `KEYS`. -/
def cmdKEYS (e : Env) (s : RedisServer) (tempArr : List Str) : Option (RedisServer × CommandResponse) :=
  if tempArr.length < 2 then fail s (arityError "KEYS")
  else do
    let a1 ← index tempArr 1
    if a1 = ['*'] then do
      let dataMapKeys ← readRDB e.rdbFile
      respond s (dataMapKeys.foldl
        (fun response kv => response ++ CRLF ++ ['$'] ++ Itoa kv.1.length ++ CRLF ++ kv.1)
        (['*'] ++ Itoa dataMapKeys.length))
    else fail s "-ERR unsupported KEYS pattern".toList

/-- The case `INFO`. -/
def cmdINFO (s : RedisServer) : Option (RedisServer × CommandResponse) :=
  let role := if s.state.serverIsMaster then "role:master".toList else "role:slave".toList
  let info := role
    ++ "\nmaster_replid:8371b4fb1155b71f4a04d3e1bc3e18c4a990aeeb\nmaster_repl_offset:0".toList
  respond s (['$'] ++ Itoa info.length ++ CRLF ++ info)

/-- The case `REPLCONF`. -/
def cmdREPLCONF (s : RedisServer) : Option (RedisServer × CommandResponse) :=
  if !s.state.serverIsMaster then fail s "-ERR not allowed to slaves".toList
  else respond s "+OK".toList

/-- The bytes of the empty-database snapshot sent on PSYNC (the decoded
hexadecimal constant of the source). -/
def RDBContent : Str :=
  [82, 69, 68, 73, 83, 48, 48, 49, 49, 250, 9, 114, 101, 100, 105, 115, 45, 118, 101, 114, 5, 55,
   46, 50, 46, 48, 250, 10, 114, 101, 100, 105, 115, 45, 98, 105, 116, 115, 192, 64, 250, 5, 99,
   116, 105, 109, 101, 194, 109, 8, 188, 101, 250, 8, 117, 115, 101, 100, 45, 109, 101, 109, 194,
   176, 196, 16, 0, 250, 8, 97, 111, 102, 45, 98, 97, 115, 101, 192, 0, 255, 240, 110, 59, 254,
   192, 255, 90, 162].map Char.ofNat

/-- The case `PSYNC`: it writes to the connection itself, registers the
connection as a replica and returns the empty response. -/
def cmdPSYNC (s : RedisServer) : Option (RedisServer × CommandResponse) :=
  if !s.state.serverIsMaster then fail s "-ERR not allowed to slaves".toList
  else
    let s := s.send "+FULLRESYNC 8371b4fb1155b71f4a04d3e1bc3e18c4a990aeeb 0\r\n".toList
    let s := s.send (['$'] ++ Itoa RDBContent.length ++ CRLF ++ RDBContent)
    let s := { s with state := { s.state with replicaConns := s.state.replicaConns ++ [s.conn] } }
    some (s, { Response := [], Error := [] })

/-- The case `TYPE`. -/
def cmdTYPE (s : RedisServer) (tempArr : List Str) : Option (RedisServer × CommandResponse) :=
  if tempArr.length < 2 then fail s (arityError "TYPE")
  else do
    let key ← index tempArr 1
    match s.state.storage key with
    | some _ => respond s "+string".toList
    | none => respond s "+none".toList

/-- The case `INCR`.  The type assertion `val.val.(string)` panics on a list or
a sorted set; `value++` wraps around at the largest `int`. -/
def cmdINCR (e : Env) (s : RedisServer) (tempArr : List Str) : Option (RedisServer × CommandResponse) :=
  if tempArr.length < 2 then fail s (arityError "INCR")
  else do
    let key ← index tempArr 1
    match s.state.storage key with
    | some val =>
      match val.val with
      | Value.str text =>
        match Atoi text with
        | (_, some _) => fail s notIntegerError
        | (value, none) =>
          let value := wrap64 (value + 1)
          let s := s.store key { val := Value.str (Itoa value), px := -1, t := e.now }
          respond (s.propagate tempArr) ([':'] ++ Itoa value)
      | _ => none
    | none =>
      let s := s.store key { val := Value.str ['1'], px := -1, t := e.now }
      respond (s.propagate tempArr) [':', '1']

/-- The expression `len(s.state.storage[key].val.([]string))` that ends RPUSH
and LPUSH, followed by the reply `:<listLen>\r\n`. -/
def listLenReply (s : RedisServer) (key : Str) : Option (RedisServer × CommandResponse) :=
  match s.state.storage key with
  | some value =>
    match value.val with
    | Value.list list => respond s ([':'] ++ Itoa list.length ++ CRLF)
    | _ => none
  | none => none

/-- The case `RPUSH`. -/
def cmdRPUSH (e : Env) (s : RedisServer) (tempArr : List Str) : Option (RedisServer × CommandResponse) :=
  if tempArr.length < 3 then fail s (arityError "RPUSH")
  else do
    let key ← index tempArr 1
    let newElems ← sliceFrom tempArr 2
    match s.state.storage key with
    | some value =>
      match value.val with
      | Value.list list =>
        listLenReply (s.store key { value with val := Value.list (list ++ newElems) }) key
      | _ => fail s (typeError "RPUSH")
    | none =>
      listLenReply (s.store key { val := Value.list newElems, px := -1, t := e.now }) key

/-- The case `LRANGE`. -/
def cmdLRANGE (s : RedisServer) (tempArr : List Str) : Option (RedisServer × CommandResponse) :=
  if tempArr.length < 4 then fail s (arityError "LRANGE")
  else do
    let key ← index tempArr 1
    let a2 ← index tempArr 2
    let a3 ← index tempArr 3
    match Atoi a2, Atoi a3 with
    | (startIdx, none), (endIdx, none) =>
      match s.state.storage key with
      | none => respond s "*0\r\n".toList
      | some value =>
        match value.val with
        | Value.list list =>
          let listLen : Int := list.length
          let startIdx :=
            if startIdx < 0 then (if listLen + startIdx < 0 then 0 else listLen + startIdx)
            else startIdx
          let endIdx :=
            if endIdx < 0 then (if listLen + endIdx < 0 then 0 else listLen + endIdx)
            else endIdx
          if startIdx ≥ listLen ∨ startIdx > endIdx then respond s "*0\r\n".toList
          else
            let endIdx := if endIdx ≥ listLen then listLen - 1 else endIdx
            (slice list startIdx (endIdx + 1)).bind (fun result => respond s (bulkArray result))
        | _ => fail s (typeError "LRANGE")
    | _, _ => fail s notIntegerError

/-- The case `LPUSH`: on an existing list every new element is put in front, in
argument order; for a new key the arguments are stored reversed. -/
def cmdLPUSH (e : Env) (s : RedisServer) (tempArr : List Str) : Option (RedisServer × CommandResponse) :=
  if tempArr.length < 3 then fail s (arityError "LPUSH")
  else do
    let key ← index tempArr 1
    let newElems ← sliceFrom tempArr 2
    match s.state.storage key with
    | some value =>
      match value.val with
      | Value.list list =>
        let list := newElems.foldl (fun list elem => [elem] ++ list) list
        listLenReply (s.store key { value with val := Value.list list }) key
      | _ => fail s (typeError "LPUSH")
    | none =>
      let rev := newElems.reverse
      listLenReply (s.store key { val := Value.list rev, px := -1, t := e.now }) key

/-- The case `LLEN`. -/
def cmdLLEN (s : RedisServer) (tempArr : List Str) : Option (RedisServer × CommandResponse) :=
  if tempArr.length ≠ 2 then fail s (arityError "LLEN")
  else do
    let key ← index tempArr 1
    match s.state.storage key with
    | none => respond s ":0\r\n".toList
    | some value =>
      match value.val with
      | Value.list list => respond s ([':'] ++ Itoa list.length ++ CRLF)
      | _ => fail s (typeError "LLEN")

/-- The tail of the case `LPOP`, once `count` is known. -/
def popCount (s : RedisServer) (tempArr : List Str) (key : Str) (value : storageVal)
    (list : List Str) (count : Int) : Option (RedisServer × CommandResponse) :=
  if count = 0 then respond s "*0\r\n".toList
  else do
    let count : Int := if count > (list.length : Int) then list.length else count
    let removed ← slice list 0 count
    let remaining ← sliceFrom list count
    let s := if remaining.length = 0 then s.delete key
      else s.store key { value with val := Value.list remaining }
    if count = 1 ∧ tempArr.length = 2 then do
      let elem ← index removed 0
      respond s (['$'] ++ Itoa elem.length ++ CRLF ++ elem ++ CRLF)
    else respond s (bulkArray removed)

/-- The case `LPOP`. -/
def cmdLPOP (s : RedisServer) (tempArr : List Str) : Option (RedisServer × CommandResponse) :=
  if tempArr.length < 2 then fail s (arityError "LPOP")
  else do
    let key ← index tempArr 1
    match s.state.storage key with
    | none => respond s "$-1\r\n".toList
    | some value =>
      match value.val with
      | Value.list list =>
        if list.length = 0 then respond s "$-1\r\n".toList
        else if tempArr.length = 3 then do
          let a2 ← index tempArr 2
          match Atoi a2 with
          | (count, none) =>
            if count < 0 then fail s notIntegerError
            else popCount s tempArr key value list count
          | _ => fail s notIntegerError
        else popCount s tempArr key value list 1
      | _ => respond s "$-1\r\n".toList

/-- The map read `s.state.channels[chName]`. -/
def chanGet (m : List (Str × Channel)) (chName : Str) : Option Channel :=
  (m.find? (fun p => decide (p.1 = chName))).map (fun p => p.2)

/-- The map write `s.state.channels[chName] = channel`. -/
def chanSet (m : List (Str × Channel)) (chName : Str) (channel : Channel) : List (Str × Channel) :=
  if (chanGet m chName).isSome then m.map (fun p => if p.1 = chName then (chName, channel) else p)
  else m ++ [(chName, channel)]

/-- The assignment `s.state.channels[chName] = channel` on a session. -/
def RedisServer.setChannel (s : RedisServer) (chName : Str) (channel : Channel) : RedisServer :=
  { s with state := { s.state with channels := chanSet s.state.channels chName channel } }

/-- The counting loop of SUBSCRIBE and UNSUBSCRIBE: the number of channels
whose connection list holds the session's connection. -/
def subCount (s : RedisServer) : Int :=
  ((s.state.channels.filter (fun p => decide (s.conn ∈ p.2.connections))).length : Int)

/-- A push frame `*3 <kind> <chName> :<count>` of SUBSCRIBE and UNSUBSCRIBE. -/
def pushFrame (kind : String) (chName : Str) (count : Int) : Str :=
  "*3\r\n".toList ++ (['$'] ++ Itoa kind.toList.length ++ CRLF ++ kind.toList ++ CRLF)
    ++ (['$'] ++ Itoa chName.length ++ CRLF ++ chName ++ CRLF)
    ++ ([':'] ++ Itoa count ++ CRLF)

/-- The session with the lock `channelsMu` of the shared state in the state
`m`. -/
def RedisServer.lockChannels (s : RedisServer) (m : RWMutex) : RedisServer :=
  { s with state := { s.state with channelsMu := m } }

/-- The first half of an iteration of the loop of SUBSCRIBE, between
`channelsMu.Lock()` and `channelsMu.Unlock()`.  For a channel that exists,
`channel` is a copy of the map entry and `channel.mu.Lock()` locks the copy;
when the session is appended, the assignment `s.state.channels[chName] =
channel` stores a copy of the record with its lock held by a writer, and
`channel.mu.Unlock()` releases the local copy only.  A call that blocks at
`channel.mu.Lock()` holds `channelsMu` as a writer. -/
def subscribeRegister (s : RedisServer) (chName : Str) : Locking RedisServer :=
  if s.state.channelsMu ≠ RWMutex.unlocked then Locking.blocked s
  else
    match chanGet s.state.channels chName with
    | none =>
      Locking.done
        (s.setChannel chName { name := chName, connections := [s.conn], mu := RWMutex.unlocked })
    | some channel =>
      if channel.mu ≠ RWMutex.unlocked then Locking.blocked (s.lockChannels RWMutex.locked)
      else if s.conn ∈ channel.connections then Locking.done s
      else
        Locking.done (s.setChannel chName
          { channel with connections := channel.connections ++ [s.conn], mu := RWMutex.locked })

/-- One iteration of the loop of SUBSCRIBE: `subscribeRegister`, then the
counting loop between `channelsMu.RLock()` (which goes on, the lock having
just been released) and `channelsMu.RUnlock()`.  The counting loop calls
`ch.mu.RLock()` on a copy `ch` of every entry of the map, and blocks at an
entry whose lock is held by a writer, while the call holds `channelsMu` as a
reader. -/
def subscribeStep (acc : RedisServer × Str) (chName : Str) : Locking (RedisServer × Str) :=
  match subscribeRegister acc.1 chName with
  | Locking.blocked s => Locking.blocked s
  | Locking.done s =>
    if s.state.channels.any (fun p => decide (p.2.mu = RWMutex.locked)) then
      Locking.blocked (s.lockChannels RWMutex.readLocked)
    else Locking.done (s, acc.2 ++ pushFrame "subscribe" chName (subCount s))

/-- The loop `for _, chName := range tempArr[1:]` of SUBSCRIBE. -/
def subscribeLoop : List Str → RedisServer × Str → Locking (RedisServer × Str)
  | [], acc => Locking.done acc
  | chName :: rest, acc =>
    match subscribeStep acc chName with
    | Locking.blocked s => Locking.blocked s
    | Locking.done acc1 => subscribeLoop rest acc1

/-- The case `SUBSCRIBE`; `none`: the call blocks forever on a lock and does
not return. -/
def cmdSUBSCRIBE (s : RedisServer) (tempArr : List Str) : Option (RedisServer × CommandResponse) :=
  if tempArr.length < 2 then fail s (arityError "SUBSCRIBE")
  else
    match subscribeLoop (tempArr.drop 1) ({ s with SubscribedMode := true }, []) with
    | Locking.done r => respond r.1 r.2
    | Locking.blocked _ => none

/-- The session, with the shared state, that a call of the case `SUBSCRIBE`
leaves behind when it blocks forever; `none` when the call returns. -/
def blockedSUBSCRIBE (s : RedisServer) (tempArr : List Str) : Option RedisServer :=
  if tempArr.length < 2 then none
  else
    match subscribeLoop (tempArr.drop 1) ({ s with SubscribedMode := true }, []) with
    | Locking.done _ => none
    | Locking.blocked s1 => some s1

/-- The case `PUBLISH`. -/
def cmdPUBLISH (s : RedisServer) (tempArr : List Str) : Option (RedisServer × CommandResponse) :=
  if tempArr.length < 3 then fail s (arityError "PUBLISH")
  else do
    let channelName ← index tempArr 1
    let message ← index tempArr 2
    match chanGet s.state.channels channelName with
    | none => respond s ":0\r\n".toList
    | some channel =>
      let deliver := "*3\r\n".toList ++ "$7\r\nmessage\r\n".toList
        ++ (['$'] ++ Itoa channelName.length ++ CRLF ++ channelName ++ CRLF)
        ++ (['$'] ++ Itoa message.length ++ CRLF ++ message ++ CRLF)
      let s := { s with state := channel.connections.foldl (fun st conn => st.write conn deliver) s.state }
      respond s ([':'] ++ Itoa channel.connections.length ++ CRLF)

/-- One iteration of the loop of UNSUBSCRIBE without arguments, at the map
entry `(chName, channel)`. -/
def unsubscribeAllStep (acc : RedisServer × Str) (entry : Str × Channel) : RedisServer × Str :=
  let s := acc.1
  let newConns := entry.2.connections.filter (fun c => decide (c ≠ s.conn))
  let s := s.setChannel entry.1 { entry.2 with connections := newConns }
  (s, acc.2 ++ pushFrame "unsubscribe" entry.1 (subCount s))

/-- One iteration of the loop of UNSUBSCRIBE with arguments. -/
def unsubscribeStep (acc : RedisServer × Str) (chName : Str) : RedisServer × Str :=
  let s := acc.1
  let s :=
    match chanGet s.state.channels chName with
    | some channel =>
      s.setChannel chName
        { channel with connections := channel.connections.filter (fun c => decide (c ≠ s.conn)) }
    | none => s
  (s, acc.2 ++ pushFrame "unsubscribe" chName (subCount s))

/-- The case `UNSUBSCRIBE`. -/
def cmdUNSUBSCRIBE (s : RedisServer) (tempArr : List Str) : Option (RedisServer × CommandResponse) :=
  let s := { s with SubscribedMode := true }
  let channelsToUnsub := tempArr.drop 1
  if channelsToUnsub.length = 0 then
    let r := s.state.channels.foldl unsubscribeAllStep (s, [])
    respond r.1 r.2
  else
    let r := channelsToUnsub.foldl unsubscribeStep (s, [])
    respond r.1 r.2

/-- The order of the nodes of a sorted set: by score, then by member
(bytewise). -/
def nodeLess (a b : Str × Int) : Bool :=
  decide (a.2 < b.2) || (decide (a.2 = b.2) && decide (a.1 < b.1))

/-- Insertion of a node at its place in rank order. -/
def zsetInsert (z : SortedSet) (node : Str × Int) : SortedSet :=
  z.takeWhile (fun x => nodeLess x node) ++ [node] ++ z.dropWhile (fun x => nodeLess x node)

/-- The library method `GetCount`. -/
def zsetGetCount (z : SortedSet) : Int := (z.length : Int)

/-- The library method `AddOrUpdate(key, score, nil)`: the updated set and
whether the member is new.  A member whose score changes is deleted and
inserted again. -/
def zsetAddOrUpdate (z : SortedSet) (key : Str) (score : Int) : SortedSet × Bool :=
  match z.find? (fun x => decide (x.1 = key)) with
  | some found =>
    if found.2 = score then (z, false)
    else (zsetInsert (z.filter (fun x => decide (x.1 ≠ key))) (key, score), false)
  | none => (zsetInsert z (key, score), true)

/-- The library method `FindRank`: the 1-based rank of a member, 0 when it is
not in the set. -/
def zsetFindRank (z : SortedSet) (key : Str) : Int :=
  match z.findIdx? (fun x => decide (x.1 = key)) with
  | some i => (i : Int) + 1
  | none => 0

/-- The library method `Remove`: the updated set and whether a node was
removed (the returned node is not nil). -/
def zsetRemove (z : SortedSet) (key : Str) : SortedSet × Bool :=
  (z.filter (fun x => decide (x.1 ≠ key)), z.any (fun x => decide (x.1 = key)))

/-- The library method `GetByRankRange(start, end, false)` with 1-based
ranks: negative ranks count from the end, ranks below 1 become 1, and a start
after the end gives the nodes in reverse order. -/
def zsetGetByRankRange (z : SortedSet) (start stop : Int) : List (Str × Int) :=
  let start := if start < 0 then (z.length : Int) + start + 1 else start
  let stop := if stop < 0 then (z.length : Int) + stop + 1 else stop
  let start := if start ≤ 0 then 1 else start
  let stop := if stop ≤ 0 then 1 else stop
  if start > stop then ((z.drop (stop.toNat - 1)).take (start.toNat - stop.toNat + 1)).reverse
  else (z.drop (start.toNat - 1)).take (stop.toNat - start.toNat + 1)

/-- The case `ZADD`. -/
def cmdZADD (lib : Lib) (e : Env) (s : RedisServer) (tempArr : List Str) : Option (RedisServer × CommandResponse) :=
  if tempArr.length < 4 then fail s (arityError "ZADD")
  else do
    let key ← index tempArr 1
    let scoreStr ← index tempArr 2
    let member ← index tempArr 3
    match lib.ParseScore scoreStr with
    | none => fail s "-ERR value is not a valid float".toList
    | some score =>
      match s.state.storage key with
      | some value =>
        match value.val with
        | Value.zset zset =>
          let r := zsetAddOrUpdate zset member score
          respond (s.store key { value with val := Value.zset r.1 })
            (if r.2 then ":1\r\n".toList else ":0\r\n".toList)
        | _ => fail s (typeError "ZADD")
      | none =>
        let r := zsetAddOrUpdate [] member score
        respond (s.store key { val := Value.zset r.1, px := -1, t := e.now })
          (if r.2 then ":1\r\n".toList else ":0\r\n".toList)

/-- The case `ZRANK`. -/
def cmdZRANK (s : RedisServer) (tempArr : List Str) : Option (RedisServer × CommandResponse) :=
  if tempArr.length ≠ 3 then fail s (arityError "ZRANK")
  else do
    let key ← index tempArr 1
    let member ← index tempArr 2
    match s.state.storage key with
    | none => respond s "$-1".toList
    | some value =>
      match value.val with
      | Value.zset zset =>
        let r1 := zsetFindRank zset member
        if r1 = 0 then respond s "$-1".toList
        else respond s ([':'] ++ Itoa (r1 - 1))
      | _ => fail s (typeError "ZRANK")

/-- The case `ZRANGE`. -/
def cmdZRANGE (s : RedisServer) (tempArr : List Str) : Option (RedisServer × CommandResponse) :=
  if tempArr.length < 4 then fail s (arityError "ZRANGE")
  else do
    let key ← index tempArr 1
    let a2 ← index tempArr 2
    let a3 ← index tempArr 3
    match Atoi a2, Atoi a3 with
    | (startIdx, none), (stopIdx, none) =>
      match s.state.storage key with
      | none => respond s "*0\r\n".toList
      | some value =>
        match value.val with
        | Value.zset zset =>
          let r := convertIndexes (zsetGetCount zset) startIdx stopIdx
          if r.1 > r.2 ∨ r.1 > zsetGetCount zset then respond s "*0\r\n".toList
          else
            let nodes := zsetGetByRankRange zset r.1 r.2
            respond s (bulkArray (nodes.map (fun node => node.1)))
        | _ => fail s (typeError "ZRANGE")
    | _, _ => fail s notIntegerError

/-- The case `ZCARD`. -/
def cmdZCARD (s : RedisServer) (tempArr : List Str) : Option (RedisServer × CommandResponse) :=
  if tempArr.length ≠ 2 then fail s (arityError "ZCARD")
  else do
    let key ← index tempArr 1
    match s.state.storage key with
    | none => respond s ":0\r\n".toList
    | some value =>
      match value.val with
      | Value.zset zset => respond s ([':'] ++ Itoa (zsetGetCount zset) ++ CRLF)
      | _ => fail s (typeError "ZCARD")

/-- The case `ZREM`. -/
def cmdZREM (s : RedisServer) (tempArr : List Str) : Option (RedisServer × CommandResponse) :=
  if tempArr.length ≠ 3 then fail s (arityError "ZREM")
  else do
    let key ← index tempArr 1
    let member ← index tempArr 2
    match s.state.storage key with
    | none => respond s ":0\r\n".toList
    | some value =>
      match value.val with
      | Value.zset zset =>
        let r := zsetRemove zset member
        if r.2 then respond (s.store key { value with val := Value.zset r.1 }) ":1\r\n".toList
        else respond s ":0\r\n".toList
      | _ => fail s (typeError "ZREM")

/-- The commands that pass the gate of subscribed mode (the map `allowed`). -/
def allowed (cmd : Str) : Bool :=
  decide (cmd ∈ ["SUBSCRIBE".toList, "UNSUBSCRIBE".toList, "PSUBSCRIBE".toList,
    "PUNSUBSCRIBE".toList, "PING".toList, "QUIT".toList])

/-- The error of the gate of subscribed mode. -/
def gateError (lib : Lib) (cmd : Str) : Str :=
  "-ERR Can't execute '".toList ++ ToLower lib cmd
    ++ "': only (P|S)SUBSCRIBE / (P|S)UNSUBSCRIBE / PING / QUIT / RESET are allowed in this context".toList

/-- The `switch cmd` of `executeCommand`. -/
def dispatch (lib : Lib) (e : Env) (s : RedisServer) (cmd : Str) (tempArr : List Str) :
    Option (RedisServer × CommandResponse) :=
  if cmd = "PING".toList then cmdPING s
  else if cmd = "ECHO".toList then cmdECHO s tempArr
  else if cmd = "SET".toList then cmdSET lib e s tempArr
  else if cmd = "GET".toList then cmdGET e s tempArr
  else if cmd = "CONFIG".toList then cmdCONFIG lib s tempArr
  else if cmd = "KEYS".toList then cmdKEYS e s tempArr
  else if cmd = "INFO".toList then cmdINFO s
  else if cmd = "REPLCONF".toList then cmdREPLCONF s
  else if cmd = "PSYNC".toList then cmdPSYNC s
  else if cmd = "TYPE".toList then cmdTYPE s tempArr
  else if cmd = "INCR".toList then cmdINCR e s tempArr
  else if cmd = "RPUSH".toList then cmdRPUSH e s tempArr
  else if cmd = "LRANGE".toList then cmdLRANGE s tempArr
  else if cmd = "LPUSH".toList then cmdLPUSH e s tempArr
  else if cmd = "LLEN".toList then cmdLLEN s tempArr
  else if cmd = "LPOP".toList then cmdLPOP s tempArr
  else if cmd = "SUBSCRIBE".toList then cmdSUBSCRIBE s tempArr
  else if cmd = "PUBLISH".toList then cmdPUBLISH s tempArr
  else if cmd = "UNSUBSCRIBE".toList then cmdUNSUBSCRIBE s tempArr
  else if cmd = "ZADD".toList then cmdZADD lib e s tempArr
  else if cmd = "ZRANK".toList then cmdZRANK s tempArr
  else if cmd = "ZRANGE".toList then cmdZRANGE s tempArr
  else if cmd = "ZCARD".toList then cmdZCARD s tempArr
  else if cmd = "ZREM".toList then cmdZREM s tempArr
  else fail s "-ERR unknown command".toList

/-- The method `executeCommand` of `commands.go`: the session after the call
and the response; `none`: the call does not return, because it panics or, in
the case SUBSCRIBE, because it blocks forever on a lock (`executeBlocked`
tells the two apart). -/
def executeCommand (lib : Lib) (e : Env) (s : RedisServer) (tempArr : List Str) :
    Option (RedisServer × CommandResponse) :=
  match tempArr with
  | [] => fail s "-ERR empty command".toList
  | name :: _ =>
    let cmd := ToUpper lib name
    if s.SubscribedMode && !allowed cmd then fail s (gateError lib cmd)
    else dispatch lib e s cmd tempArr

/-- The session, with the shared state, that a call of `executeCommand`
leaves behind when it blocks forever on a lock; `none` when the call returns
or panics.  SUBSCRIBE is the only case of the executor in which a lock can
block. -/
def executeBlocked (lib : Lib) (s : RedisServer) (tempArr : List Str) : Option RedisServer :=
  match tempArr with
  | [] => none
  | name :: _ =>
    let cmd := ToUpper lib name
    if s.SubscribedMode && !allowed cmd then none
    else if cmd = "SUBSCRIBE".toList then blockedSUBSCRIBE s tempArr
    else none

/-! ## The session (`redis.go`, `main.go`) and the replica apply path (`replica.go`) -/

/-- The step `if !strings.HasSuffix(resp, "\r\n") { resp += "\r\n" }` applied
to a response before it is written. -/
def terminate (resp : Str) : Str :=
  if HasSuffix resp CRLF then resp else resp ++ CRLF

/-- The loop of EXEC over the queued commands: the session after the calls and
the collected `responses`.  `env i` is the environment of the `i`-th call of
the executor while one read is handled. -/
def execQueue (lib : Lib) (env : Nat → Env) : Nat → RedisServer → List (List Str) →
    Option (RedisServer × List Str)
  | _, s, [] => some (s, [])
  | i, s, queuedCmd :: rest =>
    match executeCommand lib (env i) s queuedCmd with
    | none => none
    | some (s, cmdResponse) =>
      let r := if cmdResponse.Error ≠ [] then cmdResponse.Error else cmdResponse.Response
      match execQueue lib env (i + 1) s rest with
      | none => none
      | some (s, rs) => some (s, r :: rs)

/-- The array `*<n>\r\n` followed by the terminated responses, written by
EXEC. -/
def execReply (responses : List Str) : Str :=
  responses.foldl (fun response resp => response ++ terminate resp)
    (['*'] ++ Itoa responses.length ++ CRLF)

/-- The body of the loop of `handleConnection` after the decoding of one read:
what the session does with the argument vector `tempArr`.  `none`: a call of
the executor does not return. -/
def handleCommand (lib : Lib) (env : Nat → Env) (s : RedisServer) (tempArr : List Str) : Option RedisServer :=
  match tempArr with
  | [] => some (s.send "-ERR empty command\r\n".toList)
  | name :: _ =>
    let cmd := ToUpper lib name
    if cmd = "MULTI".toList then
      some (RedisServer.send { s with MultiOn := true } "+OK\r\n".toList)
    else if cmd = "DISCARD".toList then
      if !s.MultiOn then some (s.send "-ERR DISCARD without MULTI\r\n".toList)
      else
        some { RedisServer.send { s with MultiOn := false } "+OK\r\n".toList with multiQueue := [] }
    else if cmd = "EXEC".toList then
      if !s.MultiOn then some (s.send "-ERR EXEC without MULTI\r\n".toList)
      else
        match execQueue lib env 0 { s with MultiOn := false } s.multiQueue with
        | none => none
        | some (s, responses) => some { s.send (execReply responses) with multiQueue := [] }
    else if s.MultiOn then
      if cmd = "MULTI".toList then
        some (s.send "-ERR MULTI calls can not be nested\r\n".toList)
      else
        some (RedisServer.send { s with multiQueue := s.multiQueue ++ [tempArr] } "+QUEUED\r\n".toList)
    else
      match executeCommand lib (env 0) s tempArr with
      | none => none
      | some (s, cmdResponse) =>
        if cmdResponse.Error ≠ [] then some (s.send (cmdResponse.Error ++ CRLF))
        else if cmdResponse.Response ≠ [] then
          if s.state.serverIsMaster ∨ cmd ≠ "SET".toList then
            some (s.send (terminate cmdResponse.Response))
          else some s
        else some s

/-- One iteration of the loop of `handleConnection` for a read that returned
the bytes `data` (`buffer[:n]`, at most 1024 bytes). -/
def handleRead (lib : Lib) (env : Nat → Env) (s : RedisServer) (data : Str) : Option RedisServer :=
  match RESPToArray data with
  | Result.panic => none
  | Result.err => some (s.send "-ERR invalid RESP format\r\n".toList)
  | Result.ok tempArr => handleCommand lib env s tempArr

/-- The shared state built by `main`. -/
def initState (config : Config) (serverIsMaster : Bool) : RedisState :=
  { storage := fun _ => none, config := config, serverIsMaster := serverIsMaster,
    replicaConns := [], channels := [], channelsMu := RWMutex.unlocked, net := [] }

/-- The session record built by `main` for an accepted connection. -/
def newSession (state : RedisState) (conn : Conn) : RedisServer :=
  { state := state, conn := conn, ReplOffset := 0, MultiOn := false, multiQueue := [],
    SubscribedMode := false }

/-- The method `processReplicationCommand` of `replica.go`. -/
def processReplicationCommand (lib : Lib) (e : Env) (s : RedisServer) (cmd : List Str) : RedisServer :=
  match cmd with
  | [] => s
  | name :: _ =>
    let command := ToUpper lib name
    if command = "REPLCONF".toList then
      if cmd.length ≥ 3 ∧ ToUpper lib (cmd.getD 1 []) = "GETACK".toList ∧ cmd.getD 2 [] = ['*'] then
        s.send "*3\r\n$8\r\nREPLCONF\r\n$3\r\nACK\r\n$1\r\n0\r\n".toList
      else s
    else if command = "SET".toList then
      if cmd.length < 3 then s
      else
        let val : storageVal :=
          if cmd.length > 4 ∧ ToUpper lib (cmd.getD 3 []) = "PX".toList then
            match Atoi (cmd.getD 4 []) with
            | (px, none) => { val := Value.str (cmd.getD 2 []), px := px, t := e.now }
            | (_, some _) => { val := Value.str (cmd.getD 2 []), px := -1, t := e.now }
          else { val := Value.str (cmd.getD 2 []), px := -1, t := e.now }
        s.store (cmd.getD 1 []) val
    else if command = "DEL".toList then
      if cmd.length ≥ 2 then s.delete (cmd.getD 1 []) else s
    else s

/-- The states of the shared record that the server can reach: from the state
built by `main`, by handling a read on some session, by applying a replicated
command, by a call of the executor that returns (such as the calls of EXEC
that come before one that blocks), or by a call of SUBSCRIBE that blocks
forever and leaves the state behind. -/
inductive Reachable (lib : Lib) : RedisState → Prop where
  | init (config : Config) (serverIsMaster : Bool) : Reachable lib (initState config serverIsMaster)
  | read (env : Nat → Env) (s s1 : RedisServer) (data : Str) :
      Reachable lib s.state → handleRead lib env s data = some s1 → Reachable lib s1.state
  | replicate (e : Env) (s : RedisServer) (cmd : List Str) :
      Reachable lib s.state → Reachable lib (processReplicationCommand lib e s cmd).state
  | call (e : Env) (s s1 : RedisServer) (tempArr : List Str) (r : CommandResponse) :
      Reachable lib s.state → executeCommand lib e s tempArr = some (s1, r) →
      Reachable lib s1.state
  | blocked (s s1 : RedisServer) (tempArr : List Str) :
      Reachable lib s.state → blockedSUBSCRIBE s tempArr = some s1 → Reachable lib s1.state

/-- No key of the store holds an empty list. -/
def NoEmptyList (st : RedisState) : Prop :=
  ∀ (key : Str) (value : storageVal), st.storage key = some value → value.val ≠ Value.list []

/-! ## Auxiliary definitions used in the statements -/

/-- What one iteration of the loop of SUBSCRIBE does to the session and to the
response when no lock blocks it: `subscribeStep` with the tests of the locks
left out.  This is no translation of the source; `subscribeStep_done` proves
that `subscribeStep` yields this result whenever it goes on. -/
def registerStep (acc : RedisServer × Str) (chName : Str) : RedisServer × Str :=
  let s := acc.1
  let s :=
    match chanGet s.state.channels chName with
    | none => s.setChannel chName { name := chName, connections := [s.conn], mu := RWMutex.unlocked }
    | some channel =>
      if s.conn ∈ channel.connections then s
      else
        s.setChannel chName
          { channel with connections := channel.connections ++ [s.conn], mu := RWMutex.locked }
  (s, acc.2 ++ pushFrame "subscribe" chName (subCount s))

/-- The case `SUBSCRIBE` with the tests of the locks left out.  This is no
translation of the source; `cmdSUBSCRIBE_cases` proves that `cmdSUBSCRIBE`
yields this result whenever it returns. -/
def registerSUBSCRIBE (s : RedisServer) (tempArr : List Str) : Option (RedisServer × CommandResponse) :=
  if tempArr.length < 2 then fail s (arityError "SUBSCRIBE")
  else
    let s := { s with SubscribedMode := true }
    let r := (tempArr.drop 1).foldl registerStep (s, [])
    respond r.1 r.2

/-- The value of a string of decimal digits read with accumulator `n`, without
any overflow check. -/
def digitsVal : Str → Nat → Nat
  | [], n => n
  | c :: cs, n => digitsVal cs (n * 10 + (c.toNat - 48))

/-- The concatenated bulk strings of an argument vector. -/
def frames : List Str → Str
  | [] => []
  | a :: as => bulk a ++ frames as

/-- An environment for concrete runs: the clock reads 0 and the RDB file
cannot be read. -/
def env0 : Env := { now := 0, rdbFile := none }

/-- A library for concrete runs (all of whose texts are ASCII): the Unicode
mappings change nothing and no text parses as a score. -/
def lib0 : Lib := { MapToUpper := fun s => s, MapToLower := fun s => s, ParseScore := fun _ => none }

/-- A fresh session (connection 0) on a primary with an empty store. -/
def primary0 : RedisServer := newSession (initState { Directory := [], dbFileName := [] } true) 0

/-- What a call of the executor keeps of the session `s`: the connection, the
replication offset, the transactional flag and the queue stay as they are,
and a store without empty lists stays without empty lists. -/
def Keeps (s s1 : RedisServer) : Prop :=
  s1.conn = s.conn ∧ s1.ReplOffset = s.ReplOffset ∧ s1.MultiOn = s.MultiOn ∧
    s1.multiQueue = s.multiQueue ∧ (NoEmptyList s.state → NoEmptyList s1.state)

/-- The relation `Keeps` for an outcome of the executor. -/
def KeepsOut (s : RedisServer) (o : Option (RedisServer × CommandResponse)) : Prop :=
  ∀ p, o = some p → Keeps s p.1

/-- The key `key` is absent and `L` is empty, or `key` holds the list `L`. -/
def HoldsList (s : RedisServer) (key : Str) (L : List Str) : Prop :=
  (s.state.storage key = none ∧ L = []) ∨
    ∃ value : storageVal, s.state.storage key = some value ∧ value.val = Value.list L

/-- The index meant by `i` in a list of length `n`, in the words of the
specification: `i` itself when it is not negative, else `n + i`, but at least 0. -/
def clampIndex (n i : Int) : Int := if i ≥ 0 then i else max 0 (n + i)

/-- The reply of LRANGE on a list `L` in the words of the specification. -/
def lrangeReply (L : List Str) (start stop : Int) : Str :=
  if clampIndex L.length start ≥ L.length ∨ clampIndex L.length start > clampIndex L.length stop then
    "*0\r\n".toList
  else
    encodeBulkArray ((L.drop (clampIndex L.length start).toNat).take
      ((min (clampIndex L.length stop) ((L.length : Int) - 1) - clampIndex L.length start).toNat + 1))

/-- The session after `remaining` is what LPOP left of the list under `key`, in
the words of the specification: the key holds `remaining`, and is deleted when
no element remains. -/
def afterPop (s : RedisServer) (key : Str) (value : storageVal) (remaining : List Str) : RedisServer :=
  if remaining = [] then s.delete key else s.store key { value with val := Value.list remaining }

/-- The session handles the argument vectors `cmds` one read after the other;
`envs k` is the environment during the `k`-th read. -/
def handleCommands (lib : Lib) (envs : Nat → Nat → Env) : Nat → RedisServer → List (List Str) → Option RedisServer
  | _, s, [] => some s
  | k, s, c :: cs =>
    match handleCommand lib (envs k) s c with
    | none => none
    | some s1 => handleCommands lib envs (k + 1) s1 cs

/-- The loop of `handleConnection` over the reads that return the byte strings
`datas`, one after the other; `envs k` is the environment during the `k`-th
read.  `none`: one of the reads is not handled to its end, because the
decoder panics or a call of the executor does not return. -/
def handleReads (lib : Lib) (envs : Nat → Nat → Env) : Nat → RedisServer → List Str → Option RedisServer
  | _, s, [] => some s
  | k, s, data :: rest =>
    match handleRead lib (envs k) s data with
    | none => none
    | some s1 => handleReads lib envs (k + 1) s1 rest

/-- A command that a session in MULTI state queues: it has a name, and the
name is none of MULTI, EXEC and DISCARD. -/
def queueable (lib : Lib) (c : List Str) : Bool :=
  match c with
  | [] => false
  | name :: _ =>
    decide (ToUpper lib name ≠ "MULTI".toList ∧ ToUpper lib name ≠ "EXEC".toList ∧
      ToUpper lib name ≠ "DISCARD".toList)

/-- The session `s` after MULTI and the queueing of `cs`, in the words of the
specification: the flag is set, the queue is `cs`, the session was answered
`+OK` and then one `+QUEUED` per command, and nothing else has changed. -/
def queuedSession (s : RedisServer) (cs : List (List Str)) : RedisServer :=
  { s with
    MultiOn := true
    multiQueue := cs
    state := { s.state with
      net := s.state.net ++ (s.conn, "+OK\r\n".toList) ::
        cs.map (fun _ => (s.conn, "+QUEUED\r\n".toList)) } }

/-- The reply of a command inside a transaction: its error when it has one,
else its response. -/
def replyOf (r : CommandResponse) : Str := if r.Error = [] then r.Response else r.Error

/-- One step of `runInOrder`: the next command `c` is executed against the
session left by the commands before it, and its reply is appended to the
replies collected so far (whose number is the index of the call). -/
def runStep (lib : Lib) (env : Nat → Env) (acc : Option (RedisServer × List Str)) (c : List Str) :
    Option (RedisServer × List Str) :=
  match acc with
  | none => none
  | some (s, rs) =>
    match executeCommand lib (env rs.length) s c with
    | none => none
    | some (s1, r) => some (s1, rs ++ [replyOf r])

/-- The commands `cs` executed in order, in the words of the specification:
each command is executed against the session and store left by the commands
before it; the result is the last session and the replies in order, `none`
when one of the executions does not return. -/
def runInOrder (lib : Lib) (env : Nat → Env) (s : RedisServer) (cs : List (List Str)) :
    Option (RedisServer × List Str) :=
  cs.foldl (runStep lib env) (some (s, []))

/-- The array `*<n>\r\n` followed by the replies, each ended by CRLF (a reply
that already ends in CRLF is left as it is). -/
def replyArray (rs : List Str) : Str :=
  ['*'] ++ Itoa rs.length ++ CRLF ++ (rs.map terminate).flatten

/-- A session of a primary whose store holds the list `a, b, c` under `k`. -/
def listSession : RedisServer :=
  primary0.store ['k'] { val := Value.list [['a'], ['b'], ['c']], px := -1, t := 0 }

/-- A library for concrete runs that agrees with `strconv.ParseFloat` on the
text `1`, the only score text of these runs. -/
def lib1 : Lib := { lib0 with ParseScore := fun s => if s = ['1'] then some 1 else none }

/-- The text is a decimal integer: an optional sign followed by one or more
decimal digits. -/
def isDecimalInteger (s : Str) : Bool :=
  match s with
  | [] => false
  | c :: cs =>
    if c = '+' ∨ c = '-' then !cs.isEmpty && cs.all isDigit
    else (c :: cs).all isDigit

/-- A bulk string on the wire whose length field is the text `l`:
`$<l>\r\n<a>\r\n`. -/
def bulkWith (l a : Str) : Str := ['$'] ++ l ++ CRLF ++ a ++ CRLF

/-- The bulk strings `es` on the wire, one after the other; an element is the
pair of its length field and its payload. -/
def wire (es : List (Str × Str)) : Str := (es.map (fun e => bulkWith e.1 e.2)).flatten

/-- A family of malformed inputs that `RESPToArray` refuses with an error.  It
is narrower than the malformed inputs of the specification.  The first byte is
not `*`; or the count field (the bytes between `*` and the first CRLF) is no
decimal integer; or the count `n` is at most `maxSliceCap`, the elements `es`
before the offending one are bulk strings whose length fields read as the
lengths of their payloads (so none is negative), the offending element is one
of the `n` that the count announces, and either its length field (the bytes
between `$` and the next CRLF) is no decimal integer or its payload of the
declared length is not followed by CRLF.  Left out are the malformed inputs
with a count above `maxSliceCap` and those in which an element with a negative
length stands before the offending one: on these the decoder panics. -/
inductive RefusedFrame : Str → Prop where
  | leading (resp : Str) : HasPrefix resp ['*'] = false → RefusedFrame resp
  | count (c tail : Str) : Index c CRLF = -1 → isDecimalInteger c = false →
      RefusedFrame ('*' :: c ++ CRLF ++ tail)
  | length (c : Str) (n : Int) (es : List (Str × Str)) (l tail : Str) :
      Atoi c = (n, none) → (es.length : Int) < n → n ≤ maxSliceCap →
      (∀ e ∈ es, Atoi e.1 = ((e.2.length : Int), none)) →
      Index l CRLF = -1 → isDecimalInteger l = false →
      RefusedFrame ('*' :: c ++ CRLF ++ wire es ++ '$' :: l ++ CRLF ++ tail)
  | payload (c : Str) (n : Int) (es : List (Str × Str)) (l a x : Str) :
      Atoi c = (n, none) → (es.length : Int) < n → n ≤ maxSliceCap →
      (∀ e ∈ es, Atoi e.1 = ((e.2.length : Int), none)) →
      Atoi l = ((a.length : Int), none) → HasPrefix x CRLF = false →
      RefusedFrame ('*' :: c ++ CRLF ++ wire es ++ '$' :: l ++ CRLF ++ a ++ x)

/-- The registry is a map and its subscriber lists are sets: no channel name
occurs twice among the keys, and no connection twice in a subscriber list. -/
def RegistryOK (st : RedisState) : Prop :=
  (st.channels.map (fun p => p.1)).Nodup ∧ ∀ p ∈ st.channels, p.2.connections.Nodup

/-- The subscriber list of the channel `ch`; empty for a channel that is not
in the registry. -/
def subscribers (st : RedisState) (ch : Str) : List Conn :=
  match chanGet st.channels ch with
  | some channel => channel.connections
  | none => []

/-- The set of the channels that the connection `c` is subscribed to. -/
def subscriptions (st : RedisState) (c : Conn) : Finset Str :=
  ((st.channels.filter (fun p => decide (c ∈ p.2.connections))).map (fun p => p.1)).toFinset

/-- The response of SUBSCRIBE in the words of the specification: one push
frame per channel, in argument order, each with the number of distinct
channels that the session is subscribed to after that channel is added to the
set `S` of the channels it was subscribed to before. -/
def subscribeReply (S : Finset Str) : List Str → Str
  | [] => []
  | ch :: chs =>
    pushFrame "subscribe" ch ((insert ch S).card : Int) ++ subscribeReply (insert ch S) chs

/-- The session `g` on the shared state `st`: all sessions of a server point
to one `RedisState`. -/
def RedisServer.withState (g : RedisServer) (st : RedisState) : RedisServer := { g with state := st }

/-- A SUBSCRIBE or an UNSUBSCRIBE command of a session `g` with the channel
arguments `chs`. -/
inductive PubSubCall where
  | subscribe (g : RedisServer) (chs : List Str)
  | unsubscribe (g : RedisServer) (chs : List Str)

/-- The session that issues the command. -/
def PubSubCall.session : PubSubCall → RedisServer
  | PubSubCall.subscribe g _ => g
  | PubSubCall.unsubscribe g _ => g

/-- The argument vector of the command. -/
def PubSubCall.tempArr : PubSubCall → List Str
  | PubSubCall.subscribe _ chs => "SUBSCRIBE".toList :: chs
  | PubSubCall.unsubscribe _ chs => "UNSUBSCRIBE".toList :: chs

/-- The calls of the executor for the commands `calls`, one after the other,
each by its session on the shared state left by the calls before; `none`: one
of the calls does not return. -/
def runPubSub (lib : Lib) (e : Env) : RedisState → List PubSubCall → Option RedisState
  | st, [] => some st
  | st, call :: rest =>
    match executeCommand lib e (call.session.withState st) call.tempArr with
    | none => none
    | some (s1, _) => runPubSub lib e s1.state rest

/-- Whether the connection `c` is subscribed to the channel `ch` after the
commands `calls`, in the words of the specification; `m` tells who was
subscribed before.  SUBSCRIBE subscribes its session to the channels it names;
UNSUBSCRIBE takes its session out of the channels it names, and out of all
channels when it names none. -/
def subscribedAfter (m : Conn → Str → Bool) : List PubSubCall → Conn → Str → Bool
  | [], c, ch => m c ch
  | PubSubCall.subscribe g chs :: rest, c, ch =>
    subscribedAfter (fun c1 ch1 => m c1 ch1 || (decide (c1 = g.conn) && decide (ch1 ∈ chs))) rest c ch
  | PubSubCall.unsubscribe g chs :: rest, c, ch =>
    subscribedAfter
      (fun c1 ch1 => m c1 ch1 && !(decide (c1 = g.conn) && (chs.isEmpty || decide (ch1 ∈ chs))))
      rest c ch

/-- The frame `*3\r\n$7\r\nmessage\r\n$<len ch>\r\n<ch>\r\n$<len msg>\r\n<msg>\r\n`
that PUBLISH delivers. -/
def messageFrame (ch msg : Str) : Str :=
  "*3\r\n$7\r\nmessage\r\n".toList ++ bulk ch ++ bulk msg

/-- A call of the executor that takes the session `s` to `s1` keeps the
registry a map. -/
structure KeepsRegistry (s s1 : RedisServer) : Prop where
  keep : RegistryOK s.state → RegistryOK s1.state

/-- The relation `KeepsRegistry` for an outcome of the executor. -/
structure KeepsRegistryOut (s : RedisServer) (o : Option (RedisServer × CommandResponse)) : Prop where
  out : ∀ p, o = some p → KeepsRegistry s p.1

/-- Every outcome of the executor other than a panic satisfies `P`, a property
of the session after the call and of the response. -/
structure Holds (P : RedisServer → CommandResponse → Prop)
    (o : Option (RedisServer × CommandResponse)) : Prop where
  out : ∀ p, o = some p → P p.1 p.2

/-- A response with an error comes with the session `s` as it was before the
call. -/
def ErrorKeeps (s : RedisServer) (s1 : RedisServer) (r : CommandResponse) : Prop :=
  r.Error ≠ [] → s1 = s

/-- The call has written nothing: the log of the bytes written is as it was
for the session `s` before the call. -/
def NetKeeps (s : RedisServer) (s1 : RedisServer) (_r : CommandResponse) : Prop :=
  s1.state.net = s.state.net

/-- The call has appended the encoded argument vector `args` once to the log
of every replica of the list of `s`, in list order, when it replied without an
error. -/
def FansOut (s : RedisServer) (args : List Str) (s1 : RedisServer) (r : CommandResponse) : Prop :=
  r.Error = [] →
    s1.state.net = s.state.net ++ s.state.replicaConns.map (fun c => (c, encodeBulkArray args))


/-- The 0-based index of ZRANGE in the words of the specification: the
cardinality `n` is added to a negative input and the result is clamped below
at 0. -/
def rankIndex (n i : Int) : Int := max 0 (if i < 0 then n + i else i)

/-- A session on a primary whose store holds the sorted set `a < b < c` (all
of score 1) under the key `z`. -/
def zsetSession : RedisServer :=
  primary0.store ['z'] { val := Value.zset [(['a'], 1), (['b'], 1), (['c'], 1)], px := -1, t := 0 }


/-- The invariant of a session: while the transactional flag is off the
queue of pending commands is empty. -/
def QueueOK (s : RedisServer) : Prop := s.MultiOn = false → s.multiQueue = []

/-- The states of one session that can be reached from the record built by
`main` for an accepted connection (flag off, empty queue): by a read or a
command that the session handles, and by a change that another session makes
to the shared state. -/
inductive SessionReachable (lib : Lib) : RedisServer → Prop where
  | init (state : RedisState) (conn : Conn) : SessionReachable lib (newSession state conn)
  | read (env : Nat → Env) (s s1 : RedisServer) (data : Str) :
      SessionReachable lib s → handleRead lib env s data = some s1 → SessionReachable lib s1
  | command (env : Nat → Env) (s s1 : RedisServer) (c : List Str) :
      SessionReachable lib s → handleCommand lib env s c = some s1 → SessionReachable lib s1
  | shared (s : RedisServer) (st : RedisState) :
      SessionReachable lib s → SessionReachable lib (s.withState st)


/-! ## The stream of the primary (`handleMasterStream` of `replica.go`) -/

/-- Outcome of a loop that is run with fuel: the result, a run-time panic, or
the exhaustion of the fuel. -/
inductive Loop (α : Type) where
  | done (a : α)
  | panic
  | outOfFuel
  deriving DecidableEq, Repr

/-- How the loop `for i := 0; i < arrayLen; i++` of `handleMasterStream` ends:
after the last element, with the `elements` read and the position `pos`
behind them; by `goto needMoreData`; by `goto skipCommand` with the
position `pos`; or by a panic (an index or a slice out of range). -/
inductive Elements where
  | complete (elements : List Str) (pos : Int)
  | needMoreData
  | skipCommand (pos : Int)
  | panic
  deriving DecidableEq, Repr

/-- The loop `for i := 0; i < arrayLen; i++` of `handleMasterStream`: `n`
iterations remain, `pos` is the position in `accumulated` and `elements` the
bulk strings read so far.  The sums with the decoded `bulkLen` wrap around. -/
def streamElements (accumulated : Str) : Nat → Int → List Str → Elements
  | 0, pos, elements => Elements.complete elements pos
  | n + 1, pos, elements =>
    if pos ≥ (accumulated.length : Int) then Elements.needMoreData
    else
      match index accumulated pos with
      | none => Elements.panic
      | some c =>
        if c ≠ '$' then Elements.needMoreData
        else
          match sliceFrom accumulated pos with
          | none => Elements.panic
          | some tail =>
            let bulkCrlfPos := Index tail CRLF
            if bulkCrlfPos = -1 then Elements.needMoreData
            else
              let bulkCrlfPos := bulkCrlfPos + pos
              match slice accumulated (pos + 1) bulkCrlfPos with
              | none => Elements.panic
              | some bulkLenStr =>
                match Atoi bulkLenStr with
                | (_, some _) => Elements.skipCommand pos
                | (bulkLen, none) =>
                  let pos := bulkCrlfPos + 2
                  if wrap64 (pos + bulkLen + 2) > (accumulated.length : Int) then Elements.needMoreData
                  else
                    match slice accumulated pos (wrap64 (pos + bulkLen)) with
                    | none => Elements.panic
                    | some element =>
                      streamElements accumulated n (wrap64 (pos + bulkLen + 2)) (elements ++ [element])

/-- The loop `for len(accumulated) > 0` of `handleMasterStream`, for a
receiver of any type `σ` on which `process` stands for the method
`processReplicationCommand`: the receiver and the text `accumulated` when the
loop is left.  Every iteration that does not leave the loop shortens
`accumulated`; the fuel bounds the number of iterations.  The call
`make([]string, 0, arrayLen)` panics on a negative capacity (its failure on a
capacity too large for the memory is not modelled). -/
def streamCommands {σ : Type} (process : σ → List Str → σ) : Nat → σ → Str → Loop (σ × Str)
  | 0, _, _ => Loop.outOfFuel
  | fuel + 1, s, accumulated =>
    if accumulated.length > 0 then
      if !HasPrefix accumulated ['*'] then
        match sliceFrom accumulated 1 with
        | none => Loop.panic
        | some tail =>
          let starPos := Index tail ['*']
          if starPos = -1 then Loop.done (s, [])
          else
            match sliceFrom accumulated (starPos + 1) with
            | none => Loop.panic
            | some rest => streamCommands process fuel s rest
      else
        let crlfPos := Index accumulated CRLF
        if crlfPos = -1 then Loop.done (s, accumulated)
        else
          match slice accumulated 1 crlfPos with
          | none => Loop.panic
          | some arrayLenStr =>
            match Atoi arrayLenStr with
            | (_, some _) =>
              match sliceFrom accumulated (crlfPos + 2) with
              | none => Loop.panic
              | some rest => streamCommands process fuel s rest
            | (arrayLen, none) =>
              if arrayLen < 0 then Loop.panic
              else
                match streamElements accumulated arrayLen.toNat (crlfPos + 2) [] with
                | Elements.complete elements pos =>
                  match sliceFrom accumulated pos with
                  | none => Loop.panic
                  | some rest => streamCommands process fuel (process s elements) rest
                | Elements.needMoreData => Loop.done (s, accumulated)
                | Elements.skipCommand pos =>
                  match sliceFrom accumulated pos with
                  | none => Loop.panic
                  | some rest => Loop.done (s, rest)
                | Elements.panic => Loop.panic
    else Loop.done (s, accumulated)

/-- The local variables of `handleMasterStream` between two reads, with the
receiver `s`. -/
structure MasterStream (σ : Type) where
  s : σ
  accumulated : Str
  rdbConsumed : Bool
  rdbLength : Int
  rdbBytesConsumed : Int

/-- The variables of `handleMasterStream` before the first read. -/
def MasterStream.start {σ : Type} (s : σ) : MasterStream σ :=
  { s := s, accumulated := [], rdbConsumed := false, rdbLength := -1, rdbBytesConsumed := 0 }

/-- The block `if rdbLength == -1 && strings.HasPrefix(accumulated, "$")` of
`handleMasterStream`; `rdbLength` takes the value returned by `Atoi` also when
`Atoi` fails.  `none` is a panic. -/
def rdbHeader {σ : Type} (st : MasterStream σ) : Option (MasterStream σ) :=
  if st.rdbLength = -1 ∧ HasPrefix st.accumulated ['$'] then
    let endPos := Index st.accumulated CRLF
    if endPos ≠ -1 then
      match slice st.accumulated 1 endPos with
      | none => none
      | some lengthStr =>
        match Atoi lengthStr with
        | (rdbLength, none) =>
          match sliceFrom st.accumulated (endPos + 2) with
          | none => none
          | some rest => some { st with rdbLength := rdbLength, accumulated := rest, rdbBytesConsumed := 0 }
        | (rdbLength, some _) => some { st with rdbLength := rdbLength }
    else some st
  else some st

/-- The block `if rdbLength > 0` of `handleMasterStream`: the variables after
it and whether it ended by `continue` (the next read follows at once). -/
def rdbData {σ : Type} (st : MasterStream σ) : Option (MasterStream σ × Bool) :=
  if st.rdbLength > 0 then
    let bytesNeeded := st.rdbLength - st.rdbBytesConsumed
    if (st.accumulated.length : Int) ≥ bytesNeeded then
      match sliceFrom st.accumulated bytesNeeded with
      | none => none
      | some rest =>
        some ({ st with accumulated := rest, rdbBytesConsumed := st.rdbLength, rdbConsumed := true }, false)
    else
      some ({ st with rdbBytesConsumed := st.rdbBytesConsumed + st.accumulated.length,
                      accumulated := [] }, true)
  else some (st, false)

/-- The block `if !rdbConsumed` of `handleMasterStream`: the variables after
it and whether it ended by `continue`. -/
def consumeRDB {σ : Type} (st : MasterStream σ) : Option (MasterStream σ × Bool) :=
  if !st.rdbConsumed then (rdbHeader st).bind rdbData else some (st, false)

/-- The block `if rdbConsumed` of `handleMasterStream`.  The loop over the
commands is given more fuel than `accumulated` has bytes. -/
def processCommands {σ : Type} (process : σ → List Str → σ) (st : MasterStream σ) :
    Loop (MasterStream σ) :=
  if st.rdbConsumed then
    match streamCommands process (st.accumulated.length + 1) st.s st.accumulated with
    | Loop.done r => Loop.done { st with s := r.1, accumulated := r.2 }
    | Loop.panic => Loop.panic
    | Loop.outOfFuel => Loop.outOfFuel
  else Loop.done st

/-- One iteration of the loop of `handleMasterStream`, for a read that
returned the bytes `data`. -/
def handleMasterRead {σ : Type} (process : σ → List Str → σ) (st : MasterStream σ) (data : Str) :
    Loop (MasterStream σ) :=
  match consumeRDB { st with accumulated := st.accumulated ++ data } with
  | none => Loop.panic
  | some (st, true) => Loop.done st
  | some (st, false) => processCommands process st

/-- The method `handleMasterStream` of `replica.go` on the successive reads
`reads`: the variables when the reads are used up. -/
def handleMasterStream {σ : Type} (process : σ → List Str → σ) :
    MasterStream σ → List Str → Loop (MasterStream σ)
  | st, [] => Loop.done st
  | st, data :: reads =>
    match handleMasterRead process st data with
    | Loop.done st1 => handleMasterStream process st1 reads
    | Loop.panic => Loop.panic
    | Loop.outOfFuel => Loop.outOfFuel

/-- The calls of `processReplicationCommand` in the order in which they are
made: each call appends its argument to the record. -/
def recordCall (calls : List (List Str)) (cmd : List Str) : List (List Str) := calls ++ [cmd]

/-- A fresh session (connection 0) on a replica with an empty store. -/
def replica0 : RedisServer := newSession (initState { Directory := [], dbFileName := [] } false) 0

/-- The bytes that the state `st` has written to the connection `c`, one
text per call of `Write`, in the order of the calls. -/
def sentTo (st : RedisState) (c : Conn) : List Str :=
  (st.net.filter (fun w => decide (w.1 = c))).map (fun w => w.2)

/-- A run of a primary with an empty store: a replica attaches by PSYNC on
connection 1, then a client (connection 0) sends `INCR a` and
`SET b v PX abc`.  The result is the session of the client after the
commands, with their two replies. -/
def primaryRun : Option (RedisServer × Str × Str) :=
  (executeCommand lib0 env0 (newSession primary0.state 1) ["PSYNC".toList, ['?'], "-1".toList]).bind
    (fun r0 =>
      (executeCommand lib0 env0 (primary0.withState r0.1.state) ["INCR".toList, ['a']]).bind (fun r1 =>
        (executeCommand lib0 env0 r1.1 ["SET".toList, ['b'], ['v'], "PX".toList, "abc".toList]).map
          (fun r2 => (r2.1, r1.2.Response, r2.2.Response))))

/-- The replica of `primaryRun`: a replica with an empty store reads what the
primary `p` has written to connection 1 after the FULLRESYNC line (which
`waitForFullResyncResponse` reads), one read per write. -/
def replicaRun (p : RedisServer) : Loop (MasterStream RedisServer) :=
  handleMasterStream (processReplicationCommand lib0 env0) (MasterStream.start replica0)
    ((sentTo p.state 1).drop 1)


/-- The bytes of the commands `cs` as the primary fans them out: the encoded
argument vectors one after the other. -/
def commandStream (cs : List (List Str)) : Str := (cs.map encodeBulkArray).flatten

/-- The text `T` is the start of the first command of `rest` and not the
whole of it; it is empty when no command is left. -/
def Pending (rest : List (List Str)) (T : Str) : Prop :=
  match rest with
  | [] => T = []
  | c :: _ => ∃ k, k < (encodeBulkArray c).length ∧ T = (encodeBulkArray c).take k


/-- The call has left the role of the server as it was and has returned an
error or a response that is not empty. -/
def Answered (s : RedisServer) (s1 : RedisServer) (r : CommandResponse) : Prop :=
  s1.state.serverIsMaster = s.state.serverIsMaster ∧ (r.Error ≠ [] ∨ r.Response ≠ [])

/-- The text a session writes for a response, in the words of the
specification: the error followed by CRLF when there is one, else the
response, ended by CRLF when it does not end so already. -/
def replyText (r : CommandResponse) : Str :=
  if r.Error ≠ [] then r.Error ++ CRLF else terminate r.Response

/-- A session that answers each command once, in the words of the
specification: each command in turn is executed and its reply is written to
the connection of the session, once, before the next command is looked at.
The result is the session after the last command and the replies written, in
order; `none` when an execution does not return.  `envs k 0` is the environment during
the `k`-th command. -/
def answerEach (lib : Lib) (envs : Nat → Nat → Env) : Nat → RedisServer → List (List Str) →
    Option (RedisServer × List Str)
  | _, s, [] => some (s, [])
  | k, s, c :: cs =>
    match executeCommand lib (envs k 0) s c with
    | none => none
    | some (s1, r) =>
      match answerEach lib envs (k + 1) (s1.send (replyText r)) cs with
      | none => none
      | some (s2, rs) => some (s2, replyText r :: rs)

/-- A command that a session outside MULTI answers with one write of its own:
it has a name, the name is none of MULTI, EXEC, DISCARD and PSYNC, it is no
UNSUBSCRIBE without arguments, and it is no SET when the server is a
replica (`master` is false). -/
def answerable (lib : Lib) (master : Bool) (c : List Str) : Bool :=
  match c with
  | [] => false
  | name :: rest =>
    queueable lib c && decide (ToUpper lib name ≠ "PSYNC".toList) &&
      decide (ToUpper lib name = "UNSUBSCRIBE".toList → rest ≠ []) &&
      (master || decide (ToUpper lib name ≠ "SET".toList))


/-- An environment whose RDB file holds the empty-database snapshot that the
server itself sends on PSYNC. -/
def envSnapshot : Env := { now := 0, rdbFile := some RDBContent }

/-- No lock of the registry is held: `channelsMu` is free, and so is the lock
of every channel of the map. -/
def LocksFree (st : RedisState) : Prop :=
  st.channelsMu = RWMutex.unlocked ∧ ∀ p ∈ st.channels, p.2.mu = RWMutex.unlocked

/-- The channel `ch` is new to the registry of the session `s`, or `s` is
among its subscribers already. -/
def NewOrMember (s : RedisServer) (ch : Str) : Prop :=
  ∀ channel : Channel, chanGet s.state.channels ch = some channel → s.conn ∈ channel.connections

/-! # Properties -/

/-! ## Lemmas on numbers, slices and the codec -/

theorem wrap64_id (x : Int) (h0 : MinInt64 ≤ x) (h1 : x ≤ MaxInt64) : wrap64 x = x := by
  unfold wrap64; unfold MinInt64 at h0; unfold MaxInt64 at h1; omega

theorem wrap64_lt (x : Int) : wrap64 x ≤ MaxInt64 := by
  unfold wrap64 MaxInt64; omega

theorem wrap64_ge (x : Int) : MinInt64 ≤ wrap64 x := by
  unfold wrap64 MinInt64; omega

theorem digitChar_isDigit (d : Nat) (h : d < 10) : isDigit (digitChar d) = true := by
  interval_cases d <;> decide

theorem digitChar_toNat (d : Nat) (h : d < 10) : (digitChar d).toNat - 48 = d := by
  interval_cases d <;> decide

theorem digitChar_ne_cr (d : Nat) (h : d < 10) : digitChar d ≠ '\r' := by
  interval_cases d <;> decide

theorem isDigit_ne_cr (c : Char) (h : isDigit c = true) : c ≠ '\r' := by
  intro hc; subst hc; revert h; decide

theorem decimalFuel_digits (fuel n : Nat) : ∀ c ∈ decimalFuel fuel n, isDigit c = true := by
  induction fuel generalizing n with
  | zero => intro c hc; simp [decimalFuel] at hc
  | succ f ih =>
    intro c hc
    unfold decimalFuel at hc
    split at hc
    · simp at hc; subst hc; exact digitChar_isDigit n (by assumption)
    · simp at hc
      rcases hc with hc | hc
      · exact ih _ c hc
      · subst hc; exact digitChar_isDigit _ (Nat.mod_lt _ (by decide))

theorem digitsVal_append (xs : Str) (c : Char) (n : Nat) :
    digitsVal (xs ++ [c]) n = digitsVal xs n * 10 + (c.toNat - 48) := by
  induction xs generalizing n with
  | nil => simp [digitsVal]
  | cons x xs ih => simp [digitsVal, ih]

theorem digitsVal_decimalFuel (fuel n : Nat) (h : n < fuel) : digitsVal (decimalFuel fuel n) 0 = n := by
  induction fuel generalizing n with
  | zero => omega
  | succ f ih =>
    unfold decimalFuel
    split
    · simp [digitsVal, digitChar_toNat n (by assumption)]
    · rw [digitsVal_append, ih (n / 10) (by omega), digitChar_toNat _ (Nat.mod_lt _ (by decide))]
      omega

theorem decimalFuel_ne_nil (fuel n : Nat) (h : n < fuel) : decimalFuel fuel n ≠ [] := by
  cases fuel with
  | zero => omega
  | succ f => unfold decimalFuel; split <;> simp

theorem decimal_digits (n : Nat) : ∀ c ∈ decimal n, isDigit c = true := decimalFuel_digits _ _
theorem digitsVal_decimal (n : Nat) : digitsVal (decimal n) 0 = n := digitsVal_decimalFuel _ _ (by omega)
theorem decimal_ne_nil (n : Nat) : decimal n ≠ [] := decimalFuel_ne_nil _ _ (by omega)

theorem digitsVal_ge (cs : Str) (n : Nat) : n ≤ digitsVal cs n := by
  induction cs generalizing n with
  | nil => simp [digitsVal]
  | cons c cs ih => simp only [digitsVal]; have := ih (n * 10 + (c.toNat - 48)); omega

theorem ParseUintLoop_digits (cs : Str) (n : Nat) (hd : ∀ c ∈ cs, isDigit c = true)
    (hn : n ≤ MaxUint64) :
    ParseUintLoop cs n =
      if digitsVal cs n ≤ MaxUint64 then (digitsVal cs n, none)
      else (MaxUint64, some NumError.ErrRange) := by
  induction cs generalizing n with
  | nil => simp [ParseUintLoop, digitsVal, hn]
  | cons c cs ih =>
    have hc : isDigit c = true := hd c (by simp)
    have hcs : ∀ c ∈ cs, isDigit c = true := fun x hx => hd x (by simp [hx])
    simp only [ParseUintLoop, hc, digitsVal]
    have hge := digitsVal_ge cs (n * 10 + (c.toNat - 48))
    unfold MaxUint64 at *
    by_cases h1 : n ≥ 18446744073709551615 / 10 + 1
    · have : ¬ digitsVal cs (n * 10 + (c.toNat - 48)) ≤ 18446744073709551615 := by omega
      simp [h1, this]
    · by_cases h2 : n * 10 + (c.toNat - 48) > 18446744073709551615
      · have : ¬ digitsVal cs (n * 10 + (c.toNat - 48)) ≤ 18446744073709551615 := by omega
        simp [h1, h2, this]
      · simp only [h1, h2, Bool.not_true, Bool.false_eq_true, if_false]
        exact ih _ hcs (by omega)

theorem ParseUint_decimal (n : Nat) :
    ParseUint (decimal n) =
      if n ≤ MaxUint64 then (n, none) else (MaxUint64, some NumError.ErrRange) := by
  have hne := decimal_ne_nil n
  unfold ParseUint
  split
  · rename_i h; exact absurd h hne
  · rw [ParseUintLoop_digits _ _ (decimal_digits n) (by decide), digitsVal_decimal]


theorem isDigit_ne_sign (c : Char) (h : isDigit c = true) : c ≠ '+' ∧ c ≠ '-' := by
  constructor <;> (intro hc; subst hc; revert h; decide)

theorem Atoi_decimal (n : Nat) :
    Atoi (decimal n) =
      if (n : Int) ≤ MaxInt64 then ((n : Int), none) else (MaxInt64, some NumError.ErrRange) := by
  have hne := decimal_ne_nil n
  have hd := decimal_digits n
  have hp := ParseUint_decimal n
  unfold Atoi ParseInt
  cases hdec : decimal n with
  | nil => exact absurd hdec hne
  | cons c cs =>
    rw [hdec] at hd hp
    have hc := isDigit_ne_sign c (hd c (by simp))
    simp only [hc.1, hc.2, or_self, if_false, decide_False, hp]
    unfold MaxUint64 MaxInt64
    by_cases h1 : n ≤ 18446744073709551615
    · by_cases h2 : (n : Int) ≤ 9223372036854775807
      · have h3 : ¬ n ≥ 9223372036854775808 := by omega
        simp [h1, h2, h3]
      · have h3 : n ≥ 9223372036854775808 := by omega
        simp [h1, h2, h3]
    · have h2 : ¬ (n : Int) ≤ 9223372036854775807 := by omega
      simp [h1, h2]

theorem Atoi_Itoa (n : Int) (h0 : MinInt64 ≤ n) (h1 : n ≤ MaxInt64) : Atoi (Itoa n) = (n, none) := by
  unfold Itoa
  by_cases hn : n < 0
  · simp only [hn, if_true]
    have hp := ParseUint_decimal n.natAbs
    unfold Atoi ParseInt
    unfold MinInt64 at h0
    unfold MaxUint64 at hp
    have h2 : n.natAbs ≤ 18446744073709551615 := by omega
    have h3 : ¬ n.natAbs > 9223372036854775808 := by omega
    simp [hp, h2, h3]
    rw [abs_of_neg hn]; omega
  · simp only [hn, if_false]
    rw [Atoi_decimal]
    have : ((n.toNat : Nat) : Int) = n := by omega
    simp [this, h1]



theorem slice_mid {α : Type} (p m q : List α) :
    slice (p ++ m ++ q) (p.length : Int) ((p.length : Int) + (m.length : Int)) = some m := by
  unfold slice
  have h : (0 : Int) ≤ p.length ∧ (p.length : Int) ≤ p.length + m.length ∧
      (p.length : Int) + m.length ≤ ((p ++ m ++ q).length : Int) := by
    simp only [List.length_append, Nat.cast_add]; omega
  rw [if_pos h]
  have h1 : ((p.length : Int)).toNat = p.length := by omega
  have h2 : ((p.length : Int) + (m.length : Int)).toNat - p.length = m.length := by omega
  rw [h1, h2, List.append_assoc, List.drop_left, List.take_left]

theorem slice_mid' {α : Type} (p m q : List α) (lo hi : Int) (hlo : lo = p.length)
    (hhi : hi = (p.length : Int) + m.length) : slice (p ++ m ++ q) lo hi = some m := by
  subst hlo hhi; exact slice_mid p m q

theorem sliceFrom_append {α : Type} (p q : List α) (lo : Int) (hlo : lo = p.length) :
    sliceFrom (p ++ q) lo = some q := by
  unfold sliceFrom
  have := slice_mid' p q [] lo ((p ++ q).length) hlo (by simp)
  simpa using this

theorem indexOf_CRLF (ds tail : Str) (h : ∀ c ∈ ds, c ≠ '\r') :
    indexOf CRLF (ds ++ CRLF ++ tail) = some ds.length := by
  induction ds with
  | nil => simp [indexOf, CRLF]
  | cons d ds ih =>
    have hd : d ≠ '\r' := h d (by simp)
    have ih' := ih (fun c hc => h c (by simp [hc]))
    have hp : ¬ (CRLF.isPrefixOf (d :: (ds ++ CRLF ++ tail))) = true := by
      simp [CRLF, List.isPrefixOf, Ne.symm hd]
    show indexOf CRLF (d :: (ds ++ CRLF ++ tail)) = _
    rw [indexOf, if_neg hp, ih']; simp

theorem Index_CRLF (ds tail : Str) (h : ∀ c ∈ ds, c ≠ '\r') :
    Index (ds ++ CRLF ++ tail) CRLF = ds.length := by
  unfold Index; rw [indexOf_CRLF ds tail h]



theorem foldl_bulk (xs : List Str) (init : Str) :
    xs.foldl (fun result o => result ++ (['$'] ++ Itoa o.length ++ CRLF ++ o ++ CRLF)) init
      = init ++ frames xs := by
  induction xs generalizing init with
  | nil => simp [frames]
  | cons x xs ih => simp only [List.foldl_cons, ih, frames, bulk]; simp

theorem encodeBulkArray_eq (args : List Str) :
    encodeBulkArray args = ['*'] ++ Itoa args.length ++ CRLF ++ frames args := by
  unfold encodeBulkArray; rw [foldl_bulk]

theorem bulkArray_eq (args : List Str) :
    bulkArray args = ['*'] ++ Itoa args.length ++ CRLF ++ frames args := by
  unfold bulkArray
  have := foldl_bulk args (['*'] ++ Itoa args.length ++ CRLF)
  simpa [bulk] using this

theorem Itoa_natCast (n : Nat) : Itoa (n : Int) = decimal n := by
  unfold Itoa; simp

theorem decimal_ne_cr (n : Nat) : ∀ c ∈ decimal n, c ≠ '\r' :=
  fun c hc => isDigit_ne_cr c (decimal_digits n c hc)

theorem RESPToArrayLoop_step (n : Nat) (a tail : Str) (acc : List Str)
    (hb : ((bulk a ++ tail).length : Int) ≤ MaxInt64) :
    RESPToArrayLoop (n + 1) (bulk a ++ tail) acc = RESPToArrayLoop n tail (acc ++ [a]) := by
  have hlen : ((bulk a ++ tail).length : Int)
      = 1 + (decimal a.length).length + 2 + a.length + 2 + tail.length := by
    simp [bulk, Itoa_natCast, CRLF]; omega
  have hrest : bulk a ++ tail = (['$'] ++ decimal a.length) ++ CRLF ++ (a ++ CRLF ++ tail) := by
    simp [bulk, Itoa_natCast]
  have h1 : HasPrefix (bulk a ++ tail) ['$'] = true := by simp [bulk, HasPrefix]
  have h2 : Index (bulk a ++ tail) CRLF = 1 + ((decimal a.length).length : Int) := by
    rw [hrest, Index_CRLF]
    · simp; omega
    · intro c hc
      simp at hc
      rcases hc with hc | hc
      · subst hc; decide
      · exact decimal_ne_cr _ c hc
  have h3 : slice (bulk a ++ tail) 1 (1 + ((decimal a.length).length : Int)) = some (decimal a.length) := by
    have : bulk a ++ tail = ['$'] ++ decimal a.length ++ (CRLF ++ a ++ CRLF ++ tail) := by
      simp [bulk, Itoa_natCast]
    rw [this]; exact slice_mid' _ _ _ _ _ (by simp) (by simp)
  have h4 : Atoi (decimal a.length) = ((a.length : Int), none) := by
    rw [Atoi_decimal, if_pos (by omega)]
  have hds : (1 : Int) + (decimal a.length).length + 2 + a.length ≤ MaxInt64 := by omega
  have h5 : wrap64 (1 + ((decimal a.length).length : Int) + 2 + a.length)
      = 1 + ((decimal a.length).length : Int) + 2 + a.length :=
    wrap64_id _ (by unfold MinInt64; omega) hds
  have h6 : wrap64 (1 + ((decimal a.length).length : Int) + 2 + a.length + 2)
      = 1 + ((decimal a.length).length : Int) + 2 + a.length + 2 :=
    wrap64_id _ (by unfold MinInt64; omega) (by omega)
  have h7 : slice (bulk a ++ tail) (1 + ((decimal a.length).length : Int) + 2)
      (1 + ((decimal a.length).length : Int) + 2 + a.length) = some a := by
    have : bulk a ++ tail = (['$'] ++ decimal a.length ++ CRLF) ++ a ++ (CRLF ++ tail) := by
      simp [bulk, Itoa_natCast]
    rw [this]; exact slice_mid' _ _ _ _ _ (by simp [CRLF]; omega) (by simp [CRLF]; omega)
  have h8 : slice (bulk a ++ tail) (1 + ((decimal a.length).length : Int) + 2 + a.length)
      (1 + ((decimal a.length).length : Int) + 2 + a.length + 2) = some CRLF := by
    have : bulk a ++ tail = (['$'] ++ decimal a.length ++ CRLF ++ a) ++ CRLF ++ tail := by
      simp [bulk, Itoa_natCast]
    rw [this]; exact slice_mid' _ _ _ _ _ (by simp [CRLF]; omega) (by simp [CRLF]; omega)
  have h9 : sliceFrom (bulk a ++ tail) (1 + ((decimal a.length).length : Int) + 2 + a.length + 2)
      = some tail := by
    have : bulk a ++ tail = (['$'] ++ decimal a.length ++ CRLF ++ a ++ CRLF) ++ tail := by
      simp [bulk, Itoa_natCast]
    rw [this]; exact sliceFrom_append _ _ _ (by simp [CRLF]; omega)
  have h10 : ¬ ((bulk a ++ tail).length : Int) < 1 + ((decimal a.length).length : Int) + 2 + a.length + 2 := by
    omega
  have h11 : ¬ (1 + ((decimal a.length).length : Int) < 0) := by omega
  rw [RESPToArrayLoop]
  simp only [h1, h2, h3, h4, h5, h6, h7, h8, h9, h10, h11, Bool.not_true, Bool.false_eq_true,
    if_false, ne_eq, not_true_eq_false]

theorem RESPToArrayLoop_frames (args : List Str) (acc : List Str)
    (hb : ((frames args).length : Int) ≤ MaxInt64) :
    RESPToArrayLoop args.length (frames args) acc = Result.ok (acc ++ args) := by
  induction args generalizing acc with
  | nil => simp [RESPToArrayLoop]
  | cons a as ih =>
    simp only [frames, List.length_cons] at hb ⊢
    rw [RESPToArrayLoop_step _ _ _ _ hb, ih]
    · simp
    · simp only [List.length_append, Nat.cast_add] at hb; omega

theorem RESPToArray_encodeBulkArray (args : List Str)
    (hb : ((encodeBulkArray args).length : Int) ≤ MaxInt64)
    (hcap : (args.length : Int) ≤ maxSliceCap) :
    RESPToArray (encodeBulkArray args) = Result.ok args := by
  rw [encodeBulkArray_eq, Itoa_natCast] at hb ⊢
  have hlen : ((['*'] ++ decimal args.length ++ CRLF ++ frames args).length : Int)
      = 1 + (decimal args.length).length + 2 + (frames args).length := by
    simp [CRLF]; omega
  have hfl : args.length ≤ (frames args).length := by
    clear hb hlen hcap
    induction args with
    | nil => simp
    | cons a as ih => simp [frames, bulk]; omega
  have h1 : HasPrefix (['*'] ++ decimal args.length ++ CRLF ++ frames args) ['*'] = true := by
    simp [HasPrefix]
  have h2 : Index (['*'] ++ decimal args.length ++ CRLF ++ frames args) CRLF
      = 1 + ((decimal args.length).length : Int) := by
    rw [Index_CRLF]
    · simp; omega
    · intro c hc
      simp at hc
      rcases hc with hc | hc
      · subst hc; decide
      · exact decimal_ne_cr _ c hc
  have h3 : slice (['*'] ++ decimal args.length ++ CRLF ++ frames args) 1
      (1 + ((decimal args.length).length : Int)) = some (decimal args.length) := by
    rw [List.append_assoc (['*'] ++ decimal args.length)]
    exact slice_mid' _ _ _ _ _ (by simp) (by simp)
  have h4 : Atoi (decimal args.length) = ((args.length : Int), none) := by
    rw [Atoi_decimal, if_pos (by omega)]
  have h5 : sliceFrom (['*'] ++ decimal args.length ++ CRLF ++ frames args)
      (1 + ((decimal args.length).length : Int) + 2) = some (frames args) :=
    sliceFrom_append _ _ _ (by simp [CRLF]; omega)
  have h6 : ¬ (1 + ((decimal args.length).length : Int) < 0) := by omega
  have h7 : ¬ ((args.length : Int) < 0 ∨ (args.length : Int) > maxSliceCap) := by omega
  unfold RESPToArray
  simp only [h1, h2, h3, h4, h5, h6, h7, Bool.not_true, Bool.false_eq_true, if_false,
    Int.toNat_ofNat]
  rw [RESPToArrayLoop_frames _ _ (by omega)]
  simp

/-! ## The locks of SUBSCRIBE -/

theorem subscribeRegister_done (s s1 : RedisServer) (chName : Str) (out : Str)
    (h : subscribeRegister s chName = Locking.done s1) :
    s1 = (registerStep (s, out) chName).1 ∧ s.state.channelsMu = RWMutex.unlocked := by
  unfold subscribeRegister at h
  unfold registerStep
  dsimp only
  by_cases hm : s.state.channelsMu = RWMutex.unlocked
  · rw [if_neg (not_not.mpr hm)] at h
    refine ⟨?_, hm⟩
    cases hg : chanGet s.state.channels chName with
    | none =>
      rw [hg] at h
      cases h; rfl
    | some channel =>
      rw [hg] at h
      dsimp only at h ⊢
      split_ifs at h with h1 h2
      · cases h; rw [if_pos h2]
      · cases h; rw [if_neg h2]
  · rw [if_pos hm] at h; cases h

/-- An iteration of the loop of SUBSCRIBE that goes on has done what
`registerStep` does, and has met no lock that is held. -/
theorem subscribeStep_done (acc r : RedisServer × Str) (chName : Str)
    (h : subscribeStep acc chName = Locking.done r) : r = registerStep acc chName := by
  unfold subscribeStep at h
  cases hr : subscribeRegister acc.1 chName with
  | blocked s1 => rw [hr] at h; cases h
  | done s1 =>
    rw [hr] at h
    dsimp only at h
    have h1 := (subscribeRegister_done acc.1 s1 chName acc.2 hr).1
    split_ifs at h
    cases h
    rw [h1]
    rfl

theorem subscribeLoop_done (chs : List Str) (acc r : RedisServer × Str)
    (h : subscribeLoop chs acc = Locking.done r) : r = chs.foldl registerStep acc := by
  induction chs generalizing acc with
  | nil => simp only [subscribeLoop] at h; cases h; rfl
  | cons ch chs ih =>
    simp only [subscribeLoop] at h
    cases hs : subscribeStep acc ch with
    | blocked s1 => rw [hs] at h; cases h
    | done acc1 =>
      rw [hs] at h
      rw [List.foldl_cons, ← subscribeStep_done acc acc1 ch hs]
      exact ih acc1 h

/-- A call of SUBSCRIBE blocks or does what `registerSUBSCRIBE` does. -/
theorem cmdSUBSCRIBE_cases (s : RedisServer) (tempArr : List Str) :
    cmdSUBSCRIBE s tempArr = none ∨ cmdSUBSCRIBE s tempArr = registerSUBSCRIBE s tempArr := by
  unfold cmdSUBSCRIBE registerSUBSCRIBE
  split
  · exact Or.inr rfl
  · cases hl : subscribeLoop (tempArr.drop 1) ({ s with SubscribedMode := true }, []) with
    | blocked s1 => exact Or.inl rfl
    | done r =>
      right
      dsimp only
      rw [subscribeLoop_done _ _ _ hl]

/-- A call of SUBSCRIBE returns or blocks, and never both. -/
theorem blockedSUBSCRIBE_iff (s : RedisServer) (tempArr : List Str) :
    (blockedSUBSCRIBE s tempArr).isSome = true ↔ cmdSUBSCRIBE s tempArr = none := by
  unfold cmdSUBSCRIBE blockedSUBSCRIBE
  split
  · simp [fail]
  · cases hl : subscribeLoop (tempArr.drop 1) ({ s with SubscribedMode := true }, []) with
    | blocked s1 => simp
    | done r => simp [respond]

/-- The session that an iteration of the loop of SUBSCRIBE leaves behind when
it blocks: the session before the iteration or the session with the channel
registered, with `channelsMu` in some state. -/
theorem subscribeStep_blocked (acc : RedisServer × Str) (s1 : RedisServer) (chName : Str)
    (h : subscribeStep acc chName = Locking.blocked s1) :
    ∃ m : RWMutex, s1 = acc.1.lockChannels m ∨ s1 = (registerStep acc chName).1.lockChannels m := by
  unfold subscribeStep at h
  cases hr : subscribeRegister acc.1 chName with
  | blocked s2 =>
    rw [hr] at h
    cases h
    unfold subscribeRegister at hr
    split_ifs at hr with h1
    · cases hr; exact ⟨acc.1.state.channelsMu, Or.inl rfl⟩
    · split at hr
      · cases hr
      · split_ifs at hr
        cases hr; exact ⟨RWMutex.locked, Or.inl rfl⟩
  | done s2 =>
    rw [hr] at h
    dsimp only at h
    have h1 := (subscribeRegister_done acc.1 s2 chName acc.2 hr).1
    split_ifs at h
    cases h
    exact ⟨RWMutex.readLocked, Or.inr (by rw [h1])⟩

theorem subscribeLoop_blocked (chs : List Str) (acc : RedisServer × Str) (s1 : RedisServer)
    (h : subscribeLoop chs acc = Locking.blocked s1) :
    ∃ (pre : List Str) (m : RWMutex), s1 = (pre.foldl registerStep acc).1.lockChannels m := by
  induction chs generalizing acc with
  | nil => simp only [subscribeLoop] at h; cases h
  | cons ch chs ih =>
    simp only [subscribeLoop] at h
    cases hs : subscribeStep acc ch with
    | blocked s2 =>
      rw [hs] at h
      cases h
      obtain ⟨m, hm | hm⟩ := subscribeStep_blocked acc s1 ch hs
      · exact ⟨[], m, hm⟩
      · exact ⟨[ch], m, hm⟩
    | done acc1 =>
      rw [hs] at h
      obtain ⟨pre, m, hm⟩ := ih acc1 h
      refine ⟨ch :: pre, m, ?_⟩
      rw [List.foldl_cons, ← subscribeStep_done acc acc1 ch hs]
      exact hm

/-- The session that a call of SUBSCRIBE leaves behind when it blocks: the
session with the subscribed flag set and some of the channels registered, with
`channelsMu` in some state. -/
theorem blockedSUBSCRIBE_eq (s s1 : RedisServer) (tempArr : List Str)
    (h : blockedSUBSCRIBE s tempArr = some s1) :
    ∃ (pre : List Str) (m : RWMutex),
      s1 = (pre.foldl registerStep ({ s with SubscribedMode := true }, [])).1.lockChannels m := by
  unfold blockedSUBSCRIBE at h
  split at h
  · cases h
  · cases hl : subscribeLoop (tempArr.drop 1) ({ s with SubscribedMode := true }, []) with
    | done r => rw [hl] at h; cases h
    | blocked s2 =>
      rw [hl] at h
      cases h
      exact subscribeLoop_blocked _ _ _ hl

/-! ## What the executor keeps of a session -/

theorem Keeps.refl (s : RedisServer) : Keeps s s := ⟨rfl, rfl, rfl, rfl, id⟩

theorem Keeps.send {s s1 : RedisServer} (h : Keeps s s1) (b : Str) : Keeps s (s1.send b) := h

theorem write_fold_storage (cs : List Conn) (b : Str) (st : RedisState) :
    (cs.foldl (fun st c => st.write c b) st).storage = st.storage := by
  induction cs generalizing st with
  | nil => rfl
  | cons c cs ih => simp only [List.foldl_cons]; rw [ih]; rfl

theorem Keeps.propagate {s s1 : RedisServer} (h : Keeps s s1) (args : List Str) :
    Keeps s (s1.propagate args) := by
  refine ⟨h.1, h.2.1, h.2.2.1, h.2.2.2.1, fun hs => ?_⟩
  have := h.2.2.2.2 hs
  intro key value hv
  have hst : (s1.propagate args).state.storage = s1.state.storage :=
    write_fold_storage _ _ _
  rw [hst] at hv
  exact this key value hv

theorem Keeps.store {s s1 : RedisServer} (h : Keeps s s1) (key : Str) (val : storageVal)
    (hv : val.val ≠ Value.list []) : Keeps s (s1.store key val) := by
  refine ⟨h.1, h.2.1, h.2.2.1, h.2.2.2.1, fun hs => ?_⟩
  have := h.2.2.2.2 hs
  intro k value hk
  simp only [RedisServer.store, Function.update_apply] at hk
  split at hk
  · cases hk; exact hv
  · exact this k value hk

theorem Keeps.delete {s s1 : RedisServer} (h : Keeps s s1) (key : Str) : Keeps s (s1.delete key) := by
  refine ⟨h.1, h.2.1, h.2.2.1, h.2.2.2.1, fun hs => ?_⟩
  have := h.2.2.2.2 hs
  intro k value hk
  simp only [RedisServer.delete, Function.update_apply] at hk
  split at hk
  · cases hk
  · exact this k value hk

theorem Keeps.setChannel {s s1 : RedisServer} (h : Keeps s s1) (chName : Str) (ch : Channel) :
    Keeps s (s1.setChannel chName ch) := h

theorem KeepsOut.none (s : RedisServer) : KeepsOut s none := by intro p hp; cases hp

theorem KeepsOut.respond {s s1 : RedisServer} (h : Keeps s s1) (r : Str) : KeepsOut s (respond s1 r) := by
  intro p hp; cases hp; exact h

theorem KeepsOut.fail {s s1 : RedisServer} (h : Keeps s s1) (r : Str) : KeepsOut s (fail s1 r) := by
  intro p hp; cases hp; exact h

theorem KeepsOut.bind {α : Type} (s : RedisServer) (x : Option α)
    (f : α → Option (RedisServer × CommandResponse)) (h : ∀ a, some a = x → KeepsOut s (f a)) :
    KeepsOut s (x.bind f) := by
  cases x with
  | none => exact KeepsOut.none s
  | some a => exact h a rfl

theorem KeepsOut.ite (s : RedisServer) (c : Prop) [Decidable c]
    (a b : Option (RedisServer × CommandResponse)) (ha : KeepsOut s a) (hb : KeepsOut s b) :
    KeepsOut s (if c then a else b) := by
  split <;> assumption

theorem listLenReply_keeps {s s1 : RedisServer} (h : Keeps s s1) (key : Str) :
    KeepsOut s (listLenReply s1 key) := by
  unfold listLenReply
  split
  · split
    · exact KeepsOut.respond h _
    · exact KeepsOut.none _
  · exact KeepsOut.none _

theorem sliceFrom_two_ne_nil (args newElems : List Str) (h : ¬ args.length < 3)
    (hs : some newElems = sliceFrom args 2) : newElems ≠ [] := by
  unfold sliceFrom slice at hs
  split at hs
  · cases hs
    intro h0
    have := congrArg List.length h0
    simp at this
    omega
  · cases hs


theorem cmdRPUSH_keeps (e : Env) (s : RedisServer) (args : List Str) :
    KeepsOut s (cmdRPUSH e s args) := by
  unfold cmdRPUSH
  split
  · exact KeepsOut.fail (Keeps.refl s) _
  · rename_i hlen
    refine KeepsOut.bind _ _ _ (fun key _ => KeepsOut.bind _ _ _ (fun newElems hne => ?_))
    have hne := sliceFrom_two_ne_nil _ _ hlen hne
    split
    · split
      · exact listLenReply_keeps ((Keeps.refl s).store _ _ (by simp [hne])) _
      · exact KeepsOut.fail (Keeps.refl s) _
    · exact listLenReply_keeps ((Keeps.refl s).store _ _ (by simp [hne])) _

theorem foldl_cons_ne_nil (xs l : List Str) (h : xs ≠ []) :
    xs.foldl (fun list elem => [elem] ++ list) l ≠ [] := by
  induction xs generalizing l with
  | nil => exact absurd rfl h
  | cons x xs ih =>
    simp only [List.foldl_cons]
    cases xs with
    | nil => simp
    | cons y ys => exact ih _ (by simp)

theorem cmdLPUSH_keeps (e : Env) (s : RedisServer) (args : List Str) :
    KeepsOut s (cmdLPUSH e s args) := by
  unfold cmdLPUSH
  split
  · exact KeepsOut.fail (Keeps.refl s) _
  · rename_i hlen
    refine KeepsOut.bind _ _ _ (fun key _ => KeepsOut.bind _ _ _ (fun newElems hne => ?_))
    have hne := sliceFrom_two_ne_nil _ _ hlen hne
    split
    · split
      · refine listLenReply_keeps ((Keeps.refl s).store _ _ ?_) _
        rename_i l _
        have := foldl_cons_ne_nil newElems l hne
        simpa using this
      · exact KeepsOut.fail (Keeps.refl s) _
    · exact listLenReply_keeps ((Keeps.refl s).store _ _ (by simp [hne])) _

theorem popCount_keeps (s : RedisServer) (args : List Str) (key : Str) (value : storageVal)
    (list : List Str) (count : Int) : KeepsOut s (popCount s args key value list count) := by
  unfold popCount
  split
  · exact KeepsOut.respond (Keeps.refl s) _
  · refine KeepsOut.bind _ _ _ (fun removed _ => KeepsOut.bind _ _ _ (fun remaining _ => ?_))
    have hk : Keeps s (if remaining.length = 0 then s.delete key
        else s.store key { value with val := Value.list remaining }) := by
      split
      · exact (Keeps.refl s).delete _
      · rename_i h
        refine (Keeps.refl s).store _ _ ?_
        intro h0; simp at h0; simp [h0] at h
    dsimp only
    apply KeepsOut.ite
    · exact KeepsOut.bind _ _ _ (fun elem _ => KeepsOut.respond hk _)
    · exact KeepsOut.respond hk _

theorem cmdLPOP_keeps (s : RedisServer) (args : List Str) : KeepsOut s (cmdLPOP s args) := by
  unfold cmdLPOP
  repeat' first
    | exact KeepsOut.none _
    | apply popCount_keeps
    | apply KeepsOut.respond
    | apply KeepsOut.fail
    | (apply KeepsOut.bind; intro _ _)
    | apply KeepsOut.ite
    | split
    | exact Keeps.refl _


theorem write_fold_keeps {s s1 : RedisServer} (h : Keeps s s1) (cs : List Conn) (b : Str) :
    Keeps s { s1 with state := cs.foldl (fun st c => st.write c b) s1.state } := by
  refine ⟨h.1, h.2.1, h.2.2.1, h.2.2.2.1, fun hs => ?_⟩
  have := h.2.2.2.2 hs
  intro key value hv
  simp only [write_fold_storage] at hv
  exact this key value hv

theorem cmdPUBLISH_keeps (s : RedisServer) (args : List Str) :
    KeepsOut s (cmdPUBLISH s args) := by
  unfold cmdPUBLISH
  repeat' first
    | exact KeepsOut.none _
    | apply KeepsOut.respond
    | apply KeepsOut.fail
    | (apply KeepsOut.bind; intro _ _)
    | apply KeepsOut.ite
    | split
    | exact Keeps.refl _
    | exact write_fold_keeps (Keeps.refl _) _ _

theorem Keeps.subscribed {s s1 : RedisServer} (h : Keeps s s1) (b : Bool) :
    Keeps s { s1 with SubscribedMode := b } := h

theorem registerStep_keeps {s : RedisServer} (acc : RedisServer × Str) (chName : Str)
    (h : Keeps s acc.1) : Keeps s (registerStep acc chName).1 := by
  unfold registerStep
  dsimp only
  split
  · exact h.setChannel _ _
  · split
    · exact h
    · exact h.setChannel _ _

theorem unsubscribeStep_keeps {s : RedisServer} (acc : RedisServer × Str) (chName : Str)
    (h : Keeps s acc.1) : Keeps s (unsubscribeStep acc chName).1 := by
  unfold unsubscribeStep
  dsimp only
  split
  · exact h.setChannel _ _
  · exact h

theorem unsubscribeAllStep_keeps {s : RedisServer} (acc : RedisServer × Str) (entry : Str × Channel)
    (h : Keeps s acc.1) : Keeps s (unsubscribeAllStep acc entry).1 := by
  unfold unsubscribeAllStep
  exact h.setChannel _ _

theorem foldl_keeps {α : Type} {s : RedisServer} (step : RedisServer × Str → α → RedisServer × Str)
    (hstep : ∀ acc a, Keeps s acc.1 → Keeps s (step acc a).1) (xs : List α)
    (acc : RedisServer × Str) (h : Keeps s acc.1) : Keeps s (xs.foldl step acc).1 := by
  induction xs generalizing acc with
  | nil => exact h
  | cons x xs ih => exact ih _ (hstep acc x h)

theorem registerSUBSCRIBE_keeps (s : RedisServer) (args : List Str) :
    KeepsOut s (registerSUBSCRIBE s args) := by
  unfold registerSUBSCRIBE
  split
  · exact KeepsOut.fail (Keeps.refl s) _
  · exact KeepsOut.respond
      (foldl_keeps registerStep (fun acc a h => registerStep_keeps acc a h) _ _
        ((Keeps.refl s).subscribed true)) _

theorem cmdSUBSCRIBE_keeps (s : RedisServer) (args : List Str) :
    KeepsOut s (cmdSUBSCRIBE s args) := by
  rcases cmdSUBSCRIBE_cases s args with h | h <;> rw [h]
  · exact KeepsOut.none s
  · exact registerSUBSCRIBE_keeps s args

theorem cmdUNSUBSCRIBE_keeps (s : RedisServer) (args : List Str) :
    KeepsOut s (cmdUNSUBSCRIBE s args) := by
  unfold cmdUNSUBSCRIBE
  dsimp only
  split
  · exact KeepsOut.respond
      (foldl_keeps unsubscribeAllStep (fun acc a h => unsubscribeAllStep_keeps acc a h) _ _
        ((Keeps.refl s).subscribed true)) _
  · exact KeepsOut.respond
      (foldl_keeps unsubscribeStep (fun acc a h => unsubscribeStep_keeps acc a h) _ _
        ((Keeps.refl s).subscribed true)) _

theorem dispatch_keeps {lib : Lib} (e : Env) (s : RedisServer) (cmd : Str) (args : List Str) :
    KeepsOut s (dispatch lib e s cmd args) := by
  unfold dispatch cmdPING cmdECHO cmdSET cmdGET cmdCONFIG cmdKEYS cmdINFO cmdREPLCONF cmdPSYNC
    cmdTYPE cmdINCR cmdLRANGE cmdLLEN cmdZADD cmdZRANK cmdZRANGE cmdZCARD cmdZREM
  repeat' first
    | exact cmdRPUSH_keeps e s args
    | exact cmdLPUSH_keeps e s args
    | exact cmdLPOP_keeps s args
    | exact cmdSUBSCRIBE_keeps s args
    | exact cmdPUBLISH_keeps s args
    | exact cmdUNSUBSCRIBE_keeps s args
    | exact KeepsOut.none _
    | apply KeepsOut.respond
    | apply KeepsOut.fail
    | (apply KeepsOut.bind; intro _ _)
    | apply KeepsOut.ite
    | split
    | exact Keeps.refl _
    | apply Keeps.propagate
    | apply Keeps.send
    | apply Keeps.delete
    | apply Keeps.store
  all_goals simp_all

theorem executeCommand_keeps {lib : Lib} (e : Env) (s : RedisServer) (args : List Str) :
    KeepsOut s (executeCommand lib e s args) := by
  unfold executeCommand
  split
  · exact KeepsOut.fail (Keeps.refl s) _
  · dsimp only
    apply KeepsOut.ite
    · exact KeepsOut.fail (Keeps.refl s) _
    · exact dispatch_keeps _ _ _ _

/-! ## Lemmas on the executor -/

theorem executeCommand_normal {lib : Lib} (e : Env) (s : RedisServer) (name : Str) (rest : List Str)
    (h : s.SubscribedMode = false) :
    executeCommand lib e s (name :: rest) = dispatch lib e s (ToUpper lib name) (name :: rest) := by
  simp [executeCommand, h]

theorem dispatch_SET {lib : Lib} (e : Env) (s : RedisServer) (args : List Str) :
    dispatch lib e s "SET".toList args = cmdSET lib e s args := rfl

theorem dispatch_GET {lib : Lib} (e : Env) (s : RedisServer) (args : List Str) :
    dispatch lib e s "GET".toList args = cmdGET e s args := rfl

theorem dispatch_INCR {lib : Lib} (e : Env) (s : RedisServer) (args : List Str) :
    dispatch lib e s "INCR".toList args = cmdINCR e s args := rfl

theorem dispatch_RPUSH {lib : Lib} (e : Env) (s : RedisServer) (args : List Str) :
    dispatch lib e s "RPUSH".toList args = cmdRPUSH e s args := rfl

theorem dispatch_LPUSH {lib : Lib} (e : Env) (s : RedisServer) (args : List Str) :
    dispatch lib e s "LPUSH".toList args = cmdLPUSH e s args := rfl

theorem dispatch_LRANGE {lib : Lib} (e : Env) (s : RedisServer) (args : List Str) :
    dispatch lib e s "LRANGE".toList args = cmdLRANGE s args := rfl

theorem dispatch_LPOP {lib : Lib} (e : Env) (s : RedisServer) (args : List Str) :
    dispatch lib e s "LPOP".toList args = cmdLPOP s args := rfl

theorem dispatch_LLEN {lib : Lib} (e : Env) (s : RedisServer) (args : List Str) :
    dispatch lib e s "LLEN".toList args = cmdLLEN s args := rfl

theorem propagate_storage (s : RedisServer) (args : List Str) :
    (s.propagate args).state.storage = s.state.storage := by
  unfold RedisServer.propagate
  simp only
  generalize s.state.replicaConns = rs
  generalize s.state = st
  induction rs generalizing st with
  | nil => rfl
  | cons r rs ih => simp only [List.foldl_cons]; rw [ih]; rfl

theorem propagate_SubscribedMode (s : RedisServer) (args : List Str) :
    (s.propagate args).SubscribedMode = s.SubscribedMode := rfl

theorem wrap64_px_le (px : Int) (P : Int) (h0 : 0 ≤ px) (h1 : px ≤ P) :
    wrap64 (1000000 * px) ≤ P * 1000000 := by
  by_cases h : 1000000 * px ≤ MaxInt64
  · rw [wrap64_id _ (by unfold MinInt64; omega) h]; omega
  · have := wrap64_lt (1000000 * px)
    unfold MaxInt64 at *
    omega

theorem Atoi_decimal_fst (P : Nat) :
    0 ≤ (Atoi (decimal P)).1 ∧ (Atoi (decimal P)).1 ≤ (P : Int) := by
  rw [Atoi_decimal]
  split
  · simp
  · rename_i h; simp only; unfold MaxInt64 at *; omega

theorem bulkArray_eq_encodeBulkArray (l : List Str) : bulkArray l = encodeBulkArray l := by
  rw [bulkArray_eq, encodeBulkArray_eq]

theorem slice_take {α : Type} (l : List α) (hi : Int) (h0 : 0 ≤ hi) (h1 : hi ≤ l.length) :
    slice l 0 hi = some (l.take hi.toNat) := by
  unfold slice
  rw [if_pos ⟨le_refl _, h0, h1⟩]
  simp

theorem slice_all {α : Type} (l : List α) (hi : Int) (h : hi = l.length) : slice l 0 hi = some l := by
  subst h
  rw [slice_take l _ (by omega) (le_refl _)]
  simp

theorem slice_range {α : Type} (l : List α) (lo hi : Int) (h0 : 0 ≤ lo) (h1 : lo ≤ hi)
    (h2 : hi ≤ l.length) : slice l lo hi = some ((l.drop lo.toNat).take (hi - lo).toNat) := by
  unfold slice
  rw [if_pos ⟨h0, h1, h2⟩]
  congr 3
  omega

theorem LRANGE_all {lib : Lib} (e : Env) (g : RedisServer) (k : Str) (value : storageVal) (L : List Str)
    (hmode : g.SubscribedMode = false) (hk : g.state.storage k = some value)
    (hv : value.val = Value.list L) (hne : L ≠ []) :
    executeCommand lib e g ["LRANGE".toList, k, ['0'], ['-', '1']]
      = some (g, { Response := encodeBulkArray L, Error := [] }) := by
  rw [executeCommand_normal _ _ _ _ hmode]
  show dispatch lib e g "LRANGE".toList _ = _
  have h0 : Atoi ['0'] = (0, none) := by decide
  have h1 : Atoi ['-', '1'] = (-1, none) := by decide
  have hlen : 0 < L.length := List.length_pos.mpr hne
  have hs : slice L 0 ((L.length : Int) + -1 + 1) = some L := slice_all _ _ (by omega)
  have hc1 : ¬ ((L.length : Int) + -1 < 0) := by omega
  have hc2 : ¬ ((L.length : Int) ≤ 0 ∨ (L.length : Int) + -1 < 0) := by omega
  have hc3 : ¬ ((L.length : Int) ≤ (L.length : Int) + -1) := by omega
  have hd : dispatch lib e g "LRANGE".toList ["LRANGE".toList, k, ['0'], ['-', '1']]
      = cmdLRANGE g ["LRANGE".toList, k, ['0'], ['-', '1']] := rfl
  rw [hd]
  have hc4 : ¬ ((L.length : Int) ≤ (L.length : Int) + -1) := by omega
  have hs2 : slice L 0 (L.length : Int) = some L := slice_all _ _ rfl
  simp [cmdLRANGE, index, h0, h1, hk, hv, hne, hc1, hc4, hs2, respond, bulkArray_eq_encodeBulkArray]

theorem cmdLRANGE_list (s : RedisServer) (c k a b : Str) (start stop : Int) (value : storageVal)
    (L : List Str) (ha : Atoi a = (start, none)) (hb : Atoi b = (stop, none))
    (hk : s.state.storage k = some value) (hv : value.val = Value.list L) :
    cmdLRANGE s [c, k, a, b] = some (s, { Response := lrangeReply L start stop, Error := [] }) := by
  have hlen : ¬ ([c, k, a, b].length < 4) := by simp
  have i1 : index [c, k, a, b] 1 = some k := rfl
  have i2 : index [c, k, a, b] 2 = some a := rfl
  have i3 : index [c, k, a, b] 3 = some b := rfl
  unfold cmdLRANGE
  rw [if_neg hlen]
  simp only [Option.bind_eq_bind, i1, i2, i3, Option.some_bind, ha, hb, hk, hv]
  have hs : (if start < 0 then (if (L.length : Int) + start < 0 then 0 else (L.length : Int) + start)
      else start) = clampIndex L.length start := by
    unfold clampIndex; split_ifs <;> omega
  have he : (if stop < 0 then (if (L.length : Int) + stop < 0 then 0 else (L.length : Int) + stop)
      else stop) = clampIndex L.length stop := by
    unfold clampIndex; split_ifs <;> omega
  have hs0 : 0 ≤ clampIndex L.length start := by unfold clampIndex; split_ifs <;> omega
  rw [hs, he]
  unfold lrangeReply
  generalize clampIndex L.length start = S at *
  generalize clampIndex L.length stop = E at *
  by_cases hc : S ≥ (L.length : Int) ∨ S > E
  · rw [if_pos hc, if_pos hc]; rfl
  · rw [if_neg hc, if_neg hc]
    have hm : (if E ≥ (L.length : Int) then (L.length : Int) - 1 else E) = min E ((L.length : Int) - 1) := by
      split_ifs <;> omega
    rw [hm, slice_range L S (min E ((L.length : Int) - 1) + 1) hs0 (by omega) (by omega)]
    have hcount : (min E ((L.length : Int) - 1) + 1 - S).toNat
        = (min E ((L.length : Int) - 1) - S).toNat + 1 := by omega
    rw [hcount, Option.some_bind, bulkArray_eq_encodeBulkArray]
    rfl

theorem foldl_prepend (xs l : List Str) :
    xs.foldl (fun list elem => [elem] ++ list) l = xs.reverse ++ l := by
  induction xs generalizing l with
  | nil => rfl
  | cons x xs ih => simp [List.foldl_cons, ih]

theorem popCount_single (s : RedisServer) (c k x : Str) (xs : List Str) (value : storageVal) :
    popCount s [c, k] k value (x :: xs) 1
      = some (afterPop s k value xs, { Response := bulk x, Error := [] }) := by
  unfold popCount
  have h1 : ¬ ((1 : Int) = 0) := by decide
  have h2 : ¬ ((1 : Int) > ((x :: xs).length : Int)) := by simp
  have h3 : slice (x :: xs) 0 1 = some [x] := by
    rw [slice_take _ _ (by decide) (by simp)]; rfl
  have h4 : sliceFrom (x :: xs) 1 = some xs := sliceFrom_append [x] xs 1 rfl
  rw [if_neg h1]
  simp only [Option.bind_eq_bind, if_neg h2, h3, h4, Option.some_bind, index]
  simp [afterPop, respond, bulk]

theorem popCount_many (s : RedisServer) (c k a : Str) (L : List Str) (value : storageVal)
    (count : Int) (hc : 1 ≤ count) :
    popCount s [c, k, a] k value L count
      = some (afterPop s k value (L.drop (min count L.length).toNat),
          { Response := encodeBulkArray (L.take (min count L.length).toNat), Error := [] }) := by
  unfold popCount
  have h1 : ¬ (count = 0) := by omega
  have hm : (if count > (L.length : Int) then (L.length : Int) else count) = min count L.length := by
    split_ifs <;> omega
  rw [if_neg h1]
  simp only [Option.bind_eq_bind, hm]
  rw [slice_take L _ (by omega) (by omega)]
  have h4 : sliceFrom L (min count (L.length : Int))
      = some (L.drop (min count (L.length : Int)).toNat) := by
    unfold sliceFrom
    rw [slice_range L _ _ (by omega) (by omega) (le_refl _)]
    congr 1
    apply List.take_of_length_le
    simp
    omega
  rw [h4]
  simp [afterPop, respond, bulkArray_eq_encodeBulkArray]

/-! ## The store never holds an empty list -/

theorem NoEmptyList_of_storage_eq {st st1 : RedisState} (h : st1.storage = st.storage)
    (hs : NoEmptyList st) : NoEmptyList st1 := by
  intro key value hv
  rw [h] at hv
  exact hs key value hv

theorem executeCommand_NoEmptyList {lib : Lib} (e : Env) (s s1 : RedisServer) (args : List Str)
    (r : CommandResponse) (h : executeCommand lib e s args = some (s1, r)) (hs : NoEmptyList s.state) :
    NoEmptyList s1.state :=
  (executeCommand_keeps e s args (s1, r) h).2.2.2.2 hs

theorem execQueue_NoEmptyList {lib : Lib} (env : Nat → Env) (i : Nat) (s s1 : RedisServer)
    (cs : List (List Str)) (rs : List Str) (h : execQueue lib env i s cs = some (s1, rs))
    (hs : NoEmptyList s.state) : NoEmptyList s1.state := by
  induction cs generalizing i s rs with
  | nil => simp only [execQueue] at h; cases h; exact hs
  | cons c cs ih =>
    simp only [execQueue] at h
    split at h
    · cases h
    · rename_i s2 r hex
      split at h
      · cases h
      · rename_i s3 rs3 hq
        cases h
        exact ih _ _ _ hq (executeCommand_NoEmptyList _ _ _ _ _ hex hs)

theorem handleCommand_NoEmptyList {lib : Lib} (env : Nat → Env) (s s1 : RedisServer) (c : List Str)
    (h : handleCommand lib env s c = some s1) (hs : NoEmptyList s.state) : NoEmptyList s1.state := by
  unfold handleCommand at h
  split at h
  · cases h; exact hs
  · dsimp only at h
    split_ifs at h
    · cases h; exact hs
    · cases h; exact hs
    · cases h; exact hs
    · cases h; exact hs
    · split at h
      · cases h
      · rename_i s2 rs hq
        cases h
        have h2 : NoEmptyList s2.state := execQueue_NoEmptyList _ _ _ s2 _ _ hq hs
        exact NoEmptyList_of_storage_eq rfl h2
    · cases h; exact hs
    · split at h
      · cases h
      · rename_i s2 r hex
        have h2 := executeCommand_NoEmptyList _ _ _ _ _ hex hs
        split_ifs at h <;> (cases h; exact h2)

theorem handleRead_NoEmptyList {lib : Lib} (env : Nat → Env) (s s1 : RedisServer) (data : Str)
    (h : handleRead lib env s data = some s1) (hs : NoEmptyList s.state) : NoEmptyList s1.state := by
  unfold handleRead at h
  split at h
  · cases h
  · cases h; exact hs
  · exact handleCommand_NoEmptyList _ _ _ _ h hs

theorem processReplicationCommand_NoEmptyList {lib : Lib} (e : Env) (s : RedisServer) (cmd : List Str)
    (hs : NoEmptyList s.state) : NoEmptyList (processReplicationCommand lib e s cmd).state := by
  have hk := Keeps.refl s
  unfold processReplicationCommand
  split
  · exact hs
  · dsimp only
    split_ifs
    · exact hs
    · exact hs
    · exact hs
    · split
      · exact (hk.store _ _ (by simp)).2.2.2.2 hs
      · exact (hk.store _ _ (by simp)).2.2.2.2 hs
    · exact (hk.store _ _ (by simp)).2.2.2.2 hs
    · exact (hk.delete _).2.2.2.2 hs
    · exact hs
    · exact hs

theorem blockedSUBSCRIBE_NoEmptyList (s s1 : RedisServer) (tempArr : List Str)
    (h : blockedSUBSCRIBE s tempArr = some s1) (hs : NoEmptyList s.state) :
    NoEmptyList s1.state := by
  obtain ⟨pre, m, hm⟩ := blockedSUBSCRIBE_eq s s1 tempArr h
  have hk := foldl_keeps registerStep (fun acc a h => registerStep_keeps acc a h) pre
    ({ s with SubscribedMode := true }, []) ((Keeps.refl s).subscribed true)
  rw [hm]
  exact NoEmptyList_of_storage_eq rfl (hk.2.2.2.2 hs)

theorem Reachable_NoEmptyList {lib : Lib} (st : RedisState) (h : Reachable lib st) : NoEmptyList st := by
  induction h with
  | init config serverIsMaster => intro key value hv; cases hv
  | read env s s1 data _ hr ih => exact handleRead_NoEmptyList env s s1 data hr ih
  | replicate e s cmd _ ih => exact processReplicationCommand_NoEmptyList e s cmd ih
  | call e s s1 tempArr r _ hr ih => exact executeCommand_NoEmptyList e s s1 tempArr r hr ih
  | blocked s s1 tempArr _ hr ih => exact blockedSUBSCRIBE_NoEmptyList s s1 tempArr hr ih

/-! ## Transactions -/

theorem handleCommands_append {lib : Lib} (envs : Nat → Nat → Env) (k : Nat) (s : RedisServer)
    (cs ds : List (List Str)) :
    handleCommands lib envs k s (cs ++ ds)
      = (handleCommands lib envs k s cs).bind (fun s1 => handleCommands lib envs (k + cs.length) s1 ds) := by
  induction cs generalizing k s with
  | nil => simp [handleCommands]
  | cons c cs ih =>
    simp only [List.cons_append, handleCommands, List.length_cons]
    split
    · rfl
    · rename_i s2 _
      rw [show cs.append ds = cs ++ ds from rfl, ih (k + 1) s2]
      congr 1; funext s1; congr 1; omega

theorem handleCommand_queue {lib : Lib} (env : Nat → Env) (s : RedisServer) (c : List Str)
    (hm : s.MultiOn = true) (hc : queueable lib c = true) :
    handleCommand lib env s c
      = some (RedisServer.send { s with multiQueue := s.multiQueue ++ [c] } "+QUEUED\r\n".toList) := by
  cases c with
  | nil => simp [queueable] at hc
  | cons name rest =>
    simp only [queueable, decide_eq_true_eq] at hc
    have h1 : ToUpper lib name ≠ ['M', 'U', 'L', 'T', 'I'] := hc.1
    have h2 : ToUpper lib name ≠ ['E', 'X', 'E', 'C'] := hc.2.1
    have h3 : ToUpper lib name ≠ ['D', 'I', 'S', 'C', 'A', 'R', 'D'] := hc.2.2
    simp [handleCommand, h1, h2, h3, hm]

theorem handleCommands_queue {lib : Lib} (envs : Nat → Nat → Env) (k : Nat) (s : RedisServer)
    (cs : List (List Str)) (hm : s.MultiOn = true) (hcs : ∀ c ∈ cs, queueable lib c = true) :
    handleCommands lib envs k s cs
      = some { s with
          multiQueue := s.multiQueue ++ cs
          state := { s.state with
            net := s.state.net ++ cs.map (fun _ => (s.conn, "+QUEUED\r\n".toList)) } } := by
  induction cs generalizing k s with
  | nil => simp [handleCommands]
  | cons c cs ih =>
    simp only [handleCommands]
    rw [handleCommand_queue _ _ _ hm (hcs c (by simp))]
    simp only
    rw [ih (k + 1) (RedisServer.send { s with multiQueue := s.multiQueue ++ [c] } "+QUEUED\r\n".toList)
      hm (fun d hd => hcs d (by simp [hd]))]
    simp [RedisServer.send, RedisState.write]

theorem handleCommands_multi {lib : Lib} (envs : Nat → Nat → Env) (s : RedisServer) (cs : List (List Str))
    (hq : s.multiQueue = []) (hcs : ∀ c ∈ cs, queueable lib c = true) :
    handleCommands lib envs 0 s (["MULTI".toList] :: cs) = some (queuedSession s cs) := by
  have h1 : handleCommand lib (envs 0) s ["MULTI".toList]
      = some (RedisServer.send { s with MultiOn := true } "+OK\r\n".toList) := by
    have hu : ToUpper lib ['M', 'U', 'L', 'T', 'I'] = ['M', 'U', 'L', 'T', 'I'] := rfl
    simp [handleCommand, hu]
  simp only [handleCommands, h1]
  rw [handleCommands_queue envs 1 (RedisServer.send { s with MultiOn := true } "+OK\r\n".toList) cs
    rfl hcs]
  simp [RedisServer.send, RedisState.write, queuedSession, hq]

theorem runStep_none {lib : Lib} (env : Nat → Env) (cs : List (List Str)) :
    cs.foldl (runStep lib env) none = none := by
  induction cs with
  | nil => rfl
  | cons c cs ih => simpa [runStep] using ih

theorem runInOrder_aux {lib : Lib} (env : Nat → Env) (cs : List (List Str)) (s : RedisServer) (rs0 : List Str) :
    cs.foldl (runStep lib env) (some (s, rs0))
      = (execQueue lib env rs0.length s cs).map (fun p => (p.1, rs0 ++ p.2)) := by
  induction cs generalizing s rs0 with
  | nil => simp [execQueue]
  | cons c cs ih =>
    simp only [List.foldl_cons, execQueue, runStep]
    cases hex : executeCommand lib (env rs0.length) s c with
    | none => simp only [Option.map_none']; exact runStep_none env cs
    | some p =>
      obtain ⟨s1, r⟩ := p
      simp only
      rw [ih]
      simp only [List.length_append, List.length_singleton]
      cases execQueue lib env (rs0.length + 1) s1 cs with
      | none => rfl
      | some q =>
        obtain ⟨s2, rs2⟩ := q
        simp [replyOf]

theorem execQueue_eq_runInOrder {lib : Lib} (env : Nat → Env) (s : RedisServer) (cs : List (List Str)) :
    execQueue lib env 0 s cs = runInOrder lib env s cs := by
  unfold runInOrder
  rw [runInOrder_aux env cs s []]
  simp only [List.length_nil, List.nil_append]
  cases execQueue lib env 0 s cs with
  | none => rfl
  | some p => rfl

theorem foldl_terminate (rs : List Str) (init : Str) :
    rs.foldl (fun response resp => response ++ terminate resp) init
      = init ++ (rs.map terminate).flatten := by
  induction rs generalizing init with
  | nil => simp
  | cons r rs ih => simp [List.foldl_cons, ih]

theorem execReply_eq_replyArray (rs : List Str) : execReply rs = replyArray rs := by
  unfold execReply replyArray
  rw [foldl_terminate]

theorem execQueue_length {lib : Lib} (env : Nat → Env) (i : Nat) (s s1 : RedisServer) (cs : List (List Str))
    (rs : List Str) (h : execQueue lib env i s cs = some (s1, rs)) : rs.length = cs.length := by
  induction cs generalizing i s rs with
  | nil => simp only [execQueue] at h; cases h; rfl
  | cons c cs ih =>
    simp only [execQueue] at h
    split at h
    · cases h
    · split at h
      · cases h
      · rename_i s3 rs3 hq
        cases h
        simp [ih _ _ _ hq]

theorem execQueue_keeps {lib : Lib} (env : Nat → Env) (i : Nat) (s s1 : RedisServer) (cs : List (List Str))
    (rs : List Str) (h : execQueue lib env i s cs = some (s1, rs)) : Keeps s s1 := by
  induction cs generalizing i s rs with
  | nil => simp only [execQueue] at h; cases h; exact Keeps.refl _
  | cons c cs ih =>
    simp only [execQueue] at h
    split at h
    · cases h
    · rename_i s2 r hex
      split at h
      · cases h
      · rename_i s3 rs3 hq
        cases h
        have h1 := executeCommand_keeps _ _ _ _ hex
        have h2 := ih _ _ _ hq
        exact ⟨h2.1.trans h1.1, h2.2.1.trans h1.2.1, h2.2.2.1.trans h1.2.2.1,
          h2.2.2.2.1.trans h1.2.2.2.1, fun hs => h2.2.2.2.2 (h1.2.2.2.2 hs)⟩

theorem handleCommand_EXEC {lib : Lib} (env : Nat → Env) (s : RedisServer) (cs : List (List Str)) :
    handleCommand lib env (queuedSession s cs) ["EXEC".toList]
      = (runInOrder lib env { queuedSession s cs with MultiOn := false } cs).map
          (fun p => { p.1.send (replyArray p.2) with multiQueue := [] }) := by
  have hex : handleCommand lib env (queuedSession s cs) ["EXEC".toList]
      = (execQueue lib env 0 { queuedSession s cs with MultiOn := false } cs).map
          (fun p => { p.1.send (execReply p.2) with multiQueue := [] }) := by
    have hu : ToUpper lib ['E', 'X', 'E', 'C'] = ['E', 'X', 'E', 'C'] := rfl
    have hm : (queuedSession s cs).MultiOn = true := rfl
    have hmq : (queuedSession s cs).multiQueue = cs := rfl
    simp only [handleCommand, String.toList, hu, hm, hmq]
    simp only [show ¬ (['E', 'X', 'E', 'C'] = ['M', 'U', 'L', 'T', 'I']) by decide,
      show ¬ (['E', 'X', 'E', 'C'] = ['D', 'I', 'S', 'C', 'A', 'R', 'D']) by decide, if_false,
      if_true, Bool.not_true, Bool.false_eq_true]
    split
    · rename_i heq; rw [heq]; rfl
    · rename_i heq; rw [heq]; rfl
  rw [hex, execQueue_eq_runInOrder]
  cases runInOrder lib env { queuedSession s cs with MultiOn := false } cs with
  | none => rfl
  | some p => simp [execReply_eq_replyArray]

theorem runInOrder_facts {lib : Lib} (env : Nat → Env) (s s1 : RedisServer) (cs : List (List Str))
    (rs : List Str) (h : runInOrder lib env s cs = some (s1, rs)) :
    rs.length = cs.length ∧ Keeps s s1 := by
  rw [← execQueue_eq_runInOrder] at h
  exact ⟨execQueue_length _ _ _ _ _ _ h, execQueue_keeps _ _ _ _ _ _ h⟩


theorem cmdLPOP_absent (s : RedisServer) (c k : Str) (rest : List Str)
    (hk : s.state.storage k = none) :
    cmdLPOP s (c :: k :: rest) = some (s, { Response := "$-1\r\n".toList, Error := [] }) := by
  have hlen : ¬ ((c :: k :: rest).length < 2) := by simp
  have i1 : index (c :: k :: rest) 1 = some k := rfl
  unfold cmdLPOP
  rw [if_neg hlen]
  simp only [Option.bind_eq_bind, i1, Option.some_bind, hk]
  rfl

theorem cmdLLEN_absent (s : RedisServer) (c k : Str) (hk : s.state.storage k = none) :
    cmdLLEN s [c, k] = some (s, { Response := ":0\r\n".toList, Error := [] }) := by
  have hlen : ¬ ([c, k].length ≠ 2) := by simp
  have i1 : index [c, k] 1 = some k := rfl
  unfold cmdLLEN
  rw [if_neg hlen]
  simp only [Option.bind_eq_bind, i1, Option.some_bind, hk]
  rfl

theorem cmdLRANGE_absent (s : RedisServer) (c k a b : Str) (start stop : Int)
    (ha : Atoi a = (start, none)) (hb : Atoi b = (stop, none))
    (hk : s.state.storage k = none) :
    cmdLRANGE s [c, k, a, b] = some (s, { Response := "*0\r\n".toList, Error := [] }) := by
  have hlen : ¬ ([c, k, a, b].length < 4) := by simp
  have i1 : index [c, k, a, b] 1 = some k := rfl
  have i2 : index [c, k, a, b] 2 = some a := rfl
  have i3 : index [c, k, a, b] 3 = some b := rfl
  unfold cmdLRANGE
  rw [if_neg hlen]
  simp only [Option.bind_eq_bind, i1, i2, i3, Option.some_bind, ha, hb, hk]
  rfl

/-! ## Further facts on GET, INCR and the type checks -/

theorem Atoi_range (text : Str) (n : Int) (h : Atoi text = (n, none)) :
    MinInt64 ≤ n ∧ n ≤ MaxInt64 := by
  unfold Atoi ParseInt at h
  split at h
  · cases h
  · dsimp only at h
    split at h
    · cases h
    · rename_i un err hp
      unfold MinInt64 MaxInt64
      split_ifs at h <;> simp only [Prod.mk.injEq, and_true, reduceCtorEq, and_false] at h
      all_goals (subst h; simp_all; try omega)

/-- INCR below the largest `int` is exact, and INCR of a missing key gives 1. -/
theorem INCR_exact {lib : Lib} (e : Env) (s : RedisServer) (k : Str) (hmode : s.SubscribedMode = false) :
    (∀ (value : storageVal) (text : Str) (n : Int),
      s.state.storage k = some value → value.val = Value.str text → Atoi text = (n, none) →
      n < MaxInt64 →
      executeCommand lib e s ["INCR".toList, k]
        = some ((s.store k { val := Value.str (Itoa (n + 1)), px := -1, t := e.now }).propagate
              ["INCR".toList, k],
            { Response := [':'] ++ Itoa (n + 1), Error := [] })) ∧
    (s.state.storage k = none →
      executeCommand lib e s ["INCR".toList, k]
        = some ((s.store k { val := Value.str ['1'], px := -1, t := e.now }).propagate
              ["INCR".toList, k],
            { Response := [':', '1'], Error := [] })) := by
  have hd : executeCommand lib e s ["INCR".toList, k] = cmdINCR e s ["INCR".toList, k] := by
    rw [executeCommand_normal _ _ _ _ hmode]; rfl
  have hlen : ¬ (["INCR".toList, k].length < 2) := by simp
  have i1 : index ["INCR".toList, k] 1 = some k := rfl
  constructor
  · intro value text n hk hv hn hlt
    have hr := Atoi_range text n hn
    have hw : wrap64 (n + 1) = n + 1 := wrap64_id _ (by omega) (by omega)
    rw [hd]
    unfold cmdINCR
    rw [if_neg hlen]
    simp only [Option.bind_eq_bind, i1, Option.some_bind, hk, hv, hn, hw]
    rfl
  · intro hk
    rw [hd]
    unfold cmdINCR
    rw [if_neg hlen]
    simp only [Option.bind_eq_bind, i1, Option.some_bind, hk]
    rfl

theorem write_fold_serverIsMaster (cs : List Conn) (b : Str) (st : RedisState) :
    (cs.foldl (fun st c => st.write c b) st).serverIsMaster = st.serverIsMaster := by
  induction cs generalizing st with
  | nil => rfl
  | cons c cs ih => simp only [List.foldl_cons]; rw [ih]; rfl

/-- The session on `SET k v` followed by `GET k`, in normal mode on a primary:
it writes `+OK\r\n`, and then the response `$<len>\r\n<v>` of GET with CRLF
appended unless the response already ends in CRLF. -/
theorem session_SET_GET {lib : Lib} (env env1 : Nat → Env) (s : RedisServer) (k v : Str)
    (hmulti : s.MultiOn = false) (hmode : s.SubscribedMode = false)
    (hmaster : s.state.serverIsMaster = true) :
    ∃ s1 : RedisServer,
      handleCommand lib env s ["SET".toList, k, v] = some (s1.send "+OK\r\n".toList) ∧
      handleCommand lib env1 (s1.send "+OK\r\n".toList) ["GET".toList, k]
        = some ((s1.send "+OK\r\n".toList).send (terminate (['$'] ++ Itoa v.length ++ CRLF ++ v))) := by
  refine ⟨(s.store k { val := Value.str v, px := -1, t := (env 0).now }).propagate
    ["SET".toList, k, v], ?_, ?_⟩
  · have hex : executeCommand lib (env 0) s ["SET".toList, k, v]
        = some ((s.store k { val := Value.str v, px := -1, t := (env 0).now }).propagate
            ["SET".toList, k, v], { Response := "+OK".toList, Error := [] }) := by
      rw [executeCommand_normal _ _ _ _ hmode]
      show dispatch lib (env 0) s "SET".toList _ = _
      rw [dispatch_SET]
      simp [cmdSET, index, respond]
    have hm : ((s.store k { val := Value.str v, px := -1, t := (env 0).now }).propagate
        ["SET".toList, k, v]).state.serverIsMaster = true := by
      simp only [RedisServer.propagate, RedisServer.store, write_fold_serverIsMaster, hmaster]
    have hu : ToUpper lib ['S', 'E', 'T'] = ['S', 'E', 'T'] := rfl
    have ht : terminate "+OK".toList = "+OK\r\n".toList := by decide
    simp only [handleCommand, String.toList, hu, hmulti] at hex ⊢
    simp only [show ¬ (['S', 'E', 'T'] = ['M', 'U', 'L', 'T', 'I']) by decide,
      show ¬ (['S', 'E', 'T'] = ['D', 'I', 'S', 'C', 'A', 'R', 'D']) by decide,
      show ¬ (['S', 'E', 'T'] = ['E', 'X', 'E', 'C']) by decide, if_false, Bool.false_eq_true, hex]
    simp only [String.toList] at hm ht
    simp [hm, ht]
  · generalize hs1 : (s.store k { val := Value.str v, px := -1, t := (env 0).now }).propagate
      ["SET".toList, k, v] = s1
    have hk : (s1.send "+OK\r\n".toList).state.storage k
        = some { val := Value.str v, px := -1, t := (env 0).now } := by
      subst hs1
      show ((s.store k _).propagate _).state.storage k = _
      rw [propagate_storage]; simp [RedisServer.store]
    have hmo : (s1.send "+OK\r\n".toList).SubscribedMode = false := by subst hs1; exact hmode
    have hmu : (s1.send "+OK\r\n".toList).MultiOn = false := by subst hs1; exact hmulti
    have hma : (s1.send "+OK\r\n".toList).state.serverIsMaster = true := by
      subst hs1
      show ((s.store k _).propagate _).state.serverIsMaster = true
      simp only [RedisServer.propagate, RedisServer.store, write_fold_serverIsMaster, hmaster]
    generalize s1.send "+OK\r\n".toList = s2 at *
    have hex : executeCommand lib (env1 0) s2 ["GET".toList, k]
        = some (s2, { Response := ['$'] ++ Itoa v.length ++ CRLF ++ v, Error := [] }) := by
      rw [executeCommand_normal _ _ _ _ hmo]
      show dispatch lib (env1 0) s2 "GET".toList _ = _
      rw [dispatch_GET]
      simp [cmdGET, index, hk, expired, respond]
    have hu : ToUpper lib ['G', 'E', 'T'] = ['G', 'E', 'T'] := rfl
    simp only [handleCommand, String.toList, hu, hmu] at hex ⊢
    simp only [show ¬ (['G', 'E', 'T'] = ['M', 'U', 'L', 'T', 'I']) by decide,
      show ¬ (['G', 'E', 'T'] = ['D', 'I', 'S', 'C', 'A', 'R', 'D']) by decide,
      show ¬ (['G', 'E', 'T'] = ['E', 'X', 'E', 'C']) by decide, if_false, Bool.false_eq_true, hex]
    simp [hma]

theorem HasSuffix_CRLF_append (p v : Str) :
    HasSuffix (p ++ CRLF ++ v) CRLF = (decide (v = []) || HasSuffix v CRLF) := by
  unfold HasSuffix
  rw [Bool.eq_iff_iff]
  simp only [List.isSuffixOf_iff_suffix, Bool.or_eq_true, decide_eq_true_eq]
  rw [← List.reverse_prefix, ← @List.reverse_prefix _ CRLF v]
  simp only [List.reverse_append, CRLF, List.reverse_cons, List.reverse_nil, List.nil_append,
    List.cons_append, List.append_assoc]
  rw [← List.reverse_eq_nil_iff]
  generalize v.reverse = r
  match r with
  | [] => simp
  | [c] => simp [List.cons_prefix_cons]
  | c :: d :: r => simp [List.cons_prefix_cons]

/-- The written GET reply is the well-formed bulk string exactly when the
value is not empty and does not end in CRLF. -/
theorem terminate_GET_response (v : Str) :
    terminate (['$'] ++ Itoa v.length ++ CRLF ++ v)
      = if v = [] ∨ HasSuffix v CRLF = true then ['$'] ++ Itoa v.length ++ CRLF ++ v
        else bulk v := by
  unfold terminate
  rw [HasSuffix_CRLF_append]
  by_cases h : v = [] ∨ HasSuffix v CRLF = true
  · rw [if_pos h, if_pos (by simpa using h)]
  · rw [if_neg h, if_neg (by simpa using h)]
    simp [bulk]

/-- The commands on lists other than LPOP answer a key that holds no list with
the type error and change nothing. -/
theorem wrong_type_list_commands {lib : Lib} (e : Env) (s : RedisServer) (k x a b : Str) (xs : List Str)
    (value : storageVal) (start stop : Int) (hmode : s.SubscribedMode = false)
    (hk : s.state.storage k = some value) (hv : ∀ l : List Str, value.val ≠ Value.list l)
    (ha : Atoi a = (start, none)) (hb : Atoi b = (stop, none)) :
    executeCommand lib e s ("RPUSH".toList :: k :: x :: xs)
      = some (s, { Response := [], Error := typeError "RPUSH" }) ∧
    executeCommand lib e s ("LPUSH".toList :: k :: x :: xs)
      = some (s, { Response := [], Error := typeError "LPUSH" }) ∧
    executeCommand lib e s ["LLEN".toList, k]
      = some (s, { Response := [], Error := typeError "LLEN" }) ∧
    executeCommand lib e s ["LRANGE".toList, k, a, b]
      = some (s, { Response := [], Error := typeError "LRANGE" }) := by
  have hsl : ∀ c : Str, sliceFrom (c :: k :: x :: xs) 2 = some (x :: xs) :=
    fun c => sliceFrom_append [c, k] (x :: xs) 2 (by simp)
  have hlen : ¬ (xs.length + 1 + 1 + 1 < 3) := by omega
  refine ⟨?_, ?_, ?_, ?_⟩
  · rw [executeCommand_normal _ _ _ _ hmode]
    show dispatch lib e s "RPUSH".toList _ = _
    rw [dispatch_RPUSH]
    cases hval : value.val with
    | list l => exact absurd hval (hv l)
    | str t => simp [cmdRPUSH, index, hsl, hlen, hk, hval, fail]
    | zset z => simp [cmdRPUSH, index, hsl, hlen, hk, hval, fail]
  · rw [executeCommand_normal _ _ _ _ hmode]
    show dispatch lib e s "LPUSH".toList _ = _
    rw [dispatch_LPUSH]
    cases hval : value.val with
    | list l => exact absurd hval (hv l)
    | str t => simp [cmdLPUSH, index, hsl, hlen, hk, hval, fail]
    | zset z => simp [cmdLPUSH, index, hsl, hlen, hk, hval, fail]
  · rw [executeCommand_normal _ _ _ _ hmode]
    show dispatch lib e s "LLEN".toList _ = _
    rw [dispatch_LLEN]
    cases hval : value.val with
    | list l => exact absurd hval (hv l)
    | str t => simp [cmdLLEN, index, hk, hval, fail]
    | zset z => simp [cmdLLEN, index, hk, hval, fail]
  · rw [executeCommand_normal _ _ _ _ hmode]
    show dispatch lib e s "LRANGE".toList _ = _
    rw [dispatch_LRANGE]
    cases hval : value.val with
    | list l => exact absurd hval (hv l)
    | str t => simp [cmdLRANGE, index, hk, hval, ha, hb, fail]
    | zset z => simp [cmdLRANGE, index, hk, hval, ha, hb, fail]

theorem dispatch_ZADD {lib : Lib} (e : Env) (s : RedisServer) (args : List Str) :
    dispatch lib e s "ZADD".toList args = cmdZADD lib e s args := rfl

theorem dispatch_ZRANK {lib : Lib} (e : Env) (s : RedisServer) (args : List Str) :
    dispatch lib e s "ZRANK".toList args = cmdZRANK s args := rfl

theorem dispatch_ZRANGE {lib : Lib} (e : Env) (s : RedisServer) (args : List Str) :
    dispatch lib e s "ZRANGE".toList args = cmdZRANGE s args := rfl

theorem dispatch_ZCARD {lib : Lib} (e : Env) (s : RedisServer) (args : List Str) :
    dispatch lib e s "ZCARD".toList args = cmdZCARD s args := rfl

theorem dispatch_ZREM {lib : Lib} (e : Env) (s : RedisServer) (args : List Str) :
    dispatch lib e s "ZREM".toList args = cmdZREM s args := rfl

/-- The commands on sorted sets answer a key that holds no sorted set with an
error and change nothing. -/
theorem wrong_type_zset_commands {lib : Lib} (e : Env) (s : RedisServer) (k sc m a b : Str)
    (value : storageVal) (start stop : Int) (hmode : s.SubscribedMode = false)
    (hk : s.state.storage k = some value) (hv : ∀ z : SortedSet, value.val ≠ Value.zset z)
    (ha : Atoi a = (start, none)) (hb : Atoi b = (stop, none)) :
    (∃ m1 : Str, m1 ≠ [] ∧
      executeCommand lib e s ["ZADD".toList, k, sc, m] = some (s, { Response := [], Error := m1 })) ∧
    executeCommand lib e s ["ZRANK".toList, k, m]
      = some (s, { Response := [], Error := typeError "ZRANK" }) ∧
    executeCommand lib e s ["ZRANGE".toList, k, a, b]
      = some (s, { Response := [], Error := typeError "ZRANGE" }) ∧
    executeCommand lib e s ["ZCARD".toList, k]
      = some (s, { Response := [], Error := typeError "ZCARD" }) ∧
    executeCommand lib e s ["ZREM".toList, k, m]
      = some (s, { Response := [], Error := typeError "ZREM" }) := by
  refine ⟨?_, ?_, ?_, ?_, ?_⟩
  · rw [executeCommand_normal _ _ _ _ hmode]
    show ∃ m1 : Str, m1 ≠ [] ∧ dispatch lib e s "ZADD".toList _ = _
    rw [dispatch_ZADD]
    cases hps : lib.ParseScore sc with
    | none =>
      exact ⟨"-ERR value is not a valid float".toList, by decide,
        by simp [cmdZADD, index, hps, fail]⟩
    | some score =>
      refine ⟨typeError "ZADD", by decide, ?_⟩
      cases hval : value.val with
      | zset z => exact absurd hval (hv z)
      | str t => simp [cmdZADD, index, hps, hk, hval, fail]
      | list l => simp [cmdZADD, index, hps, hk, hval, fail]
  · rw [executeCommand_normal _ _ _ _ hmode]
    show dispatch lib e s "ZRANK".toList _ = _
    rw [dispatch_ZRANK]
    cases hval : value.val with
    | zset z => exact absurd hval (hv z)
    | str t => simp [cmdZRANK, index, hk, hval, fail]
    | list l => simp [cmdZRANK, index, hk, hval, fail]
  · rw [executeCommand_normal _ _ _ _ hmode]
    show dispatch lib e s "ZRANGE".toList _ = _
    rw [dispatch_ZRANGE]
    cases hval : value.val with
    | zset z => exact absurd hval (hv z)
    | str t => simp [cmdZRANGE, index, hk, hval, ha, hb, fail]
    | list l => simp [cmdZRANGE, index, hk, hval, ha, hb, fail]
  · rw [executeCommand_normal _ _ _ _ hmode]
    show dispatch lib e s "ZCARD".toList _ = _
    rw [dispatch_ZCARD]
    cases hval : value.val with
    | zset z => exact absurd hval (hv z)
    | str t => simp [cmdZCARD, index, hk, hval, fail]
    | list l => simp [cmdZCARD, index, hk, hval, fail]
  · rw [executeCommand_normal _ _ _ _ hmode]
    show dispatch lib e s "ZREM".toList _ = _
    rw [dispatch_ZREM]
    cases hval : value.val with
    | zset z => exact absurd hval (hv z)
    | str t => simp [cmdZREM, index, hk, hval, fail]
    | list l => simp [cmdZREM, index, hk, hval, fail]

/-- GET and INCR on a key that holds no string panic (GET unless the entry
has expired), and LPOP on a key that holds no list replies the nil bulk
without an error and changes nothing. -/
theorem wrong_type_unchecked_commands {lib : Lib} (e : Env) (s : RedisServer) (k : Str) (value : storageVal)
    (hmode : s.SubscribedMode = false) (hk : s.state.storage k = some value) :
    ((∀ t : Str, value.val ≠ Value.str t) → expired e value = false →
      executeCommand lib e s ["GET".toList, k] = none) ∧
    ((∀ t : Str, value.val ≠ Value.str t) → executeCommand lib e s ["INCR".toList, k] = none) ∧
    ((∀ l : List Str, value.val ≠ Value.list l) →
      executeCommand lib e s ["LPOP".toList, k]
        = some (s, { Response := "$-1\r\n".toList, Error := [] })) := by
  refine ⟨?_, ?_, ?_⟩
  · intro hv hx
    rw [executeCommand_normal _ _ _ _ hmode]
    show dispatch lib e s "GET".toList _ = _
    rw [dispatch_GET]
    cases hval : value.val with
    | str t => exact absurd hval (hv t)
    | list l => simp [cmdGET, index, hk, hval, hx]
    | zset z => simp [cmdGET, index, hk, hval, hx]
  · intro hv
    rw [executeCommand_normal _ _ _ _ hmode]
    show dispatch lib e s "INCR".toList _ = _
    rw [dispatch_INCR]
    cases hval : value.val with
    | str t => exact absurd hval (hv t)
    | list l => simp [cmdINCR, index, hk, hval]
    | zset z => simp [cmdINCR, index, hk, hval]
  · intro hv
    rw [executeCommand_normal _ _ _ _ hmode]
    show dispatch lib e s "LPOP".toList _ = _
    rw [dispatch_LPOP]
    cases hval : value.val with
    | list l => exact absurd hval (hv l)
    | str t => simp [cmdLPOP, index, hk, hval, respond]
    | zset z => simp [cmdLPOP, index, hk, hval, respond]

/-! ## DEL and TYPE -/

/-- The executor has no case for DEL: in normal mode every `DEL ..` gets the
error of the default case and the session, store included, stays as it is. -/
theorem executeCommand_DEL {lib : Lib} (e : Env) (s : RedisServer) (rest : List Str)
    (hmode : s.SubscribedMode = false) :
    executeCommand lib e s ("DEL".toList :: rest)
      = some (s, { Response := [], Error := "-ERR unknown command".toList }) := by
  rw [executeCommand_normal _ _ _ _ hmode]
  rfl

/-- TYPE replies `+string` for every key of the store, whatever the payload,
its `px` and its time of writing, at every time of the clock; it replies
`+none` for a key that is not in the store. -/
theorem executeCommand_TYPE {lib : Lib} (e : Env) (s : RedisServer) (k : Str)
    (hmode : s.SubscribedMode = false) :
    (∀ value : storageVal, s.state.storage k = some value →
      executeCommand lib e s ["TYPE".toList, k]
        = some (s, { Response := "+string".toList, Error := [] })) ∧
    (s.state.storage k = none →
      executeCommand lib e s ["TYPE".toList, k]
        = some (s, { Response := "+none".toList, Error := [] })) := by
  have hd : executeCommand lib e s ["TYPE".toList, k] = cmdTYPE s ["TYPE".toList, k] := by
    rw [executeCommand_normal _ _ _ _ hmode]; rfl
  constructor
  · intro value hk
    rw [hd]; simp [cmdTYPE, index, hk, respond]
  · intro hk
    rw [hd]; simp [cmdTYPE, index, hk, respond]

/-! ## Malformed frames -/

theorem ParseUintLoop_not_digits (cs : Str) (n : Nat) (h : cs.all isDigit = false) :
    (ParseUintLoop cs n).2 = some NumError.ErrSyntax ∨
      ParseUintLoop cs n = (MaxUint64, some NumError.ErrRange) := by
  induction cs generalizing n with
  | nil => simp at h
  | cons c cs ih =>
    unfold ParseUintLoop
    by_cases hc : isDigit c = true
    · have hcs : cs.all isDigit = false := by
        simp only [List.all_cons, hc, Bool.true_and] at h; exact h
      simp only [hc, Bool.not_true, Bool.false_eq_true, if_false]
      split
      · right; rfl
      · split
        · right; rfl
        · exact ih _ hcs
    · simp [hc]

theorem ParseUint_not_digits (cs : Str) (h : cs.isEmpty = true ∨ cs.all isDigit = false) :
    (ParseUint cs).2 = some NumError.ErrSyntax ∨
      ParseUint cs = (MaxUint64, some NumError.ErrRange) := by
  unfold ParseUint
  cases cs with
  | nil => left; rfl
  | cons c cs =>
    rcases h with h | h
    · simp at h
    · exact ParseUintLoop_not_digits _ _ h

theorem Atoi_not_decimal (s : Str) (h : isDecimalInteger s = false) : (Atoi s).2 ≠ none := by
  unfold Atoi ParseInt
  cases s with
  | nil => simp
  | cons c cs =>
    have hb : (if c = '+' ∨ c = '-' then cs else c :: cs).isEmpty = true ∨
        (if c = '+' ∨ c = '-' then cs else c :: cs).all isDigit = false := by
      unfold isDecimalInteger at h
      by_cases hs : c = '+' ∨ c = '-'
      · simp only [hs, if_true] at h ⊢
        cases hcs : cs.isEmpty
        · right; simpa [hcs] using h
        · left; rfl
      · simp only [hs, if_false] at h ⊢
        right; exact h
    rcases ParseUint_not_digits _ hb with hp | hp
    · dsimp only
      split
      · simp
      · rename_i un err hne heq
        rw [heq] at hp
        simp at hp
        exact absurd hp hne
    · dsimp only
      rw [hp]
      simp only [MaxUint64]
      by_cases hn : c = '-' <;> simp [hn]

theorem isDecimalInteger_ne_cr (s : Str) (h : isDecimalInteger s = true) : ∀ c ∈ s, c ≠ '\r' := by
  cases s with
  | nil => simp
  | cons c cs =>
    unfold isDecimalInteger at h
    intro x hx
    by_cases hs : c = '+' ∨ c = '-'
    · simp only [hs, if_true, Bool.and_eq_true, List.all_eq_true] at h
      rcases List.mem_cons.1 hx with hx | hx
      · subst hx; rcases hs with hs | hs <;> (rw [hs]; decide)
      · exact isDigit_ne_cr x (h.2 x hx)
    · simp only [hs, if_false, List.all_eq_true] at h
      exact isDigit_ne_cr x (h x hx)

theorem Atoi_ok_decimal (s : Str) (v : Int) (h : Atoi s = (v, none)) : isDecimalInteger s = true := by
  cases hd : isDecimalInteger s with
  | true => rfl
  | false => exact absurd (by rw [h]) (Atoi_not_decimal s hd)

theorem Atoi_ok_ne_cr (s : Str) (v : Int) (h : Atoi s = (v, none)) : ∀ c ∈ s, c ≠ '\r' :=
  isDecimalInteger_ne_cr s (Atoi_ok_decimal s v h)

theorem indexOf_CRLF_of_none (c tail : Str) (h : indexOf CRLF c = none) :
    indexOf CRLF (c ++ CRLF ++ tail) = some c.length := by
  induction c with
  | nil => simp [indexOf, CRLF]
  | cons d ds ih =>
    unfold indexOf at h
    split at h
    · cases h
    · rename_i hp
      have hds : indexOf CRLF ds = none := by simpa using h
      have hp2 : ¬ (CRLF.isPrefixOf (d :: (ds ++ CRLF ++ tail))) = true := by
        cases ds with
        | nil =>
          simp only [CRLF, List.nil_append, List.cons_append, List.isPrefixOf]
          simp
        | cons d2 ds2 =>
          simp only [CRLF, List.isPrefixOf, List.cons_append] at hp ⊢
          simpa using hp
      show indexOf CRLF (d :: (ds ++ CRLF ++ tail)) = _
      rw [indexOf, if_neg hp2, ih hds]; simp

theorem indexOf_CRLF_none_of_ne_lf (s : Str) (h : ∀ c ∈ s, c ≠ '\n') : indexOf CRLF s = none := by
  induction s with
  | nil => simp [indexOf, CRLF]
  | cons d ds ih =>
    have hp : ¬ (CRLF.isPrefixOf (d :: ds)) = true := by
      cases ds with
      | nil => simp [CRLF, List.isPrefixOf]
      | cons d2 ds2 =>
        have : d2 ≠ '\n' := h d2 (by simp)
        simp [CRLF, List.isPrefixOf, Ne.symm this]
    rw [indexOf, if_neg hp, ih (fun c hc => h c (by simp [hc]))]; rfl

theorem Index_CRLF_of_none (c tail : Str) (h : Index c CRLF = -1) :
    Index (c ++ CRLF ++ tail) CRLF = c.length := by
  have hn : indexOf CRLF c = none := by
    unfold Index at h
    cases hi : indexOf CRLF c with
    | none => rfl
    | some n => rw [hi] at h; simp at h
  unfold Index; rw [indexOf_CRLF_of_none c tail hn]

theorem Index_field (b : Char) (l tail : Str) (hb : b ≠ '\r') (hl : ∀ c ∈ l, c ≠ '\r') :
    Index (b :: l ++ CRLF ++ tail) CRLF = 1 + (l.length : Int) := by
  have := Index_CRLF (b :: l) tail (by
    intro c hc
    rcases List.mem_cons.1 hc with hc | hc
    · subst hc; exact hb
    · exact hl c hc)
  rw [this]; simp; omega

theorem RESPToArrayLoop_bulkWith (n : Nat) (l a tail : Str) (acc : List Str)
    (hl : Atoi l = ((a.length : Int), none))
    (hb : ((bulkWith l a ++ tail).length : Int) ≤ MaxInt64) :
    RESPToArrayLoop (n + 1) (bulkWith l a ++ tail) acc = RESPToArrayLoop n tail (acc ++ [a]) := by
  have hlen : ((bulkWith l a ++ tail).length : Int)
      = 1 + l.length + 2 + a.length + 2 + tail.length := by
    simp [bulkWith, CRLF]; omega
  have h1 : HasPrefix (bulkWith l a ++ tail) ['$'] = true := by simp [bulkWith, HasPrefix]
  have h2 : Index (bulkWith l a ++ tail) CRLF = 1 + (l.length : Int) := by
    have : bulkWith l a ++ tail = '$' :: l ++ CRLF ++ (a ++ CRLF ++ tail) := by simp [bulkWith]
    rw [this]
    exact Index_field '$' l _ (by decide) (Atoi_ok_ne_cr l _ hl)
  have h3 : slice (bulkWith l a ++ tail) 1 (1 + (l.length : Int)) = some l := by
    have : bulkWith l a ++ tail = ['$'] ++ l ++ (CRLF ++ a ++ CRLF ++ tail) := by
      simp [bulkWith]
    rw [this]; exact slice_mid' _ _ _ _ _ (by simp) (by simp)
  have h5 : wrap64 (1 + (l.length : Int) + 2 + a.length) = 1 + (l.length : Int) + 2 + a.length :=
    wrap64_id _ (by unfold MinInt64; omega) (by omega)
  have h6 : wrap64 (1 + (l.length : Int) + 2 + a.length + 2)
      = 1 + (l.length : Int) + 2 + a.length + 2 :=
    wrap64_id _ (by unfold MinInt64; omega) (by omega)
  have h7 : slice (bulkWith l a ++ tail) (1 + (l.length : Int) + 2)
      (1 + (l.length : Int) + 2 + a.length) = some a := by
    have : bulkWith l a ++ tail = (['$'] ++ l ++ CRLF) ++ a ++ (CRLF ++ tail) := by
      simp [bulkWith]
    rw [this]; exact slice_mid' _ _ _ _ _ (by simp [CRLF]; omega) (by simp [CRLF]; omega)
  have h8 : slice (bulkWith l a ++ tail) (1 + (l.length : Int) + 2 + a.length)
      (1 + (l.length : Int) + 2 + a.length + 2) = some CRLF := by
    have : bulkWith l a ++ tail = (['$'] ++ l ++ CRLF ++ a) ++ CRLF ++ tail := by
      simp [bulkWith]
    rw [this]; exact slice_mid' _ _ _ _ _ (by simp [CRLF]; omega) (by simp [CRLF]; omega)
  have h9 : sliceFrom (bulkWith l a ++ tail) (1 + (l.length : Int) + 2 + a.length + 2)
      = some tail := by
    have : bulkWith l a ++ tail = (['$'] ++ l ++ CRLF ++ a ++ CRLF) ++ tail := by
      simp [bulkWith]
    rw [this]; exact sliceFrom_append _ _ _ (by simp [CRLF]; omega)
  have h10 : ¬ ((bulkWith l a ++ tail).length : Int) < 1 + (l.length : Int) + 2 + a.length + 2 := by
    omega
  have h11 : ¬ (1 + (l.length : Int) < 0) := by omega
  rw [RESPToArrayLoop]
  simp only [h1, h2, h3, hl, h5, h6, h7, h8, h9, h10, h11, Bool.not_true, Bool.false_eq_true,
    if_false, ne_eq, not_true_eq_false]

theorem RESPToArrayLoop_wire (m : Nat) (es : List (Str × Str)) (tail : Str) (acc : List Str)
    (hes : ∀ e ∈ es, Atoi e.1 = ((e.2.length : Int), none))
    (hb : ((wire es ++ tail).length : Int) ≤ MaxInt64) :
    RESPToArrayLoop (es.length + m) (wire es ++ tail) acc
      = RESPToArrayLoop m tail (acc ++ es.map (fun e => e.2)) := by
  induction es generalizing acc with
  | nil => simp [wire]
  | cons e es ih =>
    have hw : wire (e :: es) ++ tail = bulkWith e.1 e.2 ++ (wire es ++ tail) := by
      simp [wire]
    rw [hw] at hb ⊢
    have hn : (e :: es).length + m = (es.length + m) + 1 := by simp; omega
    rw [hn, RESPToArrayLoop_bulkWith _ _ _ _ _ (hes e (by simp)) hb,
      ih _ (fun x hx => hes x (by simp [hx]))]
    · simp
    · simp only [List.length_append, Nat.cast_add] at hb ⊢; omega

theorem RESPToArray_header (c tail : Str) (n : Int) (hc : Atoi c = (n, none)) (hn : 0 ≤ n)
    (hcap : n ≤ maxSliceCap) :
    RESPToArray ('*' :: c ++ CRLF ++ tail) = RESPToArrayLoop n.toNat tail [] := by
  have h1 : HasPrefix ('*' :: c ++ CRLF ++ tail) ['*'] = true := by simp [HasPrefix]
  have h2 : Index ('*' :: c ++ CRLF ++ tail) CRLF = 1 + (c.length : Int) :=
    Index_field '*' c tail (by decide) (Atoi_ok_ne_cr c _ hc)
  have h3 : slice ('*' :: c ++ CRLF ++ tail) 1 (1 + (c.length : Int)) = some c := by
    have : '*' :: c ++ CRLF ++ tail = ['*'] ++ c ++ (CRLF ++ tail) := by simp
    rw [this]; exact slice_mid' _ _ _ _ _ (by simp) (by simp)
  have h5 : sliceFrom ('*' :: c ++ CRLF ++ tail) (1 + (c.length : Int) + 2) = some tail := by
    have : '*' :: c ++ CRLF ++ tail = (['*'] ++ c ++ CRLF) ++ tail := by simp
    rw [this]; exact sliceFrom_append _ _ _ (by simp [CRLF]; omega)
  have h6 : ¬ (1 + (c.length : Int) < 0) := by omega
  have h7 : ¬ (n < 0 ∨ n > maxSliceCap) := by omega
  unfold RESPToArray
  simp only [h1, h2, h3, hc, h5, h6, h7, Bool.not_true, Bool.false_eq_true, if_false]

theorem Index_cons_none (b : Char) (c : Str) (hb : b ≠ '\r') (hc : Index c CRLF = -1) :
    Index (b :: c) CRLF = -1 := by
  have hn : indexOf CRLF c = none := by
    unfold Index at hc
    cases hi : indexOf CRLF c with
    | none => rfl
    | some n => rw [hi] at hc; simp at hc
  have hp : ¬ (CRLF.isPrefixOf (b :: c)) = true := by
    simp [CRLF, List.isPrefixOf, Ne.symm hb]
  unfold Index
  rw [indexOf, if_neg hp, hn]; rfl

theorem Index_field_of_none (b : Char) (c tail : Str) (hb : b ≠ '\r') (hc : Index c CRLF = -1) :
    Index (b :: c ++ CRLF ++ tail) CRLF = 1 + (c.length : Int) := by
  have := Index_CRLF_of_none (b :: c) tail (Index_cons_none b c hb hc)
  rw [List.cons_append, List.cons_append] at *
  rw [this]; simp; omega

theorem slice_field (b : Char) (c tail : Str) :
    slice (b :: c ++ CRLF ++ tail) 1 (1 + (c.length : Int)) = some c := by
  have : b :: c ++ CRLF ++ tail = [b] ++ c ++ (CRLF ++ tail) := by simp
  rw [this]; exact slice_mid' _ _ _ _ _ (by simp) (by simp)

/-- A frame whose first byte is not `*` is refused. -/
theorem RESPToArray_leading (resp : Str) (h : HasPrefix resp ['*'] = false) :
    RESPToArray resp = Result.err := by
  unfold RESPToArray; simp [h]

/-- A frame whose count field is no decimal integer is refused. -/
theorem RESPToArray_count (c tail : Str) (hc : Index c CRLF = -1)
    (hd : isDecimalInteger c = false) :
    RESPToArray ('*' :: c ++ CRLF ++ tail) = Result.err := by
  have h1 : HasPrefix ('*' :: c ++ CRLF ++ tail) ['*'] = true := by simp [HasPrefix]
  have h2 := Index_field_of_none '*' c tail (by decide) hc
  have h3 := slice_field '*' c tail
  have h6 : ¬ (1 + (c.length : Int) < 0) := by omega
  have ha := Atoi_not_decimal c hd
  unfold RESPToArray
  simp only [h1, h2, h3, h6, Bool.not_true, Bool.false_eq_true, if_false]
  split
  · rfl
  · rename_i heq; rw [heq] at ha; exact absurd rfl ha

/-- An element whose length field is no decimal integer is refused. -/
theorem RESPToArrayLoop_length (m : Nat) (l tail : Str) (acc : List Str) (hl : Index l CRLF = -1)
    (hd : isDecimalInteger l = false) :
    RESPToArrayLoop (m + 1) ('$' :: l ++ CRLF ++ tail) acc = Result.err := by
  have h1 : HasPrefix ('$' :: l ++ CRLF ++ tail) ['$'] = true := by simp [HasPrefix]
  have h2 := Index_field_of_none '$' l tail (by decide) hl
  have h3 := slice_field '$' l tail
  have h6 : ¬ (1 + (l.length : Int) < 0) := by omega
  have ha := Atoi_not_decimal l hd
  rw [RESPToArrayLoop]
  simp only [h1, h2, h3, h6, Bool.not_true, Bool.false_eq_true, if_false]
  split
  · rfl
  · rename_i heq; rw [heq] at ha; exact absurd rfl ha

/-- An element whose payload of the declared length is not followed by CRLF
is refused. -/
theorem RESPToArrayLoop_payload (m : Nat) (l a x : Str) (acc : List Str)
    (hl : Atoi l = ((a.length : Int), none)) (hx : HasPrefix x CRLF = false)
    (hb : (('$' :: l ++ CRLF ++ a ++ x).length : Int) + 2 ≤ MaxInt64) :
    RESPToArrayLoop (m + 1) ('$' :: l ++ CRLF ++ a ++ x) acc = Result.err := by
  have hlen : (('$' :: l ++ CRLF ++ a ++ x).length : Int) = 1 + l.length + 2 + a.length + x.length := by
    simp [CRLF]; omega
  have h1 : HasPrefix ('$' :: l ++ CRLF ++ a ++ x) ['$'] = true := by simp [HasPrefix]
  have h2 : Index ('$' :: l ++ CRLF ++ a ++ x) CRLF = 1 + (l.length : Int) := by
    have : '$' :: l ++ CRLF ++ a ++ x = '$' :: l ++ CRLF ++ (a ++ x) := by simp
    rw [this]
    exact Index_field '$' l _ (by decide) (Atoi_ok_ne_cr l _ hl)
  have h3 : slice ('$' :: l ++ CRLF ++ a ++ x) 1 (1 + (l.length : Int)) = some l := by
    have : '$' :: l ++ CRLF ++ a ++ x = '$' :: l ++ CRLF ++ (a ++ x) := by simp
    rw [this]; exact slice_field '$' l _
  have h5 : wrap64 (1 + (l.length : Int) + 2 + a.length) = 1 + (l.length : Int) + 2 + a.length :=
    wrap64_id _ (by unfold MinInt64; omega) (by omega)
  have h6 : wrap64 (1 + (l.length : Int) + 2 + a.length + 2)
      = 1 + (l.length : Int) + 2 + a.length + 2 :=
    wrap64_id _ (by unfold MinInt64; omega) (by omega)
  have h11 : ¬ (1 + (l.length : Int) < 0) := by omega
  rw [RESPToArrayLoop]
  simp only [h1, h2, h3, hl, h5, h6, h11, Bool.not_true, Bool.false_eq_true, if_false]
  by_cases hshort : (('$' :: l ++ CRLF ++ a ++ x).length : Int) < 1 + (l.length : Int) + 2 + a.length + 2
  · rw [if_pos hshort]
  · rw [if_neg hshort]
    have hx2 : 2 ≤ x.length := by omega
    obtain ⟨x1, x2, xs, rfl⟩ : ∃ x1 x2 xs, x = x1 :: x2 :: xs := by
      cases x with
      | nil => simp at hx2
      | cons x1 t =>
        cases t with
        | nil => simp at hx2
        | cons x2 xs => exact ⟨x1, x2, xs, rfl⟩
    have h7 : slice ('$' :: l ++ CRLF ++ a ++ x1 :: x2 :: xs) (1 + (l.length : Int) + 2)
        (1 + (l.length : Int) + 2 + a.length) = some a := by
      have : '$' :: l ++ CRLF ++ a ++ x1 :: x2 :: xs = (['$'] ++ l ++ CRLF) ++ a ++ (x1 :: x2 :: xs) := by
        simp
      rw [this]; exact slice_mid' _ _ _ _ _ (by simp [CRLF]; omega) (by simp [CRLF]; omega)
    have h8 : slice ('$' :: l ++ CRLF ++ a ++ x1 :: x2 :: xs) (1 + (l.length : Int) + 2 + a.length)
        (1 + (l.length : Int) + 2 + a.length + 2) = some [x1, x2] := by
      have : '$' :: l ++ CRLF ++ a ++ x1 :: x2 :: xs = (['$'] ++ l ++ CRLF ++ a) ++ [x1, x2] ++ xs := by
        simp
      rw [this]; exact slice_mid' _ _ _ _ _ (by simp [CRLF]; omega) (by simp [CRLF]; omega)
    have hne : [x1, x2] ≠ CRLF := by
      intro he
      simp only [CRLF, List.cons.injEq, and_true] at he
      obtain ⟨r1, r2⟩ := he
      subst r1 r2
      simp [HasPrefix, CRLF, List.isPrefixOf] at hx
    simp only [h7, h8, ne_eq, hne, not_false_eq_true, if_true]

/-- Every input of the family `RefusedFrame` is refused with an error. -/
theorem RESPToArray_refused (resp : Str) (h : RefusedFrame resp)
    (hlen : (resp.length : Int) + 2 ≤ MaxInt64) : RESPToArray resp = Result.err := by
  cases h with
  | leading _ h => exact RESPToArray_leading resp h
  | count c tail hc hd => exact RESPToArray_count c tail hc hd
  | length c n es l tail hc hn hcap hes hl hd =>
    have hr : '*' :: c ++ CRLF ++ wire es ++ '$' :: l ++ CRLF ++ tail
        = '*' :: c ++ CRLF ++ (wire es ++ ('$' :: l ++ CRLF ++ tail)) := by simp
    rw [hr] at hlen ⊢
    have hn0 : (0 : Int) ≤ n := by omega
    have hm : n.toNat = es.length + ((n.toNat - es.length - 1) + 1) := by omega
    rw [RESPToArray_header c _ n hc hn0 hcap, hm, RESPToArrayLoop_wire _ _ _ _ hes]
    · exact RESPToArrayLoop_length _ l tail _ hl hd
    · simp only [List.length_append, List.length_cons, Nat.cast_add, Nat.cast_succ] at hlen ⊢
      omega
  | payload c n es l a x hc hn hcap hes hl hx =>
    have hr : '*' :: c ++ CRLF ++ wire es ++ '$' :: l ++ CRLF ++ a ++ x
        = '*' :: c ++ CRLF ++ (wire es ++ ('$' :: l ++ CRLF ++ a ++ x)) := by simp
    rw [hr] at hlen ⊢
    have hn0 : (0 : Int) ≤ n := by omega
    have hm : n.toNat = es.length + ((n.toNat - es.length - 1) + 1) := by omega
    rw [RESPToArray_header c _ n hc hn0 hcap, hm, RESPToArrayLoop_wire _ _ _ _ hes]
    · refine RESPToArrayLoop_payload _ l a x _ hl hx ?_
      simp only [List.length_append, List.length_cons, Nat.cast_add, Nat.cast_succ] at hlen ⊢
      omega
    · simp only [List.length_append, List.length_cons, Nat.cast_add, Nat.cast_succ] at hlen ⊢
      omega

/-- A session that reads an input of the family `RefusedFrame` writes
`-ERR invalid RESP format` and goes on. -/
theorem handleRead_refused (lib : Lib) (env : Nat → Env) (s : RedisServer) (resp : Str)
    (h : RefusedFrame resp) (hlen : (resp.length : Int) + 2 ≤ MaxInt64) :
    handleRead lib env s resp = some (s.send "-ERR invalid RESP format\r\n".toList) := by
  unfold handleRead; rw [RESPToArray_refused resp h hlen]

/-! ## Incomplete frames -/

theorem Index_none_of_ne_lf (p : Str) (h : ∀ c ∈ p, c ≠ '\n') : Index p CRLF = -1 := by
  unfold Index; rw [indexOf_CRLF_none_of_ne_lf p h]

theorem RESPToArray_no_lf (p : Str) (h : ∀ c ∈ p, c ≠ '\n') : RESPToArray p = Result.err := by
  unfold RESPToArray
  split
  · rfl
  · simp [Index_none_of_ne_lf p h]

theorem RESPToArrayLoop_no_lf (m : Nat) (p : Str) (acc : List Str) (h : ∀ c ∈ p, c ≠ '\n') :
    RESPToArrayLoop (m + 1) p acc = Result.err := by
  rw [RESPToArrayLoop]
  split
  · rfl
  · simp [Index_none_of_ne_lf p h]

theorem isDigit_ne_lf (c : Char) (h : isDigit c = true) : c ≠ '\n' := by
  intro hc; subst hc; revert h; decide

/-- The bytes of a field with its mark `b` in front and a CR behind hold no
LF, and so does every part taken from their start. -/
theorem field_take_ne_lf (b : Char) (n k : Nat) (hb : b ≠ '\n') :
    ∀ c ∈ (b :: decimal n ++ CRLF).take (min k ((b :: decimal n).length + 1)), c ≠ '\n' := by
  intro c hc
  have hpre : (b :: decimal n ++ CRLF).take (min k ((b :: decimal n).length + 1))
      <+: (b :: decimal n) ++ ['\r'] := by
    have h1 : (b :: decimal n ++ CRLF).take ((b :: decimal n).length + 1) = (b :: decimal n) ++ ['\r'] := by
      rw [List.take_append_eq_append_take]
      simp [CRLF]
    rw [← h1, ← List.take_take]
    exact List.take_prefix _ _
  have hmem := hpre.subset hc
  simp only [List.cons_append, List.mem_cons, List.mem_append, List.mem_singleton,
    List.not_mem_nil, or_false] at hmem
  rcases hmem with h | h | h
  · subst h; exact hb
  · exact isDigit_ne_lf c (decimal_digits n c h)
  · subst h; decide

/-- An element whose payload with its CRLF is cut short is refused. -/
theorem RESPToArrayLoop_truncated (m : Nat) (l r : Str) (acc : List Str) (len : Int)
    (hl : Atoi l = (len, none)) (h0 : 0 ≤ len) (hr : (r.length : Int) < len + 2)
    (hb : 1 + (l.length : Int) + 2 + len + 2 ≤ MaxInt64) :
    RESPToArrayLoop (m + 1) ('$' :: l ++ CRLF ++ r) acc = Result.err := by
  have hlen : (('$' :: l ++ CRLF ++ r).length : Int) = 1 + l.length + 2 + r.length := by
    simp [CRLF]; omega
  have h1 : HasPrefix ('$' :: l ++ CRLF ++ r) ['$'] = true := by simp [HasPrefix]
  have h2 : Index ('$' :: l ++ CRLF ++ r) CRLF = 1 + (l.length : Int) :=
    Index_field '$' l _ (by decide) (Atoi_ok_ne_cr l _ hl)
  have h3 := slice_field '$' l r
  have h5 : wrap64 (1 + (l.length : Int) + 2 + len) = 1 + (l.length : Int) + 2 + len :=
    wrap64_id _ (by unfold MinInt64; omega) (by omega)
  have h6 : wrap64 (1 + (l.length : Int) + 2 + len + 2) = 1 + (l.length : Int) + 2 + len + 2 :=
    wrap64_id _ (by unfold MinInt64; omega) (by omega)
  have h11 : ¬ (1 + (l.length : Int) < 0) := by omega
  have hshort : (('$' :: l ++ CRLF ++ r).length : Int) < 1 + (l.length : Int) + 2 + len + 2 := by omega
  rw [RESPToArrayLoop]
  simp only [h1, h2, h3, hl, h5, h6, h11, Bool.not_true, Bool.false_eq_true, if_false, if_pos hshort]

/-- A bulk string cut short is refused. -/
theorem RESPToArrayLoop_take_bulk (m : Nat) (a : Str) (acc : List Str) (j : Nat)
    (hj : j < (bulk a).length) (hb : ((bulk a).length : Int) ≤ MaxInt64) :
    RESPToArrayLoop (m + 1) ((bulk a).take j) acc = Result.err := by
  have hbulk : bulk a = '$' :: decimal a.length ++ CRLF ++ (a ++ CRLF) := by
    simp [bulk, Itoa_natCast]
  have hblen : (bulk a).length = 1 + (decimal a.length).length + 2 + a.length + 2 := by
    simp [bulk, Itoa_natCast, CRLF]; omega
  by_cases hk : j ≤ ('$' :: decimal a.length).length + 1
  · apply RESPToArrayLoop_no_lf
    have := field_take_ne_lf '$' a.length j (by decide)
    rw [Nat.min_eq_left hk] at this
    have ht : (bulk a).take j = ('$' :: decimal a.length ++ CRLF).take j := by
      rw [hbulk, List.take_append_of_le_length]
      simp [CRLF]; simp at hk; omega
    rw [ht]; exact this
  · have hk2 : ('$' :: decimal a.length ++ CRLF).length ≤ j := by
      simp [CRLF]; simp at hk; omega
    have ht : (bulk a).take j = '$' :: decimal a.length ++ CRLF
        ++ (a ++ CRLF).take (j - ('$' :: decimal a.length ++ CRLF).length) := by
      rw [hbulk, List.take_append_eq_append_take, List.take_of_length_le hk2]
    rw [ht]
    refine RESPToArrayLoop_truncated m _ _ acc a.length ?_ (by omega) ?_ ?_
    · rw [Atoi_decimal, if_pos (by omega)]
    · have := List.length_take_le (j - ('$' :: decimal a.length ++ CRLF).length) (a ++ CRLF)
      simp only [List.length_take, List.length_append, List.length_cons, CRLF, List.length_nil] at *
      omega
    · omega

/-- The elements of a frame cut short are refused. -/
theorem RESPToArrayLoop_take_frames (args : List Str) (acc : List Str) (j : Nat)
    (hj : j < (frames args).length) (hb : ((frames args).length : Int) ≤ MaxInt64) :
    RESPToArrayLoop args.length ((frames args).take j) acc = Result.err := by
  induction args generalizing acc j with
  | nil => simp [frames] at hj
  | cons a as ih =>
    simp only [frames, List.length_append, Nat.cast_add] at hj hb
    simp only [frames, List.length_cons]
    by_cases hk : j < (bulk a).length
    · rw [List.take_append_of_le_length (by omega)]
      exact RESPToArrayLoop_take_bulk _ a acc j hk (by omega)
    · rw [List.take_append_eq_append_take, List.take_of_length_le (by omega)]
      rw [RESPToArrayLoop_step]
      · exact ih _ _ (by omega) (by omega)
      · have := List.length_take_le (j - (bulk a).length) (frames as)
        simp only [List.length_append, Nat.cast_add]
        omega

/-- Every proper part taken from the start of an encoded argument vector is
refused with an error. -/
theorem RESPToArray_take_encodeBulkArray (args : List Str) (k : Nat)
    (hk : k < (encodeBulkArray args).length)
    (hb : ((encodeBulkArray args).length : Int) ≤ MaxInt64)
    (hcap : (args.length : Int) ≤ maxSliceCap) :
    RESPToArray ((encodeBulkArray args).take k) = Result.err := by
  rw [encodeBulkArray_eq, Itoa_natCast] at hk hb ⊢
  have hlen : (['*'] ++ decimal args.length ++ CRLF ++ frames args).length
      = 1 + (decimal args.length).length + 2 + (frames args).length := by
    simp [CRLF]; omega
  have hfl : args.length ≤ (frames args).length := by
    clear hb hlen hk hcap
    induction args with
    | nil => simp
    | cons a as ih => simp [frames, bulk]; omega
  by_cases hh : k ≤ ('*' :: decimal args.length).length + 1
  · apply RESPToArray_no_lf
    have := field_take_ne_lf '*' args.length k (by decide)
    rw [Nat.min_eq_left hh] at this
    have ht : (['*'] ++ decimal args.length ++ CRLF ++ frames args).take k
        = ('*' :: decimal args.length ++ CRLF).take k := by
      rw [List.take_append_of_le_length]
      · rfl
      · simp [CRLF]; simp at hh; omega
    rw [ht]; exact this
  · have hk2 : ('*' :: decimal args.length ++ CRLF).length ≤ k := by
      simp [CRLF]; simp at hh; omega
    have ht : (['*'] ++ decimal args.length ++ CRLF ++ frames args).take k
        = '*' :: decimal args.length ++ CRLF
          ++ (frames args).take (k - ('*' :: decimal args.length ++ CRLF).length) := by
      rw [List.take_append_eq_append_take]
      congr 1
      exact List.take_of_length_le hk2
    rw [ht, RESPToArray_header _ _ (args.length : Int) (by rw [Atoi_decimal, if_pos (by omega)])
      (by omega) hcap, Int.toNat_ofNat]
    apply RESPToArrayLoop_take_frames
    · simp only [List.length_append, List.length_cons, CRLF, List.length_nil] at *
      omega
    · omega

/-! ## Panics of the decoder -/

/-- A negative count makes `make([]string, 0, count)` panic, whatever
follows the count. -/
theorem RESPToArray_negative_count (c tail : Str) (n : Int) (hc : Atoi c = (n, none)) (hn : n < 0) :
    RESPToArray ('*' :: c ++ CRLF ++ tail) = Result.panic := by
  have h1 : HasPrefix ('*' :: c ++ CRLF ++ tail) ['*'] = true := by simp [HasPrefix]
  have h2 : Index ('*' :: c ++ CRLF ++ tail) CRLF = 1 + (c.length : Int) :=
    Index_field '*' c tail (by decide) (Atoi_ok_ne_cr c _ hc)
  have h3 := slice_field '*' c tail
  have h6 : ¬ (1 + (c.length : Int) < 0) := by omega
  have h7 : n < 0 ∨ n > maxSliceCap := Or.inl hn
  unfold RESPToArray
  simp only [h1, h2, h3, hc, h6, h7, Bool.not_true, Bool.false_eq_true, if_false, if_true]

/-- An element with a negative length (such as the nil bulk `$-1\r\n`) that is
followed by at least `len + 2` bytes makes the slice expression
`rest[dataStart:dataEnd]` panic. -/
theorem RESPToArrayLoop_negative_length (m : Nat) (l tail : Str) (acc : List Str) (len : Int)
    (hl : Atoi l = (len, none)) (hn : len < 0) (ht : len + 2 ≤ (tail.length : Int))
    (hb : (('$' :: l ++ CRLF ++ tail).length : Int) ≤ MaxInt64) :
    RESPToArrayLoop (m + 1) ('$' :: l ++ CRLF ++ tail) acc = Result.panic := by
  have hlen : (('$' :: l ++ CRLF ++ tail).length : Int) = 1 + l.length + 2 + tail.length := by
    simp [CRLF]; omega
  have hr := Atoi_range l len hl
  unfold MinInt64 at hr
  have h1 : HasPrefix ('$' :: l ++ CRLF ++ tail) ['$'] = true := by simp [HasPrefix]
  have h2 : Index ('$' :: l ++ CRLF ++ tail) CRLF = 1 + (l.length : Int) :=
    Index_field '$' l _ (by decide) (Atoi_ok_ne_cr l _ hl)
  have h3 := slice_field '$' l tail
  have h5 : wrap64 (1 + (l.length : Int) + 2 + len) = 1 + (l.length : Int) + 2 + len :=
    wrap64_id _ (by unfold MinInt64; omega) (by omega)
  have h6 : wrap64 (1 + (l.length : Int) + 2 + len + 2) = 1 + (l.length : Int) + 2 + len + 2 :=
    wrap64_id _ (by unfold MinInt64; omega) (by omega)
  have h11 : ¬ (1 + (l.length : Int) < 0) := by omega
  have hshort : ¬ (('$' :: l ++ CRLF ++ tail).length : Int) < 1 + (l.length : Int) + 2 + len + 2 := by
    omega
  have h7 : slice ('$' :: l ++ CRLF ++ tail) (1 + (l.length : Int) + 2)
      (1 + (l.length : Int) + 2 + len) = none := by
    unfold slice
    rw [if_neg (by omega)]
  rw [RESPToArrayLoop]
  simp only [h1, h2, h3, hl, h5, h6, h11, h7, Bool.not_true, Bool.false_eq_true, if_false,
    if_neg hshort]

/-! ## MULTI and the subscribed flag -/

/-- MULTI is answered `+OK` and sets the flag, whatever the state of the
session: the test for a nested MULTI is never reached. -/
theorem handleCommand_MULTI {lib : Lib} (env : Nat → Env) (s : RedisServer) (name : Str) (rest : List Str)
    (h : ToUpper lib name = "MULTI".toList) :
    handleCommand lib env s (name :: rest)
      = some (RedisServer.send { s with MultiOn := true } "+OK\r\n".toList) := by
  simp [handleCommand, h]

theorem registerStep_mode (acc : RedisServer × Str) (chName : Str) :
    (registerStep acc chName).1.SubscribedMode = acc.1.SubscribedMode := by
  unfold registerStep
  dsimp only
  split
  · rfl
  · split <;> rfl

theorem unsubscribeStep_mode (acc : RedisServer × Str) (chName : Str) :
    (unsubscribeStep acc chName).1.SubscribedMode = acc.1.SubscribedMode := by
  unfold unsubscribeStep
  dsimp only
  split <;> rfl

theorem unsubscribeAllStep_mode (acc : RedisServer × Str) (entry : Str × Channel) :
    (unsubscribeAllStep acc entry).1.SubscribedMode = acc.1.SubscribedMode := rfl

theorem foldl_mode {α : Type} (step : RedisServer × Str → α → RedisServer × Str)
    (hstep : ∀ acc a, (step acc a).1.SubscribedMode = acc.1.SubscribedMode) (xs : List α)
    (acc : RedisServer × Str) : (xs.foldl step acc).1.SubscribedMode = acc.1.SubscribedMode := by
  induction xs generalizing acc with
  | nil => rfl
  | cons x xs ih => rw [List.foldl_cons, ih, hstep]

/-- UNSUBSCRIBE, with or without arguments, leaves the subscribed flag set,
also on a session that was not subscribed to anything. -/
theorem cmdUNSUBSCRIBE_mode (s s1 : RedisServer) (tempArr : List Str) (r : CommandResponse)
    (h : cmdUNSUBSCRIBE s tempArr = some (s1, r)) : s1.SubscribedMode = true := by
  unfold cmdUNSUBSCRIBE at h
  dsimp only at h
  split at h
  · simp only [respond, Option.some.injEq, Prod.mk.injEq] at h
    rw [← h.1, foldl_mode _ unsubscribeAllStep_mode]
  · simp only [respond, Option.some.injEq, Prod.mk.injEq] at h
    rw [← h.1, foldl_mode _ unsubscribeStep_mode]

theorem registerSUBSCRIBE_mode (s s1 : RedisServer) (tempArr : List Str) (r : CommandResponse)
    (hs : s.SubscribedMode = true) (h : registerSUBSCRIBE s tempArr = some (s1, r)) :
    s1.SubscribedMode = true := by
  unfold registerSUBSCRIBE at h
  split at h
  · simp only [fail, Option.some.injEq, Prod.mk.injEq] at h
    rw [← h.1, hs]
  · simp only [respond, Option.some.injEq, Prod.mk.injEq] at h
    rw [← h.1, foldl_mode _ registerStep_mode]

theorem cmdSUBSCRIBE_mode (s s1 : RedisServer) (tempArr : List Str) (r : CommandResponse)
    (hs : s.SubscribedMode = true) (h : cmdSUBSCRIBE s tempArr = some (s1, r)) :
    s1.SubscribedMode = true := by
  rcases cmdSUBSCRIBE_cases s tempArr with h1 | h1 <;> rw [h1] at h
  · cases h
  · exact registerSUBSCRIBE_mode s s1 tempArr r hs h

theorem fail_fst (s s1 : RedisServer) (m : Str) (r : CommandResponse) (h : fail s m = some (s1, r)) :
    s = s1 := by
  simp only [fail, Option.some.injEq, Prod.mk.injEq] at h; exact h.1

theorem respond_fst (s s1 : RedisServer) (m : Str) (r : CommandResponse)
    (h : respond s m = some (s1, r)) : s = s1 := by
  simp only [respond, Option.some.injEq, Prod.mk.injEq] at h; exact h.1

/-- No call of the executor clears the subscribed flag. -/
theorem executeCommand_mode {lib : Lib} (e : Env) (s s1 : RedisServer) (tempArr : List Str)
    (r : CommandResponse) (hs : s.SubscribedMode = true)
    (h : executeCommand lib e s tempArr = some (s1, r)) : s1.SubscribedMode = true := by
  unfold executeCommand at h
  cases tempArr with
  | nil =>
    simp only [fail, Option.some.injEq, Prod.mk.injEq] at h
    rw [← h.1, hs]
  | cons name rest =>
    dsimp only at h
    by_cases ha : allowed (ToUpper lib name) = true
    · simp only [hs, ha, Bool.not_true, Bool.and_false, Bool.false_eq_true, if_false] at h
      unfold allowed at ha
      simp only [List.mem_cons, List.mem_singleton, List.not_mem_nil, or_false,
        decide_eq_true_eq] at ha
      rcases ha with ha | ha | ha | ha | ha | ha <;> rw [ha] at h
      · exact cmdSUBSCRIBE_mode s s1 _ r hs h
      · exact cmdUNSUBSCRIBE_mode s s1 _ r h
      · have h1 : fail s "-ERR unknown command".toList = some (s1, r) := h
        rw [← fail_fst s s1 _ r h1, hs]
      · have h1 : fail s "-ERR unknown command".toList = some (s1, r) := h
        rw [← fail_fst s s1 _ r h1, hs]
      · have h1 : cmdPING s = some (s1, r) := h
        unfold cmdPING at h1
        split at h1 <;> rw [← respond_fst s s1 _ r h1, hs]
      · have h1 : fail s "-ERR unknown command".toList = some (s1, r) := h
        rw [← fail_fst s s1 _ r h1, hs]
    · simp only [hs, ha, Bool.not_false, Bool.and_self, if_true, fail, Option.some.injEq,
        Prod.mk.injEq] at h
      rw [← h.1, hs]


/-! ## The pub/sub registry -/

theorem chanGet_nil (k : Str) : chanGet [] k = none := rfl

theorem chanGet_cons (p : Str × Channel) (m : List (Str × Channel)) (k : Str) :
    chanGet (p :: m) k = if p.1 = k then some p.2 else chanGet m k := by
  unfold chanGet
  by_cases hk : p.1 = k
  · rw [if_pos hk, List.find?_cons_of_pos _ (by simpa using hk)]; rfl
  · rw [if_neg hk, List.find?_cons_of_neg _ (by simpa using hk)]

theorem chanGet_isSome (m : List (Str × Channel)) (k : Str) :
    (chanGet m k).isSome = true ↔ k ∈ m.map (fun p => p.1) := by
  induction m with
  | nil => rw [chanGet_nil]; exact ⟨fun h => (by cases h), fun h => (by cases h)⟩
  | cons p m ih =>
    rw [chanGet_cons, List.map_cons, List.mem_cons]
    by_cases hk : p.1 = k
    · rw [if_pos hk]; exact ⟨fun _ => Or.inl hk.symm, fun _ => rfl⟩
    · rw [if_neg hk, ih]
      exact ⟨fun h => Or.inr h, fun h => h.resolve_left (fun h1 => hk h1.symm)⟩

theorem chanGet_mem (m : List (Str × Channel)) (k : Str) (v : Channel) (h : chanGet m k = some v) :
    (k, v) ∈ m := by
  induction m with
  | nil => rw [chanGet_nil] at h; cases h
  | cons p m ih =>
    rw [chanGet_cons] at h
    by_cases hk : p.1 = k
    · rw [if_pos hk] at h
      cases h
      rw [← hk]
      exact List.mem_cons_self _ _
    · rw [if_neg hk] at h
      exact List.mem_cons_of_mem _ (ih h)

theorem chanGet_of_mem (m : List (Str × Channel)) (k : Str) (v : Channel)
    (hn : (m.map (fun p => p.1)).Nodup) (h : (k, v) ∈ m) : chanGet m k = some v := by
  induction m with
  | nil => cases h
  | cons p m ih =>
    rw [List.map_cons, List.nodup_cons] at hn
    rw [chanGet_cons]
    rcases List.mem_cons.1 h with h | h
    · subst h; rw [if_pos rfl]
    · have hk : p.1 ≠ k := by
        intro hk
        exact hn.1 (by rw [hk]; exact List.mem_map.2 ⟨(k, v), h, rfl⟩)
      rw [if_neg hk]
      exact ih hn.2 h

theorem chanSet_of_some (m : List (Str × Channel)) (k : Str) (v : Channel)
    (h : (chanGet m k).isSome = true) :
    chanSet m k v = m.map (fun p => if p.1 = k then (k, v) else p) := by
  unfold chanSet; rw [if_pos h]

theorem chanSet_of_none (m : List (Str × Channel)) (k : Str) (v : Channel)
    (h : chanGet m k = none) : chanSet m k v = m ++ [(k, v)] := by
  unfold chanSet; rw [if_neg (by rw [h]; exact Bool.false_ne_true)]

theorem chanSet_keys (m : List (Str × Channel)) (k : Str) (v : Channel) :
    (chanSet m k v).map (fun p => p.1)
      = if (chanGet m k).isSome = true then m.map (fun p => p.1) else m.map (fun p => p.1) ++ [k] := by
  unfold chanSet
  split
  · rw [List.map_map]
    apply List.map_congr_left
    intro p _
    show (if p.1 = k then (k, v) else p).1 = p.1
    split
    · rename_i hp; exact hp.symm
    · rfl
  · rw [List.map_append]; rfl

theorem chanSet_keys_nodup (m : List (Str × Channel)) (k : Str) (v : Channel)
    (hn : (m.map (fun p => p.1)).Nodup) : ((chanSet m k v).map (fun p => p.1)).Nodup := by
  rw [chanSet_keys]
  split
  · exact hn
  · rename_i h
    rw [chanGet_isSome] at h
    refine List.Nodup.append hn (List.nodup_singleton k) ?_
    intro x hx hx2
    rw [List.mem_singleton] at hx2
    subst hx2
    exact h hx

theorem chanSet_mem (m : List (Str × Channel)) (k : Str) (v : Channel) (p : Str × Channel)
    (h : p ∈ chanSet m k v) : p ∈ m ∨ p = (k, v) := by
  unfold chanSet at h
  split at h
  · rw [List.mem_map] at h
    obtain ⟨q, hq, rfl⟩ := h
    by_cases hk : q.1 = k
    · right; rw [if_pos hk]
    · left; rw [if_neg hk]; exact hq
  · rw [List.mem_append, List.mem_singleton] at h
    exact h

theorem chanGet_map_same (m : List (Str × Channel)) (k : Str) (v : Channel)
    (h : (chanGet m k).isSome = true) :
    chanGet (m.map (fun p => if p.1 = k then (k, v) else p)) k = some v := by
  induction m with
  | nil => rw [chanGet_nil] at h; cases h
  | cons p m ih =>
    rw [List.map_cons, chanGet_cons]
    rw [chanGet_cons] at h
    by_cases hk : p.1 = k
    · rw [if_pos hk, if_pos rfl]
    · rw [if_neg hk] at h
      rw [if_neg hk, if_neg hk]
      exact ih h

theorem chanGet_append (m m1 : List (Str × Channel)) (k : Str) :
    chanGet (m ++ m1) k = match chanGet m k with
      | some v => some v
      | none => chanGet m1 k := by
  induction m with
  | nil => rfl
  | cons p m ih =>
    rw [List.cons_append, chanGet_cons, chanGet_cons]
    by_cases hk : p.1 = k
    · rw [if_pos hk, if_pos hk]
    · rw [if_neg hk, if_neg hk]; exact ih

theorem chanGet_chanSet_same (m : List (Str × Channel)) (k : Str) (v : Channel) :
    chanGet (chanSet m k v) k = some v := by
  cases h : chanGet m k with
  | some w =>
    rw [chanSet_of_some m k v (by rw [h]; rfl)]
    exact chanGet_map_same m k v (by rw [h]; rfl)
  | none =>
    rw [chanSet_of_none m k v h, chanGet_append, h]
    show chanGet [(k, v)] k = some v
    rw [chanGet_cons, if_pos rfl]

theorem chanGet_map_other (m : List (Str × Channel)) (k k1 : Str) (v : Channel) (h : k1 ≠ k) :
    chanGet (m.map (fun p => if p.1 = k then (k, v) else p)) k1 = chanGet m k1 := by
  induction m with
  | nil => rfl
  | cons p m ih =>
    rw [List.map_cons, chanGet_cons, chanGet_cons, ih]
    by_cases hk : p.1 = k
    · rw [if_pos hk]
      have h1 : ¬ (k, v).1 = k1 := fun h2 => h h2.symm
      have h2 : ¬ p.1 = k1 := fun h2 => h (by rw [← h2, hk])
      rw [if_neg h1, if_neg h2]
    · rw [if_neg hk]

theorem chanGet_chanSet_other (m : List (Str × Channel)) (k k1 : Str) (v : Channel) (h : k1 ≠ k) :
    chanGet (chanSet m k v) k1 = chanGet m k1 := by
  cases hg : chanGet m k with
  | some w =>
    rw [chanSet_of_some m k v (by rw [hg]; rfl)]
    exact chanGet_map_other m k k1 v h
  | none =>
    rw [chanSet_of_none m k v hg, chanGet_append]
    cases chanGet m k1 with
    | some w => rfl
    | none =>
      show chanGet [(k, v)] k1 = none
      rw [chanGet_cons, if_neg (fun h2 => h h2.symm)]; rfl

theorem subscribers_setChannel (s : RedisServer) (k : Str) (v : Channel) (ch : Str) :
    subscribers (s.setChannel k v).state ch
      = if ch = k then v.connections else subscribers s.state ch := by
  unfold subscribers RedisServer.setChannel
  dsimp only
  by_cases h : ch = k
  · subst h; rw [chanGet_chanSet_same, if_pos rfl]
  · rw [chanGet_chanSet_other _ _ _ _ h, if_neg h]

theorem RegistryOK_setChannel (s : RedisServer) (k : Str) (v : Channel) (h : RegistryOK s.state)
    (hv : v.connections.Nodup) : RegistryOK (s.setChannel k v).state := by
  refine ⟨chanSet_keys_nodup _ _ _ h.1, ?_⟩
  intro p hp
  rcases chanSet_mem _ _ _ _ hp with hp | hp
  · exact h.2 p hp
  · subst hp; exact hv

theorem subscribers_nodup (st : RedisState) (ch : Str) (h : RegistryOK st) :
    (subscribers st ch).Nodup := by
  unfold subscribers
  cases hg : chanGet st.channels ch with
  | none => exact List.nodup_nil
  | some v => exact h.2 _ (chanGet_mem _ _ _ hg)

theorem mem_subscriptions (st : RedisState) (c : Conn) (ch : Str) (h : RegistryOK st) :
    ch ∈ subscriptions st c ↔ c ∈ subscribers st ch := by
  unfold subscriptions subscribers
  rw [List.mem_toFinset, List.mem_map]
  constructor
  · rintro ⟨p, hp, rfl⟩
    rw [List.mem_filter] at hp
    rw [chanGet_of_mem _ p.1 p.2 h.1 hp.1]
    exact of_decide_eq_true hp.2
  · intro hc
    cases hg : chanGet st.channels ch with
    | none => rw [hg] at hc; cases hc
    | some v =>
      rw [hg] at hc
      exact ⟨(ch, v), List.mem_filter.2 ⟨chanGet_mem _ _ _ hg, decide_eq_true hc⟩, rfl⟩

theorem subCount_eq_card (s : RedisServer) (h : RegistryOK s.state) :
    subCount s = ((subscriptions s.state s.conn).card : Int) := by
  unfold subCount subscriptions
  rw [List.toFinset_card_of_nodup, List.length_map]
  exact (h.1.sublist (List.Sublist.map _ (List.filter_sublist _)))

/-- What one iteration of the loop of SUBSCRIBE does to the registry: it adds
the connection of the session to the subscribers of the channel, and nothing
else changes. -/
theorem registerStep_registry (acc : RedisServer × Str) (ch : Str) (h : RegistryOK acc.1.state) :
    RegistryOK (registerStep acc ch).1.state ∧
    (registerStep acc ch).1.conn = acc.1.conn ∧
    (∀ (ch1 : Str) (c : Conn), c ∈ subscribers (registerStep acc ch).1.state ch1
      ↔ c ∈ subscribers acc.1.state ch1 ∨ (c = acc.1.conn ∧ ch1 = ch)) := by
  unfold registerStep
  dsimp only
  cases hg : chanGet acc.1.state.channels ch with
  | none =>
    dsimp only
    refine ⟨RegistryOK_setChannel _ _ _ h (List.nodup_singleton _), rfl, ?_⟩
    intro ch1 c
    rw [subscribers_setChannel]
    by_cases h1 : ch1 = ch
    · subst h1
      rw [if_pos rfl]
      have : subscribers acc.1.state ch1 = [] := by unfold subscribers; rw [hg]
      rw [this]
      simp
    · rw [if_neg h1]; simp [h1]
  | some channel =>
    dsimp only
    have hsub : subscribers acc.1.state ch = channel.connections := by unfold subscribers; rw [hg]
    by_cases hm : acc.1.conn ∈ channel.connections
    · rw [if_pos hm]
      refine ⟨h, rfl, ?_⟩
      intro ch1 c
      constructor
      · exact Or.inl
      · rintro (h1 | ⟨rfl, rfl⟩)
        · exact h1
        · rw [hsub]; exact hm
    · rw [if_neg hm]
      have hnd : (channel.connections ++ [acc.1.conn]).Nodup := by
        refine List.Nodup.append (h.2 _ (chanGet_mem _ _ _ hg)) (List.nodup_singleton _) ?_
        intro x hx hx2
        rw [List.mem_singleton] at hx2
        subst hx2
        exact hm hx
      refine ⟨RegistryOK_setChannel _ _ _ h hnd, rfl, ?_⟩
      intro ch1 c
      rw [subscribers_setChannel]
      by_cases h1 : ch1 = ch
      · subst h1
        rw [if_pos rfl, hsub]
        simp
      · rw [if_neg h1]; simp [h1]

/-- An iteration of the loop of SUBSCRIBE for a channel that the session
already belongs to leaves the session and the registry as they are. -/
theorem registerStep_member (acc : RedisServer × Str) (ch : Str)
    (hm : acc.1.conn ∈ subscribers acc.1.state ch) :
    registerStep acc ch = (acc.1, acc.2 ++ pushFrame "subscribe" ch (subCount acc.1)) := by
  unfold registerStep
  unfold subscribers at hm
  cases hg : chanGet acc.1.state.channels ch with
  | none => rw [hg] at hm; cases hm
  | some channel =>
    rw [hg] at hm
    dsimp only at hm ⊢
    simp only [hg, if_pos hm]

theorem subscriptions_registerStep (acc : RedisServer × Str) (ch : Str) (h : RegistryOK acc.1.state) :
    subscriptions (registerStep acc ch).1.state acc.1.conn
      = insert ch (subscriptions acc.1.state acc.1.conn) := by
  have hs := registerStep_registry acc ch h
  ext ch1
  rw [mem_subscriptions _ _ _ hs.1, Finset.mem_insert, mem_subscriptions _ _ _ h, hs.2.2]
  constructor
  · rintro (h1 | ⟨_, h1⟩)
    · exact Or.inr h1
    · exact Or.inl h1
  · rintro (h1 | h1)
    · exact Or.inr ⟨rfl, h1⟩
    · exact Or.inl h1

/-- The loop of SUBSCRIBE: the frames are those of the specification, and the
registry gains the session as a subscriber of the named channels. -/
theorem subscribe_fold (chs : List Str) (acc : RedisServer × Str) (h : RegistryOK acc.1.state) :
    RegistryOK (chs.foldl registerStep acc).1.state ∧
    (chs.foldl registerStep acc).1.conn = acc.1.conn ∧
    (∀ (ch1 : Str) (c : Conn), c ∈ subscribers (chs.foldl registerStep acc).1.state ch1
      ↔ c ∈ subscribers acc.1.state ch1 ∨ (c = acc.1.conn ∧ ch1 ∈ chs)) ∧
    (chs.foldl registerStep acc).2
      = acc.2 ++ subscribeReply (subscriptions acc.1.state acc.1.conn) chs := by
  induction chs generalizing acc with
  | nil => simp [subscribeReply, h]
  | cons ch chs ih =>
    have hs := registerStep_registry acc ch h
    have hi := ih (registerStep acc ch) hs.1
    rw [List.foldl_cons]
    refine ⟨hi.1, hi.2.1.trans hs.2.1, ?_, ?_⟩
    · intro ch1 c
      rw [hi.2.2.1, hs.2.2, hs.2.1, List.mem_cons]
      constructor
      · rintro ((h1 | ⟨h1, h2⟩) | ⟨h1, h2⟩)
        · exact Or.inl h1
        · exact Or.inr ⟨h1, Or.inl h2⟩
        · exact Or.inr ⟨h1, Or.inr h2⟩
      · rintro (h1 | ⟨h1, h2 | h2⟩)
        · exact Or.inl (Or.inl h1)
        · exact Or.inl (Or.inr ⟨h1, h2⟩)
        · exact Or.inr ⟨h1, h2⟩
    · rw [hi.2.2.2, hs.2.1, subscriptions_registerStep acc ch h]
      have h2 : (registerStep acc ch).2
          = acc.2 ++ pushFrame "subscribe" ch (subCount (registerStep acc ch).1) := rfl
      have h3 : subCount (registerStep acc ch).1
          = ((insert ch (subscriptions acc.1.state acc.1.conn)).card : Int) := by
        rw [subCount_eq_card _ hs.1, hs.2.1, subscriptions_registerStep acc ch h]
      rw [h2, h3, subscribeReply, List.append_assoc]

theorem executeCommand_SUBSCRIBE {lib : Lib} (e : Env) (s : RedisServer) (rest : List Str) :
    executeCommand lib e s ("SUBSCRIBE".toList :: rest)
      = cmdSUBSCRIBE s ("SUBSCRIBE".toList :: rest) := by
  have hu : ToUpper lib "SUBSCRIBE".toList = "SUBSCRIBE".toList := rfl
  have ha : allowed "SUBSCRIBE".toList = true := by decide
  unfold executeCommand
  simp only [hu, ha, Bool.not_true, Bool.and_false, Bool.false_eq_true, if_false]
  rfl

theorem executeCommand_UNSUBSCRIBE {lib : Lib} (e : Env) (s : RedisServer) (rest : List Str) :
    executeCommand lib e s ("UNSUBSCRIBE".toList :: rest)
      = cmdUNSUBSCRIBE s ("UNSUBSCRIBE".toList :: rest) := by
  have hu : ToUpper lib "UNSUBSCRIBE".toList = "UNSUBSCRIBE".toList := rfl
  have ha : allowed "UNSUBSCRIBE".toList = true := by decide
  unfold executeCommand
  simp only [hu, ha, Bool.not_true, Bool.and_false, Bool.false_eq_true, if_false]
  rfl

/-- SUBSCRIBE with at least one channel, on a registry that is a map. -/
theorem registerSUBSCRIBE_spec (s : RedisServer) (name ch : Str) (chs : List Str)
    (hreg : RegistryOK s.state) :
    ∃ s1 : RedisServer,
      registerSUBSCRIBE s (name :: ch :: chs)
        = some (s1, { Response := subscribeReply (subscriptions s.state s.conn) (ch :: chs),
                      Error := [] }) ∧
      s1.SubscribedMode = true ∧ s1.conn = s.conn ∧ RegistryOK s1.state ∧
      (∀ (ch1 : Str) (c : Conn), c ∈ subscribers s1.state ch1
        ↔ c ∈ subscribers s.state ch1 ∨ (c = s.conn ∧ ch1 ∈ ch :: chs)) := by
  have hf := subscribe_fold (ch :: chs) ({ s with SubscribedMode := true }, []) hreg
  refine ⟨((ch :: chs).foldl registerStep ({ s with SubscribedMode := true }, [])).1, ?_, ?_,
    hf.2.1, hf.1, hf.2.2.1⟩
  · unfold registerSUBSCRIBE
    rw [if_neg (by simp)]
    simp only [List.drop_succ_cons, List.drop_zero, respond]
    rw [hf.2.2.2]
    rfl
  · rw [foldl_mode _ registerStep_mode]


/-- SUBSCRIBE with at least one channel, on a registry that is a map: a call
that returns has answered with the frames of the specification and has made
the session a subscriber of the named channels, and of no other. -/
theorem cmdSUBSCRIBE_spec (s s1 : RedisServer) (name ch : Str) (chs : List Str)
    (r : CommandResponse) (hreg : RegistryOK s.state)
    (h : cmdSUBSCRIBE s (name :: ch :: chs) = some (s1, r)) :
    r = { Response := subscribeReply (subscriptions s.state s.conn) (ch :: chs), Error := [] } ∧
    s1.SubscribedMode = true ∧ s1.conn = s.conn ∧ RegistryOK s1.state ∧
    (∀ (ch1 : Str) (c : Conn), c ∈ subscribers s1.state ch1
      ↔ c ∈ subscribers s.state ch1 ∨ (c = s.conn ∧ ch1 ∈ ch :: chs)) := by
  obtain ⟨s2, h2, hmode, hconn, hreg2, hmem⟩ := registerSUBSCRIBE_spec s name ch chs hreg
  rcases cmdSUBSCRIBE_cases s (name :: ch :: chs) with h1 | h1
  · rw [h1] at h; cases h
  · rw [h1, h2] at h
    simp only [Option.some.injEq, Prod.mk.injEq] at h
    obtain ⟨rfl, rfl⟩ := h
    exact ⟨rfl, hmode, hconn, hreg2, hmem⟩

theorem filter_ne_nodup (l : List Conn) (c : Conn) (h : l.Nodup) :
    (l.filter (fun x => decide (x ≠ c))).Nodup :=
  h.sublist (List.filter_sublist _)

/-- What one iteration of the loop of UNSUBSCRIBE with arguments does to the
registry: it takes the connection of the session out of the subscribers of
the channel, and nothing else changes. -/
theorem unsubscribeStep_registry (acc : RedisServer × Str) (ch : Str) (h : RegistryOK acc.1.state) :
    RegistryOK (unsubscribeStep acc ch).1.state ∧
    (unsubscribeStep acc ch).1.conn = acc.1.conn ∧
    (∀ (ch1 : Str) (c : Conn), c ∈ subscribers (unsubscribeStep acc ch).1.state ch1
      ↔ c ∈ subscribers acc.1.state ch1 ∧ ¬ (c = acc.1.conn ∧ ch1 = ch)) := by
  unfold unsubscribeStep
  dsimp only
  cases hg : chanGet acc.1.state.channels ch with
  | none =>
    dsimp only
    refine ⟨h, rfl, ?_⟩
    intro ch1 c
    constructor
    · intro hc
      refine ⟨hc, ?_⟩
      rintro ⟨_, rfl⟩
      unfold subscribers at hc
      rw [hg] at hc
      cases hc
    · exact fun hc => hc.1
  | some channel =>
    dsimp only
    have hsub : subscribers acc.1.state ch = channel.connections := by unfold subscribers; rw [hg]
    refine ⟨RegistryOK_setChannel _ _ _ h
      (filter_ne_nodup _ _ (h.2 _ (chanGet_mem _ _ _ hg))), rfl, ?_⟩
    intro ch1 c
    rw [subscribers_setChannel]
    by_cases h1 : ch1 = ch
    · subst h1
      rw [if_pos rfl, hsub, List.mem_filter]
      simp
    · rw [if_neg h1]; simp [h1]

theorem unsubscribe_fold (chs : List Str) (acc : RedisServer × Str) (h : RegistryOK acc.1.state) :
    RegistryOK (chs.foldl unsubscribeStep acc).1.state ∧
    (chs.foldl unsubscribeStep acc).1.conn = acc.1.conn ∧
    (∀ (ch1 : Str) (c : Conn), c ∈ subscribers (chs.foldl unsubscribeStep acc).1.state ch1
      ↔ c ∈ subscribers acc.1.state ch1 ∧ ¬ (c = acc.1.conn ∧ ch1 ∈ chs)) := by
  induction chs generalizing acc with
  | nil => simp [h]
  | cons ch chs ih =>
    have hs := unsubscribeStep_registry acc ch h
    have hi := ih (unsubscribeStep acc ch) hs.1
    rw [List.foldl_cons]
    refine ⟨hi.1, hi.2.1.trans hs.2.1, ?_⟩
    intro ch1 c
    rw [hi.2.2, hs.2.2, hs.2.1, List.mem_cons]
    constructor
    · rintro ⟨⟨h1, h2⟩, h3⟩
      refine ⟨h1, ?_⟩
      rintro ⟨h4, h5 | h5⟩
      · exact h2 ⟨h4, h5⟩
      · exact h3 ⟨h4, h5⟩
    · rintro ⟨h1, h2⟩
      exact ⟨⟨h1, fun h3 => h2 ⟨h3.1, Or.inl h3.2⟩⟩, fun h3 => h2 ⟨h3.1, Or.inr h3.2⟩⟩

/-- The loop of UNSUBSCRIBE without arguments over entries `L` of the
registry: the connection of the session leaves the subscribers of every
channel of `L`, and nothing else changes. -/
theorem unsubscribeAll_fold (L : List (Str × Channel)) (acc : RedisServer × Str)
    (h : RegistryOK acc.1.state)
    (hL : ∀ p ∈ L, chanGet acc.1.state.channels p.1 = some p.2)
    (hn : (L.map (fun p => p.1)).Nodup) :
    RegistryOK (L.foldl unsubscribeAllStep acc).1.state ∧
    (L.foldl unsubscribeAllStep acc).1.conn = acc.1.conn ∧
    (∀ (ch1 : Str) (c : Conn), c ∈ subscribers (L.foldl unsubscribeAllStep acc).1.state ch1
      ↔ c ∈ subscribers acc.1.state ch1 ∧ ¬ (c = acc.1.conn ∧ ch1 ∈ L.map (fun p => p.1))) := by
  induction L generalizing acc with
  | nil =>
    exact ⟨h, rfl, fun ch1 c =>
      ⟨fun hc => ⟨hc, fun h3 => (List.not_mem_nil _ h3.2).elim⟩, fun hc => hc.1⟩⟩
  | cons p L ih =>
    rw [List.map_cons, List.nodup_cons] at hn
    have hp : chanGet acc.1.state.channels p.1 = some p.2 := hL p (List.mem_cons_self _ _)
    have hsub : subscribers acc.1.state p.1 = p.2.connections := by unfold subscribers; rw [hp]
    have hreg : RegistryOK (unsubscribeAllStep acc p).1.state :=
      RegistryOK_setChannel _ _ _ h (filter_ne_nodup _ _ (h.2 _ (chanGet_mem _ _ _ hp)))
    have hconn : (unsubscribeAllStep acc p).1.conn = acc.1.conn := rfl
    have hsubs : ∀ ch1 : Str, subscribers (unsubscribeAllStep acc p).1.state ch1
        = if ch1 = p.1 then p.2.connections.filter (fun x => decide (x ≠ acc.1.conn))
          else subscribers acc.1.state ch1 := by
      intro ch1
      exact subscribers_setChannel _ _ _ _
    have hL2 : ∀ q ∈ L, chanGet (unsubscribeAllStep acc p).1.state.channels q.1 = some q.2 := by
      intro q hq
      have hne : q.1 ≠ p.1 := by
        intro he
        exact hn.1 (by rw [← he]; exact List.mem_map.2 ⟨q, hq, rfl⟩)
      have : (unsubscribeAllStep acc p).1.state.channels
          = chanSet acc.1.state.channels p.1
              { p.2 with connections := p.2.connections.filter (fun x => decide (x ≠ acc.1.conn)) } := rfl
      rw [this, chanGet_chanSet_other _ _ _ _ hne]
      exact hL q (List.mem_cons_of_mem _ hq)
    have hi := ih (unsubscribeAllStep acc p) hreg hL2 hn.2
    rw [List.foldl_cons]
    refine ⟨hi.1, hi.2.1.trans hconn, ?_⟩
    intro ch1 c
    rw [hi.2.2, hsubs, hconn, List.map_cons, List.mem_cons]
    by_cases h1 : ch1 = p.1
    · subst h1
      rw [if_pos rfl, hsub, List.mem_filter]
      simp only [ne_eq, decide_not, Bool.not_eq_true', decide_eq_false_iff_not, true_or, and_true]
      constructor
      · rintro ⟨⟨h1, h2⟩, _⟩; exact ⟨h1, h2⟩
      · rintro ⟨h1, h2⟩; exact ⟨⟨h1, h2⟩, fun h3 => h2 h3.1⟩
    · rw [if_neg h1]
      constructor
      · rintro ⟨h2, h3⟩; exact ⟨h2, fun h4 => h3 ⟨h4.1, h4.2.resolve_left h1⟩⟩
      · rintro ⟨h2, h3⟩; exact ⟨h2, fun h4 => h3 ⟨h4.1, Or.inr h4.2⟩⟩

/-- UNSUBSCRIBE on a registry that is a map: the call returns, and the session
leaves the subscribers of the named channels, or of all channels when none is
named; no other subscription changes. -/
theorem cmdUNSUBSCRIBE_spec (s : RedisServer) (name : Str) (chs : List Str)
    (hreg : RegistryOK s.state) :
    ∃ (s1 : RedisServer) (r : CommandResponse),
      cmdUNSUBSCRIBE s (name :: chs) = some (s1, r) ∧
      s1.conn = s.conn ∧ RegistryOK s1.state ∧
      (∀ (ch1 : Str) (c : Conn), c ∈ subscribers s1.state ch1
        ↔ c ∈ subscribers s.state ch1 ∧ ¬ (c = s.conn ∧ (chs = [] ∨ ch1 ∈ chs))) := by
  unfold cmdUNSUBSCRIBE
  simp only [List.drop_succ_cons, List.drop_zero, respond]
  by_cases hc : chs.length = 0
  · rw [if_pos hc]
    have hchs : chs = [] := List.length_eq_zero.1 hc
    have hf := unsubscribeAll_fold s.state.channels ({ s with SubscribedMode := true }, []) hreg
      (fun p hp => chanGet_of_mem _ p.1 p.2 hreg.1 hp) hreg.1
    refine ⟨_, _, rfl, hf.2.1, hf.1, ?_⟩
    intro ch1 c
    rw [hf.2.2]
    simp only [hchs, true_or, and_true]
    constructor
    · rintro ⟨h1, h2⟩
      refine ⟨h1, fun h3 => h2 ⟨h3, ?_⟩⟩
      rw [← chanGet_isSome]
      unfold subscribers at h1
      cases hg : chanGet s.state.channels ch1 with
      | none => rw [hg] at h1; cases h1
      | some v => rfl
    · rintro ⟨h1, h2⟩
      exact ⟨h1, fun h3 => h2 h3.1⟩
  · rw [if_neg hc]
    have hchs : chs ≠ [] := fun h => hc (by rw [h]; rfl)
    have hf := unsubscribe_fold chs ({ s with SubscribedMode := true }, []) hreg
    refine ⟨_, _, rfl, hf.2.1, hf.1, ?_⟩
    intro ch1 c
    rw [hf.2.2]
    simp [hchs]

theorem write_fold_eq (cs : List Conn) (b : Str) (st : RedisState) :
    cs.foldl (fun st c => st.write c b) st
      = { st with net := st.net ++ cs.map (fun c => (c, b)) } := by
  induction cs generalizing st with
  | nil => simp
  | cons c cs ih =>
    rw [List.foldl_cons, ih]
    simp [RedisState.write]

/-- PUBLISH writes the message frame once to every connection of the
subscriber list of the channel, in list order, and replies their number. -/
theorem cmdPUBLISH_spec (s : RedisServer) (name ch msg : Str) :
    cmdPUBLISH s [name, ch, msg]
      = some ({ s with state := { s.state with
                  net := s.state.net ++ (subscribers s.state ch).map (fun c => (c, messageFrame ch msg)) } },
          { Response := [':'] ++ Itoa ((subscribers s.state ch).length : Int) ++ CRLF, Error := [] }) := by
  have i1 : index [name, ch, msg] 1 = some ch := rfl
  have i2 : index [name, ch, msg] 2 = some msg := rfl
  unfold cmdPUBLISH subscribers
  rw [if_neg (by simp)]
  simp only [Option.bind_eq_bind, i1, i2, Option.some_bind]
  cases hg : chanGet s.state.channels ch with
  | none =>
    simp only [respond, List.map_nil, List.append_nil, List.length_nil]
    rfl
  | some channel =>
    simp only [respond, write_fold_eq]
    rfl

theorem executeCommand_PUBLISH {lib : Lib} (e : Env) (s : RedisServer) (rest : List Str)
    (hmode : s.SubscribedMode = false) :
    executeCommand lib e s ("PUBLISH".toList :: rest) = cmdPUBLISH s ("PUBLISH".toList :: rest) := by
  rw [executeCommand_normal _ _ _ _ hmode]; rfl

/-- Any sequence of SUBSCRIBE and UNSUBSCRIBE commands, by any sessions, on a
registry that is a map, in which every call returns: the registry stays a map,
and the subscriber lists hold exactly the connections that are subscribed in
the words of the specification. -/
theorem runPubSub_spec {lib : Lib} (e : Env) (calls : List PubSubCall) (st st1 : RedisState)
    (m : Conn → Str → Bool) (hreg : RegistryOK st)
    (hm : ∀ (ch : Str) (c : Conn), c ∈ subscribers st ch ↔ m c ch = true)
    (hrun : runPubSub lib e st calls = some st1) :
    RegistryOK st1 ∧
      ∀ (ch : Str) (c : Conn), c ∈ subscribers st1 ch ↔ subscribedAfter m calls c ch = true := by
  induction calls generalizing st m with
  | nil =>
    simp only [runPubSub, Option.some.injEq] at hrun
    subst hrun
    exact ⟨hreg, hm⟩
  | cons call calls ih =>
    cases call with
    | subscribe g chs =>
      have hrun1 : (match executeCommand lib e (g.withState st) ("SUBSCRIBE".toList :: chs) with
          | none => none
          | some (s1, _) => runPubSub lib e s1.state calls) = some st1 := hrun
      rw [executeCommand_SUBSCRIBE] at hrun1
      cases chs with
      | nil =>
        have hx : cmdSUBSCRIBE (g.withState st) ["SUBSCRIBE".toList]
            = some (g.withState st, { Response := [], Error := arityError "SUBSCRIBE" }) := rfl
        rw [hx] at hrun1
        exact ih st
          (fun c1 ch1 => m c1 ch1 || (decide (c1 = g.conn) && decide (ch1 ∈ ([] : List Str)))) hreg
          (by intro ch c; rw [hm]; simp) hrun1
      | cons ch chs =>
        cases hc : cmdSUBSCRIBE (g.withState st) ("SUBSCRIBE".toList :: ch :: chs) with
        | none => rw [hc] at hrun1; cases hrun1
        | some x =>
          obtain ⟨s1, r⟩ := x
          rw [hc] at hrun1
          obtain ⟨_, _, hconn, hreg1, hmem⟩ :=
            cmdSUBSCRIBE_spec (g.withState st) s1 "SUBSCRIBE".toList ch chs r hreg hc
          have e1 : (g.withState st).state = st := rfl
          have e2 : (g.withState st).conn = g.conn := rfl
          rw [e1, e2] at hmem
          exact ih s1.state
            (fun c1 ch1 => m c1 ch1 || (decide (c1 = g.conn) && decide (ch1 ∈ ch :: chs))) hreg1
            (by
              intro ch1 c
              rw [hmem, hm]
              show _ ↔ (m c ch1 || (decide (c = g.conn) && decide (ch1 ∈ ch :: chs))) = true
              simp only [Bool.or_eq_true, Bool.and_eq_true, decide_eq_true_eq]) hrun1
    | unsubscribe g chs =>
      obtain ⟨s1, r, hs1, hconn, hreg1, hmem⟩ :=
        cmdUNSUBSCRIBE_spec (g.withState st) "UNSUBSCRIBE".toList chs hreg
      have e1 : (g.withState st).state = st := rfl
      have e2 : (g.withState st).conn = g.conn := rfl
      rw [e1, e2] at hmem
      have hrun1 : (match executeCommand lib e (g.withState st) ("UNSUBSCRIBE".toList :: chs) with
          | none => none
          | some (s1, _) => runPubSub lib e s1.state calls) = some st1 := hrun
      rw [executeCommand_UNSUBSCRIBE, hs1] at hrun1
      exact ih s1.state
        (fun c1 ch1 => m c1 ch1 && !(decide (c1 = g.conn) && (chs.isEmpty || decide (ch1 ∈ chs))))
        hreg1
        (by
          intro ch1 c
          rw [hmem, hm]
          show _ ↔ (m c ch1 && !(decide (c = g.conn) && (chs.isEmpty || decide (ch1 ∈ chs)))) = true
          simp only [Bool.and_eq_true, Bool.not_eq_true', Bool.and_eq_false_imp, decide_eq_true_eq,
            Bool.or_eq_false_iff, decide_eq_false_iff_not, List.isEmpty_iff, not_and, not_or]
          have hE : chs.isEmpty = false ↔ ¬ chs = [] := by
            cases chs with
            | nil => exact ⟨fun h => (by cases h), fun h => absurd rfl h⟩
            | cons _ _ => exact ⟨fun _ h => (by cases h), fun _ => rfl⟩
          rw [hE]) hrun1

/-- PUBLISH after a sequence of SUBSCRIBE and UNSUBSCRIBE commands, by any
sessions on a server started by `main`, in which every call returns: the
publisher, in normal mode, writes the message frame once to each connection
that is subscribed to the channel in the words of the specification, to no
other, and replies their number. -/
theorem executeCommand_PUBLISH_after {lib : Lib} (e : Env) (config : Config)
    (serverIsMaster : Bool) (calls : List PubSubCall) (st : RedisState) (p : RedisServer)
    (ch msg : Str) (hp : p.SubscribedMode = false)
    (hrun : runPubSub lib e (initState config serverIsMaster) calls = some st) :
    ∃ recipients : List Conn,
      recipients.Nodup ∧
      (∀ c : Conn, c ∈ recipients ↔ subscribedAfter (fun _ _ => false) calls c ch = true) ∧
      executeCommand lib e (p.withState st) ["PUBLISH".toList, ch, msg]
        = some ({ p with state := { st with
                    net := st.net ++ recipients.map (fun c => (c, messageFrame ch msg)) } },
            { Response := [':'] ++ Itoa (recipients.length : Int) ++ CRLF, Error := [] }) := by
  have hreg0 : RegistryOK (initState config serverIsMaster) :=
    ⟨List.nodup_nil, fun _ hq => nomatch hq⟩
  obtain ⟨hreg, hmem⟩ := runPubSub_spec e calls (initState config serverIsMaster) st
    (fun _ _ => false) hreg0 (by
      intro ch1 c
      constructor
      · intro h; cases h
      · intro h; cases h) hrun
  refine ⟨subscribers st ch, subscribers_nodup st ch hreg, hmem ch, ?_⟩
  have hp1 : (p.withState st).SubscribedMode = false := hp
  rw [executeCommand_PUBLISH e _ _ hp1, cmdPUBLISH_spec]
  rfl


/-! ## The registry stays a map -/

theorem KeepsRegistry.of_eq {s s1 : RedisServer} (h : s1.state.channels = s.state.channels) :
    KeepsRegistry s s1 := by
  constructor
  intro hs
  unfold RegistryOK at *
  rw [h]; exact hs

theorem write_fold_channels (cs : List Conn) (b : Str) (st : RedisState) :
    (cs.foldl (fun st c => st.write c b) st).channels = st.channels := by
  rw [write_fold_eq]

theorem propagate_channels (s : RedisServer) (args : List Str) :
    (s.propagate args).state.channels = s.state.channels :=
  write_fold_channels _ _ _

theorem KeepsRegistryOut.noneReg (s : RedisServer) : KeepsRegistryOut s none :=
  ⟨fun _ hp => nomatch hp⟩

theorem KeepsRegistryOut.respondReg {s s1 : RedisServer} (h : KeepsRegistry s s1) (r : Str) :
    KeepsRegistryOut s (respond s1 r) := by
  constructor; intro p hp; cases hp; exact h

theorem KeepsRegistryOut.failReg {s s1 : RedisServer} (h : KeepsRegistry s s1) (r : Str) :
    KeepsRegistryOut s (fail s1 r) := by
  constructor; intro p hp; cases hp; exact h

theorem KeepsRegistryOut.bindReg {α : Type} (s : RedisServer) (x : Option α)
    (f : α → Option (RedisServer × CommandResponse)) (h : ∀ a, some a = x → KeepsRegistryOut s (f a)) :
    KeepsRegistryOut s (x.bind f) := by
  cases x with
  | none => exact KeepsRegistryOut.noneReg s
  | some a => exact h a rfl

theorem KeepsRegistryOut.iteReg (s : RedisServer) (c : Prop) [Decidable c]
    (a b : Option (RedisServer × CommandResponse)) (ha : KeepsRegistryOut s a)
    (hb : KeepsRegistryOut s b) : KeepsRegistryOut s (if c then a else b) := by
  split <;> assumption

theorem registerSUBSCRIBE_registry (s : RedisServer) (args : List Str) :
    KeepsRegistryOut s (registerSUBSCRIBE s args) := by
  unfold registerSUBSCRIBE
  split
  · exact KeepsRegistryOut.failReg (KeepsRegistry.of_eq rfl) _
  · have hk : KeepsRegistry s
        ((args.drop 1).foldl registerStep ({ s with SubscribedMode := true }, [])).1 :=
      ⟨fun hs => (subscribe_fold _ ({ s with SubscribedMode := true }, []) hs).1⟩
    exact KeepsRegistryOut.respondReg hk _

theorem cmdSUBSCRIBE_registry (s : RedisServer) (args : List Str) :
    KeepsRegistryOut s (cmdSUBSCRIBE s args) := by
  rcases cmdSUBSCRIBE_cases s args with h | h <;> rw [h]
  · exact KeepsRegistryOut.noneReg s
  · exact registerSUBSCRIBE_registry s args

theorem cmdUNSUBSCRIBE_registry (s : RedisServer) (args : List Str) :
    KeepsRegistryOut s (cmdUNSUBSCRIBE s args) := by
  unfold cmdUNSUBSCRIBE
  dsimp only
  split
  · have hk : KeepsRegistry s
        (s.state.channels.foldl unsubscribeAllStep ({ s with SubscribedMode := true }, [])).1 :=
      ⟨fun hs => (unsubscribeAll_fold s.state.channels ({ s with SubscribedMode := true }, []) hs
        (fun p hp => chanGet_of_mem _ p.1 p.2 hs.1 hp) hs.1).1⟩
    exact KeepsRegistryOut.respondReg hk _
  · have hk : KeepsRegistry s
        ((args.drop 1).foldl unsubscribeStep ({ s with SubscribedMode := true }, [])).1 :=
      ⟨fun hs => (unsubscribe_fold _ ({ s with SubscribedMode := true }, []) hs).1⟩
    exact KeepsRegistryOut.respondReg hk _

theorem listLenReply_registry {s s1 : RedisServer} (h : KeepsRegistry s s1) (key : Str) :
    KeepsRegistryOut s (listLenReply s1 key) := by
  unfold listLenReply
  split
  · split
    · exact KeepsRegistryOut.respondReg h _
    · exact KeepsRegistryOut.noneReg _
  · exact KeepsRegistryOut.noneReg _

theorem cmdRPUSH_registry (e : Env) (s : RedisServer) (args : List Str) :
    KeepsRegistryOut s (cmdRPUSH e s args) := by
  unfold cmdRPUSH
  repeat' first
    | apply listLenReply_registry
    | apply KeepsRegistryOut.failReg
    | (apply KeepsRegistryOut.bindReg; intro _ _)
    | apply KeepsRegistryOut.iteReg
    | split
    | exact KeepsRegistry.of_eq rfl

theorem cmdLPUSH_registry (e : Env) (s : RedisServer) (args : List Str) :
    KeepsRegistryOut s (cmdLPUSH e s args) := by
  unfold cmdLPUSH
  repeat' first
    | apply listLenReply_registry
    | apply KeepsRegistryOut.failReg
    | (apply KeepsRegistryOut.bindReg; intro _ _)
    | apply KeepsRegistryOut.iteReg
    | split
    | exact KeepsRegistry.of_eq rfl

theorem cmdLPOP_registry (s : RedisServer) (args : List Str) :
    KeepsRegistryOut s (cmdLPOP s args) := by
  unfold cmdLPOP popCount
  repeat' first
    | apply KeepsRegistryOut.respondReg
    | apply KeepsRegistryOut.failReg
    | (apply KeepsRegistryOut.bindReg; intro _ _)
    | apply KeepsRegistryOut.iteReg
    | split
    | exact KeepsRegistry.of_eq rfl

theorem cmdPUBLISH_registry (s : RedisServer) (args : List Str) :
    KeepsRegistryOut s (cmdPUBLISH s args) := by
  unfold cmdPUBLISH
  repeat' first
    | apply KeepsRegistryOut.respondReg
    | apply KeepsRegistryOut.failReg
    | (apply KeepsRegistryOut.bindReg; intro _ _)
    | apply KeepsRegistryOut.iteReg
    | split
    | exact KeepsRegistry.of_eq rfl
    | exact KeepsRegistry.of_eq (write_fold_channels _ _ _)

theorem dispatch_registry {lib : Lib} (e : Env) (s : RedisServer) (cmd : Str) (args : List Str) :
    KeepsRegistryOut s (dispatch lib e s cmd args) := by
  unfold dispatch cmdPING cmdECHO cmdSET cmdGET cmdCONFIG cmdKEYS cmdINFO cmdREPLCONF cmdPSYNC
    cmdTYPE cmdINCR cmdLRANGE cmdLLEN cmdZADD cmdZRANK cmdZRANGE cmdZCARD cmdZREM
  repeat' first
    | exact cmdRPUSH_registry e s args
    | exact cmdLPUSH_registry e s args
    | exact cmdLPOP_registry s args
    | exact cmdSUBSCRIBE_registry s args
    | exact cmdPUBLISH_registry s args
    | exact cmdUNSUBSCRIBE_registry s args
    | exact KeepsRegistryOut.noneReg _
    | apply KeepsRegistryOut.respondReg
    | apply KeepsRegistryOut.failReg
    | (apply KeepsRegistryOut.bindReg; intro _ _)
    | apply KeepsRegistryOut.iteReg
    | split
    | exact KeepsRegistry.of_eq rfl
    | exact KeepsRegistry.of_eq (propagate_channels _ _)

theorem executeCommand_RegistryOK {lib : Lib} (e : Env) (s s1 : RedisServer) (args : List Str)
    (r : CommandResponse) (h : executeCommand lib e s args = some (s1, r))
    (hs : RegistryOK s.state) : RegistryOK s1.state := by
  unfold executeCommand at h
  split at h
  · cases h; exact hs
  · dsimp only at h
    split at h
    · cases h; exact hs
    · exact ((dispatch_registry _ _ _ _).out (s1, r) h).keep hs

theorem execQueue_RegistryOK {lib : Lib} (env : Nat → Env) (i : Nat) (s s1 : RedisServer)
    (cs : List (List Str)) (rs : List Str) (h : execQueue lib env i s cs = some (s1, rs))
    (hs : RegistryOK s.state) : RegistryOK s1.state := by
  induction cs generalizing i s rs with
  | nil => simp only [execQueue] at h; cases h; exact hs
  | cons c cs ih =>
    simp only [execQueue] at h
    split at h
    · cases h
    · rename_i s2 r hex
      split at h
      · cases h
      · rename_i s3 rs3 hq
        cases h
        exact ih _ _ _ hq (executeCommand_RegistryOK _ _ _ _ _ hex hs)

theorem handleCommand_RegistryOK {lib : Lib} (env : Nat → Env) (s s1 : RedisServer) (c : List Str)
    (h : handleCommand lib env s c = some s1) (hs : RegistryOK s.state) : RegistryOK s1.state := by
  unfold handleCommand at h
  split at h
  · cases h; exact hs
  · dsimp only at h
    split_ifs at h
    · cases h; exact hs
    · cases h; exact hs
    · cases h; exact hs
    · cases h; exact hs
    · split at h
      · cases h
      · rename_i s2 rs hq
        cases h
        exact execQueue_RegistryOK _ _ _ s2 _ _ hq hs
    · cases h; exact hs
    · split at h
      · cases h
      · rename_i s2 r hex
        have h2 := executeCommand_RegistryOK _ _ _ _ _ hex hs
        split_ifs at h <;> (cases h; exact h2)

theorem handleRead_RegistryOK {lib : Lib} (env : Nat → Env) (s s1 : RedisServer) (data : Str)
    (h : handleRead lib env s data = some s1) (hs : RegistryOK s.state) : RegistryOK s1.state := by
  unfold handleRead at h
  split at h
  · cases h
  · cases h; exact hs
  · exact handleCommand_RegistryOK _ _ _ _ h hs

theorem processReplicationCommand_RegistryOK {lib : Lib} (e : Env) (s : RedisServer)
    (cmd : List Str) (hs : RegistryOK s.state) :
    RegistryOK (processReplicationCommand lib e s cmd).state := by
  unfold processReplicationCommand
  split
  · exact hs
  · dsimp only
    split_ifs <;> exact hs

theorem blockedSUBSCRIBE_RegistryOK (s s1 : RedisServer) (tempArr : List Str)
    (h : blockedSUBSCRIBE s tempArr = some s1) (hs : RegistryOK s.state) :
    RegistryOK s1.state := by
  obtain ⟨pre, m, hm⟩ := blockedSUBSCRIBE_eq s s1 tempArr h
  rw [hm]
  exact (subscribe_fold pre ({ s with SubscribedMode := true }, []) hs).1

/-- In every state that the server can reach the registry is a map and its
subscriber lists hold no connection twice. -/
theorem Reachable_RegistryOK {lib : Lib} (st : RedisState) (h : Reachable lib st) : RegistryOK st := by
  induction h with
  | init config serverIsMaster => exact ⟨List.nodup_nil, fun _ hq => nomatch hq⟩
  | read env s s1 data _ hr ih => exact handleRead_RegistryOK env s s1 data hr ih
  | replicate e s cmd _ ih => exact processReplicationCommand_RegistryOK e s cmd ih
  | call e s s1 tempArr r _ hr ih => exact executeCommand_RegistryOK e s s1 tempArr r hr ih
  | blocked s s1 tempArr _ hr ih => exact blockedSUBSCRIBE_RegistryOK s s1 tempArr hr ih


/-! ## Errors change nothing -/

theorem Holds.ofNone (P : RedisServer → CommandResponse → Prop) : Holds P none :=
  ⟨fun _ hp => nomatch hp⟩

theorem Holds.ofRespond {P : RedisServer → CommandResponse → Prop} (s1 : RedisServer) (r : Str)
    (h : P s1 { Response := r, Error := [] }) : Holds P (respond s1 r) := by
  constructor; intro p hp; cases hp; exact h

theorem Holds.ofFail {P : RedisServer → CommandResponse → Prop} (s1 : RedisServer) (m : Str)
    (h : P s1 { Response := [], Error := m }) : Holds P (fail s1 m) := by
  constructor; intro p hp; cases hp; exact h

theorem Holds.ofBind {α : Type} {P : RedisServer → CommandResponse → Prop} (x : Option α)
    (f : α → Option (RedisServer × CommandResponse)) (h : ∀ a, some a = x → Holds P (f a)) :
    Holds P (x.bind f) := by
  cases x with
  | none => exact Holds.ofNone P
  | some a => exact h a rfl

theorem Holds.ofIte {P : RedisServer → CommandResponse → Prop} (c : Prop) [Decidable c]
    (a b : Option (RedisServer × CommandResponse)) (ha : c → Holds P a) (hb : ¬ c → Holds P b) :
    Holds P (if c then a else b) := by
  split
  · exact ha (by assumption)
  · exact hb (by assumption)

theorem ErrorKeeps.respondCase (s s1 : RedisServer) (r : Str) :
    ErrorKeeps s s1 { Response := r, Error := [] } := fun h => absurd rfl h

theorem ErrorKeeps.failCase (s : RedisServer) (m : Str) :
    ErrorKeeps s s { Response := [], Error := m } := fun _ => rfl

theorem Holds.ofListLenReply {P : RedisServer → CommandResponse → Prop} (s1 : RedisServer) (key : Str)
    (h : ∀ r : Str, P s1 { Response := r, Error := [] }) : Holds P (listLenReply s1 key) := by
  unfold listLenReply
  split
  · split
    · exact Holds.ofRespond _ _ (h _)
    · exact Holds.ofNone P
  · exact Holds.ofNone P

theorem dispatch_error {lib : Lib} (e : Env) (s : RedisServer) (cmd : Str) (args : List Str) :
    Holds (ErrorKeeps s) (dispatch lib e s cmd args) := by
  unfold dispatch cmdPING cmdECHO cmdSET cmdGET cmdCONFIG cmdKEYS cmdINFO cmdREPLCONF cmdPSYNC
    cmdTYPE cmdINCR cmdRPUSH cmdLRANGE cmdLPUSH cmdLLEN cmdLPOP popCount cmdSUBSCRIBE cmdPUBLISH
    cmdUNSUBSCRIBE cmdZADD cmdZRANK cmdZRANGE cmdZCARD cmdZREM
  repeat' first
    | exact Holds.ofNone _
    | exact Holds.ofRespond _ _ (ErrorKeeps.respondCase _ _ _)
    | exact Holds.ofFail _ _ (ErrorKeeps.failCase _ _)
    | exact Holds.ofListLenReply _ _ (fun _ => ErrorKeeps.respondCase _ _ _)
    | (apply Holds.ofBind; intro _ _)
    | (apply Holds.ofIte <;> intro _)
    | split

/-- A call of the executor that returns an error leaves the whole session as
it was: the store, the registry, the subscribed flag, the replica list and the
log of the bytes written. -/
theorem executeCommand_error {lib : Lib} (e : Env) (s s1 : RedisServer) (tempArr : List Str)
    (r : CommandResponse) (h : executeCommand lib e s tempArr = some (s1, r)) (he : r.Error ≠ []) :
    s1 = s := by
  unfold executeCommand at h
  split at h
  · cases h; rfl
  · dsimp only at h
    split at h
    · cases h; rfl
    · exact (dispatch_error _ _ _ _).out (s1, r) h he

/-! ## The gate of subscribed mode and the fan-out to replicas -/

/-- In subscribed mode every command whose upper-cased name is not in the map
`allowed` is rejected with the error of the gate, which names the lower-cased
command, and the session stays as it is. -/
theorem executeCommand_gate {lib : Lib} (e : Env) (s : RedisServer) (name : Str) (rest : List Str)
    (hs : s.SubscribedMode = true) (ha : allowed (ToUpper lib name) = false) :
    executeCommand lib e s (name :: rest)
      = some (s, { Response := [], Error := gateError lib (ToUpper lib name) }) := by
  simp [executeCommand, hs, ha, fail]

/-- PING in subscribed mode replies the array of `pong` and the empty
string. -/
theorem executeCommand_PING_subscribed {lib : Lib} (e : Env) (s : RedisServer) (rest : List Str)
    (hs : s.SubscribedMode = true) :
    executeCommand lib e s ("PING".toList :: rest)
      = some (s, { Response := "*2\r\n$4\r\npong\r\n$0\r\n\r\n".toList, Error := [] }) := by
  have hu : ToUpper lib "PING".toList = "PING".toList := rfl
  have ha : allowed "PING".toList = true := by decide
  unfold executeCommand
  simp only [hu, ha, Bool.not_true, Bool.and_false, Bool.false_eq_true, if_false]
  show cmdPING s = _
  unfold cmdPING
  rw [if_pos hs]; rfl

theorem propagate_net (s : RedisServer) (args : List Str) :
    (s.propagate args).state.net
      = s.state.net ++ s.state.replicaConns.map (fun c => (c, encodeBulkArray args)) := by
  unfold RedisServer.propagate
  rw [write_fold_eq]

theorem propagate_replicaConns (s : RedisServer) (args : List Str) :
    (s.propagate args).state.replicaConns = s.state.replicaConns := by
  unfold RedisServer.propagate
  rw [write_fold_eq]

theorem store_propagate_net (s : RedisServer) (key : Str) (val : storageVal) (args : List Str) :
    ((s.store key val).propagate args).state.net
      = s.state.net ++ s.state.replicaConns.map (fun c => (c, encodeBulkArray args)) := by
  rw [propagate_net]; rfl

theorem cmdSET_fanout {lib : Lib} (e : Env) (s : RedisServer) (args : List Str) :
    Holds (FansOut s args) (cmdSET lib e s args) := by
  unfold cmdSET
  repeat' first
    | exact Holds.ofNone _
    | exact Holds.ofFail _ _ (fun he => absurd he (by decide))
    | exact Holds.ofRespond _ _ (fun _ => store_propagate_net _ _ _ _)
    | (apply Holds.ofBind; intro _ _)
    | (apply Holds.ofIte <;> intro _)

theorem cmdINCR_fanout (e : Env) (s : RedisServer) (args : List Str) :
    Holds (FansOut s args) (cmdINCR e s args) := by
  unfold cmdINCR
  repeat' first
    | exact Holds.ofNone _
    | exact Holds.ofFail _ _ (fun he => absurd he (by decide))
    | exact Holds.ofRespond _ _ (fun _ => store_propagate_net _ _ _ _)
    | (apply Holds.ofBind; intro _ _)
    | (apply Holds.ofIte <;> intro _)
    | split

/-- A SET or an INCR that returns without an error appends its encoded
argument vector once to the log of every replica of the list, in list
order. -/
theorem executeCommand_fanout {lib : Lib} (e : Env) (s s1 : RedisServer) (name : Str) (rest : List Str)
    (r : CommandResponse) (hmode : s.SubscribedMode = false)
    (hn : ToUpper lib name = "SET".toList ∨ ToUpper lib name = "INCR".toList)
    (h : executeCommand lib e s (name :: rest) = some (s1, r)) (he : r.Error = []) :
    s1.state.net = s.state.net
      ++ s.state.replicaConns.map (fun c => (c, encodeBulkArray (name :: rest))) := by
  rw [executeCommand_normal _ _ _ _ hmode] at h
  rcases hn with hn | hn
  · rw [hn] at h
    exact (cmdSET_fanout e s (name :: rest)).out (s1, r) h he
  · rw [hn] at h
    exact (cmdINCR_fanout e s (name :: rest)).out (s1, r) h he

/-- The list and sorted-set commands RPUSH, LPUSH, LPOP, ZADD and ZREM write
nothing: they append nothing to the log of a replica. -/
theorem dispatch_net {lib : Lib} (e : Env) (s : RedisServer) (cmd : Str) (args : List Str)
    (h : cmd ∈ ["RPUSH".toList, "LPUSH".toList, "LPOP".toList, "ZADD".toList, "ZREM".toList]) :
    Holds (NetKeeps s) (dispatch lib e s cmd args) := by
  simp only [List.mem_cons, List.mem_singleton, List.not_mem_nil, or_false] at h
  rcases h with h | h | h | h | h <;> subst h
  · show Holds (NetKeeps s) (cmdRPUSH e s _)
    unfold cmdRPUSH
    repeat' first
      | exact Holds.ofNone _
      | exact Holds.ofRespond _ _ rfl
      | exact Holds.ofFail _ _ rfl
      | exact Holds.ofListLenReply _ _ (fun _ => rfl)
      | (apply Holds.ofBind; intro _ _)
      | (apply Holds.ofIte <;> intro _)
      | split
  · show Holds (NetKeeps s) (cmdLPUSH e s _)
    unfold cmdLPUSH
    repeat' first
      | exact Holds.ofNone _
      | exact Holds.ofRespond _ _ rfl
      | exact Holds.ofFail _ _ rfl
      | exact Holds.ofListLenReply _ _ (fun _ => rfl)
      | (apply Holds.ofBind; intro _ _)
      | (apply Holds.ofIte <;> intro _)
      | split
  · show Holds (NetKeeps s) (cmdLPOP s _)
    unfold cmdLPOP popCount
    repeat' first
      | exact Holds.ofNone _
      | exact Holds.ofRespond _ _ rfl
      | exact Holds.ofFail _ _ rfl
      | (apply Holds.ofBind; intro _ _)
      | (apply Holds.ofIte <;> intro _)
      | split
  · show Holds (NetKeeps s) (cmdZADD lib e s _)
    unfold cmdZADD
    repeat' first
      | exact Holds.ofNone _
      | exact Holds.ofRespond _ _ rfl
      | exact Holds.ofFail _ _ rfl
      | (apply Holds.ofBind; intro _ _)
      | (apply Holds.ofIte <;> intro _)
      | split
  · show Holds (NetKeeps s) (cmdZREM s _)
    unfold cmdZREM
    repeat' first
      | exact Holds.ofNone _
      | exact Holds.ofRespond _ _ rfl
      | exact Holds.ofFail _ _ rfl
      | (apply Holds.ofBind; intro _ _)
      | (apply Holds.ofIte <;> intro _)
      | split


/-! ## The indexes of ZRANGE -/

theorem convertIndexes_spec (n start stop : Int) (hn : 0 ≤ n) :
    ((convertIndexes n start stop).1 > (convertIndexes n start stop).2 ∨
      (convertIndexes n start stop).1 > n) ∨
    (1 ≤ (convertIndexes n start stop).1 ∧
      (convertIndexes n start stop).1 ≤ (convertIndexes n start stop).2 ∧
      (convertIndexes n start stop).2 ≤ n ∧
      (convertIndexes n start stop).1 - 1 = rankIndex n start ∧
      (convertIndexes n start stop).2 - 1 = min (rankIndex n stop) (n - 1)) := by
  unfold convertIndexes rankIndex
  simp only [max_def, min_def, ge_iff_le, gt_iff_lt]
  split_ifs <;> omega

/-- Between ranks within bounds `GetByRankRange` returns the members of the
0-based positions `start - 1` to `stop - 1`, of which there are
`stop - start + 1`. -/
theorem zsetGetByRankRange_within (z : SortedSet) (start stop : Int)
    (h1 : 1 ≤ start) (h2 : start ≤ stop) (h3 : stop ≤ zsetGetCount z) :
    zsetGetByRankRange z start stop = (z.drop (start - 1).toNat).take (stop - start + 1).toNat ∧
    ((zsetGetByRankRange z start stop).length : Int) = stop - start + 1 := by
  unfold zsetGetCount at h3
  have e : zsetGetByRankRange z start stop
      = (z.drop (start - 1).toNat).take (stop - start + 1).toNat := by
    unfold zsetGetByRankRange
    simp only
    rw [if_neg (by omega), if_neg (by omega), if_neg (by omega), if_neg (by omega),
      if_neg (by omega)]
    have a1 : start.toNat - 1 = (start - 1).toNat := by omega
    have a2 : stop.toNat - start.toNat + 1 = (stop - start + 1).toNat := by omega
    rw [a1, a2]
  refine ⟨e, ?_⟩
  rw [e, List.length_take, List.length_drop]
  omega

theorem executeCommand_ZRANGE {lib : Lib} (e : Env) (s : RedisServer) (key a2 a3 : Str)
    (start stop : Int) (v : storageVal) (zset : SortedSet)
    (hmode : s.SubscribedMode = false) (hk : s.state.storage key = some v)
    (hv : v.val = Value.zset zset)
    (h2 : Atoi a2 = (start, none)) (h3 : Atoi a3 = (stop, none)) :
    executeCommand lib e s ["ZRANGE".toList, key, a2, a3]
      = if (convertIndexes (zsetGetCount zset) start stop).1
            > (convertIndexes (zsetGetCount zset) start stop).2 ∨
          (convertIndexes (zsetGetCount zset) start stop).1 > zsetGetCount zset
        then some (s, { Response := "*0\r\n".toList, Error := [] })
        else some (s, { Response := bulkArray ((zsetGetByRankRange zset
              (convertIndexes (zsetGetCount zset) start stop).1
              (convertIndexes (zsetGetCount zset) start stop).2).map (fun node => node.1)), Error := [] }) := by
  rw [executeCommand_normal _ _ _ _ hmode]
  have hd : dispatch lib e s (ToUpper lib "ZRANGE".toList) ["ZRANGE".toList, key, a2, a3]
      = cmdZRANGE s ["ZRANGE".toList, key, a2, a3] := rfl
  rw [hd]
  unfold cmdZRANGE
  have i1 : index ["ZRANGE".toList, key, a2, a3] 1 = some key := rfl
  have i2 : index ["ZRANGE".toList, key, a2, a3] 2 = some a2 := rfl
  have i3 : index ["ZRANGE".toList, key, a2, a3] 3 = some a3 := rfl
  rw [if_neg (by simp)]
  simp only [Option.bind_eq_bind, i1, i2, i3, Option.some_bind, h2, h3, hk, hv, respond]


/-! ## The queue of a session outside MULTI -/

theorem handleCommand_QueueOK {lib : Lib} (env : Nat → Env) (s s1 : RedisServer) (c : List Str)
    (h : handleCommand lib env s c = some s1) (hs : QueueOK s) : QueueOK s1 := by
  unfold handleCommand at h
  split at h
  · cases h; exact hs
  · dsimp only at h
    split_ifs at h with h1 h2 h3 h4 h5 h6
    · cases h; exact fun hm => Bool.noConfusion hm
    · cases h; exact hs
    · cases h; exact fun _ => rfl
    · cases h; exact hs
    · split at h
      · cases h
      · cases h; exact fun _ => rfl
    · cases h
      intro hm
      exact absurd (h6.symm.trans hm) (by decide)
    · split at h
      · cases h
      · rename_i s2 r hex
        have hk := executeCommand_keeps _ _ _ _ hex
        have h2 : QueueOK s2 := fun hm => hk.2.2.2.1.trans (hs (hk.2.2.1.symm.trans hm))
        split_ifs at h <;> (cases h; exact h2)

theorem handleRead_QueueOK {lib : Lib} (env : Nat → Env) (s s1 : RedisServer) (data : Str)
    (h : handleRead lib env s data = some s1) (hs : QueueOK s) : QueueOK s1 := by
  unfold handleRead at h
  split at h
  · cases h
  · cases h; exact hs
  · exact handleCommand_QueueOK _ _ _ _ h hs

theorem SessionReachable_QueueOK {lib : Lib} (s : RedisServer) (h : SessionReachable lib s) :
    QueueOK s := by
  induction h with
  | init state conn => exact fun _ => rfl
  | read env s s1 data _ hr ih => exact handleRead_QueueOK env s s1 data hr ih
  | command env s s1 c _ hc ih => exact handleCommand_QueueOK env s s1 c hc ih
  | shared s st _ ih => exact ih

theorem handleCommand_DISCARD {lib : Lib} (env : Nat → Env) (s : RedisServer) (name : Str)
    (rest : List Str) (h : ToUpper lib name = "DISCARD".toList) :
    handleCommand lib env s (name :: rest)
      = if s.MultiOn = true then
          some { s with MultiOn := false, multiQueue := [],
                        state := s.state.write s.conn "+OK\r\n".toList }
        else some (s.send "-ERR DISCARD without MULTI\r\n".toList) := by
  have h1 : ¬ ("DISCARD".toList = "MULTI".toList) := by decide
  unfold handleCommand
  simp only [h, h1, if_false, if_true]
  cases s.MultiOn <;> rfl

theorem handleCommand_EXEC_queue {lib : Lib} (env : Nat → Env) (s : RedisServer) (name : Str)
    (rest : List Str) (h : ToUpper lib name = "EXEC".toList) :
    handleCommand lib env s (name :: rest)
      = if s.MultiOn = true then
          (execQueue lib env 0 { s with MultiOn := false } s.multiQueue).map
            (fun p => { p.1.send (execReply p.2) with multiQueue := [] })
        else some (s.send "-ERR EXEC without MULTI\r\n".toList) := by
  have h1 : ¬ ("EXEC".toList = "MULTI".toList) := by decide
  have h2 : ¬ ("EXEC".toList = "DISCARD".toList) := by decide
  unfold handleCommand
  simp only [h, h1, h2, if_false, if_true]
  cases s.MultiOn
  · rfl
  · simp only [Bool.not_true, Bool.false_eq_true, if_false, if_true]
    cases execQueue lib env 0 { s with MultiOn := false } s.multiQueue <;> rfl


/-! ## The stream of the primary: the loop over the elements -/

theorem index_append_cons {α : Type} (p : List α) (a : α) (q : List α) :
    index (p ++ a :: q) (p.length : Int) = some a := by
  unfold index
  rw [if_pos (by omega), Int.toNat_ofNat]
  induction p with
  | nil => rfl
  | cons b p ih => simpa using ih

theorem bulk_length (d : Str) :
    (bulk d).length = 1 + (decimal d.length).length + 2 + d.length + 2 := by
  simp [bulk, Itoa_natCast, CRLF]; omega

theorem bulk_eq (d : Str) : bulk d = '$' :: decimal d.length ++ CRLF ++ (d ++ CRLF) := by
  simp [bulk, Itoa_natCast]

/-- One turn of the loop over the elements on a complete bulk string. -/
theorem streamElements_step (pre d tail : Str) (n : Nat) (els : List Str)
    (hb : ((pre ++ bulk d ++ tail).length : Int) ≤ MaxInt64) :
    streamElements (pre ++ bulk d ++ tail) (n + 1) pre.length els
      = streamElements (pre ++ bulk d ++ tail) n ((pre.length : Int) + (bulk d).length)
          (els ++ [d]) := by
  have hlen : ((pre ++ bulk d ++ tail).length : Int)
      = pre.length + (1 + (decimal d.length).length + 2 + d.length + 2) + tail.length := by
    simp only [List.length_append, bulk_length]; push_cast; ring
  have h0 : ¬ ((pre.length : Int) ≥ ((pre ++ bulk d ++ tail).length : Int)) := by omega
  have h1 : index (pre ++ bulk d ++ tail) (pre.length : Int) = some '$' := by
    have e : pre ++ bulk d ++ tail = pre ++ '$' :: (decimal d.length ++ CRLF ++ (d ++ CRLF) ++ tail) := by
      rw [bulk_eq]; simp
    rw [e]; exact index_append_cons _ _ _
  have h2 : sliceFrom (pre ++ bulk d ++ tail) (pre.length : Int) = some (bulk d ++ tail) := by
    rw [List.append_assoc]; exact sliceFrom_append _ _ _ rfl
  have h3 : Index (bulk d ++ tail) CRLF = 1 + ((decimal d.length).length : Int) := by
    have e : bulk d ++ tail = '$' :: decimal d.length ++ CRLF ++ ((d ++ CRLF) ++ tail) := by
      rw [bulk_eq]; simp
    rw [e]; exact Index_field '$' _ _ (by decide) (decimal_ne_cr _)
  have h4 : slice (pre ++ bulk d ++ tail) ((pre.length : Int) + 1)
      (1 + ((decimal d.length).length : Int) + pre.length) = some (decimal d.length) := by
    have e : pre ++ bulk d ++ tail
        = (pre ++ ['$']) ++ decimal d.length ++ (CRLF ++ (d ++ CRLF) ++ tail) := by
      rw [bulk_eq]; simp
    rw [e]; exact slice_mid' _ _ _ _ _ (by simp) (by simp; omega)
  have h5 : Atoi (decimal d.length) = ((d.length : Int), none) := by
    rw [Atoi_decimal, if_pos (by omega)]
  have h6 : wrap64 (1 + ((decimal d.length).length : Int) + pre.length + 2 + d.length + 2)
      = 1 + ((decimal d.length).length : Int) + pre.length + 2 + d.length + 2 :=
    wrap64_id _ (by unfold MinInt64; omega) (by omega)
  have h7 : ¬ (1 + ((decimal d.length).length : Int) + pre.length + 2 + d.length + 2
      > ((pre ++ bulk d ++ tail).length : Int)) := by omega
  have h8 : wrap64 (1 + ((decimal d.length).length : Int) + pre.length + 2 + d.length)
      = 1 + ((decimal d.length).length : Int) + pre.length + 2 + d.length :=
    wrap64_id _ (by unfold MinInt64; omega) (by omega)
  have h9 : slice (pre ++ bulk d ++ tail) (1 + ((decimal d.length).length : Int) + pre.length + 2)
      (1 + ((decimal d.length).length : Int) + pre.length + 2 + d.length) = some d := by
    have e : pre ++ bulk d ++ tail
        = (pre ++ '$' :: decimal d.length ++ CRLF) ++ d ++ (CRLF ++ tail) := by
      rw [bulk_eq]; simp
    rw [e]; exact slice_mid' _ _ _ _ _ (by simp [CRLF]; omega) (by simp [CRLF]; omega)
  have h10 : 1 + ((decimal d.length).length : Int) + pre.length + 2 + d.length + 2
      = (pre.length : Int) + (bulk d).length := by
    rw [bulk_length]; push_cast; ring
  rw [streamElements]
  simp only [h0, h1, h2, h3, h4, h5, h6, h7, h8, h9, if_false, ne_eq, not_true_eq_false,
    show ¬ (1 + ((decimal d.length).length : Int) = -1) by omega]
  rw [h10]

/-- The loop over the elements reads the bulk strings of `ds` when they are
all there. -/
theorem streamElements_frames (ds : List Str) (pre tail : Str) (els : List Str)
    (hb : ((pre ++ frames ds ++ tail).length : Int) ≤ MaxInt64) :
    streamElements (pre ++ frames ds ++ tail) ds.length pre.length els
      = Elements.complete (els ++ ds) ((pre.length : Int) + (frames ds).length) := by
  induction ds generalizing pre els with
  | nil => simp [streamElements, frames]
  | cons d ds ih =>
    have e : pre ++ frames (d :: ds) ++ tail = pre ++ bulk d ++ (frames ds ++ tail) := by
      simp [frames]
    have e2 : pre ++ bulk d ++ (frames ds ++ tail) = (pre ++ bulk d) ++ frames ds ++ tail := by
      simp
    rw [e] at hb ⊢
    rw [List.length_cons, streamElements_step pre d _ _ els hb, e2]
    rw [e2] at hb
    have := ih (pre ++ bulk d) (els ++ [d]) hb
    rw [List.length_append, Nat.cast_add] at this
    rw [this]
    simp [frames]; omega


/-- The loop over the elements asks for more data when what is left holds no
line feed. -/
theorem streamElements_no_lf (pre p : Str) (n : Nat) (els : List Str) (h : ∀ c ∈ p, c ≠ '\n') :
    streamElements (pre ++ p) (n + 1) pre.length els = Elements.needMoreData := by
  rw [streamElements]
  cases p with
  | nil => simp
  | cons c p =>
    have h0 : ¬ ((pre.length : Int) ≥ ((pre ++ c :: p).length : Int)) := by
      simp only [List.length_append, List.length_cons]; push_cast; omega
    have h1 : index (pre ++ c :: p) (pre.length : Int) = some c := index_append_cons _ _ _
    have h2 : sliceFrom (pre ++ c :: p) (pre.length : Int) = some (c :: p) :=
      sliceFrom_append _ _ _ rfl
    have h3 : Index (c :: p) CRLF = -1 := Index_none_of_ne_lf _ h
    simp only [h0, h1, h2, h3, if_false, if_true]
    split <;> rfl

/-- The loop over the elements asks for more data when the payload of an
element, with its CRLF, is not all there. -/
theorem streamElements_truncated (pre l r : Str) (n : Nat) (els : List Str) (len : Int)
    (hl : Atoi l = (len, none)) (hr : (r.length : Int) < len + 2)
    (hb : (pre.length : Int) + 1 + l.length + 2 + len + 2 ≤ MaxInt64) :
    streamElements (pre ++ ('$' :: l ++ CRLF ++ r)) (n + 1) pre.length els
      = Elements.needMoreData := by
  have hlen : ((pre ++ ('$' :: l ++ CRLF ++ r)).length : Int)
      = pre.length + 1 + l.length + 2 + r.length := by
    simp [CRLF]; omega
  have g0 : ¬ ((pre.length : Int) ≥ ((pre ++ ('$' :: l ++ CRLF ++ r)).length : Int)) := by omega
  have g1 : index (pre ++ ('$' :: l ++ CRLF ++ r)) (pre.length : Int) = some '$' :=
    index_append_cons _ _ _
  have g2 : sliceFrom (pre ++ ('$' :: l ++ CRLF ++ r)) (pre.length : Int)
      = some ('$' :: l ++ CRLF ++ r) := sliceFrom_append _ _ _ rfl
  have g3 : Index ('$' :: l ++ CRLF ++ r) CRLF = 1 + (l.length : Int) :=
    Index_field '$' l _ (by decide) (Atoi_ok_ne_cr l _ hl)
  have g4 : slice (pre ++ ('$' :: l ++ CRLF ++ r)) ((pre.length : Int) + 1)
      (1 + (l.length : Int) + pre.length) = some l := by
    have e : pre ++ ('$' :: l ++ CRLF ++ r) = (pre ++ ['$']) ++ l ++ (CRLF ++ r) := by simp
    rw [e]; exact slice_mid' _ _ _ _ _ (by simp) (by simp; omega)
  have g6 : wrap64 (1 + (l.length : Int) + pre.length + 2 + len + 2)
      = 1 + (l.length : Int) + pre.length + 2 + len + 2 :=
    wrap64_id _ (by unfold MinInt64; omega) (by omega)
  have g7 : 1 + (l.length : Int) + pre.length + 2 + len + 2
      > ((pre ++ ('$' :: l ++ CRLF ++ r)).length : Int) := by omega
  rw [streamElements]
  simp only [g0, g1, g2, g3, g4, hl, g6, g7, if_false, if_true, ne_eq, not_true_eq_false,
    show ¬ (1 + (l.length : Int) = -1) by omega]

/-- The loop over the elements asks for more data on a bulk string cut
short. -/
theorem streamElements_take_bulk (pre d : Str) (n : Nat) (els : List Str) (j : Nat)
    (hj : j < (bulk d).length) (hb : (pre.length : Int) + (bulk d).length ≤ MaxInt64) :
    streamElements (pre ++ (bulk d).take j) (n + 1) pre.length els = Elements.needMoreData := by
  have hblen := bulk_length d
  by_cases hk : j ≤ ('$' :: decimal d.length).length + 1
  · apply streamElements_no_lf
    have := field_take_ne_lf '$' d.length j (by decide)
    rw [Nat.min_eq_left hk] at this
    have ht : (bulk d).take j = ('$' :: decimal d.length ++ CRLF).take j := by
      rw [bulk_eq, List.take_append_of_le_length]
      simp [CRLF]; simp at hk; omega
    rw [ht]; exact this
  · have hk2 : ('$' :: decimal d.length ++ CRLF).length ≤ j := by
      simp [CRLF]; simp at hk; omega
    have ht : (bulk d).take j = '$' :: decimal d.length ++ CRLF
        ++ (d ++ CRLF).take (j - ('$' :: decimal d.length ++ CRLF).length) := by
      rw [bulk_eq, List.take_append_eq_append_take, List.take_of_length_le hk2]
    rw [ht]
    refine streamElements_truncated pre _ _ n els d.length ?_ ?_ ?_
    · rw [Atoi_decimal, if_pos (by omega)]
    · have := List.length_take_le (j - ('$' :: decimal d.length ++ CRLF).length) (d ++ CRLF)
      simp only [List.length_take, List.length_append, List.length_cons, CRLF, List.length_nil] at *
      omega
    · omega

/-- The loop over the elements asks for more data when the bulk strings of
the command are not all there. -/
theorem streamElements_take_frames (ds : List Str) (pre : Str) (els : List Str) (j : Nat)
    (hj : j < (frames ds).length) (hb : (pre.length : Int) + (frames ds).length ≤ MaxInt64) :
    streamElements (pre ++ (frames ds).take j) ds.length pre.length els
      = Elements.needMoreData := by
  induction ds generalizing pre els j with
  | nil => simp [frames] at hj
  | cons d ds ih =>
    simp only [frames, List.length_append, Nat.cast_add] at hj hb
    simp only [frames, List.length_cons]
    by_cases hk : j < (bulk d).length
    · rw [List.take_append_of_le_length (by omega)]
      exact streamElements_take_bulk pre d _ els j hk (by omega)
    · rw [List.take_append_eq_append_take, List.take_of_length_le (by omega), ← List.append_assoc]
      have hle := List.length_take_le (j - (bulk d).length) (frames ds)
      rw [streamElements_step pre d _ _ els (by
        simp only [List.length_append, Nat.cast_add]; omega)]
      have := ih (pre ++ bulk d) (els ++ [d]) (j - (bulk d).length) (by omega) (by
        simp only [List.length_append, Nat.cast_add]; omega)
      rw [List.length_append, Nat.cast_add] at this
      exact this


/-! ## The stream of the primary: the loop over the commands -/

theorem commandStream_cons (c : List Str) (cs : List (List Str)) :
    commandStream (c :: cs) = encodeBulkArray c ++ commandStream cs := by
  simp [commandStream]

theorem encodeBulkArray_length (c : List Str) :
    (encodeBulkArray c).length = 1 + (decimal c.length).length + 2 + (frames c).length := by
  rw [encodeBulkArray_eq, Itoa_natCast]; simp [CRLF]; omega

theorem length_le_frames (c : List Str) : c.length ≤ (frames c).length := by
  induction c with
  | nil => simp
  | cons a as ih => simp [frames, bulk]; omega

theorem length_le_commandStream (cs : List (List Str)) : cs.length ≤ (commandStream cs).length := by
  induction cs with
  | nil => simp
  | cons c cs ih =>
    rw [commandStream_cons, List.length_append, encodeBulkArray_length, List.length_cons]; omega

/-- One turn of the loop over the commands on a complete command: the command
is processed and the loop goes on behind it. -/
theorem streamCommands_step {σ : Type} (process : σ → List Str → σ) (fuel : Nat) (s : σ)
    (c : List Str) (rest : Str) (hb : ((encodeBulkArray c ++ rest).length : Int) ≤ MaxInt64) :
    streamCommands process (fuel + 1) s (encodeBulkArray c ++ rest)
      = streamCommands process fuel (process s c) rest := by
  have hlen : ((encodeBulkArray c ++ rest).length : Int)
      = 1 + (decimal c.length).length + 2 + (frames c).length + rest.length := by
    rw [List.length_append, encodeBulkArray_length]; push_cast; ring
  have e : encodeBulkArray c ++ rest
      = ('*' :: decimal c.length ++ CRLF) ++ frames c ++ rest := by
    rw [encodeBulkArray_eq, Itoa_natCast]; simp
  have hfl := length_le_frames c
  have h0 : (encodeBulkArray c ++ rest).length > 0 := by
    have := hlen; omega
  have h1 : HasPrefix (encodeBulkArray c ++ rest) ['*'] = true := by
    rw [e]; simp [HasPrefix]
  have h2 : Index (encodeBulkArray c ++ rest) CRLF = 1 + ((decimal c.length).length : Int) := by
    have e2 : encodeBulkArray c ++ rest = '*' :: decimal c.length ++ CRLF ++ (frames c ++ rest) := by
      rw [e]; simp
    rw [e2]; exact Index_field '*' _ _ (by decide) (decimal_ne_cr _)
  have h3 : slice (encodeBulkArray c ++ rest) 1 (1 + ((decimal c.length).length : Int))
      = some (decimal c.length) := by
    have e2 : encodeBulkArray c ++ rest = ['*'] ++ decimal c.length ++ (CRLF ++ frames c ++ rest) := by
      rw [e]; simp
    rw [e2]; exact slice_mid' _ _ _ _ _ (by simp) (by simp)
  have h4 : Atoi (decimal c.length) = ((c.length : Int), none) := by
    rw [Atoi_decimal, if_pos (by omega)]
  have h5 : streamElements (encodeBulkArray c ++ rest) c.length
      (1 + ((decimal c.length).length : Int) + 2) []
      = Elements.complete c ((('*' :: decimal c.length ++ CRLF).length : Int) + (frames c).length) := by
    have := streamElements_frames c ('*' :: decimal c.length ++ CRLF) rest [] (by rw [← e]; exact hb)
    rw [← e] at this
    have e3 : ((('*' :: decimal c.length ++ CRLF).length : Nat) : Int)
        = 1 + ((decimal c.length).length : Int) + 2 := by simp [CRLF]; omega
    rw [e3] at this
    rw [this, e3]; simp
  have h6 : sliceFrom (encodeBulkArray c ++ rest)
      ((('*' :: decimal c.length ++ CRLF).length : Int) + (frames c).length) = some rest := by
    apply sliceFrom_append
    rw [encodeBulkArray_length]; simp [CRLF]; omega
  rw [streamCommands]
  simp only [h0, h1, h2, h3, h4, h5, h6, if_true, if_false, Bool.not_true, Bool.false_eq_true,
    Int.toNat_ofNat, show ¬ (1 + ((decimal c.length).length : Int) = -1) by omega,
    show ¬ ((c.length : Int) < 0) by omega]

/-- A command cut short is left in `accumulated` for the next read, and
nothing is processed. -/
theorem streamCommands_take {σ : Type} (process : σ → List Str → σ) (fuel : Nat) (s : σ)
    (c : List Str) (k : Nat) (hk : k < (encodeBulkArray c).length)
    (hb : ((encodeBulkArray c).length : Int) ≤ MaxInt64) :
    streamCommands process (fuel + 1) s ((encodeBulkArray c).take k)
      = Loop.done (s, (encodeBulkArray c).take k) := by
  have hlen := encodeBulkArray_length c
  have e : encodeBulkArray c = ('*' :: decimal c.length ++ CRLF) ++ frames c := by
    rw [encodeBulkArray_eq, Itoa_natCast]; simp
  rw [streamCommands]
  by_cases hz : k = 0
  · subst hz; simp
  have h0 : ((encodeBulkArray c).take k).length > 0 := by
    rw [List.length_take]; omega
  rw [if_pos h0]
  have h1 : HasPrefix ((encodeBulkArray c).take k) ['*'] = true := by
    obtain ⟨k1, rfl⟩ : ∃ k1, k = k1 + 1 := ⟨k - 1, by omega⟩
    rw [e]; simp [HasPrefix]
  simp only [h1, Bool.not_true, Bool.false_eq_true, if_false]
  by_cases hh : k ≤ ('*' :: decimal c.length).length + 1
  · have := field_take_ne_lf '*' c.length k (by decide)
    rw [Nat.min_eq_left hh] at this
    have ht : (encodeBulkArray c).take k = ('*' :: decimal c.length ++ CRLF).take k := by
      rw [e, List.take_append_of_le_length]
      simp [CRLF]; simp at hh; omega
    rw [ht, Index_none_of_ne_lf _ this]
    simp
  · have hk2 : ('*' :: decimal c.length ++ CRLF).length ≤ k := by
      simp [CRLF]; simp at hh; omega
    have hhl : ('*' :: decimal c.length ++ CRLF).length = 1 + (decimal c.length).length + 2 := by
      simp [CRLF]; omega
    have ht : (encodeBulkArray c).take k = ('*' :: decimal c.length ++ CRLF)
        ++ (frames c).take (k - ('*' :: decimal c.length ++ CRLF).length) := by
      rw [e, List.take_append_eq_append_take, List.take_of_length_le hk2]
    have h2 : Index ((encodeBulkArray c).take k) CRLF = 1 + ((decimal c.length).length : Int) := by
      rw [ht]
      exact Index_field '*' _ _ (by decide) (decimal_ne_cr _)
    have h3 : slice ((encodeBulkArray c).take k) 1 (1 + ((decimal c.length).length : Int))
        = some (decimal c.length) := by
      have e2 : (encodeBulkArray c).take k = ['*'] ++ decimal c.length
          ++ (CRLF ++ (frames c).take (k - ('*' :: decimal c.length ++ CRLF).length)) := by
        rw [ht]; simp
      rw [e2]; exact slice_mid' _ _ _ _ _ (by simp) (by simp)
    have h4 : Atoi (decimal c.length) = ((c.length : Int), none) := by
      have hfl := length_le_frames c
      rw [Atoi_decimal, if_pos (by omega)]
    have h5 : streamElements ((encodeBulkArray c).take k) c.length
        (1 + ((decimal c.length).length : Int) + 2) [] = Elements.needMoreData := by
      have := streamElements_take_frames c ('*' :: decimal c.length ++ CRLF) []
        (k - ('*' :: decimal c.length ++ CRLF).length) (by omega) (by omega)
      rw [← ht] at this
      have e3 : ((('*' :: decimal c.length ++ CRLF).length : Nat) : Int)
          = 1 + ((decimal c.length).length : Int) + 2 := by omega
      rw [e3] at this
      exact this
    simp only [h2, h3, h4, h5, if_false, Int.toNat_ofNat,
      show ¬ (1 + ((decimal c.length).length : Int) = -1) by omega,
      show ¬ ((c.length : Int) < 0) by omega]


theorem Pending.length_le {rest : List (List Str)} {T : Str} (h : Pending rest T) :
    T.length ≤ (commandStream rest).length := by
  cases rest with
  | nil => simp [Pending] at h; simp [h]
  | cons c rest =>
    obtain ⟨k, hk, rfl⟩ := h
    rw [commandStream_cons, List.length_append, List.length_take]; omega

theorem commandStream_append (ds rest : List (List Str)) :
    commandStream (ds ++ rest) = commandStream ds ++ commandStream rest := by
  simp [commandStream]

/-- The loop over the commands processes the complete commands in order and
leaves the start of the next one in `accumulated`. -/
theorem streamCommands_frames {σ : Type} (process : σ → List Str → σ) (ds rest : List (List Str))
    (T : Str) (fuel : Nat) (s : σ) (hp : Pending rest T) (hf : ds.length < fuel)
    (hb : ((commandStream (ds ++ rest)).length : Int) ≤ MaxInt64) :
    streamCommands process fuel s (commandStream ds ++ T) = Loop.done (ds.foldl process s, T) := by
  induction ds generalizing fuel s with
  | nil =>
    obtain ⟨f, rfl⟩ : ∃ f, fuel = f + 1 := ⟨fuel - 1, by simp at hf; omega⟩
    simp only [commandStream, List.map_nil, List.flatten_nil, List.nil_append, List.foldl_nil]
    cases rest with
    | nil =>
      simp only [Pending] at hp
      subst hp
      simp [streamCommands]
    | cons c rest =>
      obtain ⟨k, hk, rfl⟩ := hp
      refine streamCommands_take process f s c k hk ?_
      rw [List.nil_append, commandStream_cons, List.length_append] at hb
      push_cast at hb; omega
  | cons d ds ih =>
    obtain ⟨f, rfl⟩ : ∃ f, fuel = f + 1 := ⟨fuel - 1, by simp at hf; omega⟩
    have hT := hp.length_le
    rw [List.cons_append, commandStream_cons, commandStream_append, List.length_append,
      List.length_append] at hb
    push_cast at hb
    rw [commandStream_cons, List.append_assoc, streamCommands_step process f s d _ (by
      simp only [List.length_append]; push_cast; omega)]
    rw [List.foldl_cons]
    refine ih f (process s d) (by simp at hf; omega) ?_
    rw [commandStream_append, List.length_append]; push_cast; omega

/-- A part taken from the start of the bytes of commands is a number of
complete commands followed by the start of the next one. -/
theorem commandStream_split (rest : List (List Str)) (A B : Str) (h : A ++ B = commandStream rest) :
    ∃ (ds rest2 : List (List Str)) (T : Str), rest = ds ++ rest2 ∧ A = commandStream ds ++ T ∧
      Pending rest2 T ∧ T ++ B = commandStream rest2 := by
  induction rest generalizing A with
  | nil =>
    have h1 : A ++ B = [] := by simpa [commandStream] using h
    have hA : A = [] := (List.append_eq_nil.1 h1).1
    refine ⟨[], [], [], rfl, by simp [hA, commandStream], rfl, ?_⟩
    rw [List.nil_append]; simpa [hA] using h
  | cons c rest ih =>
    rw [commandStream_cons] at h
    by_cases hlt : A.length < (encodeBulkArray c).length
    · refine ⟨[], c :: rest, A, rfl, by simp [commandStream], ⟨A.length, hlt, ?_⟩, ?_⟩
      · have := congrArg (List.take A.length) h
        rw [List.take_left, List.take_append_of_le_length (by omega)] at this
        exact this
      · rw [commandStream_cons]; exact h
    · obtain ⟨A1, hA1, hB⟩ : ∃ A1, A = encodeBulkArray c ++ A1 ∧ A1 ++ B = commandStream rest := by
        rcases List.append_eq_append_iff.1 h with ⟨a1, ha, hb1⟩ | ⟨c1, hc1, hc2⟩
        · have hl := congrArg List.length ha
          rw [List.length_append] at hl
          have ha0 : a1 = [] := List.length_eq_zero.1 (by omega)
          subst ha0
          refine ⟨[], by simpa using ha.symm, ?_⟩
          simpa using hb1
        · exact ⟨c1, hc1, hc2.symm⟩
      obtain ⟨ds, rest2, T, h1, h2, h3, h4⟩ := ih A1 hB
      refine ⟨c :: ds, rest2, T, by rw [h1]; rfl, ?_, h3, h4⟩
      rw [hA1, h2, commandStream_cons, List.append_assoc]

/-- The block of the commands on a text that starts the bytes of the
commands `rest`: the complete commands are processed in order, and the start
of the next one stays in `accumulated`. -/
theorem processCommands_split {σ : Type} (process : σ → List Str → σ) (st : MasterStream σ)
    (hc : st.rdbConsumed = true) (rest : List (List Str)) (B : Str)
    (h : st.accumulated ++ B = commandStream rest)
    (hb : ((commandStream rest).length : Int) ≤ MaxInt64) :
    ∃ (ds rest2 : List (List Str)) (T : Str), rest = ds ++ rest2 ∧ Pending rest2 T ∧
      T ++ B = commandStream rest2 ∧
      processCommands process st
        = Loop.done { st with s := ds.foldl process st.s, accumulated := T } := by
  obtain ⟨ds, rest2, T, h1, h2, h3, h4⟩ := commandStream_split rest st.accumulated B h
  refine ⟨ds, rest2, T, h1, h3, h4, ?_⟩
  have hf : ds.length < st.accumulated.length + 1 := by
    have := length_le_commandStream ds
    rw [h2, List.length_append]; omega
  have := streamCommands_frames process ds rest2 T (st.accumulated.length + 1) st.s h3 hf
    (by rw [← h1]; exact hb)
  rw [← h2] at this
  unfold processCommands
  rw [if_pos hc, this]

/-- The reads after the snapshot: the commands left are processed in order,
each once, however the reads cut them. -/
theorem handleMasterStream_commands {σ : Type} (process : σ → List Str → σ) (reads : List Str)
    (rest : List (List Str)) (T : Str) (s : σ) (L : Int) (hp : Pending rest T)
    (h : T ++ reads.flatten = commandStream rest)
    (hb : ((commandStream rest).length : Int) ≤ MaxInt64) :
    handleMasterStream process
        { s := s, accumulated := T, rdbConsumed := true, rdbLength := L, rdbBytesConsumed := L } reads
      = Loop.done { s := rest.foldl process s, accumulated := [], rdbConsumed := true,
                    rdbLength := L, rdbBytesConsumed := L } := by
  induction reads generalizing rest T s with
  | nil =>
    rw [List.flatten_nil, List.append_nil] at h
    cases rest with
    | nil =>
      simp only [Pending] at hp
      subst hp
      rfl
    | cons c rest =>
      obtain ⟨k, hk, rfl⟩ := hp
      have := congrArg List.length h
      rw [commandStream_cons, List.length_append, List.length_take] at this
      omega
  | cons data reads ih =>
    rw [List.flatten_cons, ← List.append_assoc] at h
    obtain ⟨ds, rest2, T2, h1, h3, h4, h5⟩ := processCommands_split process
      { s := s, accumulated := T ++ data, rdbConsumed := true, rdbLength := L,
        rdbBytesConsumed := L } rfl rest reads.flatten h hb
    have hr : handleMasterRead process
        { s := s, accumulated := T, rdbConsumed := true, rdbLength := L, rdbBytesConsumed := L } data
        = Loop.done { s := ds.foldl process s, accumulated := T2, rdbConsumed := true,
                      rdbLength := L, rdbBytesConsumed := L } := by
      unfold handleMasterRead consumeRDB
      simp only [Bool.not_true, Bool.false_eq_true, if_false]
      exact h5
    rw [handleMasterStream, hr]
    simp only
    rw [ih rest2 T2 _ h3 h4 (by
      have := congrArg List.length (congrArg commandStream h1)
      rw [commandStream_append, List.length_append] at this
      omega)]
    rw [h1, List.foldl_append]


/-! ## The stream of the primary: the snapshot -/

theorem rdbHeader_known {σ : Type} (st : MasterStream σ) (h : st.rdbLength ≠ -1) :
    rdbHeader st = some st := by
  unfold rdbHeader
  rw [if_neg (fun hc => h hc.1)]

/-- The reads inside the snapshot and after it: the bytes of the snapshot that
are still due are counted off, whatever they are, and the commands behind them
are processed in order, each once. -/
theorem handleMasterStream_rdb {σ : Type} (process : σ → List Str → σ) (reads : List Str)
    (cs : List (List Str)) (R2 : Str) (s : σ) (L cns : Int) (h1 : cns + R2.length = L)
    (hc0 : 0 ≤ cns) (h2 : 0 < R2.length) (h : reads.flatten = R2 ++ commandStream cs)
    (hb : ((commandStream cs).length : Int) ≤ MaxInt64) :
    handleMasterStream process
        { s := s, accumulated := [], rdbConsumed := false, rdbLength := L, rdbBytesConsumed := cns }
        reads
      = Loop.done { s := cs.foldl process s, accumulated := [], rdbConsumed := true,
                    rdbLength := L, rdbBytesConsumed := L } := by
  induction reads generalizing R2 cns with
  | nil =>
    have := congrArg List.length h
    simp only [List.flatten_nil, List.length_nil, List.length_append] at this
    omega
  | cons data reads ih =>
    rw [List.flatten_cons] at h
    have hL : L > 0 := by omega
    have hne : L ≠ -1 := by omega
    by_cases hd : data.length < R2.length
    · -- the read ends inside the snapshot
      have hr : handleMasterRead process
          { s := s, accumulated := [], rdbConsumed := false, rdbLength := L,
            rdbBytesConsumed := cns } data
          = Loop.done { s := s, accumulated := [], rdbConsumed := false, rdbLength := L,
                        rdbBytesConsumed := cns + data.length } := by
        unfold handleMasterRead consumeRDB
        simp only [Bool.not_false, if_true, List.nil_append]
        rw [rdbHeader_known _ hne]
        simp only [Option.some_bind, rdbData]
        rw [if_pos hL, if_neg (by omega)]
      rw [handleMasterStream, hr]
      simp only
      have hsplit : reads.flatten = R2.drop data.length ++ commandStream cs := by
        have := congrArg (List.drop data.length) h
        rw [List.drop_left, List.drop_append_of_le_length (by omega)] at this
        exact this
      exact ih (R2.drop data.length) (cns + data.length)
        (by rw [List.length_drop]; omega) (by omega) (by rw [List.length_drop]; omega) hsplit
    · -- the read holds the end of the snapshot
      obtain ⟨A, hA, hF⟩ : ∃ A, data = R2 ++ A ∧ A ++ reads.flatten = commandStream cs := by
        rcases List.append_eq_append_iff.1 h with ⟨a1, ha, hb1⟩ | ⟨c1, hc1, hc2⟩
        · have hl := congrArg List.length ha
          rw [List.length_append] at hl
          have ha0 : a1 = [] := List.length_eq_zero.1 (by omega)
          subst ha0
          refine ⟨[], by simpa using ha.symm, ?_⟩
          simpa using hb1
        · exact ⟨c1, hc1, hc2.symm⟩
      obtain ⟨ds, rest2, T, e1, e2, e3, e4⟩ := processCommands_split process
        { s := s, accumulated := A, rdbConsumed := true, rdbLength := L, rdbBytesConsumed := L }
        rfl cs reads.flatten hF hb
      have hr : handleMasterRead process
          { s := s, accumulated := [], rdbConsumed := false, rdbLength := L,
            rdbBytesConsumed := cns } data
          = Loop.done { s := ds.foldl process s, accumulated := T, rdbConsumed := true,
                        rdbLength := L, rdbBytesConsumed := L } := by
        unfold handleMasterRead consumeRDB
        simp only [Bool.not_false, if_true, List.nil_append]
        rw [rdbHeader_known _ hne]
        simp only [Option.some_bind, rdbData]
        rw [if_pos hL, if_pos (by omega)]
        have hs : sliceFrom data (L - cns) = some A := by
          rw [hA]; exact sliceFrom_append _ _ _ (by omega)
        simp only [hs]
        exact e4
      rw [handleMasterStream, hr]
      simp only
      rw [handleMasterStream_commands process reads rest2 T _ L e2 e3 (by
        have := congrArg List.length (congrArg commandStream e1)
        rw [commandStream_append, List.length_append] at this
        omega)]
      rw [e1, List.foldl_append]

/-- The header `$<L>\r\n` of the snapshot. -/
theorem rdbHeader_complete {σ : Type} (s : σ) (L : Nat) (A : Str) (c : Int)
    (hb : (L : Int) ≤ MaxInt64) :
    rdbHeader { s := s, accumulated := '$' :: decimal L ++ CRLF ++ A, rdbConsumed := false,
                rdbLength := -1, rdbBytesConsumed := c }
      = some { s := s, accumulated := A, rdbConsumed := false, rdbLength := L,
               rdbBytesConsumed := 0 } := by
  have h1 : HasPrefix ('$' :: decimal L ++ CRLF ++ A) ['$'] = true := by simp [HasPrefix]
  have h2 : Index ('$' :: decimal L ++ CRLF ++ A) CRLF = 1 + ((decimal L).length : Int) :=
    Index_field '$' _ _ (by decide) (decimal_ne_cr _)
  have h3 : slice ('$' :: decimal L ++ CRLF ++ A) 1 (1 + ((decimal L).length : Int))
      = some (decimal L) := slice_field '$' _ _
  have h4 : Atoi (decimal L) = ((L : Int), none) := by rw [Atoi_decimal, if_pos hb]
  have h5 : sliceFrom ('$' :: decimal L ++ CRLF ++ A) (1 + ((decimal L).length : Int) + 2)
      = some A := by
    have e : '$' :: decimal L ++ CRLF ++ A = ('$' :: decimal L ++ CRLF) ++ A := by simp
    rw [e]; exact sliceFrom_append _ _ _ (by simp [CRLF]; omega)
  unfold rdbHeader
  simp only [h1, h2, h3, h4, h5, and_self, if_true, ne_eq,
    show ¬ (1 + ((decimal L).length : Int) = -1) by omega, not_false_eq_true]

/-- Before the header of the snapshot is complete nothing is consumed. -/
theorem rdbHeader_incomplete {σ : Type} (st : MasterStream σ)
    (h : ∀ c ∈ st.accumulated, c ≠ '\n') : rdbHeader st = some st := by
  unfold rdbHeader
  rw [Index_none_of_ne_lf _ h]
  split <;> simp

/-- The reads from the first one on: the header of the snapshot, the snapshot
and the commands, however the reads cut them. -/
theorem handleMasterStream_header {σ : Type} (process : σ → List Str → σ) (reads : List Str)
    (cs : List (List Str)) (R P : Str) (s : σ) (h0 : 0 < R.length)
    (hP : P.length < ('$' :: decimal R.length ++ CRLF).length)
    (h : P ++ reads.flatten = '$' :: decimal R.length ++ CRLF ++ R ++ commandStream cs)
    (hbR : (R.length : Int) ≤ MaxInt64) (hbc : ((commandStream cs).length : Int) ≤ MaxInt64) :
    handleMasterStream process
        { s := s, accumulated := P, rdbConsumed := false, rdbLength := -1, rdbBytesConsumed := 0 }
        reads
      = Loop.done { s := cs.foldl process s, accumulated := [], rdbConsumed := true,
                    rdbLength := R.length, rdbBytesConsumed := R.length } := by
  induction reads generalizing P with
  | nil =>
    have := congrArg List.length h
    simp only [List.flatten_nil, List.append_nil, List.length_append] at this hP
    omega
  | cons data reads ih =>
    rw [List.flatten_cons, ← List.append_assoc] at h
    by_cases hd : (P ++ data).length < ('$' :: decimal R.length ++ CRLF).length
    · -- the header is not complete
      have htake : P ++ data = ('$' :: decimal R.length ++ CRLF).take (P ++ data).length := by
        have := congrArg (List.take (P ++ data).length) h
        rw [List.take_left, List.append_assoc, List.take_append_of_le_length (by omega)] at this
        exact this
      have hnl : ∀ c ∈ P ++ data, c ≠ '\n' := by
        have := field_take_ne_lf '$' R.length (P ++ data).length (by decide)
        rw [Nat.min_eq_left (by
          simp only [List.length_append, List.length_cons, CRLF, List.length_nil] at hd ⊢
          omega)] at this
        rw [← htake] at this
        exact this
      have hr : handleMasterRead process
          { s := s, accumulated := P, rdbConsumed := false, rdbLength := -1,
            rdbBytesConsumed := 0 } data
          = Loop.done { s := s, accumulated := P ++ data, rdbConsumed := false, rdbLength := -1,
                        rdbBytesConsumed := 0 } := by
        unfold handleMasterRead consumeRDB
        simp only [Bool.not_false, if_true]
        rw [rdbHeader_incomplete _ hnl]
        simp only [Option.some_bind, rdbData]
        rw [if_neg (by omega)]
        simp [processCommands]
      rw [handleMasterStream, hr]
      simp only
      exact ih (P ++ data) hd h
    · -- the read holds the end of the header
      obtain ⟨A, hA, hF⟩ : ∃ A, P ++ data = '$' :: decimal R.length ++ CRLF ++ A ∧
          A ++ reads.flatten = R ++ commandStream cs := by
        rw [List.append_assoc ('$' :: decimal R.length ++ CRLF)] at h
        rcases List.append_eq_append_iff.1 h with ⟨a1, ha, hb1⟩ | ⟨c1, hc1, hc2⟩
        · have hl := congrArg List.length ha
          simp only [List.length_append] at hl hd
          have ha0 : a1 = [] := List.length_eq_zero.1 (by omega)
          subst ha0
          refine ⟨[], by simpa using ha.symm, ?_⟩
          simpa using hb1
        · exact ⟨c1, hc1, hc2.symm⟩
      have hr : handleMasterRead process
          { s := s, accumulated := P, rdbConsumed := false, rdbLength := -1,
            rdbBytesConsumed := 0 } data
          = handleMasterRead process
          { s := s, accumulated := [], rdbConsumed := false, rdbLength := R.length,
            rdbBytesConsumed := 0 } A := by
        have hne : (R.length : Int) ≠ -1 := by omega
        unfold handleMasterRead consumeRDB
        simp only [Bool.not_false, if_true, List.nil_append]
        rw [hA, rdbHeader_complete s R.length A 0 hbR, rdbHeader_known _ hne]
      have hrun := handleMasterStream_rdb process (A :: reads) cs R s R.length 0 (by omega)
        (by omega) h0
        (by rw [List.flatten_cons]; exact hF) hbc
      rw [handleMasterStream] at hrun ⊢
      rw [hr]
      exact hrun


theorem foldl_recordCall (cs calls : List (List Str)) : cs.foldl recordCall calls = calls ++ cs := by
  induction cs generalizing calls with
  | nil => simp
  | cons c cs ih => rw [List.foldl_cons, ih, recordCall]; simp

/-- The stream of a primary, cut into reads in any way: the header and the
bytes of the snapshot are consumed and the commands behind them are processed
in order, each once; nothing is left in `accumulated`. -/
theorem handleMasterStream_stream {σ : Type} (process : σ → List Str → σ) (s : σ) (R : Str)
    (cs : List (List Str)) (reads : List Str) (hL : 1 ≤ R.length)
    (hcut : reads.flatten = ['$'] ++ Itoa R.length ++ CRLF ++ R ++ commandStream cs)
    (hb : (reads.flatten.length : Int) ≤ MaxInt64) :
    handleMasterStream process (MasterStream.start s) reads
      = Loop.done { s := cs.foldl process s, accumulated := [], rdbConsumed := true,
                    rdbLength := R.length, rdbBytesConsumed := R.length } := by
  have hlen : (reads.flatten.length : Int)
      = 1 + (decimal R.length).length + 2 + R.length + (commandStream cs).length := by
    rw [hcut, Itoa_natCast]; simp [CRLF]; omega
  refine handleMasterStream_header process reads cs R [] s (by omega) (by simp) ?_
    (by omega) (by omega)
  rw [List.nil_append, hcut, Itoa_natCast]
  simp


/-! ## One reply for each command -/

theorem foldl_master {α : Type} (step : RedisServer × Str → α → RedisServer × Str)
    (hstep : ∀ acc a, (step acc a).1.state.serverIsMaster = acc.1.state.serverIsMaster)
    (xs : List α) (acc : RedisServer × Str) :
    (xs.foldl step acc).1.state.serverIsMaster = acc.1.state.serverIsMaster := by
  induction xs generalizing acc with
  | nil => rfl
  | cons x xs ih => rw [List.foldl_cons, ih, hstep]

theorem foldl_out_ne_nil {α : Type} (step : RedisServer × Str → α → RedisServer × Str)
    (hstep : ∀ acc a, (step acc a).2 ≠ []) (xs : List α) (acc : RedisServer × Str)
    (h : xs ≠ [] ∨ acc.2 ≠ []) : (xs.foldl step acc).2 ≠ [] := by
  induction xs generalizing acc with
  | nil =>
    rcases h with h | h
    · exact absurd rfl h
    · exact h
  | cons x xs ih => rw [List.foldl_cons]; exact ih _ (Or.inr (hstep acc x))

theorem pushFrame_ne_nil (kind : String) (chName : Str) (count : Int) :
    pushFrame kind chName count ≠ [] := by
  simp [pushFrame]

theorem registerStep_master (acc : RedisServer × Str) (chName : Str) :
    (registerStep acc chName).1.state.serverIsMaster = acc.1.state.serverIsMaster := by
  unfold registerStep
  dsimp only
  split
  · rfl
  · split <;> rfl

theorem unsubscribeStep_master (acc : RedisServer × Str) (chName : Str) :
    (unsubscribeStep acc chName).1.state.serverIsMaster = acc.1.state.serverIsMaster := by
  unfold unsubscribeStep
  dsimp only
  split <;> rfl

theorem unsubscribeAllStep_master (acc : RedisServer × Str) (entry : Str × Channel) :
    (unsubscribeAllStep acc entry).1.state.serverIsMaster = acc.1.state.serverIsMaster := rfl

theorem registerStep_out (acc : RedisServer × Str) (chName : Str) :
    (registerStep acc chName).2 ≠ [] := by
  unfold registerStep
  dsimp only
  exact fun h => pushFrame_ne_nil _ _ _ (List.append_eq_nil.1 h).2

theorem unsubscribeStep_out (acc : RedisServer × Str) (chName : Str) :
    (unsubscribeStep acc chName).2 ≠ [] := by
  unfold unsubscribeStep
  dsimp only
  exact fun h => pushFrame_ne_nil _ _ _ (List.append_eq_nil.1 h).2

theorem propagate_master (s : RedisServer) (args : List Str) :
    (s.propagate args).state.serverIsMaster = s.state.serverIsMaster := by
  unfold RedisServer.propagate
  rw [write_fold_eq]

theorem bulkArray_ne_nil (result : List Str) : bulkArray result ≠ [] := by
  rw [bulkArray_eq]; simp

theorem Holds.ofListLenReplyNe {P : RedisServer → CommandResponse → Prop} (s1 : RedisServer)
    (key : Str) (h : ∀ r : Str, r ≠ [] → P s1 { Response := r, Error := [] }) :
    Holds P (listLenReply s1 key) := by
  unfold listLenReply
  split
  · split
    · exact Holds.ofRespond _ _ (h _ (by simp))
    · exact Holds.ofNone P
  · exact Holds.ofNone P

theorem registerSUBSCRIBE_answered (s : RedisServer) (args : List Str) :
    Holds (Answered s) (registerSUBSCRIBE s args) := by
  unfold registerSUBSCRIBE
  split
  · exact Holds.ofFail _ _ ⟨rfl, Or.inl (by decide)⟩
  · rename_i hlen
    refine Holds.ofRespond _ _ ⟨?_, Or.inr ?_⟩
    · exact foldl_master _ registerStep_master _ _
    · refine foldl_out_ne_nil _ registerStep_out _ _ (Or.inl ?_)
      intro h
      have := congrArg List.length h
      simp only [List.length_drop, List.length_nil] at this
      omega

theorem cmdSUBSCRIBE_answered (s : RedisServer) (args : List Str) :
    Holds (Answered s) (cmdSUBSCRIBE s args) := by
  rcases cmdSUBSCRIBE_cases s args with h | h <;> rw [h]
  · exact Holds.ofNone _
  · exact registerSUBSCRIBE_answered s args

theorem cmdUNSUBSCRIBE_answered (s : RedisServer) (args : List Str) (h : 2 ≤ args.length) :
    Holds (Answered s) (cmdUNSUBSCRIBE s args) := by
  unfold cmdUNSUBSCRIBE
  dsimp only
  rw [if_neg (by simp only [List.length_drop]; omega)]
  refine Holds.ofRespond _ _ ⟨?_, Or.inr ?_⟩
  · exact foldl_master _ unsubscribeStep_master _ _
  · refine foldl_out_ne_nil _ unsubscribeStep_out _ _ (Or.inl ?_)
    intro h1
    have := congrArg List.length h1
    simp only [List.length_drop, List.length_nil] at this
    omega

theorem cmdPUBLISH_answered (s : RedisServer) (args : List Str) :
    Holds (Answered s) (cmdPUBLISH s args) := by
  unfold cmdPUBLISH
  repeat' first
    | exact Holds.ofNone _
    | exact Holds.ofFail _ _ ⟨rfl, Or.inl (by decide)⟩
    | exact Holds.ofRespond _ _ ⟨rfl, Or.inr (by decide)⟩
    | exact Holds.ofRespond _ _ ⟨by dsimp only; rw [write_fold_eq], Or.inr (by simp)⟩
    | (apply Holds.ofBind; intro _ _)
    | (apply Holds.ofIte <;> intro _)
    | split

theorem cmdKEYS_answered (e : Env) (s : RedisServer) (args : List Str) :
    Holds (Answered s) (cmdKEYS e s args) := by
  have hf : ∀ (l : List (Str × Str)) (init : Str), init ≠ [] →
      l.foldl (fun response kv => response ++ CRLF ++ ['$'] ++ Itoa kv.1.length ++ CRLF ++ kv.1) init
        ≠ [] := by
    intro l
    induction l with
    | nil => intro init h; exact h
    | cons a l ih => intro init _; rw [List.foldl_cons]; exact ih _ (by simp [CRLF])
  unfold cmdKEYS
  repeat' first
    | exact Holds.ofNone _
    | exact Holds.ofFail _ _ ⟨rfl, Or.inl (by decide)⟩
    | exact Holds.ofRespond _ _ ⟨rfl, Or.inr (hf _ _ (by simp))⟩
    | (apply Holds.ofBind; intro _ _)
    | (apply Holds.ofIte <;> intro _)


theorem dispatch_answered {lib : Lib} (e : Env) (s : RedisServer) (cmd : Str) (args : List Str)
    (hP : cmd ≠ "PSYNC".toList) (hU : cmd = "UNSUBSCRIBE".toList → 2 ≤ args.length) :
    Holds (Answered s) (dispatch lib e s cmd args) := by
  unfold dispatch cmdPING cmdECHO cmdSET cmdGET cmdCONFIG cmdINFO cmdREPLCONF
    cmdTYPE cmdINCR cmdRPUSH cmdLRANGE cmdLPUSH cmdLLEN cmdLPOP popCount
    cmdZADD cmdZRANK cmdZRANGE cmdZCARD cmdZREM
  repeat' first
    | exact Holds.ofNone _
    | (exfalso; exact hP (by assumption))
    | exact cmdSUBSCRIBE_answered s args
    | exact cmdPUBLISH_answered s args
    | exact cmdKEYS_answered e s args
    | exact cmdUNSUBSCRIBE_answered s args (hU (by assumption))
    | exact Holds.ofFail _ _ ⟨rfl, Or.inl (by decide)⟩
    | (refine Holds.ofRespond _ _ ⟨?_, Or.inr ?_⟩ <;>
        first
          | rfl
          | exact propagate_master _ _
          | (split <;> rfl)
          | decide
          | exact bulkArray_ne_nil _
          | (dsimp only; split <;> decide)
          | simp)
    | exact Holds.ofListLenReplyNe _ _ (fun _ hr => ⟨rfl, Or.inr hr⟩)
    | (apply Holds.ofBind; intro _ _)
    | (apply Holds.ofIte <;> intro _)
    | split


theorem gateError_ne_nil (lib : Lib) (cmd : Str) : gateError lib cmd ≠ [] := by
  simp [gateError]

/-- A command other than PSYNC and UNSUBSCRIBE without arguments is answered:
the executor returns an error or a response that is not empty, and the role
of the server stays as it is. -/
theorem executeCommand_answered {lib : Lib} (e : Env) (s s1 : RedisServer) (name : Str)
    (rest : List Str) (r : CommandResponse)
    (hP : ToUpper lib name ≠ "PSYNC".toList)
    (hU : ToUpper lib name = "UNSUBSCRIBE".toList → rest ≠ [])
    (h : executeCommand lib e s (name :: rest) = some (s1, r)) : Answered s s1 r := by
  unfold executeCommand at h
  dsimp only at h
  split at h
  · cases h
    exact ⟨rfl, Or.inl (gateError_ne_nil _ _)⟩
  · refine (dispatch_answered e s _ _ hP (fun hu => ?_)).out (s1, r) h
    have := hU hu
    cases rest with
    | nil => exact absurd rfl this
    | cons a as => simp

/-- Outside MULTI, a command that is answerable is executed and its reply is
written once. -/
theorem handleCommand_answerable {lib : Lib} (env : Nat → Env) (s : RedisServer) (c : List Str)
    (hm : s.MultiOn = false) (hc : answerable lib s.state.serverIsMaster c = true) :
    handleCommand lib env s c
      = (executeCommand lib (env 0) s c).map (fun p => p.1.send (replyText p.2)) := by
  cases c with
  | nil => simp [answerable] at hc
  | cons name rest =>
    simp only [answerable, queueable, Bool.and_eq_true, Bool.or_eq_true, decide_eq_true_eq] at hc
    obtain ⟨⟨⟨⟨h1, h2, h3⟩, hP⟩, hU⟩, hS⟩ := hc
    unfold handleCommand
    simp only [h1, h2, h3, hm, if_false, Bool.false_eq_true]
    cases hx : executeCommand lib (env 0) s (name :: rest) with
    | none => rfl
    | some p =>
      obtain ⟨s1, r⟩ := p
      have ha := executeCommand_answered (env 0) s s1 name rest r hP hU hx
      simp only [Option.map_some']
      by_cases he : r.Error ≠ []
      · rw [if_pos he]; simp only [replyText, if_pos he]
      · rw [if_neg he]
        have hr : r.Response ≠ [] := by
          rcases ha.2 with h | h
          · exact absurd h he
          · exact h
        rw [if_pos hr]
        have hg : s1.state.serverIsMaster = true ∨ ToUpper lib name ≠ "SET".toList := by
          rw [ha.1]; exact hS
        rw [if_pos hg]
        simp only [replyText, if_neg he]

/-- Outside MULTI, a session that receives answerable commands answers each
of them once, in order. -/
theorem handleCommands_answerEach {lib : Lib} (envs : Nat → Nat → Env) (k : Nat) (s : RedisServer)
    (cs : List (List Str)) (hm : s.MultiOn = false)
    (hcs : ∀ c ∈ cs, answerable lib s.state.serverIsMaster c = true) :
    handleCommands lib envs k s cs = (answerEach lib envs k s cs).map (fun p => p.1) ∧
    ∀ p, answerEach lib envs k s cs = some p → p.2.length = cs.length := by
  induction cs generalizing k s with
  | nil =>
    refine ⟨rfl, fun p hp => ?_⟩
    simp only [answerEach, Option.some.injEq] at hp
    rw [← hp]; rfl
  | cons c cs ih =>
    have hc := hcs c (List.mem_cons_self _ _)
    have hne : c ≠ [] := by
      intro h; rw [h] at hc; simp [answerable] at hc
    obtain ⟨name, rest, rfl⟩ : ∃ name rest, c = name :: rest := by
      cases c with
      | nil => exact absurd rfl hne
      | cons a as => exact ⟨a, as, rfl⟩
    simp only [handleCommands, answerEach]
    rw [handleCommand_answerable (envs k) s _ hm hc]
    cases hx : executeCommand lib (envs k 0) s (name :: rest) with
    | none => exact ⟨rfl, fun p hp => nomatch hp⟩
    | some p =>
      obtain ⟨s1, r⟩ := p
      simp only [Option.map_some']
      have hk := executeCommand_keeps (envs k 0) s (name :: rest) (s1, r) hx
      have ha : Answered s s1 r := by
        simp only [answerable, queueable, Bool.and_eq_true, Bool.or_eq_true,
          decide_eq_true_eq] at hc
        exact executeCommand_answered (envs k 0) s s1 name rest r hc.1.1.2 hc.1.2 hx
      have hm1 : (s1.send (replyText r)).MultiOn = false := hk.2.2.1.trans hm
      have hcs1 : ∀ c ∈ cs, answerable lib (s1.send (replyText r)).state.serverIsMaster c = true := by
        intro c1 hc1
        have : (s1.send (replyText r)).state.serverIsMaster = s.state.serverIsMaster := ha.1
        rw [this]
        exact hcs c1 (List.mem_cons_of_mem _ hc1)
      obtain ⟨i1, i2⟩ := ih (k + 1) (s1.send (replyText r)) hm1 hcs1
      rw [i1]
      cases hy : answerEach lib envs (k + 1) (s1.send (replyText r)) cs with
      | none => exact ⟨rfl, fun p hp => nomatch hp⟩
      | some q =>
        refine ⟨rfl, fun p hp => ?_⟩
        simp only [Option.some.injEq] at hp
        rw [← hp, List.length_cons, List.length_cons, i2 q hy]


/-- On a replica that acts as a server, the reply of a SET that succeeds is
not written (the test `s.state.serverIsMaster || cmd != RESP_COMMAND_SET` of
`handleConnection`); its error is. -/
theorem handleCommand_replica_SET {lib : Lib} (env : Nat → Env) (s : RedisServer) (name : Str)
    (rest : List Str) (hm : s.MultiOn = false) (hr : s.state.serverIsMaster = false)
    (hn : ToUpper lib name = "SET".toList) :
    handleCommand lib env s (name :: rest)
      = (executeCommand lib (env 0) s (name :: rest)).map
          (fun p => if p.2.Error ≠ [] then p.1.send (p.2.Error ++ CRLF) else p.1) := by
  have h1 : ¬ ("SET".toList = "MULTI".toList) := by decide
  have h2 : ¬ ("SET".toList = "DISCARD".toList) := by decide
  have h3 : ¬ ("SET".toList = "EXEC".toList) := by decide
  unfold handleCommand
  simp only [hn, h1, h2, h3, hm, if_false, Bool.false_eq_true]
  cases hx : executeCommand lib (env 0) s (name :: rest) with
  | none => rfl
  | some p =>
    obtain ⟨s1, r⟩ := p
    have ha := executeCommand_answered (env 0) s s1 name rest r (by rw [hn]; decide)
      (fun hu => by rw [hn] at hu; exact absurd hu (by decide)) hx
    have hs1 : s1.state.serverIsMaster = false := ha.1.trans hr
    simp only [Option.map_some']
    by_cases he : r.Error ≠ []
    · rw [if_pos he, if_pos he]
    · rw [if_neg he, if_neg he]
      have hg : ¬ (s1.state.serverIsMaster = true ∨ "SET".toList ≠ "SET".toList) := by
        rw [hs1]; simp
      split <;> rfl

/-- PSYNC on a primary is answered by the executor itself, with the
FULLRESYNC line and the snapshot; the session writes nothing more. -/
theorem handleCommand_PSYNC {lib : Lib} (env : Nat → Env) (s : RedisServer) (name : Str)
    (rest : List Str) (hm : s.MultiOn = false) (hmode : s.SubscribedMode = false)
    (hr : s.state.serverIsMaster = true) (hn : ToUpper lib name = "PSYNC".toList) :
    handleCommand lib env s (name :: rest)
      = some { s with state := { s.state with
          net := s.state.net ++
            [(s.conn, "+FULLRESYNC 8371b4fb1155b71f4a04d3e1bc3e18c4a990aeeb 0\r\n".toList),
              (s.conn, ['$'] ++ Itoa RDBContent.length ++ CRLF ++ RDBContent)]
          replicaConns := s.state.replicaConns ++ [s.conn] } } := by
  have h1 : ¬ ("PSYNC".toList = "MULTI".toList) := by decide
  have h2 : ¬ ("PSYNC".toList = "DISCARD".toList) := by decide
  have h3 : ¬ ("PSYNC".toList = "EXEC".toList) := by decide
  have hx : executeCommand lib (env 0) s (name :: rest) = cmdPSYNC s := by
    rw [executeCommand_normal _ _ _ _ hmode, hn]; rfl
  unfold handleCommand
  simp only [hn, h1, h2, h3, hm, if_false, Bool.false_eq_true]
  rw [hx]
  unfold cmdPSYNC
  simp only [hr, Bool.not_true, Bool.false_eq_true, if_false, ne_eq, not_true_eq_false]
  simp [RedisServer.send, RedisState.write, hr, hm]

/-- Inside MULTI the replies of the queued commands are folded into the one
array that EXEC writes. -/
theorem handleCommands_multi_exec {lib : Lib} (envs : Nat → Nat → Env) (s : RedisServer)
    (cs : List (List Str)) (hq : s.multiQueue = []) (hcs : ∀ c ∈ cs, queueable lib c = true) :
    handleCommands lib envs 0 s (["MULTI".toList] :: cs ++ [["EXEC".toList]])
      = (runInOrder lib (envs (cs.length + 1)) { queuedSession s cs with MultiOn := false } cs).map
          (fun p => { p.1.send (replyArray p.2) with multiQueue := [] }) := by
  rw [handleCommands_append envs 0 s (["MULTI".toList] :: cs) [["EXEC".toList]],
    handleCommands_multi envs s cs hq hcs]
  simp only [Option.some_bind, handleCommands, List.length_cons, Nat.zero_add]
  rw [handleCommand_EXEC]
  cases runInOrder lib (envs (cs.length + 1)) { queuedSession s cs with MultiOn := false } cs <;> rfl


/-! ## The stream of the primary: the fuel is enough -/

theorem Index_ge (s sep : Str) (h : Index s sep ≠ -1) : 0 ≤ Index s sep := by
  unfold Index at *
  cases hi : indexOf sep s with
  | none => rw [hi] at h; exact absurd rfl h
  | some n => exact Int.ofNat_nonneg n

theorem sliceFrom_length {α : Type} (l rest : List α) (k : Int) (h : sliceFrom l k = some rest) :
    0 ≤ k ∧ (rest.length : Int) = l.length - k := by
  unfold sliceFrom slice at h
  split at h
  · rename_i hc
    simp only [Option.some.injEq] at h
    rw [← h, List.length_take, List.length_drop]
    omega
  · cases h

theorem slice_bounds {α : Type} (l m : List α) (lo hi : Int) (h : slice l lo hi = some m) :
    0 ≤ lo ∧ lo ≤ hi ∧ hi ≤ l.length := by
  unfold slice at h
  split at h
  · assumption
  · cases h

theorem index_neg {α : Type} (l : List α) (i : Int) (h : i < 0) : index l i = none := by
  unfold index
  rw [if_neg (by omega)]

/-- The position behind the elements of a command that is complete lies
behind the count of the command, unless the sums have wrapped around to a
negative position. -/
theorem streamElements_pos (accumulated : Str) (n : Nat) (p : Int) (els elements : List Str)
    (pos : Int) (hp : 2 ≤ p ∨ p < 0)
    (h : streamElements accumulated n p els = Elements.complete elements pos) :
    2 ≤ pos ∨ pos < 0 := by
  induction n generalizing p els with
  | zero =>
    simp only [streamElements, Elements.complete.injEq] at h
    rw [← h.2]; exact hp
  | succ n ih =>
    rw [streamElements] at h
    split at h
    · cases h
    · split at h
      · cases h
      · split at h
        · cases h
        · split at h
          · cases h
          · dsimp only at h
            split at h
            · cases h
            · split at h
              · cases h
              · split at h
                · cases h
                · split at h
                  · cases h
                  · split at h
                    · cases h
                    · rename_i element hs
                      have hb := slice_bounds _ _ _ _ hs
                      refine ih _ _ ?_ h
                      unfold wrap64 at hb ⊢
                      omega

/-- With more fuel than `accumulated` has bytes the loop over the commands
does not run out of fuel: every turn that stays in the loop shortens
`accumulated`. -/
theorem streamCommands_fuel {σ : Type} (process : σ → List Str → σ) (fuel : Nat) (s : σ)
    (accumulated : Str) (hf : accumulated.length < fuel) :
    streamCommands process fuel s accumulated ≠ Loop.outOfFuel := by
  induction fuel generalizing s accumulated with
  | zero => omega
  | succ fuel ih =>
    rw [streamCommands]
    split
    · split
      · split
        · exact fun h => nomatch h
        · rename_i tail htail
          dsimp only
          split
          · exact fun h => nomatch h
          · rename_i hstar
            split
            · exact fun h => nomatch h
            · rename_i rest hrest
              have h0 := Index_ge _ _ hstar
              have hl := sliceFrom_length _ _ _ hrest
              exact ih _ _ (by omega)
      · dsimp only
        split
        · exact fun h => nomatch h
        · rename_i hcrlf
          have h0 := Index_ge _ _ hcrlf
          split
          · exact fun h => nomatch h
          · split
            · split
              · exact fun h => nomatch h
              · rename_i rest hrest
                have hl := sliceFrom_length _ _ _ hrest
                exact ih _ _ (by omega)
            · split
              · exact fun h => nomatch h
              · split
                · rename_i elements pos hel
                  split
                  · exact fun h => nomatch h
                  · rename_i rest hrest
                    have hl := sliceFrom_length _ _ _ hrest
                    have hp := streamElements_pos _ _ _ _ _ _ (Or.inl (by omega)) hel
                    exact ih _ _ (by omega)
                · exact fun h => nomatch h
                · split <;> exact fun h => nomatch h
                · exact fun h => nomatch h
    · exact fun h => nomatch h

/-- A read of `handleMasterStream` does not run out of fuel. -/
theorem handleMasterRead_fuel {σ : Type} (process : σ → List Str → σ) (st : MasterStream σ)
    (data : Str) : handleMasterRead process st data ≠ Loop.outOfFuel := by
  unfold handleMasterRead
  split
  · exact fun h => nomatch h
  · exact fun h => nomatch h
  · rename_i st1 _
    unfold processCommands
    split
    · have := streamCommands_fuel process (st1.accumulated.length + 1) st1.s st1.accumulated
        (by omega)
      split
      · exact fun h => nomatch h
      · exact fun h => nomatch h
      · rename_i hx; exact absurd hx this
    · exact fun h => nomatch h

/-- The reads of `handleMasterStream` do not run out of fuel: the method
returns from the reads or panics. -/
theorem handleMasterStream_fuel {σ : Type} (process : σ → List Str → σ) (st : MasterStream σ)
    (reads : List Str) : handleMasterStream process st reads ≠ Loop.outOfFuel := by
  induction reads generalizing st with
  | nil => exact fun h => nomatch h
  | cons data reads ih =>
    rw [handleMasterStream]
    split
    · exact ih _
    · exact fun h => nomatch h
    · rename_i hx; exact absurd hx (handleMasterRead_fuel process st data)


/-! ## The frames of UNSUBSCRIBE without arguments -/

theorem unsubscribeAll_frames (L : List (Str × Channel)) (acc : RedisServer × Str) :
    ∃ counts : List Int, counts.length = L.length ∧
      (L.foldl unsubscribeAllStep acc).2
        = acc.2 ++ (List.zipWith (fun p c => pushFrame "unsubscribe" p.1 c) L counts).flatten := by
  induction L generalizing acc with
  | nil => exact ⟨[], rfl, by simp⟩
  | cons p L ih =>
    obtain ⟨counts, h1, h2⟩ := ih (unsubscribeAllStep acc p)
    refine ⟨subCount (unsubscribeAllStep acc p).1 :: counts, by simp [h1], ?_⟩
    rw [List.foldl_cons, h2]
    simp [unsubscribeAllStep]

/-- UNSUBSCRIBE without arguments replies one frame for every channel of the
registry, in the order of the registry, whether the session is subscribed to
the channel or not. -/
theorem cmdUNSUBSCRIBE_all_frames (s : RedisServer) (name : Str) :
    ∃ (s1 : RedisServer) (counts : List Int), counts.length = s.state.channels.length ∧
      cmdUNSUBSCRIBE s [name]
        = some (s1, { Response := (List.zipWith (fun p c => pushFrame "unsubscribe" p.1 c)
            s.state.channels counts).flatten, Error := [] }) := by
  obtain ⟨counts, h1, h2⟩ := unsubscribeAll_frames s.state.channels
    ({ s with SubscribedMode := true }, [])
  refine ⟨(s.state.channels.foldl unsubscribeAllStep ({ s with SubscribedMode := true }, [])).1,
    counts, h1, ?_⟩
  unfold cmdUNSUBSCRIBE
  simp only [List.drop_succ_cons, List.drop_nil, List.length_nil, if_true, respond]
  rw [h2]
  rfl

/-! ## SET on an argument vector of three or more elements -/

/-- SET on a vector of at least three elements replies `+OK` and stores the
third element under the second, unless the vector has exactly four elements
and the fourth is PX. -/
theorem executeCommand_SET_stores {lib : Lib} (e : Env) (s : RedisServer) (name k v : Str)
    (rest : List Str) (hmode : s.SubscribedMode = false) (hn : ToUpper lib name = "SET".toList)
    (hpx : ∀ a, rest = [a] → ToUpper lib a ≠ "PX".toList) :
    ∃ (s1 : RedisServer) (px : Int),
      executeCommand lib e s (name :: k :: v :: rest)
        = some (s1, { Response := "+OK".toList, Error := [] }) ∧
      s1.state.storage k = some { val := Value.str v, px := px, t := e.now } := by
  rw [executeCommand_normal _ _ _ _ hmode, hn, dispatch_SET]
  unfold cmdSET
  rw [if_neg (by simp)]
  have i1 : index (name :: k :: v :: rest) 1 = some k := rfl
  have i2 : index (name :: k :: v :: rest) 2 = some v := rfl
  have hst : ∀ (val : storageVal),
      ((s.store k val).propagate (name :: k :: v :: rest)).state.storage k = some val := by
    intro val
    rw [propagate_storage]
    simp [RedisServer.store]
  cases rest with
  | nil =>
    refine ⟨_, -1, ?_, hst _⟩
    simp [i1, i2, respond]
  | cons a rest =>
    have i3 : index (name :: k :: v :: a :: rest) 3 = some a := rfl
    cases rest with
    | nil =>
      have ha : ¬ ToUpper lib a = ['P', 'X'] := hpx a rfl
      refine ⟨_, -1, ?_, hst _⟩
      simp [i1, i2, i3, ha, respond]
    | cons b rest =>
      have i4 : index (name :: k :: v :: a :: b :: rest) 4 = some b := rfl
      by_cases ha : ToUpper lib a = "PX".toList
      · have ha1 : ToUpper lib a = ['P', 'X'] := ha
        refine ⟨_, (Atoi b).1, ?_, hst _⟩
        simp [i1, i2, i3, i4, ha1, respond]
      · have ha1 : ¬ ToUpper lib a = ['P', 'X'] := ha
        refine ⟨_, -1, ?_, hst _⟩
        simp [i1, i2, i3, ha1, respond]


/-! ## The reader of the RDB file -/

theorem scanFB_no_marker (l : Str) (idx : Int) (h : ∀ c ∈ l, c.toNat ≠ 0xFB) :
    scanFB l idx = idx + l.length := by
  induction l generalizing idx with
  | nil => simp [scanFB]
  | cons c cs ih =>
    rw [scanFB, if_neg (h c (List.mem_cons_self _ _)),
      ih (idx + 1) (fun d hd => h d (List.mem_cons_of_mem _ hd)), List.length_cons]
    push_cast; ring

theorem scanFB_marker (pre tail : Str) (c : Char) (idx : Int) (h : ∀ d ∈ pre, d.toNat ≠ 0xFB)
    (hc : c.toNat = 0xFB) : scanFB (pre ++ c :: tail) idx = idx + pre.length := by
  induction pre generalizing idx with
  | nil => simp [scanFB, hc]
  | cons d ds ih =>
    rw [List.cons_append, scanFB, if_neg (h d (List.mem_cons_self _ _)),
      ih (idx + 1) (fun x hx => h x (List.mem_cons_of_mem _ hx)), List.length_cons]
    push_cast; ring

theorem index_length {α : Type} (l : List α) (i : Int) (h : (l.length : Int) ≤ i) :
    index l i = none := by
  unfold index
  rw [if_pos (by omega)]
  exact List.get?_eq_none.2 (by omega)

/-- When `readRDB` returns, the map it returns has at most one entry. -/
theorem readRDB_at_most_one (file : Option Str) (l : List (Str × Str))
    (h : readRDB file = some l) : l.length ≤ 1 := by
  unfold readRDB at h
  repeat' first
    | split at h
    | (dsimp only at h; split at h)
  all_goals first
    | (cases h; simp)
    | cases h

/-- A file that cannot be read, is shorter than nine bytes or does not start
with the magic gives the empty map. -/
theorem readRDB_not_magic (data : Str)
    (h : data.length < 9 ∨ data.take 9 ≠ "REDIS0011".toList) :
    readRDB none = some [] ∧ readRDB (some data) = some [] := by
  refine ⟨rfl, ?_⟩
  unfold readRDB
  simp only
  by_cases h1 : data.length < 9
  · rw [if_pos h1]
  · rw [if_neg h1, if_pos (h.resolve_left h1)]

/-- A file that starts with the magic and holds no byte `0xFB` behind it makes
`readRDB` panic: the scan stops at `len(data)` and the statement behind it
reads `data[index]`. -/
theorem readRDB_no_marker (data : Str) (h9 : 9 ≤ data.length)
    (hm : data.take 9 = "REDIS0011".toList) (h : ∀ c ∈ data.drop 9, c.toNat ≠ 0xFB) :
    readRDB (some data) = none := by
  have hs : scanFB (data.drop 9) 9 = (data.length : Int) := by
    rw [scanFB_no_marker _ _ h, List.length_drop]; omega
  unfold readRDB
  simp only
  rw [if_neg (by omega), if_neg (by simpa using hm), hs, index_length data _ (le_refl _)]

/-- A file that starts with the magic and whose first byte `0xFB` has at most
three bytes behind it makes `readRDB` panic: `readString` reads
`data[index + 4]`. -/
theorem readRDB_marker_near_end (data pre tail : Str) (c : Char) (h9 : 9 ≤ data.length)
    (hm : data.take 9 = "REDIS0011".toList) (hd : data.drop 9 = pre ++ c :: tail)
    (h : ∀ d ∈ pre, d.toNat ≠ 0xFB) (hc : c.toNat = 0xFB) (ht : tail.length ≤ 3) :
    readRDB (some data) = none := by
  have hs : scanFB (data.drop 9) 9 = 9 + (pre.length : Int) := by
    rw [hd, scanFB_marker _ _ _ _ h hc]
  have hdata : data = (data.take 9 ++ pre) ++ c :: tail := by
    rw [List.append_assoc, ← hd, List.take_append_drop]
  have hlen : (data.length : Int) = 9 + pre.length + 1 + tail.length := by
    have := congrArg List.length hd
    simp only [List.length_drop, List.length_append, List.length_cons] at this
    omega
  have hi : index data (9 + (pre.length : Int)) = some c := by
    have := index_append_cons (data.take 9 ++ pre) c tail
    rw [← hdata] at this
    rw [← this]
    congr 1
    simp only [List.length_append, List.length_take]
    omega
  have hr : readString data (9 + (pre.length : Int) + 4) = Result.panic := by
    unfold readString
    rw [index_length data _ (by omega)]
  unfold readRDB
  simp only
  rw [if_neg (by omega), if_neg (by simpa using hm), hs, hi]
  simp only [hr]

/-- `KEYS *` panics when `readRDB` does. -/
theorem executeCommand_KEYS_panics {lib : Lib} (e : Env) (s : RedisServer) (name : Str)
    (rest : List Str) (hmode : s.SubscribedMode = false) (hn : ToUpper lib name = "KEYS".toList)
    (h : readRDB e.rdbFile = none) :
    executeCommand lib e s (name :: ['*'] :: rest) = none := by
  rw [executeCommand_normal _ _ _ _ hmode, hn]
  show cmdKEYS e s (name :: ['*'] :: rest) = none
  unfold cmdKEYS
  rw [if_neg (by simp)]
  have i1 : index (name :: ['*'] :: rest) 1 = some ['*'] := rfl
  simp only [Option.bind_eq_bind, i1, Option.some_bind, if_true, h, Option.none_bind]

/-- Only SUBSCRIBE can block: a call of the executor with another command name
that does not return has panicked. -/
theorem executeBlocked_other (lib : Lib) (s : RedisServer) (name : Str) (rest : List Str)
    (h : ToUpper lib name ≠ "SUBSCRIBE".toList) : executeBlocked lib s (name :: rest) = none := by
  unfold executeBlocked
  dsimp only
  split <;> rfl

/-- A call of the executor that blocks does not return. -/
theorem executeBlocked_none (lib : Lib) (e : Env) (s s1 : RedisServer) (tempArr : List Str)
    (h : executeBlocked lib s tempArr = some s1) : executeCommand lib e s tempArr = none := by
  unfold executeBlocked at h
  cases tempArr with
  | nil => cases h
  | cons name rest =>
    dsimp only at h
    split at h
    · cases h
    · rename_i hg
      split at h
      · rename_i hn
        unfold executeCommand
        dsimp only
        rw [if_neg hg, hn]
        have hd : dispatch lib e s "SUBSCRIBE".toList (name :: rest)
            = cmdSUBSCRIBE s (name :: rest) := rfl
        rw [hd]
        exact (blockedSUBSCRIBE_iff s (name :: rest)).1 (by rw [h]; rfl)
      · cases h

/-! ## Commands that arrive as one frame in a read of their own -/

theorem length_le_encodeBulkArray (args : List Str) :
    args.length ≤ (encodeBulkArray args).length := by
  rw [encodeBulkArray_eq]
  have hfl : args.length ≤ (frames args).length := by
    induction args with
    | nil => simp
    | cons a as ih => simp [frames, bulk]; omega
  simp only [List.length_append]
  omega

/-- A read that returns the frame of one argument vector, and nothing else, is
handled as that vector. -/
theorem handleRead_encodeBulkArray {lib : Lib} (env : Nat → Env) (s : RedisServer) (c : List Str)
    (h : (encodeBulkArray c).length ≤ 1024) :
    handleRead lib env s (encodeBulkArray c) = handleCommand lib env s c := by
  have h1 := length_le_encodeBulkArray c
  unfold handleRead
  rw [RESPToArray_encodeBulkArray c (by unfold MaxInt64; omega) (by unfold maxSliceCap; omega)]

theorem handleReads_encodeBulkArray {lib : Lib} (envs : Nat → Nat → Env) (k : Nat) (s : RedisServer)
    (cs : List (List Str)) (h : ∀ c ∈ cs, (encodeBulkArray c).length ≤ 1024) :
    handleReads lib envs k s (cs.map encodeBulkArray) = handleCommands lib envs k s cs := by
  induction cs generalizing k s with
  | nil => rfl
  | cons c cs ih =>
    simp only [List.map_cons, handleReads, handleCommands]
    rw [handleRead_encodeBulkArray (envs k) s c (h c (List.mem_cons_self _ _))]
    cases handleCommand lib (envs k) s c with
    | none => rfl
    | some s1 => exact ih (k + 1) s1 (fun c1 hc1 => h c1 (List.mem_cons_of_mem _ hc1))

/-! ## The calls of SUBSCRIBE that return -/

/-- An iteration of the loop of SUBSCRIBE goes on when no lock is held and the
channel is new or holds the session already; it leaves no lock held. -/
theorem subscribeStep_free (acc : RedisServer × Str) (ch : Str) (hfree : LocksFree acc.1.state)
    (hnew : NewOrMember acc.1 ch) :
    subscribeStep acc ch = Locking.done (registerStep acc ch) ∧
    LocksFree (registerStep acc ch).1.state ∧
    (registerStep acc ch).1.conn = acc.1.conn ∧
    ∀ ch1 : Str, NewOrMember acc.1 ch1 → NewOrMember (registerStep acc ch).1 ch1 := by
  have hany : ∀ m : List (Str × Channel), (∀ p ∈ m, p.2.mu = RWMutex.unlocked) →
      m.any (fun p => decide (p.2.mu = RWMutex.locked)) = false := by
    intro m hmu
    rw [List.any_eq_false]
    intro p hp
    rw [hmu p hp]
    decide
  cases hg : chanGet acc.1.state.channels ch with
  | none =>
    have hr : registerStep acc ch
        = (acc.1.setChannel ch { name := ch, connections := [acc.1.conn], mu := RWMutex.unlocked },
            acc.2 ++ pushFrame "subscribe" ch (subCount (acc.1.setChannel ch
              { name := ch, connections := [acc.1.conn], mu := RWMutex.unlocked }))) := by
      unfold registerStep
      simp only [hg]
    have hmu : ∀ p ∈ (acc.1.setChannel ch
        { name := ch, connections := [acc.1.conn], mu := RWMutex.unlocked }).state.channels,
        p.2.mu = RWMutex.unlocked := by
      intro p hp
      rcases chanSet_mem _ _ _ _ hp with h | h
      · exact hfree.2 p h
      · rw [h]
    rw [hr]
    refine ⟨?_, ⟨hfree.1, hmu⟩, rfl, ?_⟩
    · unfold subscribeStep subscribeRegister
      rw [if_neg (not_not.mpr hfree.1)]
      simp only [hg]
      rw [if_neg (by rw [hany _ hmu]; decide)]
    · intro ch1 h1 channel hc
      have hc1 : chanGet (chanSet acc.1.state.channels ch
          { name := ch, connections := [acc.1.conn], mu := RWMutex.unlocked }) ch1
          = some channel := hc
      by_cases he : ch1 = ch
      · subst he
        rw [chanGet_chanSet_same] at hc1
        cases hc1
        exact List.mem_singleton.mpr rfl
      · rw [chanGet_chanSet_other _ _ _ _ he] at hc1
        exact h1 channel hc1
  | some channel =>
    have hm := hnew channel hg
    have hr : registerStep acc ch
        = (acc.1, acc.2 ++ pushFrame "subscribe" ch (subCount acc.1)) := by
      unfold registerStep
      simp only [hg, if_pos hm]
    have hcm : channel.mu = RWMutex.unlocked := hfree.2 _ (chanGet_mem _ _ _ hg)
    rw [hr]
    refine ⟨?_, hfree, rfl, fun ch1 h1 => h1⟩
    unfold subscribeStep subscribeRegister
    rw [if_neg (not_not.mpr hfree.1)]
    simp only [hg]
    rw [if_neg (not_not.mpr hcm), if_pos hm]
    dsimp only
    rw [if_neg (by rw [hany _ hfree.2]; decide)]

theorem subscribeLoop_free (chs : List Str) (acc : RedisServer × Str)
    (hfree : LocksFree acc.1.state) (hnew : ∀ ch ∈ chs, NewOrMember acc.1 ch) :
    subscribeLoop chs acc = Locking.done (chs.foldl registerStep acc) ∧
    LocksFree (chs.foldl registerStep acc).1.state := by
  induction chs generalizing acc with
  | nil => exact ⟨rfl, hfree⟩
  | cons ch chs ih =>
    obtain ⟨h1, h2, _, h4⟩ := subscribeStep_free acc ch hfree (hnew ch (List.mem_cons_self _ _))
    simp only [subscribeLoop, h1, List.foldl_cons]
    exact ih (registerStep acc ch) h2 (fun c hc => h4 c (hnew c (List.mem_cons_of_mem _ hc)))

/-- SUBSCRIBE returns, and leaves no lock held, when no lock is held before
the call and each of the named channels is new to the registry or holds the
session already. -/
theorem cmdSUBSCRIBE_returns (s : RedisServer) (tempArr : List Str)
    (hfree : LocksFree s.state) (hnew : ∀ ch ∈ tempArr.drop 1, NewOrMember s ch) :
    cmdSUBSCRIBE s tempArr = registerSUBSCRIBE s tempArr ∧
    ∀ p, cmdSUBSCRIBE s tempArr = some p → LocksFree p.1.state := by
  have hl := subscribeLoop_free (tempArr.drop 1) ({ s with SubscribedMode := true }, []) hfree hnew
  unfold cmdSUBSCRIBE registerSUBSCRIBE
  split
  · refine ⟨rfl, fun p hp => ?_⟩
    simp only [fail, Option.some.injEq] at hp
    rw [← hp]; exact hfree
  · rw [hl.1]
    refine ⟨rfl, fun p hp => ?_⟩
    simp only [respond, Option.some.injEq] at hp
    rw [← hp]; exact hl.2

/-- SUBSCRIBE with channels that are new to the registry or hold the session
already, on a registry that is a map and with no lock held: the call returns
the frames of the specification, one per channel in argument order, and
afterwards the session is a subscriber of the named channels and no other
subscription has changed. -/
theorem executeCommand_SUBSCRIBE_returns {lib : Lib} (e : Env) (s : RedisServer) (ch : Str)
    (chs : List Str) (hreg : RegistryOK s.state) (hfree : LocksFree s.state)
    (hnew : ∀ c ∈ ch :: chs, NewOrMember s c) :
    ∃ s1 : RedisServer,
      executeCommand lib e s ("SUBSCRIBE".toList :: ch :: chs)
        = some (s1, { Response := subscribeReply (subscriptions s.state s.conn) (ch :: chs),
                      Error := [] }) ∧
      LocksFree s1.state ∧
      (∀ (ch1 : Str) (c : Conn), c ∈ subscribers s1.state ch1
        ↔ c ∈ subscribers s.state ch1 ∨ (c = s.conn ∧ ch1 ∈ ch :: chs)) := by
  obtain ⟨s1, h1, _, _, _, h5⟩ := registerSUBSCRIBE_spec s "SUBSCRIBE".toList ch chs hreg
  have hr := cmdSUBSCRIBE_returns s ("SUBSCRIBE".toList :: ch :: chs) hfree hnew
  refine ⟨s1, ?_, ?_, h5⟩
  · rw [executeCommand_SUBSCRIBE, hr.1, h1]
  · exact hr.2 _ (by rw [hr.1, h1])

/-- SUBSCRIBE to a channel that the session belongs to already, with no lock
held: the session and the registry are left as they are, and the count in the
reply is the number of the channels that the session is subscribed to. -/
theorem executeCommand_SUBSCRIBE_member {lib : Lib} (e : Env) (s : RedisServer) (ch : Str)
    (hreg : RegistryOK s.state) (hfree : LocksFree s.state)
    (hm : s.conn ∈ subscribers s.state ch) :
    executeCommand lib e s ["SUBSCRIBE".toList, ch]
      = some ({ s with SubscribedMode := true },
          { Response := pushFrame "subscribe" ch ((subscriptions s.state s.conn).card : Int),
            Error := [] }) := by
  have hnew : ∀ c ∈ ["SUBSCRIBE".toList, ch].drop 1, NewOrMember s c := by
    intro c hc
    simp only [List.drop_succ_cons, List.drop_zero, List.mem_singleton] at hc
    subst hc
    intro channel hg
    unfold subscribers at hm
    rw [hg] at hm
    exact hm
  rw [executeCommand_SUBSCRIBE, (cmdSUBSCRIBE_returns s _ hfree hnew).1]
  unfold registerSUBSCRIBE
  rw [if_neg (by simp)]
  simp only [List.drop_succ_cons, List.drop_zero, List.foldl_cons, List.foldl_nil]
  rw [registerStep_member ({ s with SubscribedMode := true }, []) ch hm]
  have hc : subCount { s with SubscribedMode := true }
      = ((subscriptions s.state s.conn).card : Int) :=
    subCount_eq_card { s with SubscribedMode := true } hreg
  simp only [respond, List.nil_append, hc]

/-! # The claims -/

/-- C1, the code at the failing input: a fresh session of a primary that
receives `SET k ""` writes `+OK\r\n`, and on the following `GET k` it writes
`$0\r\n`.  The claim requires the bulk string `$0\r\n\r\n`: the reply lacks
the CRLF that ends the payload, because the session appends CRLF only to a
response that does not already end in CRLF. -/
theorem C1_get_of_empty_value :
    ((handleRead lib0 (fun _ => env0) primary0 (encodeBulkArray ["SET".toList, ['k'], []])).bind
      (fun s => handleRead lib0 (fun _ => env0) s (encodeBulkArray ["GET".toList, ['k']]))).map
        (fun s => s.state.net)
      = some [(0, "+OK\r\n".toList), (0, "$0\r\n".toList)] := by
  decide

/-- C2: for every argument vector `args` (empty vector, empty strings and
strings with CR or LF included) `RESPToArray` applied to
`encodeBulkArray args` returns exactly `args`, with no error and no panic.
The hypotheses hold for every vector of a Go program: the encoded frame is a
Go string, whose length is an `int`, and the vector is a slice of strings that
exists in memory, so that `make` accepts its length as a capacity. -/
theorem C2_decode_encode (args : List Str)
    (hlen : ((encodeBulkArray args).length : Int) ≤ MaxInt64)
    (hcap : (args.length : Int) ≤ maxSliceCap) :
    RESPToArray (encodeBulkArray args) = Result.ok args :=
  RESPToArray_encodeBulkArray args hlen hcap

/-- C2 at the vector `["", "\r\n", "SET"]`. -/
theorem C2_decode_encode_witness :
    ((encodeBulkArray [[], ['\r', '\n'], "SET".toList]).length : Int) ≤ MaxInt64 ∧
    (([[], ['\r', '\n'], "SET".toList] : List Str).length : Int) ≤ maxSliceCap ∧
    RESPToArray (encodeBulkArray [[], ['\r', '\n'], "SET".toList])
      = Result.ok [[], ['\r', '\n'], "SET".toList] :=
  ⟨by decide, by decide,
    C2_decode_encode [[], ['\r', '\n'], "SET".toList] (by decide) (by decide)⟩

/-- C3: with the clock as an input (in nanoseconds), for every key `k`, value
`v` and natural number `P`: `SET k v PX P` executed at time `e.now` by a
session in normal mode replies `+OK`, and a `GET k` executed on the resulting
store at any time `e1.now` later than `e.now` plus `P` milliseconds, by any
session in normal mode, replies the nil bulk `$-1` and leaves `k` absent from
the store. -/
theorem C3_px_expiry (lib : Lib) (e e1 : Env) (s : RedisServer) (k v : Str) (P : Nat)
    (hmode : s.SubscribedMode = false)
    (hlate : e1.now > e.now + (P : Int) * 1000000) :
    ∃ s1 : RedisServer,
      executeCommand lib e s ["SET".toList, k, v, "PX".toList, decimal P]
        = some (s1, { Response := "+OK".toList, Error := [] }) ∧
      ∀ g : RedisServer, g.SubscribedMode = false → g.state = s1.state →
        ∃ g1 : RedisServer,
          executeCommand lib e1 g ["GET".toList, k]
            = some (g1, { Response := "$-1".toList, Error := [] }) ∧
          g1.state.storage k = none := by
  have hpx := Atoi_decimal_fst P
  refine ⟨(s.store k { val := Value.str v, px := (Atoi (decimal P)).1, t := e.now }).propagate
    ["SET".toList, k, v, "PX".toList, decimal P], ?_, ?_⟩
  · rw [executeCommand_normal _ _ _ _ hmode]
    show dispatch lib e s "SET".toList _ = _
    rw [dispatch_SET]
    have hup : ToUpper lib ['P', 'X'] = ['P', 'X'] := rfl
    simp [cmdSET, index, respond, hup]
  · intro g hg hgs
    refine ⟨g.delete k, ?_, ?_⟩
    · rw [executeCommand_normal _ _ _ _ hg]
      show dispatch lib e1 g "GET".toList _ = _
      rw [dispatch_GET]
      have hne : (Atoi (decimal P)).1 ≠ -1 := by omega
      have hexp : e1.now > e.now + wrap64 (1000000 * (Atoi (decimal P)).1) := by
        have := wrap64_px_le _ _ hpx.1 hpx.2
        omega
      simp [cmdGET, index, hgs, propagate_storage, RedisServer.store, expired, hne, hexp, respond]
    · simp [RedisServer.delete]

/-- C3 at `SET t v PX 50` at time 0 and a `GET t` 50 ms and 1 ns later. -/
theorem C3_px_expiry_witness :
    primary0.SubscribedMode = false ∧
    ({ env0 with now := 50000001 } : Env).now > env0.now + ((50 : Nat) : Int) * 1000000 ∧
    ∃ s1 : RedisServer,
      executeCommand lib0 env0 primary0 ["SET".toList, ['t'], ['v'], "PX".toList, decimal 50]
        = some (s1, { Response := "+OK".toList, Error := [] }) ∧
      ∀ g : RedisServer, g.SubscribedMode = false → g.state = s1.state →
        ∃ g1 : RedisServer,
          executeCommand lib0 { env0 with now := 50000001 } g ["GET".toList, ['t']]
            = some (g1, { Response := "$-1".toList, Error := [] }) ∧
          g1.state.storage ['t'] = none :=
  ⟨rfl, by decide,
    C3_px_expiry lib0 env0 { env0 with now := 50000001 } primary0 ['t'] ['v'] 50 rfl (by decide)⟩

/-- C4, the code at the failing input: the text `9223372036854775807` parses
as the signed 64-bit integer 2^63 - 1; on a key holding it, INCR replies
`:-9223372036854775808` and stores `-9223372036854775808`, where the claim
requires the exact integer 2^63: the increment `value++` wraps around. -/
theorem C4_incr_at_MaxInt64 :
    Atoi "9223372036854775807".toList = (9223372036854775807, none) ∧
    ((executeCommand lib0 env0 primary0 ["SET".toList, ['n'], "9223372036854775807".toList]).bind
      (fun r => executeCommand lib0 env0 r.1 ["INCR".toList, ['n']])).map
        (fun r => (r.2, (r.1.state.storage ['n']).map (fun v => v.val)))
      = some ({ Response := ":-9223372036854775808".toList, Error := [] },
          some (Value.str "-9223372036854775808".toList)) := by
  decide

/-- C5: for a session with an empty queue (as in NORMAL state) and commands
`c1..cn` that each have a name other than MULTI, EXEC and DISCARD: after
MULTI and `c1..cn` the session has been answered `+OK` and `n` times
`+QUEUED`, holds the queue `c1..cn`, and the store is unchanged
(`queuedSession`); EXEC then executes `c1..cn` in order, each against the
store left by the ones before (`runInOrder`), writes `*n\r\n` followed by
their CRLF-terminated replies or errors in order (`replyArray`), and leaves
the session in NORMAL state with an empty queue.  When an execution does not
return (`none`), neither does EXEC. -/
theorem C5_multi_exec (lib : Lib) (envs : Nat → Nat → Env) (s : RedisServer) (cs : List (List Str))
    (hq : s.multiQueue = []) (hcs : ∀ c ∈ cs, queueable lib c = true) :
    handleCommands lib envs 0 s (["MULTI".toList] :: cs) = some (queuedSession s cs) ∧
    handleCommands lib envs 0 s (["MULTI".toList] :: cs ++ [["EXEC".toList]])
      = (runInOrder lib (envs (cs.length + 1)) { queuedSession s cs with MultiOn := false } cs).map
          (fun p => { p.1.send (replyArray p.2) with multiQueue := [] }) ∧
    ∀ sF : RedisServer,
      handleCommands lib envs 0 s (["MULTI".toList] :: cs ++ [["EXEC".toList]]) = some sF →
      sF.MultiOn = false ∧ sF.multiQueue = [] ∧
      ∃ (s1 : RedisServer) (rs : List Str),
        runInOrder lib (envs (cs.length + 1)) { queuedSession s cs with MultiOn := false } cs
          = some (s1, rs) ∧
        rs.length = cs.length ∧
        sF.state.net = s1.state.net ++ [(s.conn, replyArray rs)] := by
  have hA := handleCommands_multi envs s cs hq hcs
  have hB : handleCommands lib envs 0 s (["MULTI".toList] :: cs ++ [["EXEC".toList]])
      = (runInOrder lib (envs (cs.length + 1)) { queuedSession s cs with MultiOn := false } cs).map
          (fun p => { p.1.send (replyArray p.2) with multiQueue := [] }) := by
    rw [handleCommands_append envs 0 s (["MULTI".toList] :: cs) [["EXEC".toList]], hA]
    simp only [Option.some_bind, handleCommands, List.length_cons, Nat.zero_add]
    rw [handleCommand_EXEC]
    cases runInOrder lib (envs (cs.length + 1)) { queuedSession s cs with MultiOn := false } cs <;> rfl
  refine ⟨hA, hB, ?_⟩
  intro sF hF
  rw [hB] at hF
  cases hrun : runInOrder lib (envs (cs.length + 1)) { queuedSession s cs with MultiOn := false } cs with
  | none => rw [hrun] at hF; cases hF
  | some p =>
    obtain ⟨s1, rs⟩ := p
    rw [hrun] at hF
    simp only [Option.map_some', Option.some.injEq] at hF
    subst hF
    have hf := runInOrder_facts _ _ _ _ _ hrun
    refine ⟨hf.2.2.2.1, rfl, s1, rs, rfl, hf.1, ?_⟩
    simp only [RedisServer.send, RedisState.write, hf.2.1]
    rfl

/-- C5 at `MULTI; INCR c; INCR c; EXEC` on a fresh session. -/
theorem C5_multi_exec_witness :
    primary0.multiQueue = [] ∧
    (∀ c ∈ [["INCR".toList, ['c']], ["INCR".toList, ['c']]], queueable lib0 c = true) ∧
    handleCommands lib0 (fun _ _ => env0) 0 primary0
        (["MULTI".toList] :: [["INCR".toList, ['c']], ["INCR".toList, ['c']]])
      = some (queuedSession primary0 [["INCR".toList, ['c']], ["INCR".toList, ['c']]]) ∧
    (handleCommands lib0 (fun _ _ => env0) 0 primary0
        (["MULTI".toList] :: [["INCR".toList, ['c']], ["INCR".toList, ['c']]]
          ++ [["EXEC".toList]])).map (fun s => s.state.net)
      = some [(0, "+OK\r\n".toList), (0, "+QUEUED\r\n".toList), (0, "+QUEUED\r\n".toList),
          (0, "*2\r\n:1\r\n:2\r\n".toList)] :=
  ⟨rfl, by decide,
    (C5_multi_exec lib0 (fun _ _ => env0) primary0 [["INCR".toList, ['c']], ["INCR".toList, ['c']]]
      rfl (by decide)).1,
    by decide⟩

/-- C6: for every key `k` that is absent (`L = []`) or holds a list `L`, and
every non-empty `x :: xs`, `RPUSH k x xs..` by a session in normal mode replies
`:<len L + len (x :: xs)>\r\n`, and a following `LRANGE k 0 -1` on the
resulting store replies the array of exactly `L ++ x :: xs`, in that order. -/
theorem C6_rpush_lrange (lib : Lib) (e e1 : Env) (s : RedisServer) (k x : Str) (xs L : List Str)
    (hmode : s.SubscribedMode = false) (hk : HoldsList s k L) :
    ∃ s1 : RedisServer,
      executeCommand lib e s ("RPUSH".toList :: k :: x :: xs)
        = some (s1, { Response := [':'] ++ Itoa ((L.length + (x :: xs).length : Nat) : Int) ++ CRLF,
                      Error := [] }) ∧
      ∀ g : RedisServer, g.SubscribedMode = false → g.state = s1.state →
        executeCommand lib e1 g ["LRANGE".toList, k, ['0'], ['-', '1']]
          = some (g, { Response := encodeBulkArray (L ++ x :: xs), Error := [] }) := by
  have hd : dispatch lib e s "RPUSH".toList ("RPUSH".toList :: k :: x :: xs)
      = cmdRPUSH e s ("RPUSH".toList :: k :: x :: xs) := rfl
  have hsl : ∀ c : Str, sliceFrom (c :: k :: x :: xs) 2 = some (x :: xs) :=
    fun c => sliceFrom_append [c, k] (x :: xs) 2 (by simp)
  have hlen : ¬ (xs.length + 1 + 1 + 1 < 3) := by omega
  rcases hk with ⟨hnone, hL⟩ | ⟨value, hsome, hval⟩
  · subst hL
    refine ⟨s.store k { val := Value.list (x :: xs), px := -1, t := e.now }, ?_, ?_⟩
    · rw [executeCommand_normal _ _ _ _ hmode]
      show dispatch lib e s "RPUSH".toList _ = _
      rw [hd]
      simp [cmdRPUSH, index, hsl, hlen, hnone, listLenReply, RedisServer.store, respond]
    · intro g hg hst
      exact LRANGE_all e1 g k { val := Value.list (x :: xs), px := -1, t := e.now } _ hg
        (by rw [hst]; simp [RedisServer.store]) rfl (by simp)
  · refine ⟨s.store k { value with val := Value.list (L ++ x :: xs) }, ?_, ?_⟩
    · rw [executeCommand_normal _ _ _ _ hmode]
      show dispatch lib e s "RPUSH".toList _ = _
      rw [hd]
      simp [cmdRPUSH, index, hsl, hlen, hsome, hval, listLenReply, RedisServer.store, respond]
    · intro g hg hst
      exact LRANGE_all e1 g k { value with val := Value.list (L ++ x :: xs) } _ hg
        (by rw [hst]; simp [RedisServer.store]) rfl (by simp)

/-- C6 at `RPUSH L a b c` on a fresh store. -/
theorem C6_rpush_lrange_witness :
    primary0.SubscribedMode = false ∧ HoldsList primary0 ['L'] [] ∧
    ∃ s1 : RedisServer,
      executeCommand lib0 env0 primary0 ("RPUSH".toList :: ['L'] :: ['a'] :: [['b'], ['c']])
        = some (s1, { Response := [':'] ++ Itoa ((([] : List Str).length
                        + (['a'] :: [['b'], ['c']]).length : Nat) : Int) ++ CRLF,
                      Error := [] }) ∧
      ∀ g : RedisServer, g.SubscribedMode = false → g.state = s1.state →
        executeCommand lib0 env0 g ["LRANGE".toList, ['L'], ['0'], ['-', '1']]
          = some (g, { Response := encodeBulkArray ([] ++ ['a'] :: [['b'], ['c']]), Error := [] }) :=
  ⟨rfl, Or.inl ⟨rfl, rfl⟩,
    C6_rpush_lrange lib0 env0 env0 primary0 ['L'] ['a'] [['b'], ['c']] [] rfl (Or.inl ⟨rfl, rfl⟩)⟩

/-- C7: for every key `k` that is absent (`L = []`) or holds a list `L`, and
every non-empty `x :: xs`, `LPUSH k x xs..` by a session in normal mode replies
`:<len L + len (x :: xs)>\r\n`, and a following `LRANGE k 0 -1` on the
resulting store replies the array of exactly `reverse (x :: xs) ++ L`; the
path for a new key and the path for an existing list give the same order. -/
theorem C7_lpush_lrange (lib : Lib) (e e1 : Env) (s : RedisServer) (k x : Str) (xs L : List Str)
    (hmode : s.SubscribedMode = false) (hk : HoldsList s k L) :
    ∃ s1 : RedisServer,
      executeCommand lib e s ("LPUSH".toList :: k :: x :: xs)
        = some (s1, { Response := [':'] ++ Itoa ((L.length + (x :: xs).length : Nat) : Int) ++ CRLF,
                      Error := [] }) ∧
      ∀ g : RedisServer, g.SubscribedMode = false → g.state = s1.state →
        executeCommand lib e1 g ["LRANGE".toList, k, ['0'], ['-', '1']]
          = some (g, { Response := encodeBulkArray ((x :: xs).reverse ++ L), Error := [] }) := by
  have hd : dispatch lib e s "LPUSH".toList ("LPUSH".toList :: k :: x :: xs)
      = cmdLPUSH e s ("LPUSH".toList :: k :: x :: xs) := rfl
  have hsl : ∀ c : Str, sliceFrom (c :: k :: x :: xs) 2 = some (x :: xs) :=
    fun c => sliceFrom_append [c, k] (x :: xs) 2 (by simp)
  have hlen : ¬ (xs.length + 1 + 1 + 1 < 3) := by omega
  rcases hk with ⟨hnone, hL⟩ | ⟨value, hsome, hval⟩
  · subst hL
    refine ⟨s.store k { val := Value.list (x :: xs).reverse, px := -1, t := e.now }, ?_, ?_⟩
    · rw [executeCommand_normal _ _ _ _ hmode]
      show dispatch lib e s "LPUSH".toList _ = _
      rw [hd]
      simp [cmdLPUSH, index, hsl, hlen, hnone, listLenReply, RedisServer.store, respond]
    · intro g hg hst
      have := @LRANGE_all lib e1 g k { val := Value.list (x :: xs).reverse, px := -1, t := e.now } _ hg
        (by rw [hst]; simp [RedisServer.store]) rfl (by simp)
      simpa using this
  · refine ⟨s.store k { value with val := Value.list ((x :: xs).reverse ++ L) }, ?_, ?_⟩
    · rw [executeCommand_normal _ _ _ _ hmode]
      show dispatch lib e s "LPUSH".toList _ = _
      rw [hd]
      have hf := foldl_prepend (x :: xs) L
      simp only [List.foldl_cons] at hf
      simp [cmdLPUSH, index, hsl, hlen, hsome, hval, listLenReply, RedisServer.store, respond]
      congr 1; omega
    · intro g hg hst
      exact LRANGE_all e1 g k { value with val := Value.list ((x :: xs).reverse ++ L) } _ hg
        (by rw [hst]; simp [RedisServer.store]) rfl (by simp)

/-- C7 at `LPUSH L a b c` on a fresh store. -/
theorem C7_lpush_lrange_witness :
    primary0.SubscribedMode = false ∧ HoldsList primary0 ['L'] [] ∧
    ∃ s1 : RedisServer,
      executeCommand lib0 env0 primary0 ("LPUSH".toList :: ['L'] :: ['a'] :: [['b'], ['c']])
        = some (s1, { Response := [':'] ++ Itoa ((([] : List Str).length
                        + (['a'] :: [['b'], ['c']]).length : Nat) : Int) ++ CRLF,
                      Error := [] }) ∧
      ∀ g : RedisServer, g.SubscribedMode = false → g.state = s1.state →
        executeCommand lib0 env0 g ["LRANGE".toList, ['L'], ['0'], ['-', '1']]
          = some (g, { Response := encodeBulkArray ((['a'] :: [['b'], ['c']]).reverse ++ []),
                       Error := [] }) :=
  ⟨rfl, Or.inl ⟨rfl, rfl⟩,
    C7_lpush_lrange lib0 env0 env0 primary0 ['L'] ['a'] [['b'], ['c']] [] rfl (Or.inl ⟨rfl, rfl⟩)⟩

/-- C8: for all integers `start`, `stop` (the values of the two index
arguments) and a session in normal mode: LRANGE on an absent key replies
`*0\r\n`; on a key holding a list `L` of length `n`, with `s` and `e` the
indices `start` and `stop` after negative values are counted from the end
and raised to 0 (`clampIndex`), it replies `*0\r\n` if `s >= n` or `s > e`, and
otherwise the array of exactly `L[s], ..., L[min(e, n-1)]` (`lrangeReply`).  In
every case the executor returns: no pair of indices makes the slice
expression panic, and the session and store are unchanged. -/
theorem C8_lrange (lib : Lib) (e : Env) (s : RedisServer) (k a b : Str) (start stop : Int)
    (hmode : s.SubscribedMode = false)
    (ha : Atoi a = (start, none)) (hb : Atoi b = (stop, none)) :
    (s.state.storage k = none →
      executeCommand lib e s ["LRANGE".toList, k, a, b]
        = some (s, { Response := "*0\r\n".toList, Error := [] })) ∧
    (∀ (value : storageVal) (L : List Str),
      s.state.storage k = some value → value.val = Value.list L →
      executeCommand lib e s ["LRANGE".toList, k, a, b]
        = some (s, { Response := lrangeReply L start stop, Error := [] })) := by
  have hd : executeCommand lib e s ["LRANGE".toList, k, a, b] = cmdLRANGE s ["LRANGE".toList, k, a, b] := by
    rw [executeCommand_normal _ _ _ _ hmode]; rfl
  constructor
  · intro hnone
    rw [hd]
    exact cmdLRANGE_absent s _ k a b start stop ha hb hnone
  · intro value L hk hv
    rw [hd]
    exact cmdLRANGE_list s _ k a b start stop value L ha hb hk hv

/-- C8 at `LRANGE k -2 10` on the list `a, b, c`: the reply is `b, c`. -/
theorem C8_lrange_witness :
    listSession.SubscribedMode = false ∧ Atoi ['-', '2'] = (-2, none) ∧
    Atoi ['1', '0'] = (10, none) ∧
    executeCommand lib0 env0 listSession ["LRANGE".toList, ['k'], ['-', '2'], ['1', '0']]
      = some (listSession,
          { Response := lrangeReply [['a'], ['b'], ['c']] (-2) 10, Error := [] }) ∧
    lrangeReply [['a'], ['b'], ['c']] (-2) 10 = "*2\r\n$1\r\nb\r\n$1\r\nc\r\n".toList :=
  ⟨rfl, by decide, by decide,
    (C8_lrange lib0 env0 listSession ['k'] ['-', '2'] ['1', '0'] (-2) 10 rfl (by decide) (by decide)).2
      { val := Value.list [['a'], ['b'], ['c']], px := -1, t := 0 } [['a'], ['b'], ['c']]
      (by simp [listSession, RedisServer.store]) rfl,
    by decide⟩


/-- C9: for a session in normal mode and a key holding a list `x :: xs`
(length at least 1): `LPOP k` replies the bulk string `x` and leaves `xs`;
`LPOP k c` with a count of value `c >= 1` replies the array of the first
`min(c, n)` elements and leaves the rest; `LPOP k 0` replies `*0\r\n` and
changes nothing.  What LPOP leaves (`afterPop`) is the key holding the
remaining elements, or no key when none remains.  On an absent key LPOP
replies `$-1\r\n`, LLEN `:0\r\n` and LRANGE `*0\r\n`.  No store reachable from
the initial state holds an empty list. -/
theorem C9_lpop (lib : Lib) (e : Env) (s : RedisServer) (k : Str) (hmode : s.SubscribedMode = false) :
    (∀ (value : storageVal) (x : Str) (xs : List Str),
        s.state.storage k = some value → value.val = Value.list (x :: xs) →
        executeCommand lib e s ["LPOP".toList, k]
          = some (afterPop s k value xs, { Response := bulk x, Error := [] }) ∧
        (∀ (a : Str) (c : Int), Atoi a = (c, none) → 1 ≤ c →
          executeCommand lib e s ["LPOP".toList, k, a]
            = some (afterPop s k value ((x :: xs).drop (min c ((x :: xs).length : Int)).toNat),
                { Response := encodeBulkArray ((x :: xs).take (min c ((x :: xs).length : Int)).toNat),
                  Error := [] })) ∧
        (∀ a : Str, Atoi a = (0, none) →
          executeCommand lib e s ["LPOP".toList, k, a]
            = some (s, { Response := "*0\r\n".toList, Error := [] }))) ∧
    (∀ (value : storageVal) (remaining : List Str),
        (remaining ≠ [] →
          (afterPop s k value remaining).state.storage k
            = some { value with val := Value.list remaining }) ∧
        (remaining = [] → (afterPop s k value remaining).state.storage k = none)) ∧
    (∀ (e1 : Env) (g : RedisServer), g.SubscribedMode = false → g.state.storage k = none →
        executeCommand lib e1 g ["LPOP".toList, k]
          = some (g, { Response := "$-1\r\n".toList, Error := [] }) ∧
        executeCommand lib e1 g ["LLEN".toList, k]
          = some (g, { Response := ":0\r\n".toList, Error := [] }) ∧
        executeCommand lib e1 g ["LRANGE".toList, k, ['0'], ['-', '1']]
          = some (g, { Response := "*0\r\n".toList, Error := [] })) ∧
    (∀ st : RedisState, Reachable lib st → NoEmptyList st) := by
  refine ⟨?_, ?_, ?_, Reachable_NoEmptyList⟩
  · intro value x xs hk hv
    have hd2 : executeCommand lib e s ["LPOP".toList, k] = cmdLPOP s ["LPOP".toList, k] := by
      rw [executeCommand_normal _ _ _ _ hmode]; rfl
    have hd3 : ∀ a : Str, executeCommand lib e s ["LPOP".toList, k, a]
        = cmdLPOP s ["LPOP".toList, k, a] := by
      intro a; rw [executeCommand_normal _ _ _ _ hmode]; rfl
    have hne : ¬ ((x :: xs).length = 0) := by simp
    refine ⟨?_, ?_, ?_⟩
    · rw [hd2]
      have hlen : ¬ (["LPOP".toList, k].length < 2) := by simp
      have hl3 : ¬ (["LPOP".toList, k].length = 3) := by simp
      have i1 : index ["LPOP".toList, k] 1 = some k := rfl
      unfold cmdLPOP
      rw [if_neg hlen]
      simp only [Option.bind_eq_bind, i1, Option.some_bind, hk, hv, if_neg hne, if_neg hl3]
      exact popCount_single s _ k x xs value
    · intro a c ha hc
      rw [hd3]
      have hlen : ¬ (["LPOP".toList, k, a].length < 2) := by simp
      have hl3 : ["LPOP".toList, k, a].length = 3 := rfl
      have i1 : index ["LPOP".toList, k, a] 1 = some k := rfl
      have i2 : index ["LPOP".toList, k, a] 2 = some a := rfl
      have hc0 : ¬ (c < 0) := by omega
      unfold cmdLPOP
      rw [if_neg hlen]
      simp only [Option.bind_eq_bind, i1, i2, Option.some_bind, hk, hv, if_neg hne, if_pos hl3,
        ha, if_neg hc0]
      exact popCount_many s _ k a (x :: xs) value c hc
    · intro a ha
      rw [hd3]
      have hlen : ¬ (["LPOP".toList, k, a].length < 2) := by simp
      have hl3 : ["LPOP".toList, k, a].length = 3 := rfl
      have i1 : index ["LPOP".toList, k, a] 1 = some k := rfl
      have i2 : index ["LPOP".toList, k, a] 2 = some a := rfl
      have hc0 : ¬ ((0 : Int) < 0) := by decide
      unfold cmdLPOP
      rw [if_neg hlen]
      simp only [Option.bind_eq_bind, i1, i2, Option.some_bind, hk, hv, if_neg hne, if_pos hl3,
        ha, if_neg hc0]
      unfold popCount
      rw [if_pos rfl]
      rfl
  · intro value remaining
    constructor
    · intro hr; simp [afterPop, hr, RedisServer.store]
    · intro hr; simp [afterPop, hr, RedisServer.delete]
  · intro e1 g hg hk
    refine ⟨?_, ?_, ?_⟩
    · rw [executeCommand_normal _ _ _ _ hg]
      exact cmdLPOP_absent g _ k [] hk
    · rw [executeCommand_normal _ _ _ _ hg]
      exact cmdLLEN_absent g _ k hk
    · rw [executeCommand_normal _ _ _ _ hg]
      exact cmdLRANGE_absent g _ k ['0'] ['-', '1'] 0 (-1) (by decide) (by decide) hk

/-- C9 at `LPOP k` on the list `a, b, c`. -/
theorem C9_lpop_witness :
    listSession.SubscribedMode = false ∧
    executeCommand lib0 env0 listSession ["LPOP".toList, ['k']]
      = some (afterPop listSession ['k']
            { val := Value.list [['a'], ['b'], ['c']], px := -1, t := 0 } [['b'], ['c']],
          { Response := bulk ['a'], Error := [] }) ∧
    bulk ['a'] = "$1\r\na\r\n".toList :=
  ⟨rfl,
    ((C9_lpop lib0 env0 listSession ['k'] rfl).1
      { val := Value.list [['a'], ['b'], ['c']], px := -1, t := 0 } ['a'] [['b'], ['c']]
      (by simp [listSession, RedisServer.store]) rfl).1,
    by decide⟩

/-- C10, the code at the failing inputs: on a key that holds a list, GET and
INCR do not return an error reply: the type assertion `.(string)` panics
(`none`); on a key that holds a string, LPOP replies the nil bulk `$-1\r\n`
with no error.  The claim requires an error reply in the three cases. -/
theorem C10_wrong_type_paths :
    (executeCommand lib0 env0 primary0 ["RPUSH".toList, ['k'], ['a']]).map
        (fun r => executeCommand lib0 env0 r.1 ["GET".toList, ['k']]) = some none ∧
    (executeCommand lib0 env0 primary0 ["RPUSH".toList, ['k'], ['a']]).map
        (fun r => executeCommand lib0 env0 r.1 ["INCR".toList, ['k']]) = some none ∧
    (executeCommand lib0 env0 primary0 ["SET".toList, ['k'], ['a']]).map
        (fun r => (executeCommand lib0 env0 r.1 ["LPOP".toList, ['k']]).map (fun q => q.2))
      = some (some { Response := "$-1\r\n".toList, Error := [] }) := by
  refine ⟨rfl, rfl, by decide⟩

/-- C11, the code at the failing input: after `SET k v` on a fresh primary,
`DEL k` is answered with the error `-ERR unknown command` (the executor has no
case for DEL) and removes nothing: the following `GET k` still replies the
value and `TYPE k` replies `+string`.  The claim requires a reply that is no
error, then the nil bulk and `+none`. -/
theorem C11_del_unknown :
    ((executeCommand lib0 env0 primary0 ["SET".toList, ['k'], ['v']]).bind (fun r1 =>
      (executeCommand lib0 env0 r1.1 ["DEL".toList, ['k']]).bind (fun r2 =>
        (executeCommand lib0 env0 r2.1 ["GET".toList, ['k']]).bind (fun r3 =>
          (executeCommand lib0 env0 r3.1 ["TYPE".toList, ['k']]).map (fun r4 =>
            (r2.2, r3.2, r4.2))))))
      = some (CommandResponse.mk [] "-ERR unknown command".toList,
          { Response := "$1\r\nv".toList, Error := [] },
          { Response := "+string".toList, Error := [] }) := by
  decide

/-- C12, the code at the failing inputs: on a key that holds a list (after
`RPUSH k a`) and on a key that holds a sorted set (after `ZADD z 1 m`), TYPE
replies `+string`, where the claim requires `+list` and `+zset`. -/
theorem C12_type_of_list_and_zset :
    ((executeCommand lib1 env0 primary0 ["RPUSH".toList, ['k'], ['a']]).bind (fun r1 =>
      (executeCommand lib1 env0 r1.1 ["TYPE".toList, ['k']]).map (fun r2 =>
        ((r1.1.state.storage ['k']).map (fun v => v.val), r2.2))))
      = some (some (Value.list [['a']]), { Response := "+string".toList, Error := [] }) ∧
    ((executeCommand lib1 env0 primary0 ["ZADD".toList, ['z'], ['1'], ['m']]).bind (fun r1 =>
      (executeCommand lib1 env0 r1.1 ["TYPE".toList, ['z']]).map (fun r2 =>
        ((r1.1.state.storage ['z']).map (fun v => v.val), r2.2))))
      = some (some (Value.zset [(['m'], 1)]), { Response := "+string".toList, Error := [] }) := by
  decide

/-- C13, the code at the failing input: after `SET k 5 PX 50` at time 0, at
the time 100 ms (in nanoseconds) `TYPE k` replies `+string` and `INCR k`
replies `:6`, where the claim requires `+none` and `:1`; `GET k` at that time
replies the nil bulk, as the claim says of an expired entry. -/
theorem C13_type_incr_after_expiry :
    ((executeCommand lib0 env0 primary0 ["SET".toList, ['k'], ['5'], "PX".toList, "50".toList]).bind
      (fun r1 =>
        (executeCommand lib0 { env0 with now := 100000000 } r1.1 ["TYPE".toList, ['k']]).bind (fun r2 =>
          (executeCommand lib0 { env0 with now := 100000000 } r1.1 ["INCR".toList, ['k']]).bind (fun r3 =>
            (executeCommand lib0 { env0 with now := 100000000 } r1.1 ["GET".toList, ['k']]).map (fun r4 =>
              (r1.2, r2.2, r3.2, r4.2))))))
      = some (CommandResponse.mk "+OK".toList [],
          { Response := "+string".toList, Error := [] },
          { Response := ":6".toList, Error := [] },
          { Response := "$-1".toList, Error := [] }) := by
  decide

/-- C14, the code at the failing input: every proper part taken from the
start of the frame of `PING` makes `RESPToArray` return an error, and a
session that receives that frame in two reads, `*1\r\n$4\r\nPI` and then
`NG\r\n`, answers `-ERR invalid RESP format` to each read.  The claim requires
that the incomplete frame be reported as "need more bytes" without a protocol
error. -/
theorem C14_incomplete_frame :
    (∀ n, n < (encodeBulkArray ["PING".toList]).length →
      RESPToArray ((encodeBulkArray ["PING".toList]).take n) = Result.err) ∧
    ((handleRead lib0 (fun _ => env0) primary0 "*1\r\n$4\r\nPI".toList).bind
      (fun s => handleRead lib0 (fun _ => env0) s "NG\r\n".toList)).map (fun s => s.state.net)
      = some [(0, "-ERR invalid RESP format\r\n".toList), (0, "-ERR invalid RESP format\r\n".toList)] := by
  decide

/-- C15, the code at the failing inputs: `*2\r\n$-1\r\n$x\r\n` and
`*9223372036854775807\r\n$x\r\n` both have a bulk-length field, `x`, that is
no decimal integer, and on neither does `RESPToArray` return an error: on the
first it panics at the element before (slice bounds out of range), on the
second in `make` (capacity out of range), and the read of the session does not
return, so that no `-ERR invalid RESP format` is written.  The claim requires
an error for every such input. -/
theorem C15_malformed_panics :
    isDecimalInteger "x".toList = false ∧
    RESPToArray "*2\r\n$-1\r\n$x\r\n".toList = Result.panic ∧
    RESPToArray "*9223372036854775807\r\n$x\r\n".toList = Result.panic ∧
    (handleRead lib0 (fun _ => env0) primary0 "*2\r\n$-1\r\n$x\r\n".toList).isSome = false ∧
    (handleRead lib0 (fun _ => env0) primary0
      "*9223372036854775807\r\n$x\r\n".toList).isSome = false := by
  decide

/-- C16, the code at the failing inputs: on `*-1\r\n` and on a frame whose
first element is the nil bulk `$-1\r\n` followed by another element,
`RESPToArray` returns neither an argument vector nor an error: it panics
(`make` with a negative capacity; slice bounds out of range), and the read
of the session does not return.  The claim requires an error value or an
argument vector for every input. -/
theorem C16_decoder_panics :
    RESPToArray "*-1\r\n".toList = Result.panic ∧
    RESPToArray "*2\r\n$-1\r\n$1\r\na\r\n".toList = Result.panic ∧
    (handleRead lib0 (fun _ => env0) primary0 "*-1\r\n".toList).isSome = false ∧
    (handleRead lib0 (fun _ => env0) primary0 "*2\r\n$-1\r\n$1\r\na\r\n".toList).isSome = false := by
  decide

/-- C17, the code at the failing input: a session that has received MULTI and
queued `SET k v` answers a further MULTI with `+OK`, where the claim requires
`-ERR MULTI calls can not be nested`; the flag stays set and the queue is
unchanged, as the claim says. -/
theorem C17_nested_multi :
    (handleCommands lib0 (fun _ _ => env0) 0 primary0
        [["MULTI".toList], ["SET".toList, ['k'], ['v']], ["MULTI".toList]]).map
      (fun s => (s.state.net, s.MultiOn, s.multiQueue))
      = some ([(0, "+OK\r\n".toList), (0, "+QUEUED\r\n".toList), (0, "+OK\r\n".toList)],
          true, [["SET".toList, ['k'], ['v']]]) := by
  decide


/-- C18, the code at the failing inputs: after `SUBSCRIBE a` by session 1
(which is answered with the count 1), `SUBSCRIBE a` by session 2 does not
return: the session is appended to the channel, the record is stored with its
lock held, the counting loop blocks on that lock, and the call goes on holding
`channelsMu`.  The same happens to session 1 itself when it sends
`SUBSCRIBE a`, `UNSUBSCRIBE a` and `SUBSCRIBE a`.  The claim requires a push
frame with the count 1 in both cases. -/
theorem C18_subscribe_blocks :
    (executeCommand lib0 env0 (newSession primary0.state 1) ["SUBSCRIBE".toList, ['a']]).map
        (fun r => r.2.Response)
      = some "*3\r\n$9\r\nsubscribe\r\n$1\r\na\r\n:1\r\n".toList ∧
    ((executeCommand lib0 env0 (newSession primary0.state 1) ["SUBSCRIBE".toList, ['a']]).bind
      (fun r1 => executeCommand lib0 env0 ((newSession primary0.state 2).withState r1.1.state)
        ["SUBSCRIBE".toList, ['a']])).isSome = false ∧
    ((executeCommand lib0 env0 (newSession primary0.state 1) ["SUBSCRIBE".toList, ['a']]).bind
      (fun r1 => executeBlocked lib0 ((newSession primary0.state 2).withState r1.1.state)
        ["SUBSCRIBE".toList, ['a']])).map
        (fun s => (subscribers s.state ['a'], s.state.channelsMu))
      = some ([1, 2], RWMutex.readLocked) ∧
    ((executeCommand lib0 env0 (newSession primary0.state 1) ["SUBSCRIBE".toList, ['a']]).bind
      (fun r1 => (executeCommand lib0 env0 r1.1 ["UNSUBSCRIBE".toList, ['a']]).bind
        (fun r2 => executeCommand lib0 env0 r2.1 ["SUBSCRIBE".toList, ['a']]))).isSome = false := by
  decide

/-- C19, the code at the failing input: session 1 sends `SUBSCRIBE ch` and is
answered; session 2 sends `SUBSCRIBE ch`, is registered and blocks forever,
holding `channelsMu`; session 3 sends `SUBSCRIBE ch` and blocks at
`channelsMu.Lock()` before it is registered.  `PUBLISH ch hi` by session 0
then writes the frame to the connections 1 and 2 and replies `:2\r\n`:
session 3, which is subscribed to `ch` in the words of the specification
(`subscribedAfter`), gets nothing. -/
theorem C19_publish_misses_subscriber :
    ((executeCommand lib0 env0 (newSession primary0.state 1) ["SUBSCRIBE".toList, "ch".toList]).bind
      (fun r1 => (executeBlocked lib0 ((newSession primary0.state 2).withState r1.1.state)
          ["SUBSCRIBE".toList, "ch".toList]).bind
        (fun s2 => (executeBlocked lib0 ((newSession primary0.state 3).withState s2.state)
            ["SUBSCRIBE".toList, "ch".toList]).bind
          (fun s3 => (executeCommand lib0 env0 (primary0.withState s3.state)
              ["PUBLISH".toList, "ch".toList, "hi".toList]).map
            (fun r => (r.1.state.net, r.2.Response))))))
      = some ([(1, "*3\r\n$7\r\nmessage\r\n$2\r\nch\r\n$2\r\nhi\r\n".toList),
            (2, "*3\r\n$7\r\nmessage\r\n$2\r\nch\r\n$2\r\nhi\r\n".toList)],
          ":2\r\n".toList) ∧
    subscribedAfter (fun _ _ => false)
        [PubSubCall.subscribe (newSession primary0.state 1) ["ch".toList],
          PubSubCall.subscribe (newSession primary0.state 2) ["ch".toList],
          PubSubCall.subscribe (newSession primary0.state 3) ["ch".toList]] 3 "ch".toList
      = true := by
  decide

/-- C20, the code at the failing inputs: after `SUBSCRIBE ch` and
`UNSUBSCRIBE ch` (the count in the reply is 0) the subscribed flag of the
session is still set and a following `GET k` is rejected by the gate of
subscribed mode; and `UNSUBSCRIBE ch` by a fresh session, which was never
subscribed, sets the flag, so that its `GET k` is rejected too.  The claim
requires the flag to be false in both cases and GET to be executed. -/
theorem C20_flag_never_cleared :
    ((executeCommand lib0 env0 primary0 ["SUBSCRIBE".toList, "ch".toList]).bind (fun r1 =>
      (executeCommand lib0 env0 r1.1 ["UNSUBSCRIBE".toList, "ch".toList]).bind (fun r2 =>
        (executeCommand lib0 env0 r2.1 ["GET".toList, ['k']]).map (fun r3 =>
          (r2.2.Response, r2.1.SubscribedMode, r3.2.Error)))))
      = some ("*3\r\n$11\r\nunsubscribe\r\n$2\r\nch\r\n:0\r\n".toList, true,
          gateError lib0 "GET".toList) ∧
    ((executeCommand lib0 env0 primary0 ["UNSUBSCRIBE".toList, "ch".toList]).bind (fun r1 =>
      (executeCommand lib0 env0 r1.1 ["GET".toList, ['k']]).map (fun r2 =>
        (r1.2.Response, r1.1.SubscribedMode, r2.2.Error))))
      = some ("*3\r\n$11\r\nunsubscribe\r\n$2\r\nch\r\n:0\r\n".toList, true,
          gateError lib0 "GET".toList) ∧
    gateError lib0 "GET".toList = "-ERR Can't execute 'get': only (P|S)SUBSCRIBE / (P|S)UNSUBSCRIBE / PING / QUIT / RESET are allowed in this context".toList := by
  decide


/-- C21, the code at the failing inputs: UNSUBSCRIBE without arguments
emits one frame for every channel of the registry, not one per channel of the
calling session.  With session 1 on `a` and session 2 on `b`, the call of
session 2 replies two frames (for `a` and for `b`) although session 2 had one
subscription; and session 3, which has no subscription, gets one frame for
`a` alone.  The memberships of session 1 stay as they were. -/
theorem C21_unsubscribe_all_frames :
    ((runPubSub lib0 env0 primary0.state
        [PubSubCall.subscribe (newSession primary0.state 1) ["a".toList],
          PubSubCall.subscribe (newSession primary0.state 2) ["b".toList]]).bind
      (fun st => (executeCommand lib0 env0 ((newSession primary0.state 2).withState st)
        ["UNSUBSCRIBE".toList]).map (fun r => (r.2.Response, subscribers r.1.state "a".toList,
          subscribers r.1.state "b".toList))))
      = some ("*3\r\n$11\r\nunsubscribe\r\n$1\r\na\r\n:1\r\n".toList
            ++ "*3\r\n$11\r\nunsubscribe\r\n$1\r\nb\r\n:0\r\n".toList, [1], []) ∧
    ((runPubSub lib0 env0 primary0.state
        [PubSubCall.subscribe (newSession primary0.state 1) ["a".toList]]).bind
      (fun st => (executeCommand lib0 env0 ((newSession primary0.state 3).withState st)
        ["UNSUBSCRIBE".toList]).map (fun r => (r.2.Response, subscribers r.1.state "a".toList))))
      = some ("*3\r\n$11\r\nunsubscribe\r\n$1\r\na\r\n:0\r\n".toList, [1]) := by decide

/-- C22, the code at the failing input: RESET is not in the map `allowed`,
so that a subscribed session that sends RESET is rejected with the error of
the gate, whose own text lists RESET among the commands allowed; PING in the
same mode replies the array of `pong` and the empty string. -/
theorem C22_reset_rejected :
    ((executeCommand lib0 env0 primary0 ["SUBSCRIBE".toList, "ch".toList]).bind (fun r1 =>
      (executeCommand lib0 env0 r1.1 ["RESET".toList]).bind (fun r2 =>
        (executeCommand lib0 env0 r2.1 ["PING".toList]).map (fun r3 =>
          (r1.1.SubscribedMode, r2.2, r3.2)))))
      = some (true,
          { Response := [], Error := "-ERR Can't execute 'reset': only (P|S)SUBSCRIBE / (P|S)UNSUBSCRIBE / PING / QUIT / RESET are allowed in this context".toList },
          { Response := "*2\r\n$4\r\npong\r\n$0\r\n\r\n".toList, Error := [] }) ∧
    allowed "RESET".toList = false := by decide

/-- C23, the code at the failing inputs: on a primary with one attached
replica (connection 1, attached by PSYNC), RPUSH, LPUSH, LPOP, ZADD and ZREM
all succeed and nothing is appended to the log of the replica, whereas a SET
on the same primary appends its encoded argument vector. -/
theorem C23_no_fanout :
    ((executeCommand lib1 env0 (newSession primary0.state 1)
        ["PSYNC".toList, ['?'], "-1".toList]).bind (fun r0 =>
      (executeCommand lib1 env0 (primary0.withState r0.1.state) ["RPUSH".toList, ['k'], ['a']]).bind (fun r1 =>
      (executeCommand lib1 env0 r1.1 ["LPUSH".toList, ['k'], ['b']]).bind (fun r2 =>
      (executeCommand lib1 env0 r2.1 ["LPOP".toList, ['k']]).bind (fun r3 =>
      (executeCommand lib1 env0 r3.1 ["ZADD".toList, ['z'], ['1'], ['m']]).bind (fun r4 =>
      (executeCommand lib1 env0 r4.1 ["ZREM".toList, ['z'], ['m']]).map (fun r5 =>
        ([r1.2, r2.2, r3.2, r4.2, r5.2], r5.1.state.replicaConns,
          r5.1.state.net.drop r0.1.state.net.length))))))))
      = some ([{ Response := ":1\r\n".toList, Error := [] }, { Response := ":2\r\n".toList, Error := [] },
            { Response := "$1\r\nb\r\n".toList, Error := [] }, { Response := ":1\r\n".toList, Error := [] },
            { Response := ":1\r\n".toList, Error := [] }], [1], []) ∧
    ((executeCommand lib1 env0 (newSession primary0.state 1)
        ["PSYNC".toList, ['?'], "-1".toList]).bind (fun r0 =>
      (executeCommand lib1 env0 (primary0.withState r0.1.state) ["SET".toList, ['s'], ['v']]).map
        (fun r1 => (r1.2, r1.1.state.net.drop r0.1.state.net.length))))
      = some (CommandResponse.mk "+OK".toList [], [(1, encodeBulkArray ["SET".toList, ['s'], ['v']])]) := by
  decide

/-- C24: fragmentation independence of the parser of the replica.  For every
stream made of the header `$<L>\r\n`, `L >= 1` bytes of any content and the
encoded argument vectors of the commands `c1, ..., cn` (a stream whose length
is a value of Go's `int`), and for every way of cutting the stream into reads,
`handleMasterStream` returns from the reads with nothing left in
`accumulated`, having called `processReplicationCommand` (here any function
`process`) on exactly `c1, ..., cn`, each once and in this order: the receiver
is the one obtained by processing `c1, ..., cn` in turn, and the record of the
calls is the list `c1, ..., cn`. -/
theorem C24_fragmentation_independence {σ : Type} (process : σ → List Str → σ) (s : σ) (R : Str)
    (cs : List (List Str)) (reads : List Str) (hL : 1 ≤ R.length)
    (hcut : reads.flatten = ['$'] ++ Itoa R.length ++ CRLF ++ R ++ commandStream cs)
    (hb : (reads.flatten.length : Int) ≤ MaxInt64) :
    handleMasterStream process (MasterStream.start s) reads
      = Loop.done { s := cs.foldl process s, accumulated := [], rdbConsumed := true,
                    rdbLength := R.length, rdbBytesConsumed := R.length } ∧
    handleMasterStream recordCall (MasterStream.start []) reads
      = Loop.done { s := cs, accumulated := [], rdbConsumed := true,
                    rdbLength := R.length, rdbBytesConsumed := R.length } := by
  refine ⟨handleMasterStream_stream process s R cs reads hL hcut hb, ?_⟩
  have := handleMasterStream_stream recordCall [] R cs reads hL hcut hb
  rw [foldl_recordCall, List.nil_append] at this
  exact this

/-- C24 at a stream of two commands behind a snapshot of three bytes, cut into
five reads. -/
theorem C24_fragmentation_independence_witness :
    handleMasterStream recordCall (MasterStream.start [])
        ["$3\r".toList, "\nab".toList, "c*1\r\n$4\r\nPI".toList, "NG\r\n*2\r\n$3\r\nDEL\r\n$1".toList,
          "\r\nk\r\n".toList]
      = Loop.done { s := [["PING".toList], ["DEL".toList, ['k']]], accumulated := [],
                    rdbConsumed := true, rdbLength := 3, rdbBytesConsumed := 3 } :=
  (C24_fragmentation_independence recordCall [] "abc".toList
    [["PING".toList], ["DEL".toList, ['k']]]
    ["$3\r".toList, "\nab".toList, "c*1\r\n$4\r\nPI".toList, "NG\r\n*2\r\n$3\r\nDEL\r\n$1".toList,
      "\r\nk\r\n".toList] (by decide) (by decide) (by decide)).2

/-- C25, the code at the failing inputs: a replica attaches to a primary
with an empty store (PSYNC on connection 1), the primary then applies
`INCR a` and `SET b v PX abc`, both with success, and the replica reads what
the primary has sent it after the FULLRESYNC line (the snapshot and the two
fanned-out frames).  The primary holds `a = 1` and `b` with `px = 0`; the
replica holds no key `a` (`processReplicationCommand` has no case INCR) and
`b` with `px = -1`. -/
theorem C25_replica_disagrees :
    primaryRun.map (fun p => (p.2, (sentTo p.1.state 1).drop 2))
      = some ((":1".toList, "+OK".toList),
          ["*2\r\n$4\r\nINCR\r\n$1\r\na\r\n".toList,
            "*5\r\n$3\r\nSET\r\n$1\r\nb\r\n$1\r\nv\r\n$2\r\nPX\r\n$3\r\nabc\r\n".toList]) ∧
    primaryRun.map (fun p => (p.1.state.storage ['a'], p.1.state.storage ['b']))
      = some (some { val := Value.str ['1'], px := -1, t := 0 },
          some { val := Value.str ['v'], px := 0, t := 0 }) ∧
    primaryRun.map (fun p =>
        match replicaRun p.1 with
        | Loop.done st => some (st.s.state.storage ['a'], st.s.state.storage ['b'], st.accumulated)
        | _ => none)
      = some (some (none, some { val := Value.str ['v'], px := -1, t := 0 }, [])) := by
  decide

/-- C26 does not hold as it is stated: a replica that acts as a server writes nothing for
a SET that succeeds (one command, no reply), and a primary that receives PSYNC
writes twice (the FULLRESYNC line and the snapshot, both by the executor). -/
theorem C26_unanswered_commands :
    (handleCommands lib0 (fun _ _ => env0) 0 replica0 [["SET".toList, ['k'], ['v']]]).map
        (fun s1 => (s1.state.storage ['k'], sentTo s1.state 0))
      = some (some { val := Value.str ['v'], px := -1, t := 0 }, []) ∧
    (handleCommands lib0 (fun _ _ => env0) 0 primary0 [["PSYNC".toList, ['?'], "-1".toList]]).map
        (fun s1 => (sentTo s1.state 0).length) = some 2 := by
  decide

/-- C26 for the commands that the session answers itself: for every sequence
of N commands (argument vectors with a name), each delivered to one session
outside a MULTI block as one complete frame of at most 1024 bytes in a read of
its own, none of them PSYNC, an UNSUBSCRIBE without arguments or, on a replica
that acts as a server, a SET, the session does what a session does that
executes each command and writes its reply once before it looks at the next
(`answerEach`); so, when each of the executions returns, it writes exactly N
replies, the i-th being the reply to the i-th command.
On a replica that acts as a server the reply of a SET that succeeds is not
written (its error is); PSYNC on a primary is answered by the executor itself,
with the FULLRESYNC line and the snapshot, and the session writes nothing
more; inside MULTI the replies of the queued commands are folded into the
single array of EXEC. -/
theorem C26_one_reply_per_command (lib : Lib) (envs : Nat → Nat → Env) (s : RedisServer)
    (cs qs : List (List Str)) (hm : s.MultiOn = false) (hq : s.multiQueue = [])
    (hcs : ∀ c ∈ cs, answerable lib s.state.serverIsMaster c = true)
    (hqs : ∀ c ∈ qs, queueable lib c = true)
    (hcl : ∀ c ∈ cs, (encodeBulkArray c).length ≤ 1024)
    (hql : ∀ c ∈ qs, (encodeBulkArray c).length ≤ 1024) :
    (handleReads lib envs 0 s (cs.map encodeBulkArray)
        = (answerEach lib envs 0 s cs).map (fun p => p.1) ∧
      ∀ p, answerEach lib envs 0 s cs = some p → p.2.length = cs.length) ∧
    (∀ (name : Str) (rest : List Str), s.state.serverIsMaster = false →
      ToUpper lib name = "SET".toList → (encodeBulkArray (name :: rest)).length ≤ 1024 →
      handleRead lib (envs 0) s (encodeBulkArray (name :: rest))
        = (executeCommand lib (envs 0 0) s (name :: rest)).map
            (fun p => if p.2.Error ≠ [] then p.1.send (p.2.Error ++ CRLF) else p.1)) ∧
    (∀ (name : Str) (rest : List Str), s.state.serverIsMaster = true → s.SubscribedMode = false →
      ToUpper lib name = "PSYNC".toList → (encodeBulkArray (name :: rest)).length ≤ 1024 →
      handleRead lib (envs 0) s (encodeBulkArray (name :: rest))
        = some { s with state := { s.state with
            net := s.state.net ++
              [(s.conn, "+FULLRESYNC 8371b4fb1155b71f4a04d3e1bc3e18c4a990aeeb 0\r\n".toList),
                (s.conn, ['$'] ++ Itoa RDBContent.length ++ CRLF ++ RDBContent)]
            replicaConns := s.state.replicaConns ++ [s.conn] } }) ∧
    handleReads lib envs 0 s ((["MULTI".toList] :: qs ++ [["EXEC".toList]]).map encodeBulkArray)
      = (runInOrder lib (envs (qs.length + 1)) { queuedSession s qs with MultiOn := false } qs).map
          (fun p => { p.1.send (replyArray p.2) with multiQueue := [] }) := by
  refine ⟨⟨?_, (handleCommands_answerEach envs 0 s cs hm hcs).2⟩, ?_, ?_, ?_⟩
  · rw [handleReads_encodeBulkArray envs 0 s cs hcl]
    exact (handleCommands_answerEach envs 0 s cs hm hcs).1
  · intro name rest hr hn hl
    rw [handleRead_encodeBulkArray (envs 0) s _ hl]
    exact handleCommand_replica_SET (envs 0) s name rest hm hr hn
  · intro name rest hr hmode hn hl
    rw [handleRead_encodeBulkArray (envs 0) s _ hl]
    exact handleCommand_PSYNC (envs 0) s name rest hm hmode hr hn
  · rw [handleReads_encodeBulkArray envs 0 s _ (by
      intro c hc
      simp only [List.mem_cons, List.mem_append, List.not_mem_nil, or_false] at hc
      rcases hc with (rfl | hc) | rfl
      · decide
      · exact hql c hc
      · decide)]
    exact handleCommands_multi_exec envs s qs hq hqs

/-- C26 at `SET k v; GET k; NOPE`, one frame per read, on a fresh session of
a primary. -/
theorem C26_one_reply_per_command_witness :
    (handleReads lib0 (fun _ _ => env0) 0 primary0
        ([["SET".toList, ['k'], ['v']], ["GET".toList, ['k']], ["NOPE".toList]].map encodeBulkArray)
      = (answerEach lib0 (fun _ _ => env0) 0 primary0
          [["SET".toList, ['k'], ['v']], ["GET".toList, ['k']], ["NOPE".toList]]).map (fun p => p.1)) ∧
    (answerEach lib0 (fun _ _ => env0) 0 primary0
        [["SET".toList, ['k'], ['v']], ["GET".toList, ['k']], ["NOPE".toList]]).map
        (fun p => (p.2, sentTo p.1.state 0))
      = some (["+OK\r\n".toList, "$1\r\nv\r\n".toList, "-ERR unknown command\r\n".toList],
          ["+OK\r\n".toList, "$1\r\nv\r\n".toList, "-ERR unknown command\r\n".toList]) ∧
    (handleReads lib0 (fun _ _ => env0) 0 primary0
        ([["SET".toList, ['k'], ['v']], ["GET".toList, ['k']], ["NOPE".toList]].map
          encodeBulkArray)).map (fun s1 => sentTo s1.state 0)
      = some ["+OK\r\n".toList, "$1\r\nv\r\n".toList, "-ERR unknown command\r\n".toList] :=
  ⟨(C26_one_reply_per_command lib0 (fun _ _ => env0) primary0
      [["SET".toList, ['k'], ['v']], ["GET".toList, ['k']], ["NOPE".toList]]
      [["INCR".toList, ['c']]] rfl rfl (by decide) (by decide) (by decide) (by decide)).1.1,
    by decide, by decide⟩

/-- C27: for every cardinality `n >= 0` and all integers `start`, `stop`, the
pair `(s, e)` returned by `convertIndexes` either passes the emptiness test of
ZRANGE (`s > e` or `s > n`), in which case ZRANGE replies `*0`, or satisfies
`1 <= s <= e <= n`; in the second case `s - 1` and `e - 1` are the 0-based
indexes obtained by adding `n` to a negative input, clamping below at 0 and
clamping `stop` above at `n - 1`, the rank range handed to the sorted set is
within bounds (it selects the `e - s + 1` members of the positions `s - 1` to
`e - 1`), and ZRANGE replies these members. -/
theorem C27_zrange_indexes (lib : Lib) (e : Env) (s : RedisServer) (key a2 a3 : Str)
    (start stop : Int) (v : storageVal) (zset : SortedSet)
    (hmode : s.SubscribedMode = false) (hk : s.state.storage key = some v)
    (hv : v.val = Value.zset zset)
    (h2 : Atoi a2 = (start, none)) (h3 : Atoi a3 = (stop, none)) :
    (∀ n i j : Int, 0 ≤ n →
      ((convertIndexes n i j).1 > (convertIndexes n i j).2 ∨ (convertIndexes n i j).1 > n) ∨
      (1 ≤ (convertIndexes n i j).1 ∧ (convertIndexes n i j).1 ≤ (convertIndexes n i j).2 ∧
        (convertIndexes n i j).2 ≤ n ∧
        (convertIndexes n i j).1 - 1 = rankIndex n i ∧
        (convertIndexes n i j).2 - 1 = min (rankIndex n j) (n - 1))) ∧
    ((((convertIndexes (zsetGetCount zset) start stop).1
          > (convertIndexes (zsetGetCount zset) start stop).2 ∨
        (convertIndexes (zsetGetCount zset) start stop).1 > zsetGetCount zset) ∧
      executeCommand lib e s ["ZRANGE".toList, key, a2, a3]
        = some (s, { Response := "*0\r\n".toList, Error := [] })) ∨
     (1 ≤ (convertIndexes (zsetGetCount zset) start stop).1 ∧
      (convertIndexes (zsetGetCount zset) start stop).1
        ≤ (convertIndexes (zsetGetCount zset) start stop).2 ∧
      (convertIndexes (zsetGetCount zset) start stop).2 ≤ zsetGetCount zset ∧
      zsetGetByRankRange zset (convertIndexes (zsetGetCount zset) start stop).1
          (convertIndexes (zsetGetCount zset) start stop).2
        = (zset.drop (rankIndex (zsetGetCount zset) start).toNat).take
            (min (rankIndex (zsetGetCount zset) stop) (zsetGetCount zset - 1)
              - rankIndex (zsetGetCount zset) start + 1).toNat ∧
      executeCommand lib e s ["ZRANGE".toList, key, a2, a3]
        = some (s, { Response := bulkArray (((zset.drop (rankIndex (zsetGetCount zset) start).toNat).take
            (min (rankIndex (zsetGetCount zset) stop) (zsetGetCount zset - 1)
              - rankIndex (zsetGetCount zset) start + 1).toNat).map (fun node => node.1)), Error := [] }))) := by
  refine ⟨fun n i j hn => convertIndexes_spec n i j hn, ?_⟩
  have hn : 0 ≤ zsetGetCount zset := Int.ofNat_nonneg _
  have hx := @executeCommand_ZRANGE lib e s key a2 a3 start stop v zset hmode hk hv h2 h3
  rcases convertIndexes_spec (zsetGetCount zset) start stop hn with hc | hc
  · left
    rw [if_pos hc] at hx
    exact ⟨hc, hx⟩
  · right
    have hnot : ¬ ((convertIndexes (zsetGetCount zset) start stop).1
          > (convertIndexes (zsetGetCount zset) start stop).2 ∨
        (convertIndexes (zsetGetCount zset) start stop).1 > zsetGetCount zset) := by omega
    rw [if_neg hnot] at hx
    have hw := (zsetGetByRankRange_within zset _ _ hc.1 hc.2.1 hc.2.2.1).1
    have e2 : (convertIndexes (zsetGetCount zset) start stop).2
        - (convertIndexes (zsetGetCount zset) start stop).1 + 1
        = min (rankIndex (zsetGetCount zset) stop) (zsetGetCount zset - 1)
              - rankIndex (zsetGetCount zset) start + 1 := by omega
    rw [hc.2.2.2.1, e2] at hw
    rw [hw] at hx
    exact ⟨hc.1, hc.2.1, hc.2.2.1, hw, hx⟩

/-- C27 at `ZRANGE z -2 5` on a sorted set of three members. -/
theorem C27_zrange_indexes_witness :
    executeCommand lib0 env0 zsetSession ["ZRANGE".toList, ['z'], "-2".toList, "5".toList]
      = some (zsetSession, { Response := "*2\r\n$1\r\nb\r\n$1\r\nc\r\n".toList, Error := [] }) := by
  have h := (C27_zrange_indexes lib0 env0 zsetSession ['z'] "-2".toList "5".toList (-2) 5
    { val := Value.zset [(['a'], 1), (['b'], 1), (['c'], 1)], px := -1, t := 0 }
    [(['a'], 1), (['b'], 1), (['c'], 1)] rfl rfl rfl (by decide) (by decide)).2
  rcases h with h | h
  · exact absurd h.1 (by decide)
  · exact h.2.2.2.2

/-- C28: in every state of a session reachable from the record built by
`main` (transactional flag off, empty queue) by reads and commands of the
client, whatever the other sessions do to the shared state, the queue of
pending commands is empty whenever the transactional flag is off.  DISCARD
inside MULTI clears the flag and the queue, replies `+OK` and executes nothing
(the store, the registry and the replica list stay as they are); EXEC inside
MULTI runs the queue and, when every queued command returns, leaves the flag off
and the queue empty; EXEC and DISCARD without MULTI reply their error and
change nothing else. -/
theorem C28_queue_invariant (lib : Lib) (env : Nat → Env) (s : RedisServer) (name : Str)
    (rest : List Str) (hr : SessionReachable lib s) :
    (s.MultiOn = false → s.multiQueue = []) ∧
    (ToUpper lib name = "DISCARD".toList →
      (s.MultiOn = true →
        handleCommand lib env s (name :: rest)
          = some { s with MultiOn := false, multiQueue := [],
                          state := { s.state with net := s.state.net ++ [(s.conn, "+OK\r\n".toList)] } }) ∧
      (s.MultiOn = false →
        handleCommand lib env s (name :: rest)
          = some { s with state := { s.state with
              net := s.state.net ++ [(s.conn, "-ERR DISCARD without MULTI\r\n".toList)] } }) ∧
      (∀ s1, handleCommand lib env s (name :: rest) = some s1 →
        s1.MultiOn = false ∧ s1.multiQueue = [] ∧ s1.state.storage = s.state.storage)) ∧
    (ToUpper lib name = "EXEC".toList →
      (s.MultiOn = true →
        handleCommand lib env s (name :: rest)
          = (execQueue lib env 0 { s with MultiOn := false } s.multiQueue).map
              (fun p => { p.1.send (execReply p.2) with multiQueue := [] })) ∧
      (s.MultiOn = false →
        handleCommand lib env s (name :: rest)
          = some { s with state := { s.state with
              net := s.state.net ++ [(s.conn, "-ERR EXEC without MULTI\r\n".toList)] } }) ∧
      (∀ s1, handleCommand lib env s (name :: rest) = some s1 →
        s1.MultiOn = false ∧ s1.multiQueue = [])) := by
  have hq := SessionReachable_QueueOK s hr
  refine ⟨hq, fun hd => ?_, fun he => ?_⟩
  · have h := handleCommand_DISCARD env s name rest hd
    refine ⟨fun hm => ?_, fun hm => ?_, fun s1 h1 => ?_⟩
    · rw [h, if_pos hm]; rfl
    · rw [h, if_neg (by simp [hm])]; rfl
    · rw [h] at h1
      split_ifs at h1 with hm
      · cases h1; exact ⟨rfl, rfl, rfl⟩
      · cases h1
        have hm1 : s.MultiOn = false := by simpa using hm
        exact ⟨hm1, hq hm1, rfl⟩
  · have h := handleCommand_EXEC_queue env s name rest he
    refine ⟨fun hm => ?_, fun hm => ?_, fun s1 h1 => ?_⟩
    · rw [h, if_pos hm]
    · rw [h, if_neg (by simp [hm])]; rfl
    · rw [h] at h1
      split_ifs at h1 with hm
      · cases hx : execQueue lib env 0 { s with MultiOn := false } s.multiQueue with
        | none => rw [hx] at h1; cases h1
        | some p =>
          rw [hx] at h1
          cases h1
          exact ⟨(execQueue_keeps env 0 _ p.1 _ p.2 hx).2.2.1, rfl⟩
      · cases h1
        have hm1 : s.MultiOn = false := by simpa using hm
        exact ⟨hm1, hq hm1⟩

/-- C28 at DISCARD on a session that has received MULTI. -/
theorem C28_queue_invariant_witness :
    SessionReachable lib0 (RedisServer.send { primary0 with MultiOn := true } "+OK\r\n".toList) ∧
    (handleCommand lib0 (fun _ => env0)
        (RedisServer.send { primary0 with MultiOn := true } "+OK\r\n".toList) ["DISCARD".toList]
      = some { primary0 with state := { primary0.state with
          net := [(0, "+OK\r\n".toList), (0, "+OK\r\n".toList)] } }) :=
  have hr : SessionReachable lib0
      (RedisServer.send { primary0 with MultiOn := true } "+OK\r\n".toList) :=
    SessionReachable.command (fun _ => env0) primary0 _ ["MULTI".toList]
      (SessionReachable.init _ 0) rfl
  ⟨hr, ((C28_queue_invariant lib0 (fun _ => env0) _ "DISCARD".toList [] hr).2.1 rfl).1 rfl⟩

/-- C29: for every session state and every argument vector, when the executor
returns a non-empty `Error` nothing was mutated: the keyspace, the pub/sub
registry, the subscribed flag of the session and the log of the bytes written
(to replicas and to every other connection) are what they were before the
call; indeed the whole session is as it was. -/
theorem C29_error_mutates_nothing (lib : Lib) (e : Env) (s s1 : RedisServer) (tempArr : List Str)
    (r : CommandResponse) (h : executeCommand lib e s tempArr = some (s1, r)) (he : r.Error ≠ []) :
    s1.state.storage = s.state.storage ∧ s1.state.channels = s.state.channels ∧
    s1.SubscribedMode = s.SubscribedMode ∧ s1.state.net = s.state.net ∧
    s1.state.replicaConns = s.state.replicaConns ∧ s1 = s := by
  have hs := executeCommand_error e s s1 tempArr r h he
  subst hs
  exact ⟨rfl, rfl, rfl, rfl, rfl, rfl⟩

/-- C29 at `GET` without a key on a fresh session. -/
theorem C29_error_mutates_nothing_witness :
    executeCommand lib0 env0 primary0 ["GET".toList]
      = some (primary0, { Response := [], Error := arityError "GET" }) ∧
    primary0.state.storage = primary0.state.storage ∧
    primary0.state.channels = primary0.state.channels ∧
    primary0.SubscribedMode = primary0.SubscribedMode ∧
    primary0.state.net = primary0.state.net ∧
    primary0.state.replicaConns = primary0.state.replicaConns ∧ primary0 = primary0 :=
  ⟨rfl, C29_error_mutates_nothing lib0 env0 primary0 primary0 ["GET".toList]
    { Response := [], Error := arityError "GET" } rfl (by decide)⟩

/-- C30, the code at the failing input: SET with a fourth element `PX` and
no fifth element reads `tempArr[4]` past the end of the argument vector and
panics, in the executor and in a session that receives the frame; the test
before the read is `len(tempArr) > 3`. -/
theorem C30_set_px_without_value :
    (executeCommand lib0 env0 primary0 ["SET".toList, ['k'], ['v'], "PX".toList]).isSome = false ∧
    (handleRead lib0 (fun _ => env0) primary0
      (encodeBulkArray ["SET".toList, ['k'], ['v'], "px".toList])).isSome = false := by decide


/-- C31, the code at the failing inputs: on the empty-database snapshot that
the server itself sends on PSYNC, which starts with the magic `REDIS0011` and
holds no byte `0xFB`, `readRDB` panics (the statement behind the scan reads
`data[len(data)]`), and so does `KEYS *` of a server whose RDB file is this
snapshot; on the magic followed by `0xFB` and three more bytes `readRDB`
panics as well (`readString` reads `data[index + 4]`), and also when the key
ends with the data (the second `readString` reads `data[len(data)]`).  A file
that cannot be read and a file without the magic give the empty map, and a
file with a key and a value behind the marker gives the map of this one
entry. -/
theorem C31_readRDB_panics :
    readRDB (some RDBContent) = none ∧
    executeCommand lib0 envSnapshot primary0 ["KEYS".toList, ['*']] = none ∧
    readRDB (some ("REDIS0011".toList ++ [Char.ofNat 0xFB, 'a', 'b', 'c'])) = none ∧
    readRDB (some ("REDIS0011".toList ++ [Char.ofNat 0xFB, 'a', 'b', 'c', Char.ofNat 1, 'k'])) = none ∧
    readRDB none = some [] ∧ readRDB (some "REDIS0010".toList) = some [] ∧
    readRDB (some ("REDIS0011".toList
        ++ [Char.ofNat 0xFB, 'a', 'b', 'c', Char.ofNat 1, 'k', Char.ofNat 1, 'v']))
      = some [(['k'], ['v'])] :=
  ⟨readRDB_no_marker RDBContent (by decide) (by decide) (by decide),
    executeCommand_KEYS_panics envSnapshot primary0 "KEYS".toList [] rfl rfl
      (readRDB_no_marker RDBContent (by decide) (by decide) (by decide)),
    by decide, by decide, by decide, by decide, by decide⟩

end SwiftKV
